import Mathlib

/-!
# aichat cognitive kernel: memory arena, scheduler, hypergraph store, knowledge layer

Shallow embedding of `src/cpp/src/kernel/*.c` and `src/cpp/src/cognitive/*.cpp`.
Every static subsystem state of the C/C++ code is an explicit record that the
embedded functions take and return. `size_t` and `uint64_t` values are natural
numbers reduced modulo `2^64` wherever the C arithmetic can wrap; pointers are
natural numbers with `0` for `NULL`.
-/

namespace AiChat

/-! ## Machine arithmetic -/

/-- Modulus of `size_t` and `uint64_t` (LP64). -/
def WORD : Nat := 2 ^ 64

/-- Unsigned 64-bit addition. -/
def add64 (a b : Nat) : Nat := (a + b) % WORD

/-- Unsigned 64-bit subtraction (operands below `2^64`). -/
def sub64 (a b : Nat) : Nat := (a + WORD - b) % WORD

/-! ## Memory arena (`src/kernel/memory.c`) -/

/-- `#define HEAP_SIZE_DEFAULT (64 * 1024 * 1024)`. -/
def HEAP_SIZE_DEFAULT : Nat := 64 * 1024 * 1024

/-- `#define ALIGNMENT 64`. -/
def ALIGNMENT : Nat := 64

/-- `mem_region_t` of `kernel.h`. -/
inductive mem_region_t where
  | MEM_REGION_CODE
  | MEM_REGION_DATA
  | MEM_REGION_HEAP
  | MEM_REGION_TENSOR
deriving DecidableEq, Repr

/-- The integer value of a `mem_region_t` (`kernel.h`: `MEM_REGION_CODE = 0`,
`MEM_REGION_DATA = 1`, `MEM_REGION_HEAP = 2`, `MEM_REGION_TENSOR = 3`). -/
def region_value : mem_region_t → Nat
  | .MEM_REGION_CODE => 0
  | .MEM_REGION_DATA => 1
  | .MEM_REGION_HEAP => 2
  | .MEM_REGION_TENSOR => 3

/-- `sizeof(mem_block_t)` on LP64: `size_t size` (8), `mem_region_t region` (4, then 4
bytes of padding), `struct mem_block* next` (8), `bool allocated` (1),
`uint8_t alignment_padding[48]`, which is 73 bytes, rounded up to the struct
alignment 8. -/
def sizeof_mem_block_t : Nat := 80

/-- `offsetof(mem_block_t, region)` on LP64. -/
def offsetof_region : Nat := 8

/-- `offsetof(mem_block_t, allocated)` on LP64. -/
def offsetof_allocated : Nat := 24

/-- Block header `mem_block_t`. The header lives in the heap at address `addr` (the
value of the C pointer to it); the `next` pointer is the order of the list that
holds the headers. -/
structure mem_block_t where
  addr : Nat
  size : Nat
  region : mem_region_t
  allocated : Bool
deriving DecidableEq, Repr

/-- The static `memory` record together with the bytes of the heap object.
`free_list` is the chain of headers reached from `memory.free_list` through `next`.
`heap a` is the byte at the address `a`, for the bytes that a store to a `region`
field (its low byte: the `int` is little-endian and the values of `mem_region_t` are
below 256), a store to an `allocated` field, or the client of the arena has written.
These bytes stay where they are when coalescing unlinks a header, and
`dtesn_mem_free` called with an old pointer reads one of them. -/
structure memory_t where
  heap_base : Nat
  heap_size : Nat
  free_list : List mem_block_t
  heap : Nat → Nat
  initialized : Bool

/-- The zero-initialised static `memory = {0}`; no byte of a heap has been written. -/
def memory_zero : memory_t :=
  { heap_base := 0, heap_size := 0, free_list := [], heap := fun _ => 0, initialized := false }

/-- The store `block->region = r` in the bytes of the heap. -/
def store_region (heap : Nat → Nat) (block : Nat) (r : mem_region_t) : Nat → Nat :=
  Function.update heap (block + offsetof_region) (region_value r)

/-- The store `block->allocated = v` in the bytes of the heap. -/
def store_allocated (heap : Nat → Nat) (block : Nat) (v : Bool) : Nat → Nat :=
  Function.update heap (block + offsetof_allocated) (if v then 1 else 0)

/-- `dtesn_mem_init(heap_size)`. `aa` is what `aligned_alloc(ALIGNMENT, heap_size)`
returns when it is called (`0` is `NULL`). Returns the C return value and the new
static state. -/
def dtesn_mem_init (m : memory_t) (aa : Nat) (heap_size : Nat) : Int × memory_t :=
  if m.initialized then (0, m)
  else
    let heap_size := if heap_size = 0 then HEAP_SIZE_DEFAULT else heap_size
    if aa = 0 then (-1, { m with heap_base := aa })
    else
      (0, { heap_base := aa
            heap_size := heap_size
            free_list := [{ addr := aa
                            size := sub64 heap_size sizeof_mem_block_t
                            region := mem_region_t.MEM_REGION_HEAP
                            allocated := false }]
            heap := store_allocated (store_region m.heap aa mem_region_t.MEM_REGION_HEAP)
                      aa false
            initialized := true })

/-- `size = (size + ALIGNMENT - 1) & ~(ALIGNMENT - 1)` in `size_t`: the mask
`~(ALIGNMENT - 1)` converted to `size_t` is `2^64 - 64`. -/
def align_size (size : Nat) : Nat :=
  ((size + ALIGNMENT - 1) % WORD) &&& (WORD - ALIGNMENT)

/-- Result of the search loop of `dtesn_mem_alloc`. -/
structure alloc_result where
  ptr : Nat
  blocks : List mem_block_t
  new_block : Option Nat
deriving DecidableEq, Repr

/-- The `while (curr != NULL)` loop of `dtesn_mem_alloc`, for the already aligned
`size`: first free block that is large enough, split when
`curr->size > size + sizeof(mem_block_t) + ALIGNMENT`. `ptr = 0` is the `NULL`
of a failed search; `new_block` is the address at which a split wrote a header. -/
def alloc_loop (size : Nat) (region : mem_region_t) : List mem_block_t → alloc_result
  | [] => { ptr := 0, blocks := [], new_block := none }
  | curr :: rest =>
    if !curr.allocated && decide (curr.size ≥ size) then
      if curr.size > add64 (add64 size sizeof_mem_block_t) ALIGNMENT then
        let new_block : mem_block_t :=
          { addr := curr.addr + sizeof_mem_block_t + size
            size := sub64 (sub64 curr.size size) sizeof_mem_block_t
            region := mem_region_t.MEM_REGION_HEAP
            allocated := false }
        { ptr := curr.addr + sizeof_mem_block_t
          blocks := { curr with allocated := true, region := region, size := size }
                      :: new_block :: rest
          new_block := some new_block.addr }
      else
        { ptr := curr.addr + sizeof_mem_block_t
          blocks := { curr with allocated := true, region := region } :: rest
          new_block := none }
    else
      let r := alloc_loop size region rest
      { r with blocks := curr :: r.blocks }

/-- The stores of the search loop to the `allocated` and `region` fields, in the bytes
of the heap: none when the search failed; otherwise `curr->allocated = true` and
`curr->region = region` for the block found (its header is `sizeof(mem_block_t)` below
the returned pointer) and, when the block was split, `new_block->region = MEM_REGION_HEAP`
and `new_block->allocated = false`. -/
def alloc_stores (heap : Nat → Nat) (r : alloc_result) (region : mem_region_t) : Nat → Nat :=
  if r.ptr = 0 then heap
  else
    let curr := r.ptr - sizeof_mem_block_t
    let heap1 := store_region (store_allocated heap curr true) curr region
    match r.new_block with
    | none => heap1
    | some new_block =>
      store_allocated (store_region heap1 new_block mem_region_t.MEM_REGION_HEAP)
        new_block false

/-- `dtesn_mem_alloc(size, region)`; `aa` is the result of `aligned_alloc` should the
lazy initialisation call it. Returns the pointer (`0` for `NULL`) and the new state. -/
def dtesn_mem_alloc (m : memory_t) (aa : Nat) (size : Nat) (region : mem_region_t) :
    Nat × memory_t :=
  let r0 := if m.initialized then ((0 : Int), m) else dtesn_mem_init m aa 0
  if r0.1 ≠ 0 then (0, r0.2)
  else
    let m1 := r0.2
    let r := alloc_loop (align_size size) region m1.free_list
    (r.ptr, { m1 with free_list := r.blocks, heap := alloc_stores m1.heap r region })

/-- The coalescing loop of `dtesn_mem_free`, entered with `curr` and the chain after
it: merge `curr` with its successor while both are free (staying on `curr`),
otherwise advance. Returns the resulting chain and the unlinked headers. -/
def coalesce : mem_block_t → List mem_block_t → List mem_block_t × List mem_block_t
  | curr, [] => ([curr], [])
  | curr, next :: rest =>
    if !curr.allocated && !next.allocated then
      let r := coalesce { curr with size := add64 curr.size (add64 sizeof_mem_block_t next.size) } rest
      (r.1, next :: r.2)
    else
      let r := coalesce next rest
      (curr :: r.1, r.2)

/-- The whole coalescing pass, from `memory.free_list`. -/
def coalesce_all : List mem_block_t → List mem_block_t × List mem_block_t
  | [] => ([], [])
  | b :: rest => coalesce b rest

/-- `block->allocated = false` for the header at address `block`. -/
def clear_allocated (block : Nat) (l : List mem_block_t) : List mem_block_t :=
  l.map (fun b => if b.addr = block then { b with allocated := false } else b)

/-- The store of 0 to the byte at the address `a`, as the headers of the chain see
it when `a` is the low byte of a `region` field: that region becomes
`MEM_REGION_CODE`, the value 0. -/
def clear_region_at (a : Nat) (l : List mem_block_t) : List mem_block_t :=
  l.map (fun b => if b.addr + offsetof_region = a
    then { b with region := mem_region_t.MEM_REGION_CODE } else b)

/-- `dtesn_mem_free(ptr)`, with `block = ptr - sizeof(mem_block_t)`. When `block` is the
address of a header of the chain, `block->allocated` is the flag of that header.
Otherwise the code reads the byte at `block + offsetof(mem_block_t, allocated)` all the
same, whatever the heap holds there: the flag a header unlinked by a merge has left,
a byte the client has stored, or the low byte of the `region` of a header of the
chain that now lies 16 bytes above `block`; a byte other than 0 reads as `true`,
and `block->allocated = false` then stores 0 over it before the coalescing pass runs.
(C gives a `bool` object that holds 2 or 3, the region values `MEM_REGION_HEAP` and
`MEM_REGION_TENSOR`, no defined value; code that takes it as `false` returns there
without a store, which leaves the memory manager as it was.)
For a pointer that `dtesn_mem_alloc` has returned, `block` is congruent to the heap base
modulo 16, so that this byte is never part of a `size` or `next` field of a header
of the chain; for other pointers the read is followed in the same way, although
the C code may then read a byte this development does not follow. -/
def dtesn_mem_free (m : memory_t) (ptr : Nat) : memory_t :=
  if ptr = 0 ∨ m.initialized = false then m
  else
    let block := ptr - sizeof_mem_block_t
    match m.free_list.find? (fun b => b.addr = block) with
    | some b =>
      if !b.allocated then m
      else
        let r := coalesce_all (clear_allocated block m.free_list)
        { m with free_list := r.1, heap := store_allocated m.heap block false }
    | none =>
      if m.heap (block + offsetof_allocated) = 0 then m
      else
        let r := coalesce_all (clear_region_at (block + offsetof_allocated) m.free_list)
        { m with free_list := r.1
                 heap := Function.update m.heap (block + offsetof_allocated) 0 }

/-- A store of the byte `v` at the address `a` by the client of the arena. -/
def mem_write (m : memory_t) (a v : Nat) : memory_t :=
  { m with heap := Function.update m.heap a v }

/-- The address `a` lies in the user bytes of an allocated block of the chain. -/
def in_allocated (l : List mem_block_t) (a : Nat) : Prop :=
  ∃ b ∈ l, b.allocated = true ∧ b.addr + sizeof_mem_block_t ≤ a
    ∧ a < b.addr + sizeof_mem_block_t + b.size

/-- States of the arena reachable from a successful `dtesn_mem_init(H)` (with
`aligned_alloc` returning `base`) by `dtesn_mem_alloc` and `dtesn_mem_free`, together
with the pointers `dtesn_mem_alloc` has returned so far; `dtesn_mem_free` is applied
to `NULL` or to one of those pointers only, any number of times and also long after
the block was released. Between the calls the client may store bytes in the blocks
it holds. -/
inductive arena_reach (base H : Nat) : memory_t → List Nat → Prop where
  | init : arena_reach base H (dtesn_mem_init memory_zero base H).2 []
  | alloc (m : memory_t) (ps : List Nat) (aa size : Nat) (region : mem_region_t) :
      arena_reach base H m ps → size < WORD →
      arena_reach base H (dtesn_mem_alloc m aa size region).2
        ((dtesn_mem_alloc m aa size region).1 :: ps)
  | free (m : memory_t) (ps : List Nat) (p : Nat) :
      arena_reach base H m ps → (p = 0 ∨ p ∈ ps) →
      arena_reach base H (dtesn_mem_free m p) ps
  | write (m : memory_t) (ps : List Nat) (a v : Nat) :
      arena_reach base H m ps → in_allocated m.free_list a → v < 256 →
      arena_reach base H (mem_write m a v) ps

/-- Sum over the chain of block size plus header size. -/
def total_bytes (l : List mem_block_t) : Nat :=
  (l.map (fun b => b.size + sizeof_mem_block_t)).sum

/-- The chain `l` tiles the address range from `start` to `stop`: the first header is
at `start`, each next header directly after the previous block's user bytes, and the
last block ends at `stop`. -/
def tiles : Nat → List mem_block_t → Nat → Prop
  | start, [], stop => start = stop
  | start, b :: l, stop => b.addr = start ∧ tiles (start + sizeof_mem_block_t + b.size) l stop

/-- Invariant of the arena after a successful `dtesn_mem_init(H)` at `base`. -/
def arena_inv (base H : Nat) (m : memory_t) : Prop :=
  m.initialized = true ∧ m.heap_base = base ∧ m.heap_size = H ∧
    tiles base m.free_list (base + H)

/-! ## Priority scheduler (`src/kernel/scheduler.c`) -/

/-- `#define MAX_TASKS 1024`. -/
def MAX_TASKS : Nat := 1024

/-- `PRIORITY_CRITICAL = 0` of `task_priority_t`. -/
def PRIORITY_CRITICAL : Nat := 0

/-- `PRIORITY_HIGH = 1`. -/
def PRIORITY_HIGH : Nat := 1

/-- `PRIORITY_NORMAL = 2`. -/
def PRIORITY_NORMAL : Nat := 2

/-- `PRIORITY_LOW = 3`. -/
def PRIORITY_LOW : Nat := 3

/-- `task_t`. `fn` is the address of the callback, `data` its argument, `priority` the
integer value of the `task_priority_t` field. -/
structure task_t where
  fn : Nat
  data : Nat
  priority : Nat
  depth : Nat
  handle : Nat
  active : Bool
deriving DecidableEq, Repr

/-- The static `scheduler` record; `tasks i` is `scheduler.tasks[i]` for `i < MAX_TASKS`. -/
structure scheduler_t where
  tasks : Nat → task_t
  task_count : Nat
  next_handle : Nat
  initialized : Bool

/-- An all-zero `task_t`. -/
def task_zero : task_t :=
  { fn := 0, data := 0, priority := 0, depth := 0, handle := 0, active := false }

/-- The zero-initialised static `scheduler = {0}`. -/
def scheduler_zero : scheduler_t :=
  { tasks := fun _ => task_zero, task_count := 0, next_handle := 0, initialized := false }

/-- `dtesn_sched_init()`. -/
def dtesn_sched_init (s : scheduler_t) : Int × scheduler_t :=
  if s.initialized then (0, s)
  else (0, { scheduler_zero with next_handle := 1, initialized := true })

/-- The free-slot search `for (idx = 0; idx < MAX_TASKS; idx++) if (!tasks[idx].active) break;`:
the value of `idx` after the loop. -/
def sched_free_slot (s : scheduler_t) : Nat :=
  ((List.range MAX_TASKS).find? (fun idx => !(s.tasks idx).active)).getD MAX_TASKS

/-- `dtesn_sched_task(fn, data, priority, depth)`: the returned handle and the new state. -/
def dtesn_sched_task (s : scheduler_t) (fn data priority depth : Nat) : Nat × scheduler_t :=
  if s.initialized = false then (0, s)
  else if s.task_count ≥ MAX_TASKS then (0, s)
  else
    let idx := sched_free_slot s
    if idx ≥ MAX_TASKS then (0, s)
    else
      let task : task_t :=
        { fn := fn, data := data, priority := priority, depth := depth
          handle := s.next_handle, active := true }
      (task.handle,
        { s with tasks := Function.update s.tasks idx task
                 next_handle := add64 s.next_handle 1
                 task_count := add64 s.task_count 1 })

/-- One callback invocation `task->fn(task->data)` as `dtesn_sched_tick` makes it: the
table slot and the two values of the call. -/
structure task_call where
  slot : Nat
  fn : Nat
  data : Nat
deriving DecidableEq, Repr

/-- Loop state of `dtesn_sched_tick`: the static record, the local `executed`, and the
callback invocations made so far, oldest first. -/
structure tick_state where
  sched : scheduler_t
  executed : Int
  calls : List task_call

/-- Body of the inner loop of `dtesn_sched_tick` for priority `prio` and slot `i`.
`call fn data s` is the static scheduler record after the callback `fn(data)` has run
from the record `s` (a callback that does not call the scheduler returns `s`). -/
def tick_slot (call : Nat → Nat → scheduler_t → scheduler_t) (prio : Nat)
    (st : tick_state) (i : Nat) : tick_state :=
  let task := st.sched.tasks i
  if task.active = false ∨ task.priority ≠ prio then st
  else
    let s1 := call task.fn task.data st.sched
    { sched := { s1 with tasks := Function.update s1.tasks i { s1.tasks i with active := false }
                         task_count := sub64 s1.task_count 1 }
      executed := st.executed + 1
      calls := st.calls ++ [{ slot := i, fn := task.fn, data := task.data }] }

/-- The inner loop `for (size_t i = 0; i < MAX_TASKS; i++)` for one priority. -/
def tick_priority (call : Nat → Nat → scheduler_t → scheduler_t) (st : tick_state)
    (prio : Nat) : tick_state :=
  (List.range MAX_TASKS).foldl (tick_slot call prio) st

/-- `dtesn_sched_tick()`: the two nested loops, `prio` from `PRIORITY_CRITICAL` to
`PRIORITY_LOW`. The result holds the return value in `executed`; an uninitialised
scheduler returns `-1`. The `clock_gettime` measurement has no effect on the result. -/
def dtesn_sched_tick (call : Nat → Nat → scheduler_t → scheduler_t) (s : scheduler_t) :
    tick_state :=
  if s.initialized = false then { sched := s, executed := -1, calls := [] }
  else
    (List.range' PRIORITY_CRITICAL (PRIORITY_LOW + 1 - PRIORITY_CRITICAL)).foldl
      (tick_priority call) { sched := s, executed := 0, calls := [] }

/-- A callback environment in which no callback calls the scheduler. -/
def call_pure : Nat → Nat → scheduler_t → scheduler_t := fun _ _ s => s

/-- Slot `i` holds a pending task of priority `prio`. -/
def is_pending (s : scheduler_t) (prio : Nat) (i : Nat) : Bool :=
  (s.tasks i).active && decide ((s.tasks i).priority = prio)

/-- The slots holding a pending task of priority `prio`, in increasing order. -/
def pending_slots (s : scheduler_t) (prio : Nat) : List Nat :=
  (List.range MAX_TASKS).filter (is_pending s prio)

/-- The invocation of the callback of the task in slot `i`. -/
def call_of (s : scheduler_t) (i : Nat) : task_call :=
  { slot := i, fn := (s.tasks i).fn, data := (s.tasks i).data }

/-- The scheduler after `dtesn_sched_init()` and three `dtesn_sched_task` calls at
priorities low, critical, normal (callbacks 101, 102, 103). -/
def sched_example : scheduler_t :=
  (dtesn_sched_task (dtesn_sched_task (dtesn_sched_task (dtesn_sched_init scheduler_zero).2
    101 7 PRIORITY_LOW 0).2 102 8 PRIORITY_CRITICAL 0).2 103 9 PRIORITY_NORMAL 0).2

/-! ## Hypergraph store (`src/kernel/hgfs.c`) -/

/-- `#define MAX_NODES 4096`. -/
def MAX_NODES : Nat := 4096

/-- `#define MAX_EDGES 16384`. -/
def MAX_EDGES : Nat := 16384

/-- The part of `struct ggml_tensor` the code reads: the address `data` of its buffer. -/
structure ggml_tensor where
  data : Nat
deriving DecidableEq, Repr

/-- `hg_node_t`; `tensor` is the tensor object the C field points to. -/
structure hg_node_t where
  tensor : ggml_tensor
  depth : Nat
  handle : Nat
  active : Bool
deriving DecidableEq, Repr

/-- `hg_edge_t`; the `float` weight is a rational number. -/
structure hg_edge_t where
  src_handle : Nat
  dst_handle : Nat
  weight : ℚ
  handle : Nat
  active : Bool
deriving DecidableEq, Repr

/-- The static `hgfs` record; `nodes i` is `hgfs.nodes[i]`, `edges i` is `hgfs.edges[i]`. -/
structure hgfs_t where
  ctx : Nat
  nodes : Nat → hg_node_t
  edges : Nat → hg_edge_t
  node_count : Nat
  edge_count : Nat
  next_node_handle : Nat
  next_edge_handle : Nat
  initialized : Bool

/-- The zero-initialised static `hgfs = {0}`. -/
def hgfs_zero : hgfs_t :=
  { ctx := 0
    nodes := fun _ => { tensor := { data := 0 }, depth := 0, handle := 0, active := false }
    edges := fun _ => { src_handle := 0, dst_handle := 0, weight := 0, handle := 0,
                        active := false }
    node_count := 0, edge_count := 0, next_node_handle := 0, next_edge_handle := 0
    initialized := false }

/-- `hgfs_init(ctx)`; `ctx = 0` is the null context. -/
def hgfs_init (s : hgfs_t) (ctx : Nat) : Int × hgfs_t :=
  if s.initialized then (0, s)
  else if ctx = 0 then (-1, s)
  else (0, { hgfs_zero with ctx := ctx, next_node_handle := 1, next_edge_handle := 1
                            initialized := true })

/-- The free-slot search over `hgfs.nodes`: the value of `idx` after the loop. -/
def hgfs_free_node_slot (s : hgfs_t) : Nat :=
  ((List.range MAX_NODES).find? (fun idx => !(s.nodes idx).active)).getD MAX_NODES

/-- `hgfs_alloc(size, depth)`. `ggml_new_tensor_1d n` is what the tensor service returns
for a one-dimensional F32 tensor of `n` elements in the store's context (`none` is
`NULL`). Returns the buffer pointer (`0` for `NULL`) and the new state. -/
def hgfs_alloc (s : hgfs_t) (ggml_new_tensor_1d : Nat → Option ggml_tensor)
    (size depth : Nat) : Nat × hgfs_t :=
  if s.initialized = false then (0, s)
  else if s.node_count ≥ MAX_NODES then (0, s)
  else
    let idx := hgfs_free_node_slot s
    if idx ≥ MAX_NODES then (0, s)
    else
      let n_elements := sub64 (add64 size 4) 1 / 4
      match ggml_new_tensor_1d n_elements with
      | none => (0, s)
      | some t =>
        let node : hg_node_t :=
          { tensor := t, depth := depth, handle := s.next_node_handle, active := true }
        (t.data,
          { s with nodes := Function.update s.nodes idx node
                   next_node_handle := add64 s.next_node_handle 1
                   node_count := add64 s.node_count 1 })

/-- The node scan of `hgfs_edge` over the slots `is`, entered with the current
`(src_handle, dst_handle)`: inactive slots are skipped, a slot whose buffer is `src`
(`dst`) sets `src_handle` (`dst_handle`), and the loop breaks once both are non-zero. -/
def hgfs_edge_scan (s : hgfs_t) (src dst : Nat) : List Nat → Nat × Nat → Nat × Nat
  | [], acc => acc
  | i :: rest, acc =>
    if (s.nodes i).active = false then hgfs_edge_scan s src dst rest acc
    else
      let src_handle := if (s.nodes i).tensor.data = src then (s.nodes i).handle else acc.1
      let dst_handle := if (s.nodes i).tensor.data = dst then (s.nodes i).handle else acc.2
      if src_handle ≠ 0 ∧ dst_handle ≠ 0 then (src_handle, dst_handle)
      else hgfs_edge_scan s src dst rest (src_handle, dst_handle)

/-- The free-slot search over `hgfs.edges`: the value of `idx` after the loop. -/
def hgfs_free_edge_slot (s : hgfs_t) : Nat :=
  ((List.range MAX_EDGES).find? (fun idx => !(s.edges idx).active)).getD MAX_EDGES

/-- `hgfs_edge(src, dst, weight)`: the returned edge handle (`0` on failure) and the
new state. -/
def hgfs_edge (s : hgfs_t) (src dst : Nat) (weight : ℚ) : Nat × hgfs_t :=
  if s.initialized = false then (0, s)
  else if s.edge_count ≥ MAX_EDGES then (0, s)
  else
    let h := hgfs_edge_scan s src dst (List.range MAX_NODES) (0, 0)
    if h.1 = 0 ∨ h.2 = 0 then (0, s)
    else
      let idx := hgfs_free_edge_slot s
      if idx ≥ MAX_EDGES then (0, s)
      else
        let edge : hg_edge_t :=
          { src_handle := h.1, dst_handle := h.2, weight := weight
            handle := s.next_edge_handle, active := true }
        (edge.handle,
          { s with edges := Function.update s.edges idx edge
                   next_edge_handle := add64 s.next_edge_handle 1
                   edge_count := add64 s.edge_count 1 })

/-- States of the store reachable from a successful `hgfs_init` by `hgfs_alloc` and
`hgfs_edge`. -/
inductive hgfs_reach : hgfs_t → Prop where
  | init (ctx : Nat) : ctx ≠ 0 → hgfs_reach (hgfs_init hgfs_zero ctx).2
  | alloc (s : hgfs_t) (svc : Nat → Option ggml_tensor) (size depth : Nat) :
      hgfs_reach s → hgfs_reach (hgfs_alloc s svc size depth).2
  | edge (s : hgfs_t) (src dst : Nat) (weight : ℚ) :
      hgfs_reach s → hgfs_reach (hgfs_edge s src dst weight).2

/-- Invariant of the reachable store states: the occupied slots of both tables are
the first `node_count` (`edge_count`) ones, the counters are within capacity, the
next handles are one past the counts, and active nodes carry the handles `1, 2, ...`. -/
def hgfs_inv (s : hgfs_t) : Prop :=
  s.initialized = true ∧ s.node_count ≤ MAX_NODES ∧ s.edge_count ≤ MAX_EDGES ∧
    s.next_node_handle = s.node_count + 1 ∧ s.next_edge_handle = s.edge_count + 1 ∧
    (∀ i, (s.nodes i).active = true ↔ i < s.node_count) ∧
    (∀ i, (s.edges i).active = true ↔ i < s.edge_count) ∧
    (∀ i, i < s.node_count → (s.nodes i).handle = i + 1)

/-- `buf` is the buffer of an active node of the store. -/
def is_node_buffer (s : hgfs_t) (buf : Nat) : Prop :=
  ∃ i, i < MAX_NODES ∧ (s.nodes i).active = true ∧ (s.nodes i).tensor.data = buf

/-- The store after `hgfs_init` and two `hgfs_alloc(128, 0)` calls for which the tensor
service returned the buffers `1000` and `2000`. -/
def hgfs_example : hgfs_t :=
  (hgfs_alloc (hgfs_alloc (hgfs_init hgfs_zero 1).2 (fun _ => some { data := 1000 }) 128 0).2
    (fun _ => some { data := 2000 }) 128 0).2

/-! ## Atom registry (`src/cognitive/atomspace.cpp`) -/

/-- `#define MAX_ATOMS 8192`. -/
def MAX_ATOMS : Nat := 8192

/-- `atom_type_t` of `cognitive.h`. -/
inductive atom_type_t where
  | ATOM_NODE
  | ATOM_LINK
  | ATOM_CONCEPT
  | ATOM_PREDICATE
deriving DecidableEq, Repr

/-- `atom_t`; `name = none` is the null `char*`, `tensor` is the tensor object the C
field points to. -/
structure atom_t where
  type : atom_type_t
  name : Option String
  outgoing : List Nat
  tensor : ggml_tensor
  handle : Nat
  active : Bool
deriving DecidableEq, Repr

/-- The static `atomspace` record; `atoms i` is `atomspace.atoms[i]`, and `name_index`
is the `std::map<std::string, atom_handle_t>` as a finite partial function. -/
structure atomspace_t where
  ctx : Nat
  atoms : Nat → atom_t
  name_index : String → Option Nat
  atom_count : Nat
  next_handle : Nat
  initialized : Bool

/-- A value-initialised `atom_t`. -/
def atom_zero : atom_t :=
  { type := atom_type_t.ATOM_NODE, name := none, outgoing := [], tensor := { data := 0 }
    handle := 0, active := false }

/-- The static initialiser `atomspace = {nullptr, {}, {}, 0, 1, false}`. -/
def atomspace_zero : atomspace_t :=
  { ctx := 0, atoms := fun _ => atom_zero, name_index := fun _ => none, atom_count := 0
    next_handle := 1, initialized := false }

/-- `atomspace_init(ctx)`. -/
def atomspace_init (s : atomspace_t) (ctx : Nat) : Int × atomspace_t :=
  if s.initialized then (0, s)
  else if ctx = 0 then (-1, s)
  else (0, { s with ctx := ctx, atom_count := 0, next_handle := 1, initialized := true })

/-- The free-slot search over `atomspace.atoms`: the value of `idx` after the loop. -/
def atom_free_slot (s : atomspace_t) : Nat :=
  ((List.range MAX_ATOMS).find? (fun idx => !(s.atoms idx).active)).getD MAX_ATOMS

/-- `if (name) atomspace.name_index[name] = handle;`. -/
def name_index_add (index : String → Option Nat) (name : Option String) (handle : Nat) :
    String → Option Nat :=
  match name with
  | some n => Function.update index n (some handle)
  | none => index

/-- `cog_atom_alloc(type, name)`. `new_tensor` is what
`ggml_new_tensor_1d(atomspace.ctx, GGML_TYPE_F32, 512)` returns when it is called
(`none` is `NULL`); `strdup` and the map insertion are taken to succeed. Returns the
atom handle (`0` on failure) and the new state. -/
def cog_atom_alloc (s : atomspace_t) (new_tensor : Option ggml_tensor)
    (type : atom_type_t) (name : Option String) : Nat × atomspace_t :=
  if s.initialized = false then (0, s)
  else if s.atom_count ≥ MAX_ATOMS then (0, s)
  else
    match name.bind s.name_index with
    | some h => (h, s)
    | none =>
      let idx := atom_free_slot s
      if idx ≥ MAX_ATOMS then (0, s)
      else
        match new_tensor with
        | none => (0, s)
        | some t =>
          let atom : atom_t :=
            { type := type, name := name, outgoing := [], tensor := t
              handle := s.next_handle, active := true }
          (atom.handle,
            { s with atoms := Function.update s.atoms idx atom
                     next_handle := add64 s.next_handle 1
                     atom_count := add64 s.atom_count 1
                     name_index := name_index_add s.name_index name atom.handle })

/-- The search `for (i = 0; i < MAX_ATOMS; i++) if (atoms[i].active && atoms[i].handle == h)`:
the first slot found, if any. -/
def find_atom (s : atomspace_t) (h : Nat) : Option Nat :=
  (List.range MAX_ATOMS).find? (fun i => (s.atoms i).active && decide ((s.atoms i).handle = h))

/-- One iteration of the member loop of `cog_link_create` for the link atom in slot
`link_idx` and the member handle `m`: `push_back`, then `hgfs_edge` with unit weight
from the buffer of the link atom to the buffer of the member, if the member exists. -/
def link_member (link_idx : Nat) (st : atomspace_t × hgfs_t) (m : Nat) :
    atomspace_t × hgfs_t :=
  let link_atom := st.1.atoms link_idx
  let s1 : atomspace_t :=
    { st.1 with atoms := Function.update st.1.atoms link_idx
                  { link_atom with outgoing := link_atom.outgoing ++ [m] } }
  match find_atom s1 m with
  | some j =>
    (s1, (hgfs_edge st.2 (s1.atoms link_idx).tensor.data (s1.atoms j).tensor.data 1).2)
  | none => (s1, st.2)

/-- `cog_link_create(type, atoms, n_atoms)` on the registry `s` and the hypergraph
store `g`; `members` is the array `atoms[0 .. n_atoms-1]`. Returns the link handle
(`0` on failure) and both new states. -/
def cog_link_create (s : atomspace_t) (g : hgfs_t) (new_tensor : Option ggml_tensor)
    (type : atom_type_t) (members : List Nat) : Nat × atomspace_t × hgfs_t :=
  if s.initialized = false then (0, s, g)
  else
    let r := cog_atom_alloc s new_tensor type none
    if r.1 = 0 then (0, r.2, g)
    else
      match find_atom r.2 r.1 with
      | none => (0, r.2, g)
      | some link_idx =>
        let st := members.foldl (link_member link_idx) (r.2, g)
        (r.1, st.1, st.2)

/-- Registry states reachable from a successful `atomspace_init` by `cog_atom_alloc` and
`cog_link_create` (the latter against any state of the hypergraph store). -/
inductive atoms_reach : atomspace_t → Prop where
  | init (ctx : Nat) : ctx ≠ 0 → atoms_reach (atomspace_init atomspace_zero ctx).2
  | alloc (s : atomspace_t) (t : Option ggml_tensor) (type : atom_type_t)
      (name : Option String) :
      atoms_reach s → atoms_reach (cog_atom_alloc s t type name).2
  | link (s : atomspace_t) (g : hgfs_t) (t : Option ggml_tensor) (type : atom_type_t)
      (members : List Nat) :
      atoms_reach s → atoms_reach (cog_link_create s g t type members).2.1

/-- Invariant of the reachable registry states. -/
def atoms_inv (s : atomspace_t) : Prop :=
  s.initialized = true ∧ s.atom_count ≤ MAX_ATOMS ∧ s.next_handle = s.atom_count + 1 ∧
    (∀ i, (s.atoms i).active = true ↔ i < s.atom_count) ∧
    (∀ i, i < s.atom_count → (s.atoms i).handle = i + 1) ∧
    (∀ n h, s.name_index n = some h ↔
      ∃ i, i < s.atom_count ∧ (s.atoms i).name = some n ∧ (s.atoms i).handle = h) ∧
    (∀ i j n, i < s.atom_count → j < s.atom_count →
      (s.atoms i).name = some n → (s.atoms j).name = some n → i = j)

/-- The registry `s'` differs from `s` at most in the `outgoing` sequences of atoms. -/
def same_but_outgoing (s s' : atomspace_t) : Prop :=
  s'.ctx = s.ctx ∧ s'.name_index = s.name_index ∧ s'.atom_count = s.atom_count ∧
    s'.next_handle = s.next_handle ∧ s'.initialized = s.initialized ∧
    ∀ i, (s'.atoms i).type = (s.atoms i).type ∧ (s'.atoms i).name = (s.atoms i).name ∧
      (s'.atoms i).tensor = (s.atoms i).tensor ∧ (s'.atoms i).handle = (s.atoms i).handle ∧
      (s'.atoms i).active = (s.atoms i).active

/-- The registry after `atomspace_init` and the creation of the concepts "cat" and "animal"
(buffers `1000` and `2000`), as in `test_atomspace`. -/
def atoms_example : atomspace_t :=
  (cog_atom_alloc (cog_atom_alloc (atomspace_init atomspace_zero 1).2
    (some { data := 1000 }) atom_type_t.ATOM_CONCEPT (some "cat")).2
    (some { data := 2000 }) atom_type_t.ATOM_CONCEPT (some "animal")).2

/-- A registry whose table is full: the concept "cat" in slot 0 followed by 8191 unnamed
atoms, handles `1 .. 8192`. -/
def atomspace_full : atomspace_t :=
  { ctx := 1
    atoms := fun i =>
      if i < MAX_ATOMS then
        { type := atom_type_t.ATOM_CONCEPT, name := if i = 0 then some "cat" else none
          outgoing := [], tensor := { data := 1000 + 2048 * i }, handle := i + 1
          active := true }
      else atom_zero
    name_index := fun n => if n = "cat" then some 1 else none
    atom_count := MAX_ATOMS
    next_handle := MAX_ATOMS + 1
    initialized := true }

/-- A registry holding the single concept "cat" with handle 1. -/
def atoms_one : atomspace_t :=
  { ctx := 1
    atoms := Function.update (fun _ => atom_zero) 0
      { type := atom_type_t.ATOM_CONCEPT, name := some "cat", outgoing := []
        tensor := { data := 1000 }, handle := 1, active := true }
    name_index := Function.update (fun _ => none) "cat" (some 1)
    atom_count := 1
    next_handle := 2
    initialized := true }

/-! ## Truth engine (`src/cognitive/pln.cpp`)

The `float` values are elements of a field `F`. In `pln_eval_tensor` the arithmetic is
exact, and `std::pow` is the parameter `powf`. In `pln_unify_graph` the `float` subtraction
and the literal `0.2f` are parameters, which are instantiated with the binary32
operations on the rationals. -/

/-- `truth_value_t` of `cognitive.h`. -/
structure truth_value_t (F : Type) where
  strength : F
  confidence : F

/-- The statics of `pln.cpp`: `truth_map` (the `std::map<atom_handle_t, truth_value_t>` as a
finite partial function), `pln_ctx` and `pln_initialized`. -/
structure pln_t (F : Type) where
  truth_map : Nat → Option (truth_value_t F)
  pln_ctx : Nat
  pln_initialized : Bool

/-- The statics before `pln_init`. -/
def pln_zero (F : Type) : pln_t F :=
  { truth_map := fun _ => none, pln_ctx := 0, pln_initialized := false }

/-- `pln_init(ctx)`. -/
def pln_init {F : Type} (s : pln_t F) (ctx : Nat) : Int × pln_t F :=
  if s.pln_initialized then (0, s)
  else if ctx = 0 then (-1, s)
  else (0, { truth_map := fun _ => none, pln_ctx := ctx, pln_initialized := true })

/-- Body of the context loop of `pln_eval_tensor`: `acc` is
`(strength_sum, confidence_product)`, `a` is `context[i]`. -/
def pln_context_step {F : Type} [Field F] (s : pln_t F) (acc : F × F) (a : Nat) : F × F :=
  match s.truth_map a with
  | some tv => (acc.1 + tv.strength, acc.2 * tv.confidence)
  | none => acc

/-- `pln_eval_tensor(query, context, n_context)`; `context` is the array, `n_context` its
length. Returns the truth value and the new statics. -/
def pln_eval_tensor {F : Type} [Field F] (powf : F → F → F) (s : pln_t F) (query : Nat)
    (context : List Nat) : truth_value_t F × pln_t F :=
  if s.pln_initialized = false then ({ strength := 0, confidence := 0 }, s)
  else
    match s.truth_map query with
    | some tv => (tv, s)
    | none =>
      let acc := context.foldl (pln_context_step s) (0, 1)
      let n_context := context.length
      let result : truth_value_t F :=
        { strength := if n_context > 0 then acc.1 / (n_context : F) else 0.5
          confidence := if n_context > 0 then powf acc.2 (1 / (n_context : F)) else 0.1 }
      (result, { s with truth_map := Function.update s.truth_map query (some result) })

/-- The truth values cached for the atoms of `context`, in context order. -/
def cached_values {F : Type} (s : pln_t F) (context : List Nat) : List (truth_value_t F) :=
  context.filterMap s.truth_map

/-- The truth engine after `pln_init` with the single cached truth value
`(0.4, 0.8)` for atom 1. -/
def pln_example (F : Type) [Field F] : pln_t F :=
  { truth_map := Function.update (fun _ => none) 1 (some { strength := 0.4, confidence := 0.8 })
    pln_ctx := 1
    pln_initialized := true }


/-- The truth value that `pln_eval_tensor` computes from the cached values of the context:
sum of the cached strengths over `n_context`, and the product of the cached
confidences to the power `1 / n_context`; `(0.5, 0.1)` for `n_context = 0`. -/
def context_truth {F : Type} [Field F] (powf : F → F → F) (s : pln_t F)
    (context : List Nat) : truth_value_t F :=
  { strength := if context.length > 0 then
      ((cached_values s context).map truth_value_t.strength).sum / (context.length : F)
      else 0.5
    confidence := if context.length > 0 then
      powf ((cached_values s context).map truth_value_t.confidence).prod
        (1 / (context.length : F))
      else 0.1 }

/-! ### binary32 arithmetic (IEEE 754)

The operations on `float` that `pln_unify_graph` and `pln_eval_tensor` perform, on the
finite binary32 numbers as rational numbers. -/

/-- Round to the nearest integer, a tie to the even one. -/
def round_half_even (t : ℚ) : ℤ :=
  if t - ⌊t⌋ < 1 / 2 then ⌊t⌋
  else if 1 / 2 < t - ⌊t⌋ then ⌊t⌋ + 1
  else if ⌊t⌋ % 2 = 0 then ⌊t⌋ else ⌊t⌋ + 1

/-- The binary32 number nearest to the non-negative rational `x`, a tie to the one
with the even significand (the default rounding of IEEE 754): with `e` the binary
exponent of `x`, at least -126 (below that the numbers are subnormal), the multiples
of `2^(e - 23)` are the binary32 numbers around `x`. A value beyond the largest finite
binary32 number is not turned into an infinity; it stays above `2^127`. -/
def f32_round_mag (x : ℚ) : ℚ :=
  if x = 0 then 0
  else
    let e := max (Int.log 2 x) (-126)
    (round_half_even (x / 2 ^ (e - 23)) : ℚ) * 2 ^ (e - 23)

/-- Rounding of a rational to binary32, symmetric in the sign. -/
def f32_round (q : ℚ) : ℚ :=
  if q < 0 then -f32_round_mag (-q) else f32_round_mag q

/-- The `float` subtraction `a - b` of two finite binary32 numbers: the exact difference,
rounded to binary32 (evaluation in `float`, `FLT_EVAL_METHOD` 0). -/
def f32_sub (a b : ℚ) : ℚ := f32_round (a - b)

/-- The literal `0.2f`: the decimal 0.2 rounded to binary32, `13421773 * 2^-26`. -/
def f32_0_2 : ℚ := f32_round (2 / 10)

/-- `pln_unify_graph(a, b)`: the returned handle (`0` when unification fails) and the
statics. `fsub` is the `float` subtraction and `c02` the literal `0.2f`; `std::abs` and
the comparisons of two `float` values are exact. For the binary32 arithmetic of
the code, `fsub` is `f32_sub` and `c02` is `f32_0_2`, over the rationals. -/
def pln_unify_graph {F : Type} [LinearOrderedField F] (fsub : F → F → F) (c02 : F)
    (s : pln_t F) (a b : Nat) : Nat × pln_t F :=
  if s.pln_initialized = false then (0, s)
  else
    match s.truth_map a, s.truth_map b with
    | some tv_a, some tv_b =>
      let diff := |fsub tv_a.strength tv_b.strength|
      if diff < c02 then
        (if tv_a.confidence > tv_b.confidence then a else b, s)
      else (0, s)
    | _, _ => (0, s)

/-- The truth engine after `pln_init` with the cached truth values `(0.4, 0.8)` for atom 1
and `(0.6, 0.5)` for atom 2. -/
def pln_example_pair (F : Type) [Field F] : pln_t F :=
  { truth_map := Function.update (Function.update (fun _ => none) 1
      (some { strength := 0.4, confidence := 0.8 })) 2
      (some { strength := 0.6, confidence := 0.5 })
    pln_ctx := 1
    pln_initialized := true }

/-- The truth engine after `pln_init` with the same cached truth value `(0.5, 0.5)` for the
atoms 1 and 2. -/
def pln_example_tie (F : Type) [Field F] : pln_t F :=
  { truth_map := Function.update (Function.update (fun _ => none) 1
      (some { strength := 0.5, confidence := 0.5 })) 2
      (some { strength := 0.5, confidence := 0.5 })
    pln_ctx := 1
    pln_initialized := true }

/-- The truth engine after `pln_init` with the cached strengths `0.25` and `0.05f`
(the binary32 number `13421773 * 2^-28`, which is what `0.5f / 10` gives) for the
atoms 1 and 2, and the confidences `c1` and `c2`. -/
def pln_example_near (c1 c2 : ℚ) : pln_t ℚ :=
  { truth_map := Function.update (Function.update (fun _ => none) 1
      (some { strength := 1 / 4, confidence := c1 })) 2
      (some { strength := 13421773 / 268435456, confidence := c2 })
    pln_ctx := 1
    pln_initialized := true }

/-- Body of the context loop of `pln_eval_tensor` on binary32 values: `+=` and `*=` on a
`float` round the exact sum and the exact product. -/
def pln_context_step_f32 (s : pln_t ℚ) (acc : ℚ × ℚ) (a : Nat) : ℚ × ℚ :=
  match s.truth_map a with
  | some tv => (f32_round (acc.1 + tv.strength), f32_round (acc.2 * tv.confidence))
  | none => acc

/-- `pln_eval_tensor(query, context, n_context)` on binary32 values, the arithmetic of the
compiled function: `n_context` is converted to `float` in both quotients, each quotient
is rounded, `0.5f` and `0.1f` are the binary32 numbers nearest to 5/10 and 1/10, and
`powf` is `std::pow` on two `float`s. -/
def pln_eval_tensor_f32 (powf : ℚ → ℚ → ℚ) (s : pln_t ℚ) (query : Nat)
    (context : List Nat) : truth_value_t ℚ × pln_t ℚ :=
  if s.pln_initialized = false then ({ strength := 0, confidence := 0 }, s)
  else
    match s.truth_map query with
    | some tv => (tv, s)
    | none =>
      let acc := context.foldl (pln_context_step_f32 s) (0, 1)
      let n_context := context.length
      let result : truth_value_t ℚ :=
        { strength := if n_context > 0 then f32_round (acc.1 / f32_round n_context)
            else f32_round (5 / 10)
          confidence := if n_context > 0 then powf acc.2 (f32_round (1 / f32_round n_context))
            else f32_round (1 / 10) }
      (result, { s with truth_map := Function.update s.truth_map query (some result) })

/-- The truth engine after `pln_init`, `pln_eval_tensor(1, {}, 0)`,
`pln_eval_tensor(2, {}, 0)`, `pln_eval_tensor(3, {}, 0)` and
`pln_eval_tensor(4, {1, 2, 3, 5, 6}, 5)`, in binary32. -/
def pln_example_calls (powf : ℚ → ℚ → ℚ) : pln_t ℚ :=
  let s0 := (pln_init (pln_zero ℚ) 1).2
  let s1 := (pln_eval_tensor_f32 powf s0 1 []).2
  let s2 := (pln_eval_tensor_f32 powf s1 2 []).2
  let s3 := (pln_eval_tensor_f32 powf s2 3 []).2
  (pln_eval_tensor_f32 powf s3 4 [1, 2, 3, 5, 6]).2

/-- The same calls as in `pln_example_calls`, in exact arithmetic. -/
def pln_example_calls_exact (powf : ℚ → ℚ → ℚ) : pln_t ℚ :=
  let s0 := (pln_init (pln_zero ℚ) 1).2
  let s1 := (pln_eval_tensor powf s0 1 []).2
  let s2 := (pln_eval_tensor powf s1 2 []).2
  let s3 := (pln_eval_tensor powf s2 3 []).2
  (pln_eval_tensor powf s3 4 [1, 2, 3, 5, 6]).2

/-- The truth engine after `pln_init`, `pln_eval_tensor(7, {}, 0)`,
`pln_eval_tensor(1, {7, 9}, 2)` and
`pln_eval_tensor(2, {7, 9, 9, 9, 9, 9, 9, 9, 9, 9}, 10)`, in binary32. -/
def pln_example_near_calls (powf : ℚ → ℚ → ℚ) : pln_t ℚ :=
  let s0 := (pln_init (pln_zero ℚ) 1).2
  let s1 := (pln_eval_tensor_f32 powf s0 7 []).2
  let s2 := (pln_eval_tensor_f32 powf s1 1 [7, 9]).2
  (pln_eval_tensor_f32 powf s2 2 [7, 9, 9, 9, 9, 9, 9, 9, 9, 9]).2

/-! ## Attention allocator statics (`src/cognitive/ecan.cpp`) -/

/-- `attention_value_t` of `cognitive.h`. -/
structure attention_value_t (F : Type) where
  sti : F
  lti : F
  vlti : F

/-- The statics of `ecan.cpp`: `attention_map` (the `std::map<atom_handle_t,
attention_value_t>` as the list of its entries), `ecan_ctx` and `ecan_initialized`. -/
structure ecan_t (F : Type) where
  attention_map : List (Nat × attention_value_t F)
  ecan_ctx : Nat
  ecan_initialized : Bool

/-- The statics before `ecan_init`. -/
def ecan_zero (F : Type) : ecan_t F :=
  { attention_map := [], ecan_ctx := 0, ecan_initialized := false }

/-- `ecan_init(ctx)`. -/
def ecan_init {F : Type} (s : ecan_t F) (ctx : Nat) : Int × ecan_t F :=
  if s.ecan_initialized then (0, s)
  else if ctx = 0 then (-1, s)
  else (0, { attention_map := [], ecan_ctx := ctx, ecan_initialized := true })

/-! ## Bootstrap sequencer (`src/kernel/bootstrap.c`) -/

/-- `STAGE0_INIT = 0` of `bootstrap_stage_t`. -/
def STAGE0_INIT : Nat := 0

/-- `STAGE1_HYPERGRAPH`. -/
def STAGE1_HYPERGRAPH : Nat := 1

/-- `STAGE2_SCHEDULER`. -/
def STAGE2_SCHEDULER : Nat := 2

/-- `STAGE3_COGNITIVE`. -/
def STAGE3_COGNITIVE : Nat := 3

/-- The statics the bootstrap works on: `g_ggml_ctx` (`0` is `NULL`), `g_current_stage` (the
integer value of the `bootstrap_stage_t`), and the statics of the subsystems the
stage functions initialise. -/
structure kernel_t (F : Type) where
  g_ggml_ctx : Nat
  g_current_stage : Nat
  hgfs : hgfs_t
  scheduler : scheduler_t
  atomspace : atomspace_t
  ecan : ecan_t F
  pln : pln_t F

/-- The statics at program start: `g_ggml_ctx = NULL`, `g_current_stage = STAGE0_INIT`. -/
def kernel_zero (F : Type) : kernel_t F :=
  { g_ggml_ctx := 0, g_current_stage := STAGE0_INIT, hgfs := hgfs_zero
    scheduler := scheduler_zero, atomspace := atomspace_zero, ecan := ecan_zero F
    pln := pln_zero F }

/-- `bootstrap_stage0()`; `ggml_init` is what `ggml_init(params)` returns (`0` is `NULL`). -/
def bootstrap_stage0 {F : Type} (ggml_init : Nat) (k : kernel_t F) : Int × kernel_t F :=
  let k1 := { k with g_ggml_ctx := ggml_init }
  if k1.g_ggml_ctx = 0 then (-1, k1) else (0, k1)

/-- `bootstrap_stage1()`. -/
def bootstrap_stage1 {F : Type} (k : kernel_t F) : Int × kernel_t F :=
  if k.g_ggml_ctx = 0 then (-1, k)
  else
    let r := hgfs_init k.hgfs k.g_ggml_ctx
    if r.1 ≠ 0 then (-1, { k with hgfs := r.2 }) else (0, { k with hgfs := r.2 })

/-- `bootstrap_stage2()`. -/
def bootstrap_stage2 {F : Type} (k : kernel_t F) : Int × kernel_t F :=
  let r := dtesn_sched_init k.scheduler
  if r.1 ≠ 0 then (-1, { k with scheduler := r.2 }) else (0, { k with scheduler := r.2 })

/-- `bootstrap_stage3()`. -/
def bootstrap_stage3 {F : Type} (k : kernel_t F) : Int × kernel_t F :=
  if k.g_ggml_ctx = 0 then (-1, k)
  else
    let ra := atomspace_init k.atomspace k.g_ggml_ctx
    let k1 := { k with atomspace := ra.2 }
    if ra.1 ≠ 0 then (-1, k1)
    else
      let re := ecan_init k1.ecan k1.g_ggml_ctx
      let k2 := { k1 with ecan := re.2 }
      if re.1 ≠ 0 then (-1, k2)
      else
        let rp := pln_init k2.pln k2.g_ggml_ctx
        let k3 := { k2 with pln := rp.2 }
        if rp.1 ≠ 0 then (-1, k3) else (0, k3)

/-- Progress of one `kern_bootstrap_init` call: the local `ret` (non-zero once the call has
returned early), the statics, and the stage functions called so far, oldest first,
each with its return value. -/
structure bootstrap_result (F : Type) where
  ret : Int
  kernel : kernel_t F
  calls : List (Nat × Int)

/-- One block of `kern_bootstrap_init`:
`if (g_current_stage <= stage && target_stage >= stage) { ret = run(); if (ret != 0)
return ret; g_current_stage = stage; }`, skipped when the call has already returned. -/
def bootstrap_step {F : Type} (run : kernel_t F → Int × kernel_t F) (stage target_stage : Nat)
    (st : bootstrap_result F) : bootstrap_result F :=
  if st.ret ≠ 0 then st
  else if st.kernel.g_current_stage ≤ stage ∧ target_stage ≥ stage then
    let r := run st.kernel
    if r.1 ≠ 0 then { ret := r.1, kernel := r.2, calls := st.calls ++ [(stage, r.1)] }
    else
      { ret := r.1, kernel := { r.2 with g_current_stage := stage }
        calls := st.calls ++ [(stage, r.1)] }
  else st

/-- `kern_bootstrap_init(target_stage)`: the four blocks in order; `ret` of the result is the
return value. -/
def kern_bootstrap_init {F : Type} (k : kernel_t F) (ggml_init : Nat) (target_stage : Nat) :
    bootstrap_result F :=
  bootstrap_step bootstrap_stage3 STAGE3_COGNITIVE target_stage
    (bootstrap_step bootstrap_stage2 STAGE2_SCHEDULER target_stage
      (bootstrap_step bootstrap_stage1 STAGE1_HYPERGRAPH target_stage
        (bootstrap_step (bootstrap_stage0 ggml_init) STAGE0_INIT target_stage
          { ret := 0, kernel := k, calls := [] })))

/-- State of a `kern_bootstrap_init` call, entered with the watermark `cur`, after the
blocks of the stages below `j`: the stage functions called are those of consecutive
stages from `cur`; without a failure all returned 0, every stage from `cur` to
`target` below `j` was called and the watermark is the last of them; after a failure
the failing call is the last one, it returned -1, and the watermark is the stage
before it (or `cur` when it is the first call). -/
def bootstrap_inv {F : Type} (cur target j : Nat) (st : bootstrap_result F) : Prop :=
  st.calls.map Prod.fst = List.range' cur st.calls.length ∧
  (st.ret = 0 →
    (∀ c ∈ st.calls, c.2 = 0) ∧ st.calls.length = min j (target + 1) - cur ∧
    st.kernel.g_current_stage
      = if st.calls.length = 0 then cur else cur + st.calls.length - 1) ∧
  (st.ret ≠ 0 →
    st.ret = -1 ∧ 1 ≤ st.calls.length ∧ cur + st.calls.length ≤ min j (target + 1) ∧
    st.calls.getLast? = some (cur + st.calls.length - 1, -1) ∧
    (∀ c ∈ st.calls.dropLast, c.2 = 0) ∧
    st.kernel.g_current_stage
      = if st.calls.length = 1 then cur else cur + st.calls.length - 2)

/-- What `kern_bootstrap_init` relies on in a stage function: it returns 0 or -1 and does not
write `g_current_stage`. -/
def stage_fn_ok {F : Type} (run : kernel_t F → Int × kernel_t F) : Prop :=
  ∀ k, ((run k).1 = 0 ∨ (run k).1 = -1) ∧ (run k).2.g_current_stage = k.g_current_stage

/-! ## Memory arena: derived notions -/

/-- No two consecutive blocks of the chain are both free. -/
def no_adjacent_free (l : List mem_block_t) : Prop :=
  List.Chain' (fun a b => ¬ (a.allocated = false ∧ b.allocated = false)) l

/-- The sequence of block addresses, sizes and allocated flags of a chain. -/
def block_shape (l : List mem_block_t) : List (Nat × Nat × Bool) :=
  l.map (fun b => (b.addr, b.size, b.allocated))

/-- The block `b` is free and large enough for the aligned request `s`: the test
`!curr->allocated && curr->size >= size` of `dtesn_mem_alloc`. -/
def block_fits (s : Nat) (b : mem_block_t) : Prop :=
  b.allocated = false ∧ s ≤ b.size

/-- The value `dtesn_mem_free` reads as `block->allocated` at the address `block`: the flag of
the header of the chain there or, when the chain has no header there, the byte of
the heap at that place. -/
def header_allocated (m : memory_t) (block : Nat) : Bool :=
  match m.free_list.find? (fun b => b.addr = block) with
  | some b => b.allocated
  | none => decide (m.heap (block + offsetof_allocated) ≠ 0)

/-- The bytes of the heap agree with the headers of the chain: for every header the
byte of its `allocated` field holds its flag and the low byte of its `region` field
holds the value of its region. -/
def heap_coherent (m : memory_t) : Prop :=
  ∀ b ∈ m.free_list,
    m.heap (b.addr + offsetof_allocated) = (if b.allocated then 1 else 0)
    ∧ m.heap (b.addr + offsetof_region) = region_value b.region

/-- The bytes from `p - sizeof(mem_block_t)` to `p`, where the header of `p` is or was, lie
in the free block `f`: they are its header or part of its user bytes. -/
def in_free_block (f : mem_block_t) (p : Nat) : Prop :=
  f.allocated = false ∧ sizeof_mem_block_t ≤ p ∧ f.addr ≤ p - sizeof_mem_block_t
    ∧ p ≤ f.addr + sizeof_mem_block_t + f.size

instance (s : Nat) (b : mem_block_t) : Decidable (block_fits s b) := by
  unfold block_fits
  infer_instance

instance (f : mem_block_t) (p : Nat) : Decidable (in_free_block f p) := by
  unfold in_free_block
  infer_instance

/-- Example arena: a heap of 1024 bytes at address 64 after `dtesn_mem_alloc(100)` and
`dtesn_mem_alloc(1)`, which returned 144 and 352. -/
def arena_example : memory_t :=
  (dtesn_mem_alloc (dtesn_mem_alloc (dtesn_mem_init memory_zero 64 1024).2 0 100
    mem_region_t.MEM_REGION_TENSOR).2 0 1 mem_region_t.MEM_REGION_DATA).2

/-- The example arena after `dtesn_mem_free(144)`: a free block, an allocated one, and
a free one. -/
def arena_example_freed : memory_t := dtesn_mem_free arena_example 144

/-! ## Attention allocator operations (`src/cognitive/ecan.cpp`) -/

/-- `attention_map.find(atom)`: the cached value of `atom`, if there is one. -/
def attention_find {F : Type} (m : List (Nat × attention_value_t F)) (atom : Nat) :
    Option (attention_value_t F) :=
  (m.find? (fun p => p.1 = atom)).map Prod.snd

/-- `attention_map[atom] = av`: the entry is written at the place of `atom` in the key
order of the `std::map`. -/
def attention_insert {F : Type} (m : List (Nat × attention_value_t F)) (atom : Nat)
    (av : attention_value_t F) : List (Nat × attention_value_t F) :=
  match m with
  | [] => [(atom, av)]
  | p :: rest =>
    if atom < p.1 then (atom, av) :: p :: rest
    else if atom = p.1 then (atom, av) :: rest
    else p :: attention_insert rest atom av

/-- `ecan_get_attention(atom)`: the returned value and the new statics. -/
def ecan_get_attention {F : Type} [Field F] (s : ecan_t F) (atom : Nat) :
    attention_value_t F × ecan_t F :=
  if s.ecan_initialized = false then ({ sti := 0, lti := 0, vlti := 0 }, s)
  else
    match attention_find s.attention_map atom with
    | some av => (av, s)
    | none =>
      let av : attention_value_t F := { sti := 0.5, lti := 0.5, vlti := 0.5 }
      (av, { s with attention_map := attention_insert s.attention_map atom av })

/-- Body of the loop of `ecan_update` for the entry `pair`: `acc` is the local `updated`
and the entries already rewritten. -/
def ecan_update_step {F : Type} [Field F] (acc : Int × List (Nat × attention_value_t F))
    (pair : Nat × attention_value_t F) : Int × List (Nat × attention_value_t F) :=
  let decay_rate : F := 0.99
  let sti := pair.2.sti * decay_rate
  let lti := pair.2.lti * 0.99 + sti * 0.01
  (acc.1 + 1, acc.2 ++ [(pair.1, { sti := sti, lti := lti, vlti := pair.2.vlti })])

/-- `ecan_update()`: the return value and the new statics. -/
def ecan_update {F : Type} [Field F] (s : ecan_t F) : Int × ecan_t F :=
  if s.ecan_initialized = false then (-1, s)
  else
    let r := s.attention_map.foldl ecan_update_step (0, [])
    (r.1, { s with attention_map := r.2 })

/-- Allocator states reachable from a successful `ecan_init` by `ecan_get_attention` and
`ecan_update`. -/
inductive ecan_reach {F : Type} [Field F] : ecan_t F → Prop where
  | init (ctx : Nat) : ctx ≠ 0 → ecan_reach (ecan_init (ecan_zero F) ctx).2
  | get (s : ecan_t F) (atom : Nat) : ecan_reach s → ecan_reach (ecan_get_attention s atom).2
  | update (s : ecan_t F) : ecan_reach s → ecan_reach (ecan_update s).2

/-- What one update does to an attention value, in the words of the specification:
`sti` is multiplied by 0.99, and `lti` becomes `0.99 * lti + 0.01 * sti` with the decayed
`sti`. -/
def attention_decayed {F : Type} [Field F] (v : attention_value_t F) : attention_value_t F :=
  { sti := 0.99 * v.sti, lti := 0.99 * v.lti + 0.01 * (0.99 * v.sti), vlti := v.vlti }

/-- The three components of an attention value lie in `[0, 1]`. -/
def attention_in_unit {F : Type} [LinearOrderedField F] (v : attention_value_t F) : Prop :=
  (0 ≤ v.sti ∧ v.sti ≤ 1) ∧ (0 ≤ v.lti ∧ v.lti ≤ 1) ∧ (0 ≤ v.vlti ∧ v.vlti ≤ 1)

/-- The allocator after `ecan_init` and `ecan_get_attention(7)`. -/
def ecan_example (F : Type) [Field F] : ecan_t F :=
  (ecan_get_attention (ecan_init (ecan_zero F) 1).2 7).2

/-! ## Truth engine: reachable states -/

/-- Truth-store states reachable from a successful `pln_init` by `pln_eval_tensor` calls. -/
inductive pln_reach {F : Type} [Field F] (powf : F → F → F) : pln_t F → Prop where
  | init (ctx : Nat) : ctx ≠ 0 → pln_reach powf (pln_init (pln_zero F) ctx).2
  | eval (s : pln_t F) (query : Nat) (context : List Nat) :
      pln_reach powf s → pln_reach powf (pln_eval_tensor powf s query context).2

/-- Strength and confidence of a truth value lie in `[0, 1]`. -/
def truth_in_unit {F : Type} [LinearOrderedField F] (tv : truth_value_t F) : Prop :=
  (0 ≤ tv.strength ∧ tv.strength ≤ 1) ∧ (0 ≤ tv.confidence ∧ tv.confidence ≤ 1)

/-! ## Priority scheduler: reachable states -/

/-- Number of table slots that hold a pending task. -/
def active_count (s : scheduler_t) : Nat :=
  ((List.range MAX_TASKS).filter (fun i => (s.tasks i).active)).length

/-- Scheduler states reachable from `dtesn_sched_init()` by `dtesn_sched_task` with a
priority of `task_priority_t` and by `dtesn_sched_tick` with callbacks that do not call the
scheduler, together with the values the `dtesn_sched_task` calls have returned so far,
latest first. -/
inductive sched_reach : scheduler_t → List Nat → Prop where
  | init : sched_reach (dtesn_sched_init scheduler_zero).2 []
  | task (s : scheduler_t) (hs : List Nat) (fn data priority depth : Nat) :
      sched_reach s hs → priority ≤ PRIORITY_LOW →
      sched_reach (dtesn_sched_task s fn data priority depth).2
        ((dtesn_sched_task s fn data priority depth).1 :: hs)
  | tick (s : scheduler_t) (hs : List Nat) (call : Nat → Nat → scheduler_t → scheduler_t) :
      sched_reach s hs → (∀ fn data t, call fn data t = t) →
      sched_reach (dtesn_sched_tick call s).sched hs

/-- Invariant of the reachable scheduler states: the pending tasks fill the first
`task_count` slots and have a priority of `task_priority_t`; `next_handle` is one more
than the number `n` of tasks stored so far (modulo `2^64`), and the values returned
so far are 0 or one of the first `n` handles. -/
def sched_inv (s : scheduler_t) (hs : List Nat) : Prop :=
  s.initialized = true ∧ s.task_count ≤ MAX_TASKS ∧
    (∀ i, (s.tasks i).active = true ↔ i < s.task_count) ∧
    (∀ i, i < s.task_count → (s.tasks i).priority ≤ PRIORITY_LOW) ∧
    ∃ n, n ≤ hs.length ∧ s.next_handle = (n + 1) % WORD ∧
      ∀ h ∈ hs, h = 0 ∨ ∃ i, i < n ∧ h = (i + 1) % WORD

/-- What is true of the loop state of a `dtesn_sched_tick` on the scheduler `s` whose
callbacks do not call the scheduler: a slot is as in `s` or has been deactivated,
`next_handle` is untouched, and `task_count` has gone down by `executed` (modulo
`2^64`). -/
def tick_inv (s : scheduler_t) (st : tick_state) : Prop :=
  (∀ j, st.sched.tasks j = s.tasks j ∨ st.sched.tasks j = { s.tasks j with active := false }) ∧
    st.sched.next_handle = s.next_handle ∧ st.sched.initialized = s.initialized ∧
    0 ≤ st.executed ∧
    (s.task_count < WORD →
      st.sched.task_count < WORD ∧
      ((st.sched.task_count : Int) + st.executed) % (WORD : Int) = (s.task_count : Int))

/-! ## Atom registry: creations -/

/-- Registry states reachable from a successful `atomspace_init` by `cog_atom_alloc` and
`cog_link_create`, together with the handles of the atoms created so far, latest
first: a call extends the list by the handle it returns when it has added an atom
to the table. -/
inductive atoms_created : atomspace_t → List Nat → Prop where
  | init (ctx : Nat) : ctx ≠ 0 → atoms_created (atomspace_init atomspace_zero ctx).2 []
  | alloc (s : atomspace_t) (hs : List Nat) (t : Option ggml_tensor) (type : atom_type_t)
      (name : Option String) :
      atoms_created s hs →
      atoms_created (cog_atom_alloc s t type name).2
        (if (cog_atom_alloc s t type name).2.atom_count = s.atom_count then hs
         else (cog_atom_alloc s t type name).1 :: hs)
  | link (s : atomspace_t) (hs : List Nat) (g : hgfs_t) (t : Option ggml_tensor)
      (type : atom_type_t) (members : List Nat) :
      atoms_created s hs →
      atoms_created (cog_link_create s g t type members).2.1
        (if (cog_link_create s g t type members).2.1.atom_count = s.atom_count then hs
         else (cog_link_create s g t type members).1 :: hs)

/-! ## Truth engine: sequences of calls -/

/-- The statics after the `pln_eval_tensor` calls `calls` (query and context of each), made
in order from the statics `s`. -/
def pln_run {F : Type} [Field F] (powf : F → F → F) (s : pln_t F)
    (calls : List (Nat × List Nat)) : pln_t F :=
  calls.foldl (fun t c => (pln_eval_tensor powf t c.1 c.2).2) s

/-! ## Priority scheduler: callbacks that submit -/

/-- The task record that `dtesn_sched_task(nfn, ndata, nprio, ndepth)` stores when it assigns the
handle `h`. -/
def submitted_task (nfn ndata nprio ndepth h : Nat) : task_t :=
  { fn := nfn, data := ndata, priority := nprio, depth := ndepth, handle := h, active := true }

/-- The part of a `struct ggml_tensor` of type `GGML_TYPE_F32` that `esn_process` and the tensor
operations use: the extents `ne0` (length of a row) and `ne1` (number of rows), and the
buffer `data`, which holds element `k` of row `i` at index `k + i * ne0`. -/
structure tensor_f32 (F : Type) where
  ne0 : Nat
  ne1 : Nat
  data : Nat → F

/-- `struct esn_reservoir`; the four tensors are the objects the C fields point to. -/
structure esn_reservoir (F : Type) where
  ctx : Nat
  W_in : tensor_f32 F
  W_res : tensor_f32 F
  W_out : tensor_f32 F
  state : tensor_f32 F
  input_size : Nat
  reservoir_size : Nat
  output_size : Nat
  spectral_radius : F

/-- The operations of the tensor library called by `esn_process`: each gives the result tensor
as it is once `ggml_graph_compute_with_ctx` has computed the graph. -/
structure ggml_ops (F : Type) where
  ggml_mul_mat : tensor_f32 F → tensor_f32 F → tensor_f32 F
  ggml_add : tensor_f32 F → tensor_f32 F → tensor_f32 F
  ggml_tanh : tensor_f32 F → tensor_f32 F

/-- `memcpy(dst, src, n * sizeof(float))` on `float` buffers. -/
def memcpy_floats {F : Type} (dst src : Nat → F) (n : Nat) : Nat → F :=
  fun i => if i < n then src i else dst i

/-- `esn_process(reservoir, input, output)`; `none` is a null pointer. The graph built by
`ggml_build_forward_expand(gf, out)` holds `out` and every tensor it depends on, so after
`ggml_graph_compute_with_ctx` the buffers of `new_state` and `out` hold the results of the
operations; the two `memcpy` calls then copy them. Returns the C return value, the
reservoir and the output tensor. -/
def esn_process {F : Type} (ops : ggml_ops F) (reservoir : Option (esn_reservoir F))
    (input output : Option (tensor_f32 F)) :
    Int × Option (esn_reservoir F) × Option (tensor_f32 F) :=
  match reservoir, input, output with
  | some r, some x, some o =>
    let in_contrib := ops.ggml_mul_mat r.W_in x
    let res_contrib := ops.ggml_mul_mat r.W_res r.state
    let sum := ops.ggml_add in_contrib res_contrib
    let new_state := ops.ggml_tanh sum
    let out := ops.ggml_mul_mat r.W_out new_state
    (0,
     some { r with state := { r.state with
              data := memcpy_floats r.state.data new_state.data r.reservoir_size } },
     some { o with data := memcpy_floats o.data out.data r.output_size })
  | _, _, _ => (-1, reservoir, output)

/-- The tensor operations in exact arithmetic, as the tensor library defines them:
`ggml_mul_mat(a, b)` has `ne0 = a.ne1`, `ne1 = b.ne1`, and its element `i` of row `j` is the dot
product of row `i` of `a` with row `j` of `b`; `ggml_add` and `ggml_tanh` work element by element
(`tanhf` is the hyperbolic tangent). -/
def ggml_exact {F : Type} [Field F] (tanhf : F → F) : ggml_ops F :=
  { ggml_mul_mat := fun a b =>
      { ne0 := a.ne1, ne1 := b.ne1
        data := fun idx => Finset.sum (Finset.range a.ne0)
          (fun k => a.data (k + (idx % a.ne1) * a.ne0) * b.data (k + (idx / a.ne1) * b.ne0)) }
    ggml_add := fun a b => { a with data := fun i => a.data i + b.data i }
    ggml_tanh := fun a => { a with data := fun i => tanhf (a.data i) } }

/-- The `rows x cols` matrix held by a weight tensor: entry `(i, k)` is at index
`k + i * cols` of the buffer. -/
def tensor_matrix {F : Type} (rows cols : Nat) (t : tensor_f32 F) :
    Matrix (Fin rows) (Fin cols) F :=
  fun i k => t.data (k.val + i.val * cols)

/-- The vector of the first `n` elements of a tensor buffer. -/
def tensor_vector {F : Type} (n : Nat) (t : tensor_f32 F) : Fin n → F :=
  fun i => t.data i.val

/-- A reservoir with one input, two units and one output: `W_in = (1, 2)`,
`W_res` the zero matrix, `W_out = (1, 1)`, state zero. -/
def esn_example (F : Type) [Field F] : esn_reservoir F :=
  { ctx := 1
    W_in := { ne0 := 1, ne1 := 2, data := fun i => if i = 0 then 1 else 2 }
    W_res := { ne0 := 2, ne1 := 2, data := fun _ => 0 }
    W_out := { ne0 := 2, ne1 := 1, data := fun _ => 1 }
    state := { ne0 := 2, ne1 := 1, data := fun _ => 0 }
    input_size := 1, reservoir_size := 2, output_size := 1
    spectral_radius := 1 }

/-- A one-element tensor holding `1`. -/
def esn_example_input (F : Type) [Field F] : tensor_f32 F :=
  { ne0 := 1, ne1 := 1, data := fun _ => 1 }

/-- The arena of the example of a pointer whose bytes were reused: a heap of 1024 bytes
at address 64 after `a = dtesn_mem_alloc(64)` (144), `b = dtesn_mem_alloc(64)` (288),
`dtesn_mem_free(b)`, `dtesn_mem_free(a)`, `dtesn_mem_alloc(0)`, `dtesn_mem_alloc(0)` and
`dtesn_mem_alloc(64, MEM_REGION_DATA)`. -/
def arena_example_reused : memory_t :=
  (dtesn_mem_alloc (dtesn_mem_alloc (dtesn_mem_alloc
    (dtesn_mem_free (dtesn_mem_free
      (dtesn_mem_alloc (dtesn_mem_alloc (dtesn_mem_init memory_zero 64 1024).2
        0 64 mem_region_t.MEM_REGION_HEAP).2 0 64 mem_region_t.MEM_REGION_HEAP).2 288) 144)
    0 0 mem_region_t.MEM_REGION_HEAP).2 0 0 mem_region_t.MEM_REGION_HEAP).2
    0 64 mem_region_t.MEM_REGION_DATA).2

/-! ## Priority scheduler: callbacks that call the scheduler -/

/-- The "Remove task" step of `dtesn_sched_tick` for the slot `i`:
`task->active = false; scheduler.task_count--;`. -/
def sched_remove (s : scheduler_t) (i : Nat) : scheduler_t :=
  { s with tasks := Function.update s.tasks i { s.tasks i with active := false }
           task_count := sub64 s.task_count 1 }

/-- The scheduler after the `dtesn_sched_task` calls `l` (`fn`, `data`, `priority` and
`depth` of each), made in order. -/
def run_tasks (s : scheduler_t) (l : List (Nat × Nat × Nat × Nat)) : scheduler_t :=
  l.foldl (fun t a => (dtesn_sched_task t a.1 a.2.1 a.2.2.1 a.2.2.2).2) s

/-- A callback environment whose callbacks call `dtesn_sched_task` any number of times,
with any arguments, and make no other call into the scheduler (the scheduler record
is `static` in `scheduler.c`: a callback reaches it only through the three functions). -/
def call_submits (call : Nat → Nat → scheduler_t → scheduler_t) : Prop :=
  ∀ fn data s, ∃ l, call fn data s = run_tasks s l

/-- Scheduler states reachable from `dtesn_sched_init()` when no callback calls
`dtesn_sched_tick`, together with the values the `dtesn_sched_task` calls have returned so
far, latest first: by `dtesn_sched_task` with any arguments, called by the client or by
a callback during a tick, and by the step of `dtesn_sched_tick` that removes a pending
task after its callback has returned. -/
inductive sched_hist : scheduler_t → List Nat → Prop where
  | init : sched_hist (dtesn_sched_init scheduler_zero).2 []
  | task (s : scheduler_t) (hs : List Nat) (fn data priority depth : Nat) :
      sched_hist s hs →
      sched_hist (dtesn_sched_task s fn data priority depth).2
        ((dtesn_sched_task s fn data priority depth).1 :: hs)
  | remove (s : scheduler_t) (hs : List Nat) (i : Nat) :
      sched_hist s hs → i < MAX_TASKS → (s.tasks i).active = true →
      sched_hist (sched_remove s i) hs

/-- Invariant of the states of `sched_hist`: `task_count` is the number of pending slots;
`next_handle` is one more than the number `n` of tasks stored so far (modulo `2^64`),
and the values returned so far are 0 or one of the first `n` handles. -/
def hist_inv (s : scheduler_t) (hs : List Nat) : Prop :=
  s.initialized = true ∧ s.task_count = active_count s ∧
    ∃ n, n ≤ hs.length ∧ s.next_handle = (n + 1) % WORD ∧
      ∀ h ∈ hs, h = 0 ∨ ∃ i, i < n ∧ h = (i + 1) % WORD

/-- A callback environment whose callbacks call `dtesn_sched_tick()` once: the nested tick
invokes the callbacks of the pending tasks, the running one included, and these
invocations return without a call into the scheduler. -/
def call_reenter : Nat → Nat → scheduler_t → scheduler_t :=
  fun _ _ s => (dtesn_sched_tick call_pure s).sched

/-- The static scheduler record after a `dtesn_sched_tick()`. -/
def sched_after_tick (call : Nat → Nat → scheduler_t → scheduler_t) (s : scheduler_t) :
    scheduler_t :=
  (dtesn_sched_tick call s).sched

/-- The scheduler after `dtesn_sched_init()`, one `dtesn_sched_task` and a `dtesn_sched_tick()`
during which the callback of the task calls `dtesn_sched_tick()`. -/
def sched_reentered : scheduler_t :=
  sched_after_tick call_reenter
    (dtesn_sched_task (dtesn_sched_init scheduler_zero).2 101 7 PRIORITY_LOW 0).2

/-! ## Priority scheduler: submissions in order -/

/-- The arguments of one `dtesn_sched_task(fn, data, priority, depth)` call. -/
structure submission where
  fn : Nat
  data : Nat
  priority : Nat
  depth : Nat
deriving DecidableEq, Repr

/-- Scheduler states reachable from `dtesn_sched_init()` by `dtesn_sched_task` with a priority of
`task_priority_t` and by `dtesn_sched_tick` with callbacks that do not call the scheduler,
together with the values the `dtesn_sched_task` calls have returned so far (latest
first) and the submissions stored since the last tick, in the order in which they
were made: a `dtesn_sched_task` call that stored a task (it changed `task_count`) adds
its arguments at the end. -/
inductive sched_subs : scheduler_t → List Nat → List submission → Prop where
  | init : sched_subs (dtesn_sched_init scheduler_zero).2 [] []
  | task (s : scheduler_t) (hs : List Nat) (l : List submission) (a : submission) :
      sched_subs s hs l → a.priority ≤ PRIORITY_LOW →
      sched_subs (dtesn_sched_task s a.fn a.data a.priority a.depth).2
        ((dtesn_sched_task s a.fn a.data a.priority a.depth).1 :: hs)
        (if (dtesn_sched_task s a.fn a.data a.priority a.depth).2.task_count = s.task_count
          then l else l ++ [a])
  | tick (s : scheduler_t) (hs : List Nat) (l : List submission)
      (call : Nat → Nat → scheduler_t → scheduler_t) :
      sched_subs s hs l → (∀ fn data t, call fn data t = t) →
      sched_subs (dtesn_sched_tick call s).sched hs []

/-- The callback invocations of one priority tier for the submissions `l`, which are
stored from the slot `i` on: those of the priority `prio`, in the order of `l`. -/
def tier_calls (prio : Nat) : Nat → List submission → List task_call
  | _, [] => []
  | i, a :: l =>
    if a.priority = prio then { slot := i, fn := a.fn, data := a.data } :: tier_calls prio (i + 1) l
    else tier_calls prio (i + 1) l

/-- The scheduler after `dtesn_sched_init()` and four `dtesn_sched_task` calls at priorities
normal, critical, normal, critical (callbacks 201 to 204). -/
def sched_example_tiers : scheduler_t :=
  (dtesn_sched_task (dtesn_sched_task (dtesn_sched_task (dtesn_sched_task
    (dtesn_sched_init scheduler_zero).2
    201 1 PRIORITY_NORMAL 0).2 202 2 PRIORITY_CRITICAL 0).2 203 3 PRIORITY_NORMAL 0).2
    204 4 PRIORITY_CRITICAL 0).2

/-! # Theorems -/

/-! ## Memory arena -/

theorem align_size_eq (size : Nat) :
    align_size size = (size + 63) % WORD - ((size + 63) % WORD) % 64 := by
  have key : ∀ t : Nat, t < 2 ^ 64 → t &&& (2 ^ 64 - 64) = t - t % 64 := by
    intro t ht
    have h1 : (2 : Nat) ^ 64 - 64 = (2 ^ 58 - 1) <<< 6 := by
      rw [Nat.shiftLeft_eq]; norm_num
    have h2 : t - t % 64 = (t / 64) <<< 6 := by
      rw [Nat.shiftLeft_eq]; omega
    apply Nat.eq_of_testBit_eq
    intro i
    rw [Nat.testBit_land, h1, Nat.testBit_shiftLeft, h2, Nat.testBit_shiftLeft,
      Nat.testBit_two_pow_sub_one]
    by_cases h6 : 6 ≤ i
    · simp only [h6, ge_iff_le, decide_True, Bool.true_and]
      have h3 : t / 64 = t >>> 6 := by rw [Nat.shiftRight_eq_div_pow]
      have e : 6 + (i - 6) = i := by omega
      rw [h3, Nat.testBit_shiftRight, e]
      by_cases h58 : i - 6 < 58
      · simp [h58]
      · simp only [h58, decide_False, Bool.and_false]
        symm
        apply Nat.testBit_eq_false_of_lt
        calc t < 2 ^ 64 := ht
          _ ≤ 2 ^ i := Nat.pow_le_pow_right (by norm_num) (by omega)
    · simp [h6]
  unfold align_size ALIGNMENT WORD
  have ht : (size + 64 - 1) % 2 ^ 64 < 2 ^ 64 := Nat.mod_lt _ (by norm_num)
  rw [key _ ht]
  rfl

theorem tiles_total (l : List mem_block_t) :
    ∀ start stop, tiles start l stop → start + total_bytes l = stop := by
  induction l with
  | nil => intro start stop h; simpa [tiles, total_bytes] using h
  | cons b l ih =>
    intro start stop h
    obtain ⟨_, h2⟩ := h
    have := ih _ _ h2
    simp only [total_bytes, List.map_cons, List.sum_cons] at this ⊢
    omega

theorem tiles_alloc_loop (size : Nat) (region : mem_region_t) (l : List mem_block_t) :
    ∀ start stop, tiles start l stop → 64 ≤ start → stop < WORD →
      tiles start (alloc_loop size region l).blocks stop := by
  induction l with
  | nil => intro start stop h _ _; simpa [alloc_loop] using h
  | cons b l ih =>
    intro start stop h hs he
    obtain ⟨h1, h2⟩ := h
    have hle := tiles_total l _ _ h2
    unfold alloc_loop
    split_ifs with hc hsplit
    · simp only [Bool.and_eq_true, Bool.not_eq_true', decide_eq_true_eq] at hc
      refine ⟨h1, ?_, ?_⟩
      · simp only; omega
      · simp only
        have hx : sub64 (sub64 b.size size) sizeof_mem_block_t
            = b.size - size - sizeof_mem_block_t := by
          unfold add64 sub64 WORD sizeof_mem_block_t ALIGNMENT at *
          omega
        have hy : size + sizeof_mem_block_t + ALIGNMENT < b.size := by
          unfold add64 sub64 WORD sizeof_mem_block_t ALIGNMENT at *
          omega
        rw [hx]
        have e : start + sizeof_mem_block_t + size + sizeof_mem_block_t
            + (b.size - size - sizeof_mem_block_t) = start + sizeof_mem_block_t + b.size := by
          unfold ALIGNMENT at hy; omega
        rw [e]
        exact h2
    · exact ⟨h1, h2⟩
    · refine ⟨h1, ?_⟩
      apply ih _ _ h2
      · omega
      · exact he

theorem tiles_coalesce (l : List mem_block_t) :
    ∀ curr start stop, tiles start (curr :: l) stop → stop < WORD →
      tiles start (coalesce curr l).1 stop := by
  induction l with
  | nil => intro curr start stop h _; simpa [coalesce] using h
  | cons next rest ih =>
    intro curr start stop h he
    obtain ⟨h1, h2, h3⟩ := h
    have hle := tiles_total rest _ _ h3
    unfold coalesce
    split_ifs with hc
    · apply ih _ _ _ _ he
      refine ⟨h1, ?_⟩
      have hx : add64 curr.size (add64 sizeof_mem_block_t next.size)
          = curr.size + sizeof_mem_block_t + next.size := by
        unfold add64 WORD at *
        omega
      simp only [hx]
      have e : start + sizeof_mem_block_t + (curr.size + sizeof_mem_block_t + next.size)
          = start + sizeof_mem_block_t + curr.size + sizeof_mem_block_t + next.size := by
        omega
      rw [e]
      exact h3
    · exact ⟨h1, ih _ _ _ ⟨h2, h3⟩ he⟩

theorem tiles_coalesce_all (l : List mem_block_t) (start stop : Nat)
    (h : tiles start l stop) (he : stop < WORD) : tiles start (coalesce_all l).1 stop := by
  cases l with
  | nil => simpa [coalesce_all] using h
  | cons b rest => exact tiles_coalesce rest b start stop h he

theorem tiles_clear_allocated (block : Nat) (l : List mem_block_t) :
    ∀ start stop, tiles start l stop → tiles start (clear_allocated block l) stop := by
  induction l with
  | nil => intro start stop h; simpa [clear_allocated] using h
  | cons b l ih =>
    intro start stop h
    obtain ⟨h1, h2⟩ := h
    have := ih _ _ h2
    simp only [clear_allocated, List.map_cons] at this ⊢
    by_cases hb : b.addr = block
    · simp only [hb, if_true]
      exact ⟨by simpa [hb] using h1, this⟩
    · simp only [hb, if_false]
      exact ⟨h1, this⟩

theorem tiles_clear_region_at (a : Nat) (l : List mem_block_t) :
    ∀ start stop, tiles start l stop → tiles start (clear_region_at a l) stop := by
  induction l with
  | nil => intro start stop h; simpa [clear_region_at] using h
  | cons b l ih =>
    intro start stop h
    obtain ⟨h1, h2⟩ := h
    have := ih _ _ h2
    simp only [clear_region_at, List.map_cons] at this ⊢
    by_cases hb : b.addr + offsetof_region = a
    · rw [if_pos hb]
      exact ⟨h1, this⟩
    · rw [if_neg hb]
      exact ⟨h1, this⟩

theorem arena_inv_init (base H : Nat) (hH : sizeof_mem_block_t ≤ H) (hb : base ≠ 0)
    (hfit : base + H < WORD) : arena_inv base H (dtesn_mem_init memory_zero base H).2 := by
  have hH0 : H ≠ 0 := by unfold sizeof_mem_block_t at hH; omega
  have hs : sub64 H sizeof_mem_block_t = H - sizeof_mem_block_t := by
    unfold sub64 WORD at *; omega
  simp only [dtesn_mem_init, memory_zero, hH0, hb, if_false, arena_inv, tiles, hs,
    Bool.false_eq_true, true_and]
  omega

theorem arena_inv_alloc (base H : Nat) (hb : 64 ≤ base) (hfit : base + H < WORD)
    (m : memory_t) (aa size : Nat) (region : mem_region_t) (h : arena_inv base H m) :
    arena_inv base H (dtesn_mem_alloc m aa size region).2 := by
  obtain ⟨hi, hbase, hsize, ht⟩ := h
  have e : (dtesn_mem_alloc m aa size region).2
      = { m with free_list := (alloc_loop (align_size size) region m.free_list).blocks,
                 heap := alloc_stores m.heap (alloc_loop (align_size size) region m.free_list)
                   region } := by
    simp [dtesn_mem_alloc, hi]
  rw [e]
  exact ⟨hi, hbase, hsize, tiles_alloc_loop _ _ _ _ _ ht hb hfit⟩

theorem arena_inv_free (base H : Nat) (hfit : base + H < WORD)
    (m : memory_t) (p : Nat) (h : arena_inv base H m) :
    arena_inv base H (dtesn_mem_free m p) := by
  obtain ⟨hi, hbase, hsize, ht⟩ := h
  unfold dtesn_mem_free
  split_ifs with h0
  · exact ⟨hi, hbase, hsize, ht⟩
  · dsimp only
    split
    · split_ifs
      · exact ⟨hi, hbase, hsize, ht⟩
      · exact ⟨hi, hbase, hsize,
          tiles_coalesce_all _ _ _ (tiles_clear_allocated _ _ _ _ ht) hfit⟩
    · split_ifs
      · exact ⟨hi, hbase, hsize, ht⟩
      · exact ⟨hi, hbase, hsize,
          tiles_coalesce_all _ _ _ (tiles_clear_region_at _ _ _ _ ht) hfit⟩

theorem arena_reach_inv (base H : Nat) (hH : sizeof_mem_block_t ≤ H) (hb : base ≠ 0)
    (hal : base % ALIGNMENT = 0) (hfit : base + H < WORD) (m : memory_t) (ps : List Nat)
    (hr : arena_reach base H m ps) : arena_inv base H m := by
  have hb64 : 64 ≤ base := by unfold ALIGNMENT at hal; omega
  induction hr with
  | init => exact arena_inv_init base H hH hb hfit
  | alloc m ps aa size region _ _ ih => exact arena_inv_alloc base H hb64 hfit m aa size region ih
  | free m ps p _ _ ih => exact arena_inv_free base H hfit m p ih
  | write m ps a v _ _ _ ih => exact ih

/-- C1: in every arena state reached from a successful `dtesn_mem_init(H)`, `H` at least
one block header, by any sequence of `dtesn_mem_alloc` and `dtesn_mem_free` calls
(free on `NULL` or on pointers returned by alloc), the sum over the blocks of the
chain of block size plus header size is `H`. The heap `aligned_alloc` returned is a
non-null, 64-byte aligned object that fits in the 64-bit address space. -/
theorem arena_total_bytes_eq_heap_size (base H : Nat) (hH : sizeof_mem_block_t ≤ H)
    (hb : base ≠ 0) (hal : base % ALIGNMENT = 0) (hfit : base + H < WORD)
    (m : memory_t) (ps : List Nat) (hr : arena_reach base H m ps) :
    total_bytes m.free_list = H := by
  obtain ⟨_, _, _, ht⟩ := arena_reach_inv base H hH hb hal hfit m ps hr
  have := tiles_total _ _ _ ht
  omega

theorem arena_total_bytes_eq_heap_size_witness :
    total_bytes (dtesn_mem_free (dtesn_mem_alloc (dtesn_mem_init memory_zero 64 1024).2 0 100
      mem_region_t.MEM_REGION_TENSOR).2 144).free_list = 1024 :=
  arena_total_bytes_eq_heap_size 64 1024 (by decide) (by decide) (by decide) (by decide) _ _
    (arena_reach.free _ _ 144
      (arena_reach.alloc _ _ 0 100 mem_region_t.MEM_REGION_TENSOR arena_reach.init (by decide))
      (by decide))

theorem tiles_bounds (l : List mem_block_t) :
    ∀ start stop, tiles start l stop →
      ∀ b ∈ l, start ≤ b.addr ∧ b.addr + sizeof_mem_block_t + b.size ≤ stop := by
  induction l with
  | nil => intro _ _ _ b hb; cases hb
  | cons a l ih =>
    intro start stop h b hb
    obtain ⟨h1, h2⟩ := h
    have hle := tiles_total l _ _ h2
    rcases List.mem_cons.mp hb with rfl | hb
    · omega
    · have := ih _ _ h2 b hb
      omega

theorem tiles_chain (l : List mem_block_t) :
    ∀ start stop, tiles start l stop →
      List.Chain' (fun a b => b.addr = a.addr + sizeof_mem_block_t + a.size) l := by
  induction l with
  | nil => intro _ _ _; exact List.chain'_nil
  | cons a l ih =>
    intro start stop h
    obtain ⟨h1, h2⟩ := h
    cases l with
    | nil => exact List.chain'_singleton a
    | cons c l =>
      refine List.chain'_cons.mpr ⟨?_, ih _ _ h2⟩
      rw [h2.1, h1]

theorem tiles_last (l : List mem_block_t) :
    ∀ start stop, tiles start l stop → l ≠ [] →
      ∃ b, l.getLast? = some b ∧ b.addr + sizeof_mem_block_t + b.size = stop := by
  induction l with
  | nil => intro _ _ _ h; exact absurd rfl h
  | cons a l ih =>
    intro start stop h _
    obtain ⟨h1, h2⟩ := h
    cases l with
    | nil =>
      refine ⟨a, rfl, ?_⟩
      have : start + sizeof_mem_block_t + a.size = stop := h2
      omega
    | cons c l =>
      obtain ⟨b, hb, he⟩ := ih _ _ h2 (List.cons_ne_nil c l)
      refine ⟨b, ?_, he⟩
      rw [List.getLast?_cons_cons]
      exact hb

theorem tiles_pairwise (l : List mem_block_t) :
    ∀ start stop, tiles start l stop →
      List.Pairwise (fun a b => a.addr + sizeof_mem_block_t + a.size ≤ b.addr) l := by
  induction l with
  | nil => intro _ _ _; exact List.Pairwise.nil
  | cons a l ih =>
    intro start stop h
    obtain ⟨h1, h2⟩ := h
    refine List.Pairwise.cons ?_ (ih _ _ h2)
    intro b hb
    have := (tiles_bounds l _ _ h2 b hb).1
    omega

/-- C2: in every arena state reached from a successful `dtesn_mem_init(H)` (`H` at least one
block header) by `dtesn_mem_alloc` and `dtesn_mem_free`, the blocks tile the heap: the
first block starts at the heap base, the successor of each block starts at its
address + header size + its size, the last block ends at base + `H`; so for two
allocated blocks the user region of the earlier one ends where the header of the
later one starts or before it (the regions `[ptr, ptr + size)` are disjoint), and
every user region lies inside the heap. -/
theorem arena_blocks_tile_heap (base H : Nat) (hH : sizeof_mem_block_t ≤ H)
    (hb : base ≠ 0) (hal : base % ALIGNMENT = 0) (hfit : base + H < WORD)
    (m : memory_t) (ps : List Nat) (hr : arena_reach base H m ps) :
    m.heap_base = base ∧ m.heap_size = H ∧
    (∃ b rest, m.free_list = b :: rest ∧ b.addr = m.heap_base) ∧
    List.Chain' (fun a b => b.addr = a.addr + sizeof_mem_block_t + a.size) m.free_list ∧
    (∃ b, m.free_list.getLast? = some b ∧
      b.addr + sizeof_mem_block_t + b.size = m.heap_base + m.heap_size) ∧
    List.Pairwise (fun a b => a.allocated = true → b.allocated = true →
      (a.addr + sizeof_mem_block_t) + a.size ≤ b.addr ∧
      b.addr < b.addr + sizeof_mem_block_t) m.free_list ∧
    (∀ b ∈ m.free_list, b.allocated = true →
      m.heap_base ≤ b.addr + sizeof_mem_block_t ∧
      (b.addr + sizeof_mem_block_t) + b.size ≤ m.heap_base + m.heap_size) := by
  obtain ⟨_, hbase, hsize, ht⟩ := arena_reach_inv base H hH hb hal hfit m ps hr
  have hne : m.free_list ≠ [] := by
    intro h
    rw [h] at ht
    have : base = base + H := ht
    unfold sizeof_mem_block_t at hH
    omega
  refine ⟨hbase, hsize, ?_, tiles_chain _ _ _ ht, ?_, ?_, ?_⟩
  · cases hl : m.free_list with
    | nil => exact absurd hl hne
    | cons b rest =>
      rw [hl] at ht
      exact ⟨b, rest, rfl, by rw [hbase]; exact ht.1⟩
  · rw [hbase, hsize]
    exact tiles_last _ _ _ ht hne
  · refine (tiles_pairwise _ _ _ ht).imp ?_
    intro a b hab _ _
    refine ⟨hab, ?_⟩
    unfold sizeof_mem_block_t
    omega
  · intro b hbm _
    have := tiles_bounds _ _ _ ht b hbm
    rw [hbase, hsize]
    omega

theorem arena_blocks_tile_heap_witness :
    (dtesn_mem_alloc (dtesn_mem_alloc (dtesn_mem_init memory_zero 64 1024).2 0 100
        mem_region_t.MEM_REGION_TENSOR).2 0 1 mem_region_t.MEM_REGION_DATA).2.free_list
      = [{ addr := 64, size := 128, region := mem_region_t.MEM_REGION_TENSOR, allocated := true },
         { addr := 272, size := 64, region := mem_region_t.MEM_REGION_DATA, allocated := true },
         { addr := 416, size := 592, region := mem_region_t.MEM_REGION_HEAP, allocated := false }]
    ∧ List.Chain' (fun a b => b.addr = a.addr + sizeof_mem_block_t + a.size)
        (dtesn_mem_alloc (dtesn_mem_alloc (dtesn_mem_init memory_zero 64 1024).2 0 100
          mem_region_t.MEM_REGION_TENSOR).2 0 1 mem_region_t.MEM_REGION_DATA).2.free_list :=
  ⟨by decide,
   (arena_blocks_tile_heap 64 1024 (by decide) (by decide) (by decide) (by decide) _ _
    (arena_reach.alloc _ _ 0 1 mem_region_t.MEM_REGION_DATA
      (arena_reach.alloc _ _ 0 100 mem_region_t.MEM_REGION_TENSOR arena_reach.init (by decide))
      (by decide))).2.2.2.1⟩

/-! ## Priority scheduler -/

theorem tick_slot_tasks_of_ne (call : Nat → Nat → scheduler_t → scheduler_t)
    (hcall : ∀ fn data s, call fn data s = s) (p : Nat) (st : tick_state) (i j : Nat)
    (hji : j ≠ i) : (tick_slot call p st i).sched.tasks j = st.sched.tasks j := by
  unfold tick_slot
  dsimp only
  split_ifs
  · rfl
  · simp [hcall, Function.update, hji]

theorem tick_slot_of_pending (call : Nat → Nat → scheduler_t → scheduler_t)
    (hcall : ∀ fn data s, call fn data s = s) (p : Nat) (st : tick_state) (i : Nat)
    (hc : is_pending st.sched p i = true) :
    tick_slot call p st i
      = { sched := { st.sched with
            tasks := Function.update st.sched.tasks i { st.sched.tasks i with active := false }
            task_count := sub64 st.sched.task_count 1 }
          executed := st.executed + 1
          calls := st.calls ++ [call_of st.sched i] } := by
  simp only [is_pending, Bool.and_eq_true, decide_eq_true_eq] at hc
  unfold tick_slot call_of
  simp [hc.1, hc.2, hcall]

theorem tick_slot_of_not_pending (call : Nat → Nat → scheduler_t → scheduler_t)
    (p : Nat) (st : tick_state) (i : Nat) (hc : is_pending st.sched p i = false) :
    tick_slot call p st i = st := by
  simp only [is_pending, Bool.and_eq_false_imp, decide_eq_false_iff_not] at hc
  unfold tick_slot
  have : (st.sched.tasks i).active = false ∨ (st.sched.tasks i).priority ≠ p := by
    by_cases ha : (st.sched.tasks i).active = true
    · exact Or.inr (hc ha)
    · exact Or.inl (by simpa using ha)
  simp [this]

theorem tick_fold_spec (call : Nat → Nat → scheduler_t → scheduler_t)
    (hcall : ∀ fn data s, call fn data s = s) (p : Nat) :
    ∀ (is : List Nat) (st : tick_state), is.Nodup →
      (is.foldl (tick_slot call p) st).calls
          = st.calls ++ (is.filter (is_pending st.sched p)).map (call_of st.sched)
      ∧ (is.foldl (tick_slot call p) st).executed
          = st.executed + ((is.filter (is_pending st.sched p)).length : Int)
      ∧ (∀ j, (is.foldl (tick_slot call p) st).sched.tasks j
          = if j ∈ is ∧ is_pending st.sched p j = true
            then { st.sched.tasks j with active := false } else st.sched.tasks j)
      ∧ (is.foldl (tick_slot call p) st).sched.initialized = st.sched.initialized := by
  intro is
  induction is with
  | nil => intro st _; simp
  | cons i rest ih =>
    intro st hnd
    obtain ⟨hi, hrest⟩ := List.nodup_cons.mp hnd
    have hsame : ∀ j ∈ rest, (tick_slot call p st i).sched.tasks j = st.sched.tasks j :=
      fun j hj => tick_slot_tasks_of_ne call hcall p st i j (fun e => hi (e ▸ hj))
    obtain ⟨h1, h2, h3, h4⟩ := ih (tick_slot call p st i) hrest
    have hfilt : rest.filter (is_pending (tick_slot call p st i).sched p)
        = rest.filter (is_pending st.sched p) := by
      apply List.filter_congr
      intro k hk
      simp only [is_pending, hsame k hk]
    have hmap : (rest.filter (is_pending st.sched p)).map (call_of (tick_slot call p st i).sched)
        = (rest.filter (is_pending st.sched p)).map (call_of st.sched) := by
      apply List.map_congr_left
      intro k hk
      simp only [call_of, hsame k (List.mem_filter.mp hk).1]
    have hpend : ∀ j ∈ rest, is_pending (tick_slot call p st i).sched p j
        = is_pending st.sched p j := by
      intro j hj
      simp only [is_pending, hsame j hj]
    rw [List.foldl_cons, h1, h2, h4, hfilt, hmap]
    cases hc : is_pending st.sched p i with
    | true =>
      have hstep := tick_slot_of_pending call hcall p st i hc
      have hf : (i :: rest).filter (is_pending st.sched p)
          = i :: rest.filter (is_pending st.sched p) := List.filter_cons_of_pos hc
      refine ⟨?_, ?_, ?_, ?_⟩
      · rw [hf, hstep]; simp
      · rw [hf, hstep]; simp only [List.length_cons, Nat.cast_add, Nat.cast_one]; ring
      · intro j
        rw [h3 j]
        by_cases hji : j = i
        · subst hji
          simp [hstep, hi, hc]
        · by_cases hj : j ∈ rest
          · rw [hpend j hj, hsame j hj]
            simp [hji, hj]
          · rw [tick_slot_tasks_of_ne call hcall p st i j hji]
            simp [hji, hj]
      · rw [hstep]
    | false =>
      have hstep := tick_slot_of_not_pending call p st i hc
      have hf : (i :: rest).filter (is_pending st.sched p)
          = rest.filter (is_pending st.sched p) :=
        List.filter_cons_of_neg (by simp [hc])
      refine ⟨?_, ?_, ?_, ?_⟩
      · rw [hf, hstep]
      · rw [hf, hstep]
      · intro j
        rw [h3 j, hstep]
        by_cases hji : j = i
        · subst hji
          simp [hi, hc]
        · simp [hji]
      · rw [hstep]
theorem tick_priority_spec (call : Nat → Nat → scheduler_t → scheduler_t)
    (hcall : ∀ fn data s, call fn data s = s) (p : Nat) (st : tick_state) :
    (tick_priority call st p).calls
        = st.calls ++ (pending_slots st.sched p).map (call_of st.sched)
    ∧ (tick_priority call st p).executed
        = st.executed + ((pending_slots st.sched p).length : Int)
    ∧ (∀ q, q ≠ p → ∀ j, is_pending (tick_priority call st p).sched q j
        = is_pending st.sched q j)
    ∧ (∀ j, call_of (tick_priority call st p).sched j = call_of st.sched j)
    ∧ (∀ j, j < MAX_TASKS → is_pending (tick_priority call st p).sched p j = false)
    ∧ (tick_priority call st p).sched.initialized = st.sched.initialized := by
  unfold tick_priority pending_slots
  generalize MAX_TASKS = n
  obtain ⟨h1, h2, h3, h4⟩ :=
    tick_fold_spec call hcall p (List.range n) st (List.nodup_range n)
  refine ⟨h1, h2, ?_, ?_, ?_, h4⟩
  · intro q hq j
    simp only [is_pending, h3 j]
    split_ifs with hc
    · have hp := hc.2
      simp only [is_pending, Bool.and_eq_true, decide_eq_true_eq] at hp
      simp [hp.2, Ne.symm hq]
    · rfl
  · intro j
    simp only [call_of, h3 j]
    split_ifs <;> rfl
  · intro j hj
    simp only [is_pending, h3 j]
    split_ifs with hc
    · simp
    · simp only [List.mem_range, hj, true_and] at hc
      simpa using hc

theorem pending_slots_congr (s t : scheduler_t) (q : Nat)
    (h : ∀ j, is_pending t q j = is_pending s q j) : pending_slots t q = pending_slots s q := by
  unfold pending_slots
  exact List.filter_congr (fun j _ => h j)

theorem pending_slots_pairwise (s : scheduler_t) (q : Nat) :
    List.Pairwise (fun a b => a < b) (pending_slots s q) := by
  unfold pending_slots
  exact List.Pairwise.sublist (List.filter_sublist _) (List.pairwise_lt_range _)

theorem mem_pending_slots (s : scheduler_t) (q i : Nat) :
    i ∈ pending_slots s q ↔
      i < MAX_TASKS ∧ (s.tasks i).active = true ∧ (s.tasks i).priority = q := by
  simp [pending_slots, is_pending, List.mem_filter, List.mem_range]

/-- The four passes of `dtesn_sched_tick` with callbacks that leave the scheduler alone. -/
theorem sched_tick_calls (call : Nat → Nat → scheduler_t → scheduler_t)
    (hcall : ∀ fn data s, call fn data s = s) (s : scheduler_t) (hinit : s.initialized = true) :
    (dtesn_sched_tick call s).calls
        = (pending_slots s PRIORITY_CRITICAL ++ pending_slots s PRIORITY_HIGH
            ++ pending_slots s PRIORITY_NORMAL ++ pending_slots s PRIORITY_LOW).map (call_of s)
    ∧ (dtesn_sched_tick call s).executed
        = (((pending_slots s PRIORITY_CRITICAL ++ pending_slots s PRIORITY_HIGH
            ++ pending_slots s PRIORITY_NORMAL ++ pending_slots s PRIORITY_LOW).length : Nat) : Int)
    ∧ (∀ q, q ≤ PRIORITY_LOW → ∀ j, j < MAX_TASKS →
        is_pending (dtesn_sched_tick call s).sched q j = false) := by
  have hr : List.range' PRIORITY_CRITICAL (PRIORITY_LOW + 1 - PRIORITY_CRITICAL) = [0, 1, 2, 3] := by
    decide
  unfold dtesn_sched_tick
  rw [if_neg (by rw [hinit]; exact Bool.noConfusion), hr]
  rw [List.foldl_cons, List.foldl_cons, List.foldl_cons, List.foldl_cons, List.foldl_nil]
  generalize hst0 : ({ sched := s, executed := 0, calls := [] } : tick_state) = st0
  have hs0 : st0.sched = s := by rw [← hst0]
  have hc0 : st0.calls = [] := by rw [← hst0]
  have he0 : st0.executed = 0 := by rw [← hst0]
  obtain ⟨a1, a2, a3, a4, a5, _⟩ := tick_priority_spec call hcall 0 st0
  generalize tick_priority call st0 0 = st1 at *
  obtain ⟨b1, b2, b3, b4, b5, _⟩ := tick_priority_spec call hcall 1 st1
  generalize tick_priority call st1 1 = st2 at *
  obtain ⟨c1, c2, c3, c4, c5, _⟩ := tick_priority_spec call hcall 2 st2
  generalize tick_priority call st2 2 = st3 at *
  obtain ⟨d1, d2, d3, d4, d5, _⟩ := tick_priority_spec call hcall 3 st3
  generalize tick_priority call st3 3 = st4 at *
  have p1 : pending_slots st1.sched 1 = pending_slots s 1 := by
    rw [← hs0]; exact pending_slots_congr _ _ _ (a3 1 (by decide))
  have p2 : pending_slots st2.sched 2 = pending_slots s 2 := by
    rw [← hs0]
    exact pending_slots_congr _ _ _ (fun j => by rw [b3 2 (by decide), a3 2 (by decide)])
  have p3 : pending_slots st3.sched 3 = pending_slots s 3 := by
    rw [← hs0]
    exact pending_slots_congr _ _ _
      (fun j => by rw [c3 3 (by decide), b3 3 (by decide), a3 3 (by decide)])
  have q1 : call_of st1.sched = call_of s := by rw [← hs0]; exact funext a4
  have q2 : call_of st2.sched = call_of s := by rw [← q1]; exact funext b4
  have q3 : call_of st3.sched = call_of s := by rw [← q2]; exact funext c4
  rw [hs0] at a1 a2
  refine ⟨?_, ?_, ?_⟩
  · rw [d1, c1, b1, a1, hc0, p1, p2, p3, q1, q2, q3]
    simp [PRIORITY_CRITICAL, PRIORITY_HIGH, PRIORITY_NORMAL, PRIORITY_LOW]
  · rw [d2, c2, b2, a2, he0, p1, p2, p3]
    simp only [PRIORITY_CRITICAL, PRIORITY_HIGH, PRIORITY_NORMAL, PRIORITY_LOW,
      List.length_append, Nat.cast_add]
    ring
  · intro q hq j hj
    have hq4 : q = 0 ∨ q = 1 ∨ q = 2 ∨ q = 3 := by unfold PRIORITY_LOW at hq; omega
    rcases hq4 with rfl | rfl | rfl | rfl
    · rw [d3 0 (by decide), c3 0 (by decide), b3 0 (by decide)]; exact a5 j hj
    · rw [d3 1 (by decide), c3 1 (by decide)]; exact b5 j hj
    · rw [d3 2 (by decide)]; exact c5 j hj
    · exact d5 j hj
theorem call_of_injective (s : scheduler_t) (i j : Nat) (h : call_of s i = call_of s j) :
    i = j := by
  have := congrArg task_call.slot h
  simpa [call_of] using this

theorem pending_order (s : scheduler_t) (p q : Nat) (hpq : p < q) :
    ∀ a ∈ pending_slots s p, ∀ b ∈ pending_slots s q,
      (s.tasks a).priority < (s.tasks b).priority
        ∨ ((s.tasks a).priority = (s.tasks b).priority ∧ a < b) := by
  intro a ha b hb
  have h1 := ((mem_pending_slots s p a).mp ha).2.2
  have h2 := ((mem_pending_slots s q b).mp hb).2.2
  left; omega

theorem pending_sorted (s : scheduler_t) (p : Nat) :
    List.Pairwise (fun a b => (s.tasks a).priority < (s.tasks b).priority
        ∨ ((s.tasks a).priority = (s.tasks b).priority ∧ a < b)) (pending_slots s p) := by
  have hp := pending_slots_pairwise s p
  have hm : ∀ a ∈ pending_slots s p, (s.tasks a).priority = p :=
    fun a ha => ((mem_pending_slots s p a).mp ha).2.2
  refine List.Pairwise.imp_of_mem ?_ hp
  intro a b ha hb hab
  right
  exact ⟨by rw [hm a ha, hm b hb], hab⟩

/-- C3: on an initialised scheduler whose pending tasks all have a priority in
{critical, high, normal, low} and whose callbacks do not call the scheduler, one
`dtesn_sched_tick()` invokes the callback of each pending task exactly once and of no
other slot, in the order: all critical tasks, then all high, then all normal, then
all low, tasks of equal priority in increasing table-slot order; it returns the
number of invocations. -/
theorem sched_tick_priority_order (call : Nat → Nat → scheduler_t → scheduler_t)
    (hcall : ∀ fn data s, call fn data s = s) (s : scheduler_t) (hinit : s.initialized = true)
    (hprio : ∀ i, i < MAX_TASKS → (s.tasks i).active = true →
      (s.tasks i).priority ≤ PRIORITY_LOW) :
    (dtesn_sched_tick call s).calls
        = (pending_slots s PRIORITY_CRITICAL ++ pending_slots s PRIORITY_HIGH
            ++ pending_slots s PRIORITY_NORMAL ++ pending_slots s PRIORITY_LOW).map (call_of s)
    ∧ (∀ i, i < MAX_TASKS → (s.tasks i).active = true →
        (dtesn_sched_tick call s).calls.count (call_of s i) = 1)
    ∧ (∀ c ∈ (dtesn_sched_tick call s).calls,
        c.slot < MAX_TASKS ∧ (s.tasks c.slot).active = true ∧ c = call_of s c.slot)
    ∧ List.Pairwise (fun a b => (s.tasks a.slot).priority < (s.tasks b.slot).priority
        ∨ ((s.tasks a.slot).priority = (s.tasks b.slot).priority ∧ a.slot < b.slot))
        (dtesn_sched_tick call s).calls
    ∧ (dtesn_sched_tick call s).executed = ((dtesn_sched_tick call s).calls.length : Int) := by
  obtain ⟨hcalls, hexec, _⟩ := sched_tick_calls call hcall s hinit
  have hmem : ∀ i, i ∈ pending_slots s PRIORITY_CRITICAL ++ pending_slots s PRIORITY_HIGH
      ++ pending_slots s PRIORITY_NORMAL ++ pending_slots s PRIORITY_LOW
      ↔ i < MAX_TASKS ∧ (s.tasks i).active = true := by
    intro i
    simp only [List.mem_append, mem_pending_slots]
    constructor
    · rintro (((h | h) | h) | h) <;> exact ⟨h.1, h.2.1⟩
    · rintro ⟨h1, h2⟩
      have := hprio i h1 h2
      unfold PRIORITY_LOW at this
      unfold PRIORITY_CRITICAL PRIORITY_HIGH PRIORITY_NORMAL PRIORITY_LOW
      have h4 : (s.tasks i).priority = 0 ∨ (s.tasks i).priority = 1
          ∨ (s.tasks i).priority = 2 ∨ (s.tasks i).priority = 3 := by omega
      rcases h4 with h | h | h | h
      · exact Or.inl (Or.inl (Or.inl ⟨h1, h2, h⟩))
      · exact Or.inl (Or.inl (Or.inr ⟨h1, h2, h⟩))
      · exact Or.inl (Or.inr ⟨h1, h2, h⟩)
      · exact Or.inr ⟨h1, h2, h⟩
  have hsorted : List.Pairwise (fun a b => (s.tasks a).priority < (s.tasks b).priority
        ∨ ((s.tasks a).priority = (s.tasks b).priority ∧ a < b))
      (pending_slots s PRIORITY_CRITICAL ++ pending_slots s PRIORITY_HIGH
        ++ pending_slots s PRIORITY_NORMAL ++ pending_slots s PRIORITY_LOW) := by
    have h01 : PRIORITY_CRITICAL < PRIORITY_HIGH := by decide
    have h02 : PRIORITY_CRITICAL < PRIORITY_NORMAL := by decide
    have h03 : PRIORITY_CRITICAL < PRIORITY_LOW := by decide
    have h12 : PRIORITY_HIGH < PRIORITY_NORMAL := by decide
    have h13 : PRIORITY_HIGH < PRIORITY_LOW := by decide
    have h23 : PRIORITY_NORMAL < PRIORITY_LOW := by decide
    refine List.pairwise_append.mpr ⟨List.pairwise_append.mpr
      ⟨List.pairwise_append.mpr ⟨pending_sorted s _, pending_sorted s _, ?_⟩,
        pending_sorted s _, ?_⟩, pending_sorted s _, ?_⟩
    · exact pending_order s _ _ h01
    · intro a ha b hb
      rcases List.mem_append.mp ha with ha | ha
      · exact pending_order s _ _ h02 a ha b hb
      · exact pending_order s _ _ h12 a ha b hb
    · intro a ha b hb
      rcases List.mem_append.mp ha with ha | ha
      · rcases List.mem_append.mp ha with ha | ha
        · exact pending_order s _ _ h03 a ha b hb
        · exact pending_order s _ _ h13 a ha b hb
      · exact pending_order s _ _ h23 a ha b hb
  have hnodup : (pending_slots s PRIORITY_CRITICAL ++ pending_slots s PRIORITY_HIGH
        ++ pending_slots s PRIORITY_NORMAL ++ pending_slots s PRIORITY_LOW).Nodup := by
    refine List.Pairwise.imp ?_ hsorted
    intro a b hab e
    subst e
    omega
  refine ⟨hcalls, ?_, ?_, ?_, ?_⟩
  · intro i hi ha
    rw [hcalls]
    apply List.count_eq_one_of_mem
    · exact List.Nodup.map (fun a b h => call_of_injective s a b h) hnodup
    · exact List.mem_map.mpr ⟨i, (hmem i).mpr ⟨hi, ha⟩, rfl⟩
  · intro c hc
    rw [hcalls] at hc
    obtain ⟨i, hi, rfl⟩ := List.mem_map.mp hc
    have := (hmem i).mp hi
    exact ⟨this.1, this.2, rfl⟩
  · rw [hcalls]
    exact List.pairwise_map.mpr hsorted
  · rw [hexec, hcalls, List.length_map]

set_option maxRecDepth 8000 in
theorem sched_tick_priority_order_witness :
    (dtesn_sched_tick call_pure sched_example).calls
      = [{ slot := 1, fn := 102, data := 8 }, { slot := 2, fn := 103, data := 9 },
         { slot := 0, fn := 101, data := 7 }]
    ∧ (dtesn_sched_tick call_pure sched_example).executed = 3 := by
  have h := sched_tick_priority_order call_pure (fun _ _ _ => rfl) sched_example
    (by decide) (by decide)
  have h0 : pending_slots sched_example PRIORITY_CRITICAL = [1] := by decide
  have h1 : pending_slots sched_example PRIORITY_HIGH = [] := by decide
  have h2 : pending_slots sched_example PRIORITY_NORMAL = [2] := by decide
  have h3 : pending_slots sched_example PRIORITY_LOW = [0] := by decide
  have hc : (dtesn_sched_tick call_pure sched_example).calls
      = [{ slot := 1, fn := 102, data := 8 }, { slot := 2, fn := 103, data := 9 },
         { slot := 0, fn := 101, data := 7 }] := by
    rw [h.1, h0, h1, h2, h3]
    decide
  refine ⟨hc, ?_⟩
  rw [h.2.2.2.2, hc]
  rfl

/-! ## Hypergraph store -/

theorem first_free_slot (n k : Nat) (act : Nat → Bool) (h : ∀ i, act i = true ↔ i < k)
    (hk : k < n) : ((List.range n).find? (fun i => !act i)).getD n = k := by
  have : (List.range n).find? (fun i => !act i) = some k := by
    rw [List.find?_range_eq_some]
    refine ⟨?_, List.mem_range.mpr hk, ?_⟩
    · have : ¬ act k = true := fun e => Nat.lt_irrefl k ((h k).mp e)
      simpa using this
    · intro j hj
      simpa using (h j).mpr hj
  rw [this]
  rfl

theorem hgfs_inv_init (ctx : Nat) (hctx : ctx ≠ 0) : hgfs_inv (hgfs_init hgfs_zero ctx).2 := by
  simp [hgfs_init, hgfs_zero, hctx, hgfs_inv]

theorem hgfs_free_node_slot_eq (s : hgfs_t) (h : hgfs_inv s) (hlt : s.node_count < MAX_NODES) :
    hgfs_free_node_slot s = s.node_count :=
  first_free_slot MAX_NODES s.node_count (fun i => (s.nodes i).active) h.2.2.2.2.2.1 hlt

theorem hgfs_free_edge_slot_eq (s : hgfs_t) (h : hgfs_inv s) (hlt : s.edge_count < MAX_EDGES) :
    hgfs_free_edge_slot s = s.edge_count :=
  first_free_slot MAX_EDGES s.edge_count (fun i => (s.edges i).active) h.2.2.2.2.2.2.1 hlt

theorem hgfs_alloc_eq (s : hgfs_t) (h : hgfs_inv s) (svc : Nat → Option ggml_tensor)
    (size depth : Nat) :
    hgfs_alloc s svc size depth = (0, s) ∨
    ∃ t, s.node_count < MAX_NODES ∧
      hgfs_alloc s svc size depth
        = (t.data,
            { s with nodes := Function.update s.nodes s.node_count
                       { tensor := t, depth := depth, handle := s.next_node_handle, active := true }
                     next_node_handle := s.next_node_handle + 1
                     node_count := s.node_count + 1 }) := by
  obtain ⟨hi, hn, he, hnh, heh, hna, hea, hh⟩ := h
  unfold hgfs_alloc
  rw [if_neg (by rw [hi]; exact Bool.noConfusion)]
  by_cases hc : s.node_count ≥ MAX_NODES
  · left; rw [if_pos hc]
  · rw [if_neg hc]
    have hlt : s.node_count < MAX_NODES := Nat.lt_of_not_ge hc
    have hidx := hgfs_free_node_slot_eq s ⟨hi, hn, he, hnh, heh, hna, hea, hh⟩ hlt
    simp only [hidx]
    rw [if_neg hc]
    cases hsvc : svc (sub64 (add64 size 4) 1 / 4) with
    | none => left; rfl
    | some t =>
      right
      refine ⟨t, hlt, ?_⟩
      have e1 : add64 s.next_node_handle 1 = s.next_node_handle + 1 := by
        unfold add64 WORD MAX_NODES at *; omega
      have e2 : add64 s.node_count 1 = s.node_count + 1 := by
        unfold add64 WORD MAX_NODES at *; omega
      simp only [e1, e2]

theorem hgfs_inv_alloc (s : hgfs_t) (h : hgfs_inv s) (svc : Nat → Option ggml_tensor)
    (size depth : Nat) : hgfs_inv (hgfs_alloc s svc size depth).2 := by
  rcases hgfs_alloc_eq s h svc size depth with e | ⟨t, hlt, e⟩
  · rw [e]; exact h
  · rw [e]
    obtain ⟨hi, hn, he, hnh, heh, hna, hea, hh⟩ := h
    refine ⟨hi, hlt, he, by simp only [hnh], heh, ?_, hea, ?_⟩
    · intro i
      by_cases hik : i = s.node_count
      · subst hik; simp
      · simp only [Function.update_noteq hik, hna i]
        omega
    · intro i hlt'
      by_cases hik : i = s.node_count
      · subst hik; simp [hnh]
      · simp only [Function.update_noteq hik]
        exact hh i (by simp only at hlt'; omega)
theorem hgfs_edge_scan_src (s : hgfs_t) (src dst : Nat) :
    ∀ (is : List Nat) (acc : Nat × Nat),
      (hgfs_edge_scan s src dst is acc).1 = acc.1 ∨
        ∃ i ∈ is, (s.nodes i).active = true ∧ (s.nodes i).tensor.data = src ∧
          (hgfs_edge_scan s src dst is acc).1 = (s.nodes i).handle := by
  intro is
  induction is with
  | nil => intro acc; left; rfl
  | cons i rest ih =>
    intro acc
    unfold hgfs_edge_scan
    by_cases ha : (s.nodes i).active = false
    · rw [if_pos ha]
      rcases ih acc with h | ⟨k, hk, h⟩
      · exact Or.inl h
      · exact Or.inr ⟨k, List.mem_cons_of_mem _ hk, h⟩
    · rw [if_neg ha]
      have ha' : (s.nodes i).active = true := by simpa using ha
      dsimp only
      have hx : ((s.nodes i).tensor.data = src ∧
            (if (s.nodes i).tensor.data = src then (s.nodes i).handle else acc.1)
              = (s.nodes i).handle) ∨
          (if (s.nodes i).tensor.data = src then (s.nodes i).handle else acc.1) = acc.1 := by
        by_cases hs : (s.nodes i).tensor.data = src
        · left; exact ⟨hs, by rw [if_pos hs]⟩
        · right; rw [if_neg hs]
      generalize (if (s.nodes i).tensor.data = src then (s.nodes i).handle else acc.1) = sh at *
      generalize (if (s.nodes i).tensor.data = dst then (s.nodes i).handle else acc.2) = dh at *
      by_cases hb : sh ≠ 0 ∧ dh ≠ 0
      · rw [if_pos hb]
        rcases hx with ⟨hs, e⟩ | e
        · exact Or.inr ⟨i, List.mem_cons_self _ _, ha', hs, e⟩
        · exact Or.inl e
      · rw [if_neg hb]
        rcases ih (sh, dh) with h | ⟨k, hk, h⟩
        · rcases hx with ⟨hs, e⟩ | e
          · exact Or.inr ⟨i, List.mem_cons_self _ _, ha', hs, by rw [h]; exact e⟩
          · left; rw [h]; exact e
        · exact Or.inr ⟨k, List.mem_cons_of_mem _ hk, h⟩

theorem hgfs_edge_scan_dst (s : hgfs_t) (src dst : Nat) :
    ∀ (is : List Nat) (acc : Nat × Nat),
      (hgfs_edge_scan s src dst is acc).2 = acc.2 ∨
        ∃ i ∈ is, (s.nodes i).active = true ∧ (s.nodes i).tensor.data = dst ∧
          (hgfs_edge_scan s src dst is acc).2 = (s.nodes i).handle := by
  intro is
  induction is with
  | nil => intro acc; left; rfl
  | cons i rest ih =>
    intro acc
    unfold hgfs_edge_scan
    by_cases ha : (s.nodes i).active = false
    · rw [if_pos ha]
      rcases ih acc with h | ⟨k, hk, h⟩
      · exact Or.inl h
      · exact Or.inr ⟨k, List.mem_cons_of_mem _ hk, h⟩
    · rw [if_neg ha]
      have ha' : (s.nodes i).active = true := by simpa using ha
      dsimp only
      have hx : ((s.nodes i).tensor.data = dst ∧
            (if (s.nodes i).tensor.data = dst then (s.nodes i).handle else acc.2)
              = (s.nodes i).handle) ∨
          (if (s.nodes i).tensor.data = dst then (s.nodes i).handle else acc.2) = acc.2 := by
        by_cases hs : (s.nodes i).tensor.data = dst
        · left; exact ⟨hs, by rw [if_pos hs]⟩
        · right; rw [if_neg hs]
      generalize (if (s.nodes i).tensor.data = src then (s.nodes i).handle else acc.1) = sh at *
      generalize (if (s.nodes i).tensor.data = dst then (s.nodes i).handle else acc.2) = dh at *
      by_cases hb : sh ≠ 0 ∧ dh ≠ 0
      · rw [if_pos hb]
        rcases hx with ⟨hs, e⟩ | e
        · exact Or.inr ⟨i, List.mem_cons_self _ _, ha', hs, e⟩
        · exact Or.inl e
      · rw [if_neg hb]
        rcases ih (sh, dh) with h | ⟨k, hk, h⟩
        · rcases hx with ⟨hs, e⟩ | e
          · exact Or.inr ⟨i, List.mem_cons_self _ _, ha', hs, by rw [h]; exact e⟩
          · left; rw [h]; exact e
        · exact Or.inr ⟨k, List.mem_cons_of_mem _ hk, h⟩

theorem hgfs_edge_scan_found (s : hgfs_t) (src dst : Nat) :
    ∀ (is : List Nat) (acc : Nat × Nat),
      (∀ i ∈ is, (s.nodes i).active = true → (s.nodes i).handle ≠ 0) →
      (acc.1 ≠ 0 ∨ ∃ i ∈ is, (s.nodes i).active = true ∧ (s.nodes i).tensor.data = src) →
      (acc.2 ≠ 0 ∨ ∃ i ∈ is, (s.nodes i).active = true ∧ (s.nodes i).tensor.data = dst) →
      (hgfs_edge_scan s src dst is acc).1 ≠ 0 ∧ (hgfs_edge_scan s src dst is acc).2 ≠ 0 := by
  intro is
  induction is with
  | nil =>
    intro acc _ h1 h2
    rcases h1 with h1 | ⟨i, hi, _⟩
    · rcases h2 with h2 | ⟨j, hj, _⟩
      · exact ⟨h1, h2⟩
      · cases hj
    · cases hi
  | cons i rest ih =>
    intro acc hnz h1 h2
    have hnz' : ∀ k ∈ rest, (s.nodes k).active = true → (s.nodes k).handle ≠ 0 :=
      fun k hk => hnz k (List.mem_cons_of_mem _ hk)
    unfold hgfs_edge_scan
    by_cases ha : (s.nodes i).active = false
    · rw [if_pos ha]
      apply ih acc hnz'
      · rcases h1 with h1 | ⟨k, hk, hka, hkd⟩
        · exact Or.inl h1
        · rcases List.mem_cons.mp hk with rfl | hk
          · rw [ha] at hka; cases hka
          · exact Or.inr ⟨k, hk, hka, hkd⟩
      · rcases h2 with h2 | ⟨k, hk, hka, hkd⟩
        · exact Or.inl h2
        · rcases List.mem_cons.mp hk with rfl | hk
          · rw [ha] at hka; cases hka
          · exact Or.inr ⟨k, hk, hka, hkd⟩
    · rw [if_neg ha]
      have ha' : (s.nodes i).active = true := by simpa using ha
      have hh := hnz i (List.mem_cons_self _ _) ha'
      dsimp only
      have hx1 : (acc.1 ≠ 0 ∨ (s.nodes i).tensor.data = src) →
          (if (s.nodes i).tensor.data = src then (s.nodes i).handle else acc.1) ≠ 0 := by
        intro h
        by_cases hs : (s.nodes i).tensor.data = src
        · rw [if_pos hs]; exact hh
        · rw [if_neg hs]; exact h.resolve_right hs
      have hx2 : (acc.2 ≠ 0 ∨ (s.nodes i).tensor.data = dst) →
          (if (s.nodes i).tensor.data = dst then (s.nodes i).handle else acc.2) ≠ 0 := by
        intro h
        by_cases hs : (s.nodes i).tensor.data = dst
        · rw [if_pos hs]; exact hh
        · rw [if_neg hs]; exact h.resolve_right hs
      generalize (if (s.nodes i).tensor.data = src then (s.nodes i).handle else acc.1) = sh at *
      generalize (if (s.nodes i).tensor.data = dst then (s.nodes i).handle else acc.2) = dh at *
      by_cases hb : sh ≠ 0 ∧ dh ≠ 0
      · rw [if_pos hb]
        exact hb
      · rw [if_neg hb]
        apply ih _ hnz'
        · rcases h1 with h1 | ⟨k, hk, hka, hkd⟩
          · exact Or.inl (hx1 (Or.inl h1))
          · rcases List.mem_cons.mp hk with rfl | hk
            · exact Or.inl (hx1 (Or.inr hkd))
            · exact Or.inr ⟨k, hk, hka, hkd⟩
        · rcases h2 with h2 | ⟨k, hk, hka, hkd⟩
          · exact Or.inl (hx2 (Or.inl h2))
          · rcases List.mem_cons.mp hk with rfl | hk
            · exact Or.inl (hx2 (Or.inr hkd))
            · exact Or.inr ⟨k, hk, hka, hkd⟩

theorem hgfs_edge_eq (s : hgfs_t) (h : hgfs_inv s) (src dst : Nat) (weight : ℚ) :
    (hgfs_edge s src dst weight = (0, s) ∧
      ¬ (is_node_buffer s src ∧ is_node_buffer s dst ∧ s.edge_count < MAX_EDGES)) ∨
    (∃ i j, i < MAX_NODES ∧ (s.nodes i).active = true ∧ (s.nodes i).tensor.data = src ∧
      j < MAX_NODES ∧ (s.nodes j).active = true ∧ (s.nodes j).tensor.data = dst ∧
      s.edge_count < MAX_EDGES ∧ s.next_edge_handle ≠ 0 ∧
      hgfs_edge s src dst weight
        = (s.next_edge_handle,
            { s with edges := Function.update s.edges s.edge_count
                       { src_handle := (s.nodes i).handle, dst_handle := (s.nodes j).handle
                         weight := weight, handle := s.next_edge_handle, active := true }
                     next_edge_handle := s.next_edge_handle + 1
                     edge_count := s.edge_count + 1 })) := by
  have hinv := h
  obtain ⟨hi, hn, he, hnh, heh, hna, hea, hh⟩ := h
  have hnz : ∀ i ∈ List.range MAX_NODES, (s.nodes i).active = true → (s.nodes i).handle ≠ 0 := by
    intro i _ ha
    rw [hh i ((hna i).mp ha)]
    omega
  unfold hgfs_edge
  rw [if_neg (by rw [hi]; exact Bool.noConfusion)]
  by_cases hc : s.edge_count ≥ MAX_EDGES
  · left
    rw [if_pos hc]
    exact ⟨rfl, fun hx => absurd hx.2.2 (Nat.not_lt.mpr hc)⟩
  · rw [if_neg hc]
    have hlt : s.edge_count < MAX_EDGES := Nat.lt_of_not_ge hc
    dsimp only
    by_cases hz : (hgfs_edge_scan s src dst (List.range MAX_NODES) (0, 0)).1 = 0
        ∨ (hgfs_edge_scan s src dst (List.range MAX_NODES) (0, 0)).2 = 0
    · left
      rw [if_pos hz]
      refine ⟨rfl, ?_⟩
      rintro ⟨⟨i, hi1, hi2, hi3⟩, ⟨j, hj1, hj2, hj3⟩, _⟩
      have := hgfs_edge_scan_found s src dst (List.range MAX_NODES) (0, 0) hnz
        (Or.inr ⟨i, List.mem_range.mpr hi1, hi2, hi3⟩)
        (Or.inr ⟨j, List.mem_range.mpr hj1, hj2, hj3⟩)
      rcases hz with hz | hz
      · exact this.1 hz
      · exact this.2 hz
    · right
      rw [if_neg hz]
      have hz1 : (hgfs_edge_scan s src dst (List.range MAX_NODES) (0, 0)).1 ≠ 0 :=
        fun e => hz (Or.inl e)
      have hz2 : (hgfs_edge_scan s src dst (List.range MAX_NODES) (0, 0)).2 ≠ 0 :=
        fun e => hz (Or.inr e)
      rcases hgfs_edge_scan_src s src dst (List.range MAX_NODES) (0, 0) with e | ⟨i, hi1, hi2, hi3, hi4⟩
      · exact absurd e hz1
      rcases hgfs_edge_scan_dst s src dst (List.range MAX_NODES) (0, 0) with e | ⟨j, hj1, hj2, hj3, hj4⟩
      · exact absurd e hz2
      refine ⟨i, j, List.mem_range.mp hi1, hi2, hi3, List.mem_range.mp hj1, hj2, hj3, hlt,
        by omega, ?_⟩
      rw [hgfs_free_edge_slot_eq s hinv hlt, if_neg hc, hi4, hj4]
      have e1 : add64 s.next_edge_handle 1 = s.next_edge_handle + 1 := by
        unfold add64 WORD MAX_EDGES at *; omega
      have e2 : add64 s.edge_count 1 = s.edge_count + 1 := by
        unfold add64 WORD MAX_EDGES at *; omega
      rw [e1, e2]

theorem hgfs_inv_edge (s : hgfs_t) (h : hgfs_inv s) (src dst : Nat) (weight : ℚ) :
    hgfs_inv (hgfs_edge s src dst weight).2 := by
  rcases hgfs_edge_eq s h src dst weight with ⟨e, _⟩ | ⟨i, j, _, _, _, _, _, _, hlt, _, e⟩
  · rw [e]; exact h
  · rw [e]
    obtain ⟨hi, hn, he, hnh, heh, hna, hea, hh⟩ := h
    refine ⟨hi, hn, hlt, hnh, by simp only [heh], hna, ?_, hh⟩
    intro k
    by_cases hik : k = s.edge_count
    · subst hik; simp
    · simp only [Function.update_noteq hik, hea k]
      omega

theorem hgfs_reach_inv (s : hgfs_t) (hr : hgfs_reach s) : hgfs_inv s := by
  induction hr with
  | init ctx hctx => exact hgfs_inv_init ctx hctx
  | alloc s svc size depth _ ih => exact hgfs_inv_alloc s ih svc size depth
  | edge s src dst weight _ ih => exact hgfs_inv_edge s ih src dst weight
/-- C4: on a store reached from a successful `hgfs_init` by `hgfs_alloc` and `hgfs_edge`,
`hgfs_edge(src, dst, w)` returns a non-zero handle if and only if `src` and `dst` are
buffers of active nodes and fewer than `MAX_EDGES` = 16384 edges exist; on success
the edge count grows by exactly 1, one free edge slot receives the edge made of the
handle of a node with buffer `src`, the handle of a node with buffer `dst`, the weight
`w` and the returned handle, and nothing else changes; on failure the result is 0
and the store is unchanged. -/
theorem hgfs_edge_spec (s : hgfs_t) (hr : hgfs_reach s) (src dst : Nat) (w : ℚ) :
    ((hgfs_edge s src dst w).1 ≠ 0 ↔
      is_node_buffer s src ∧ is_node_buffer s dst ∧ s.edge_count < MAX_EDGES)
    ∧ ((hgfs_edge s src dst w).1 ≠ 0 →
        (hgfs_edge s src dst w).2.edge_count = s.edge_count + 1 ∧
        ∃ idx i j, idx < MAX_EDGES ∧ (s.edges idx).active = false ∧
          i < MAX_NODES ∧ (s.nodes i).active = true ∧ (s.nodes i).tensor.data = src ∧
          j < MAX_NODES ∧ (s.nodes j).active = true ∧ (s.nodes j).tensor.data = dst ∧
          (hgfs_edge s src dst w).2.edges idx
            = { src_handle := (s.nodes i).handle, dst_handle := (s.nodes j).handle
                weight := w, handle := (hgfs_edge s src dst w).1, active := true } ∧
          (∀ k, k ≠ idx → (hgfs_edge s src dst w).2.edges k = s.edges k) ∧
          (hgfs_edge s src dst w).2.nodes = s.nodes ∧
          (hgfs_edge s src dst w).2.node_count = s.node_count)
    ∧ ((hgfs_edge s src dst w).1 = 0 → (hgfs_edge s src dst w).2 = s) := by
  have hinv := hgfs_reach_inv s hr
  rcases hgfs_edge_eq s hinv src dst w with ⟨e, hno⟩ | ⟨i, j, hi1, hi2, hi3, hj1, hj2, hj3, hlt, hnz, e⟩
  · rw [e]
    refine ⟨?_, ?_, ?_⟩
    · constructor
      · intro h; exact absurd rfl h
      · intro h; exact absurd h hno
    · intro h; exact absurd rfl h
    · intro _; rfl
  · rw [e]
    refine ⟨?_, ?_, ?_⟩
    · constructor
      · intro _; exact ⟨⟨i, hi1, hi2, hi3⟩, ⟨j, hj1, hj2, hj3⟩, hlt⟩
      · intro _; exact hnz
    · intro _
      refine ⟨rfl, s.edge_count, i, j, hlt, ?_, hi1, hi2, hi3, hj1, hj2, hj3, ?_, ?_, rfl, rfl⟩
      · have := (hinv.2.2.2.2.2.2.1 s.edge_count)
        cases hact : (s.edges s.edge_count).active with
        | false => rfl
        | true => exact absurd (this.mp hact) (Nat.lt_irrefl _)
      · simp
      · intro k hk
        simp [Function.update_noteq hk]
    · intro h; exact absurd h hnz

theorem hgfs_alloc_create (s : hgfs_t) (h : hgfs_inv s) (hlt : s.node_count < MAX_NODES)
    (svc : Nat → Option ggml_tensor) (size depth : Nat) (t : ggml_tensor)
    (hsvc : svc (sub64 (add64 size 4) 1 / 4) = some t) :
    hgfs_alloc s svc size depth
      = (t.data,
          { s with nodes := Function.update s.nodes s.node_count
                     { tensor := t, depth := depth, handle := s.next_node_handle, active := true }
                   next_node_handle := s.next_node_handle + 1
                   node_count := s.node_count + 1 }) := by
  have hc : ¬ s.node_count ≥ MAX_NODES := Nat.not_le.mpr hlt
  rcases hgfs_alloc_eq s h svc size depth with e | ⟨t', _, e⟩
  · exfalso
    unfold hgfs_alloc at e
    rw [if_neg (by rw [h.1]; exact Bool.noConfusion), if_neg hc] at e
    dsimp only at e
    rw [hgfs_free_node_slot_eq s h hlt, if_neg hc, hsvc] at e
    have e2 := congrArg (fun r => r.2.node_count) e
    dsimp only at e2
    unfold add64 WORD MAX_NODES at *
    omega
  · have e' := e
    unfold hgfs_alloc at e
    rw [if_neg (by rw [h.1]; exact Bool.noConfusion), if_neg hc] at e
    dsimp only at e
    rw [hgfs_free_node_slot_eq s h hlt, if_neg hc, hsvc] at e
    have e2 := congrArg (fun r => (r.2.nodes s.node_count).tensor) e
    simp only [Function.update_same] at e2
    rw [e', ← e2]

theorem hgfs_example_eq :
    hgfs_example
      = { ctx := 1
          nodes := Function.update (Function.update hgfs_zero.nodes 0
              { tensor := { data := 1000 }, depth := 0, handle := 1, active := true }) 1
              { tensor := { data := 2000 }, depth := 0, handle := 2, active := true }
          edges := hgfs_zero.edges
          node_count := 2
          edge_count := 0
          next_node_handle := 3
          next_edge_handle := 1
          initialized := true } := by
  have h0 : hgfs_inv (hgfs_init hgfs_zero 1).2 := hgfs_inv_init 1 (by decide)
  have e1 := hgfs_alloc_create _ h0 (by decide) (fun _ => some { data := 1000 }) 128 0
    { data := 1000 } rfl
  have h1 := hgfs_inv_alloc _ h0 (fun _ => some { data := 1000 }) 128 0
  have e2 := hgfs_alloc_create _ h1 (by rw [e1]; decide) (fun _ => some { data := 2000 }) 128 0
    { data := 2000 } rfl
  unfold hgfs_example
  rw [e2, e1]
  rfl

theorem hgfs_edge_spec_witness :
    (hgfs_edge hgfs_example 1000 2000 1).1 ≠ 0 ∧
    (hgfs_edge hgfs_example 1000 2000 1).2.edge_count = hgfs_example.edge_count + 1 ∧
    (hgfs_edge hgfs_example 1000 3000 1).2 = hgfs_example := by
  have hr : hgfs_reach hgfs_example :=
    hgfs_reach.alloc _ _ 128 0 (hgfs_reach.alloc _ _ 128 0 (hgfs_reach.init 1 (by decide)))
  have h1 := hgfs_edge_spec hgfs_example hr 1000 2000 1
  have h2 := hgfs_edge_spec hgfs_example hr 1000 3000 1
  have hs : is_node_buffer hgfs_example 1000 := by
    rw [hgfs_example_eq]; exact ⟨0, by decide, by decide, by decide⟩
  have hd : is_node_buffer hgfs_example 2000 := by
    rw [hgfs_example_eq]; exact ⟨1, by decide, by decide, by decide⟩
  have hcount : hgfs_example.edge_count < MAX_EDGES := by rw [hgfs_example_eq]; decide
  have hnz := h1.1.mpr ⟨hs, hd, hcount⟩
  have hno : ¬ is_node_buffer hgfs_example 3000 := by
    rintro ⟨i, hi, ha, hd⟩
    have hinv := hgfs_reach_inv hgfs_example hr
    have hlt := (hinv.2.2.2.2.2.1 i).mp ha
    rw [hgfs_example_eq] at hlt hd
    have : i = 0 ∨ i = 1 := by dsimp only at hlt; omega
    rcases this with rfl | rfl
    · revert hd; decide
    · revert hd; decide
  refine ⟨hnz, (h1.2.1 hnz).1, h2.2.2 ?_⟩
  by_contra hne
  exact hno (h2.1.mp hne).2.1

/-! ## Atom registry -/

theorem atom_free_slot_eq (s : atomspace_t) (h : atoms_inv s) (hlt : s.atom_count < MAX_ATOMS) :
    atom_free_slot s = s.atom_count :=
  first_free_slot MAX_ATOMS s.atom_count (fun i => (s.atoms i).active) h.2.2.2.1 hlt

/-- The state `cog_atom_alloc` produces when it creates an atom. -/
theorem cog_atom_alloc_eq (s : atomspace_t) (h : atoms_inv s) (new_tensor : Option ggml_tensor)
    (type : atom_type_t) (name : Option String) :
    cog_atom_alloc s new_tensor type name = (0, s) ∨
    (∃ n hd, name = some n ∧ s.name_index n = some hd ∧ s.atom_count < MAX_ATOMS ∧
      cog_atom_alloc s new_tensor type name = (hd, s)) ∨
    (∃ t, new_tensor = some t ∧ s.atom_count < MAX_ATOMS ∧ name.bind s.name_index = none ∧
      cog_atom_alloc s new_tensor type name
        = (s.next_handle,
            { s with atoms := Function.update s.atoms s.atom_count
                       { type := type, name := name, outgoing := [], tensor := t
                         handle := s.next_handle, active := true }
                     next_handle := s.next_handle + 1
                     atom_count := s.atom_count + 1
                     name_index := name_index_add s.name_index name s.next_handle })) := by
  have hinv := h
  obtain ⟨hi, hn, hnh, hact, hh, hidx, huniq⟩ := h
  unfold cog_atom_alloc
  rw [if_neg (by rw [hi]; exact Bool.noConfusion)]
  by_cases hc : s.atom_count ≥ MAX_ATOMS
  · left; rw [if_pos hc]
  · rw [if_neg hc]
    have hlt : s.atom_count < MAX_ATOMS := Nat.lt_of_not_ge hc
    cases hb : name.bind s.name_index with
    | some hd =>
      right; left
      cases name with
      | none => simp at hb
      | some n => exact ⟨n, hd, rfl, by simpa using hb, hlt, rfl⟩
    | none =>
      dsimp only
      rw [atom_free_slot_eq s hinv hlt, if_neg hc]
      cases new_tensor with
      | none => left; rfl
      | some t =>
        right; right
        refine ⟨t, rfl, hlt, rfl, ?_⟩
        have e1 : add64 s.next_handle 1 = s.next_handle + 1 := by
          unfold add64 WORD MAX_ATOMS at *; omega
        have e2 : add64 s.atom_count 1 = s.atom_count + 1 := by
          unfold add64 WORD MAX_ATOMS at *; omega
        simp only [e1, e2]

theorem atoms_inv_init (ctx : Nat) (hctx : ctx ≠ 0) :
    atoms_inv (atomspace_init atomspace_zero ctx).2 := by
  simp [atomspace_init, atomspace_zero, atom_zero, hctx, atoms_inv]

theorem atoms_inv_alloc (s : atomspace_t) (h : atoms_inv s) (new_tensor : Option ggml_tensor)
    (type : atom_type_t) (name : Option String) :
    atoms_inv (cog_atom_alloc s new_tensor type name).2 := by
  rcases cog_atom_alloc_eq s h new_tensor type name with e | ⟨n, hd, _, _, _, e⟩ | ⟨t, _, hlt, hb, e⟩
  · rw [e]; exact h
  · rw [e]; exact h
  · rw [e]
    dsimp only
    obtain ⟨hi, hn, hnh, hact, hh, hidx, huniq⟩ := h
    have hnew : ∀ n, name = some n → ∀ i, i < s.atom_count → (s.atoms i).name ≠ some n := by
      intro n hn' i hi' hname
      have : s.name_index n = some (s.atoms i).handle := (hidx n _).mpr ⟨i, hi', hname, rfl⟩
      rw [hn'] at hb
      simp [this] at hb
    refine ⟨hi, hlt, by simp only [hnh], ?_, ?_, ?_, ?_⟩
    · intro i
      by_cases hik : i = s.atom_count
      · subst hik; simp
      · simp only [Function.update_noteq hik, hact i]
        omega
    · intro i hlt'
      by_cases hik : i = s.atom_count
      · subst hik; simp [hnh]
      · simp only [Function.update_noteq hik]
        exact hh i (by simp only at hlt'; omega)
    · intro n hd
      simp only [name_index_add]
      constructor
      · intro hx
        cases name with
        | none =>
          obtain ⟨i, hi', h1, h2⟩ := (hidx n hd).mp hx
          exact ⟨i, by omega, by rw [Function.update_noteq (by omega)]; exact ⟨h1, h2⟩⟩
        | some m =>
          by_cases hnm : n = m
          · subst hnm
            simp only [Function.update_same, Option.some.injEq] at hx
            exact ⟨s.atom_count, by omega, by simp [hx]⟩
          · simp only [Function.update_noteq hnm] at hx
            obtain ⟨i, hi', h1, h2⟩ := (hidx n hd).mp hx
            exact ⟨i, by omega, by rw [Function.update_noteq (by omega)]; exact ⟨h1, h2⟩⟩
      · rintro ⟨i, hi', h1, h2⟩
        by_cases hik : i = s.atom_count
        · subst hik
          simp only [Function.update_same] at h1 h2
          subst h1
          simp [h2]
        · rw [Function.update_noteq hik] at h1 h2
          have hi'' : i < s.atom_count := by omega
          have hx := (hidx n hd).mpr ⟨i, hi'', h1, h2⟩
          cases name with
          | none => exact hx
          | some m =>
            have hnm : n ≠ m := fun e => hnew m rfl i hi'' (e ▸ h1)
            simp only [Function.update_noteq hnm]
            exact hx
    · intro i j n hi' hj' h1 h2
      dsimp only at hi' hj' h1 h2
      by_cases hik : i = s.atom_count
      · by_cases hjk : j = s.atom_count
        · rw [hik, hjk]
        · exfalso
          subst hik
          simp only [Function.update_same] at h1
          rw [Function.update_noteq hjk] at h2
          exact hnew n h1 j (by omega) h2
      · by_cases hjk : j = s.atom_count
        · exfalso
          subst hjk
          simp only [Function.update_same] at h2
          rw [Function.update_noteq hik] at h1
          exact hnew n h2 i (by omega) h1
        · rw [Function.update_noteq hik] at h1
          rw [Function.update_noteq hjk] at h2
          exact huniq i j n (by omega) (by omega) h1 h2
theorem same_but_outgoing_refl (s : atomspace_t) : same_but_outgoing s s :=
  ⟨rfl, rfl, rfl, rfl, rfl, fun _ => ⟨rfl, rfl, rfl, rfl, rfl⟩⟩

theorem same_but_outgoing_trans (s s' s'' : atomspace_t) (h1 : same_but_outgoing s s')
    (h2 : same_but_outgoing s' s'') : same_but_outgoing s s'' := by
  obtain ⟨a1, a2, a3, a4, a5, a6⟩ := h1
  obtain ⟨b1, b2, b3, b4, b5, b6⟩ := h2
  refine ⟨b1.trans a1, b2.trans a2, b3.trans a3, b4.trans a4, b5.trans a5, fun i => ?_⟩
  obtain ⟨c1, c2, c3, c4, c5⟩ := a6 i
  obtain ⟨d1, d2, d3, d4, d5⟩ := b6 i
  exact ⟨d1.trans c1, d2.trans c2, d3.trans c3, d4.trans c4, d5.trans c5⟩

theorem link_member_same (link_idx : Nat) (st : atomspace_t × hgfs_t) (m : Nat) :
    same_but_outgoing st.1 (link_member link_idx st m).1 := by
  have key : same_but_outgoing st.1
      { st.1 with atoms := Function.update st.1.atoms link_idx
                    { st.1.atoms link_idx with
                      outgoing := (st.1.atoms link_idx).outgoing ++ [m] } } := by
    refine ⟨rfl, rfl, rfl, rfl, rfl, fun i => ?_⟩
    by_cases hi : i = link_idx
    · subst hi; simp
    · simp [Function.update_noteq hi]
  unfold link_member
  dsimp only
  split
  · exact key
  · exact key

theorem link_members_same (link_idx : Nat) (members : List Nat) :
    ∀ st : atomspace_t × hgfs_t,
      same_but_outgoing st.1 (members.foldl (link_member link_idx) st).1 := by
  induction members with
  | nil => intro st; exact same_but_outgoing_refl st.1
  | cons m rest ih =>
    intro st
    rw [List.foldl_cons]
    exact same_but_outgoing_trans _ _ _ (link_member_same link_idx st m) (ih _)

theorem atoms_inv_of_same (s s' : atomspace_t) (h : atoms_inv s) (hs : same_but_outgoing s s') :
    atoms_inv s' := by
  obtain ⟨hi, hn, hnh, hact, hh, hidx, huniq⟩ := h
  obtain ⟨_, a2, a3, a4, a5, a6⟩ := hs
  refine ⟨a5.trans hi, by rw [a3]; exact hn, by rw [a4, a3]; exact hnh, ?_, ?_, ?_, ?_⟩
  · intro i; rw [(a6 i).2.2.2.2, a3]; exact hact i
  · intro i hi'; rw [(a6 i).2.2.2.1]; exact hh i (by rw [a3] at hi'; exact hi')
  · intro n hd
    rw [a2, a3, hidx n hd]
    constructor
    · rintro ⟨i, h1, h2, h3⟩
      exact ⟨i, h1, by rw [(a6 i).2.1]; exact h2, by rw [(a6 i).2.2.2.1]; exact h3⟩
    · rintro ⟨i, h1, h2, h3⟩
      exact ⟨i, h1, by rw [← (a6 i).2.1]; exact h2, by rw [← (a6 i).2.2.2.1]; exact h3⟩
  · intro i j n hi' hj' h1 h2
    rw [a3] at hi' hj'
    rw [(a6 i).2.1] at h1
    rw [(a6 j).2.1] at h2
    exact huniq i j n hi' hj' h1 h2

theorem cog_link_create_same (s : atomspace_t) (g : hgfs_t) (t : Option ggml_tensor)
    (type : atom_type_t) (members : List Nat) :
    (cog_link_create s g t type members).2.1 = s ∨
    same_but_outgoing (cog_atom_alloc s t type none).2 (cog_link_create s g t type members).2.1 := by
  unfold cog_link_create
  by_cases h1 : s.initialized = false
  · left; rw [if_pos h1]
  · right
    rw [if_neg h1]
    dsimp only
    by_cases h2 : (cog_atom_alloc s t type none).1 = 0
    · rw [if_pos h2]; exact same_but_outgoing_refl _
    · rw [if_neg h2]
      cases find_atom (cog_atom_alloc s t type none).2 (cog_atom_alloc s t type none).1 with
      | none => exact same_but_outgoing_refl _
      | some link_idx => exact link_members_same _ _ _

theorem atoms_inv_link (s : atomspace_t) (h : atoms_inv s) (g : hgfs_t) (t : Option ggml_tensor)
    (type : atom_type_t) (members : List Nat) :
    atoms_inv (cog_link_create s g t type members).2.1 := by
  rcases cog_link_create_same s g t type members with e | hs
  · rw [e]; exact h
  · exact atoms_inv_of_same _ _ (atoms_inv_alloc s h t type none) hs

theorem atoms_reach_inv (s : atomspace_t) (hr : atoms_reach s) : atoms_inv s := by
  induction hr with
  | init ctx hctx => exact atoms_inv_init ctx hctx
  | alloc s t type name _ ih => exact atoms_inv_alloc s ih t type name
  | link s g t type members _ ih => exact atoms_inv_link s ih g t type members

/-- C6: in every registry state reached from a successful `atomspace_init` by
`cog_atom_alloc` and `cog_link_create`, no two active atoms bear the same name, the
name index holds exactly the names of the active named atoms, it maps each name to
the handle of the active atom bearing it, and two different names never map to the
same handle. -/
theorem atom_names_unique (s : atomspace_t) (hr : atoms_reach s) :
    (∀ i j n, i < MAX_ATOMS → j < MAX_ATOMS → (s.atoms i).active = true →
      (s.atoms j).active = true → (s.atoms i).name = some n → (s.atoms j).name = some n →
      i = j)
    ∧ (∀ n, (s.name_index n).isSome = true ↔
        ∃ i, i < MAX_ATOMS ∧ (s.atoms i).active = true ∧ (s.atoms i).name = some n)
    ∧ (∀ n h, s.name_index n = some h →
        ∃ i, i < MAX_ATOMS ∧ (s.atoms i).active = true ∧ (s.atoms i).name = some n ∧
          (s.atoms i).handle = h)
    ∧ (∀ n₁ n₂ h, s.name_index n₁ = some h → s.name_index n₂ = some h → n₁ = n₂) := by
  obtain ⟨hi, hn, hnh, hact, hh, hidx, huniq⟩ := atoms_reach_inv s hr
  refine ⟨?_, ?_, ?_, ?_⟩
  · intro i j n _ _ ha hb h1 h2
    exact huniq i j n ((hact i).mp ha) ((hact j).mp hb) h1 h2
  · intro n
    constructor
    · intro hsome
      obtain ⟨h, hx⟩ := Option.isSome_iff_exists.mp hsome
      obtain ⟨i, h1, h2, _⟩ := (hidx n h).mp hx
      exact ⟨i, by omega, (hact i).mpr h1, h2⟩
    · rintro ⟨i, _, ha, hname⟩
      have := (hidx n (s.atoms i).handle).mpr ⟨i, (hact i).mp ha, hname, rfl⟩
      rw [this]; rfl
  · intro n h hx
    obtain ⟨i, h1, h2, h3⟩ := (hidx n h).mp hx
    exact ⟨i, by omega, (hact i).mpr h1, h2, h3⟩
  · intro n₁ n₂ h h1 h2
    obtain ⟨i, a1, a2, a3⟩ := (hidx n₁ h).mp h1
    obtain ⟨j, b1, b2, b3⟩ := (hidx n₂ h).mp h2
    have e1 := hh i a1
    have e2 := hh j b1
    have hij : i = j := by omega
    subst hij
    rw [a2] at b2
    exact Option.some.inj b2
/-- C5 fails as stated: in the full registry the name "cat" is in the index with handle 1,
but `cog_atom_alloc(ATOM_CONCEPT, "cat")` returns 0, because the capacity check comes
before the index lookup. -/
theorem cog_atom_alloc_existing_name_counterexample :
    atomspace_full.initialized = true ∧ atomspace_full.name_index "cat" = some 1 ∧
    (cog_atom_alloc atomspace_full (some { data := 5 }) atom_type_t.ATOM_CONCEPT
      (some "cat")).1 = 0 := by
  refine ⟨rfl, by decide, ?_⟩
  unfold cog_atom_alloc
  rw [if_neg (by decide), if_pos (by decide)]

theorem cog_atom_alloc_registers (s : atomspace_t) (hinit : s.initialized = true)
    (t : Option ggml_tensor) (type : atom_type_t) (n : String)
    (hnz : (cog_atom_alloc s t type (some n)).1 ≠ 0) :
    (cog_atom_alloc s t type (some n)).2.initialized = true ∧
    (cog_atom_alloc s t type (some n)).2.name_index n
      = some (cog_atom_alloc s t type (some n)).1 := by
  unfold cog_atom_alloc at hnz ⊢
  rw [if_neg (by rw [hinit]; exact Bool.noConfusion)] at hnz ⊢
  by_cases hc : s.atom_count ≥ MAX_ATOMS
  · rw [if_pos hc] at hnz; exact absurd rfl hnz
  · rw [if_neg hc] at hnz ⊢
    cases hidx : s.name_index n with
    | some h => simp [hidx, hinit]
    | none =>
      simp only [Option.some_bind, hidx] at hnz ⊢
      by_cases hfull : atom_free_slot s ≥ MAX_ATOMS
      · rw [if_pos hfull] at hnz; exact absurd rfl hnz
      · rw [if_neg hfull] at hnz ⊢
        cases t with
        | none => exact absurd rfl hnz
        | some t => simp [hinit, name_index_add]

/-- C5 (amended): on an initialised registry with fewer than `MAX_ATOMS` = 8192 atoms,
`cog_atom_alloc(type, name)` for a name present in the index returns the registered
handle, for any type, and leaves the registry unchanged; and a `cog_atom_alloc` with a
name that returned a non-zero handle and left fewer than 8192 atoms returns the same
handle when repeated, again without changing the registry. -/
theorem cog_atom_alloc_existing_name (s : atomspace_t) (hinit : s.initialized = true)
    (hcap : s.atom_count < MAX_ATOMS) (t : Option ggml_tensor) (type : atom_type_t)
    (n : String) :
    (∀ h, s.name_index n = some h → cog_atom_alloc s t type (some n) = (h, s))
    ∧ (∀ (t₂ : Option ggml_tensor) (type₂ : atom_type_t),
        (cog_atom_alloc s t type (some n)).1 ≠ 0 →
        (cog_atom_alloc s t type (some n)).2.atom_count < MAX_ATOMS →
        cog_atom_alloc (cog_atom_alloc s t type (some n)).2 t₂ type₂ (some n)
          = cog_atom_alloc s t type (some n)) := by
  have hit : ∀ (s : atomspace_t), s.initialized = true → s.atom_count < MAX_ATOMS →
      ∀ (t : Option ggml_tensor) (type : atom_type_t) (h : Nat), s.name_index n = some h →
      cog_atom_alloc s t type (some n) = (h, s) := by
    intro s hinit hcap t type h hidx
    unfold cog_atom_alloc
    rw [if_neg (by rw [hinit]; exact Bool.noConfusion), if_neg (Nat.not_le.mpr hcap)]
    simp [hidx]
  refine ⟨hit s hinit hcap t type, ?_⟩
  intro t₂ type₂ hnz hcap'
  have hreg := cog_atom_alloc_registers s hinit t type n hnz
  have := hit _ hreg.1 hcap' t₂ type₂ _ hreg.2
  rw [this]

theorem cog_atom_alloc_existing_name_witness :
    cog_atom_alloc atoms_one none atom_type_t.ATOM_PREDICATE (some "cat") = (1, atoms_one) :=
  (cog_atom_alloc_existing_name atoms_one (by decide) (by decide) none
    atom_type_t.ATOM_PREDICATE "cat").1 1 (by decide)

theorem cog_atom_alloc_create (s : atomspace_t) (h : atoms_inv s)
    (hlt : s.atom_count < MAX_ATOMS) (t : ggml_tensor) (type : atom_type_t)
    (name : Option String) (hb : name.bind s.name_index = none) :
    cog_atom_alloc s (some t) type name
      = (s.next_handle,
          { s with atoms := Function.update s.atoms s.atom_count
                     { type := type, name := name, outgoing := [], tensor := t
                       handle := s.next_handle, active := true }
                   next_handle := s.next_handle + 1
                   atom_count := s.atom_count + 1
                   name_index := name_index_add s.name_index name s.next_handle }) := by
  rcases cog_atom_alloc_eq s h (some t) type name with e | ⟨n, hd, e1, e2, _, _⟩ | ⟨t', ht, _, _, e⟩
  · exfalso
    have hc : ¬ s.atom_count ≥ MAX_ATOMS := Nat.not_le.mpr hlt
    unfold cog_atom_alloc at e
    rw [if_neg (by rw [h.1]; exact Bool.noConfusion), if_neg hc, hb] at e
    dsimp only at e
    rw [atom_free_slot_eq s h hlt, if_neg hc] at e
    have := congrArg Prod.fst e
    have hnh := h.2.2.1
    simp only at this
    omega
  · exfalso
    rw [e1] at hb
    simp [e2] at hb
  · cases ht
    exact e

theorem atoms_example_eq :
    atoms_example
      = { ctx := 1
          atoms := Function.update (Function.update (fun _ => atom_zero) 0
              { type := atom_type_t.ATOM_CONCEPT, name := some "cat", outgoing := []
                tensor := { data := 1000 }, handle := 1, active := true }) 1
              { type := atom_type_t.ATOM_CONCEPT, name := some "animal", outgoing := []
                tensor := { data := 2000 }, handle := 2, active := true }
          name_index := Function.update (Function.update (fun _ => none) "cat" (some 1))
              "animal" (some 2)
          atom_count := 2
          next_handle := 3
          initialized := true } := by
  have h0 : atoms_inv (atomspace_init atomspace_zero 1).2 := atoms_inv_init 1 (by decide)
  have e1 := cog_atom_alloc_create _ h0 (by decide) { data := 1000 } atom_type_t.ATOM_CONCEPT
    (some "cat") rfl
  have h1 := atoms_inv_alloc _ h0 (some { data := 1000 }) atom_type_t.ATOM_CONCEPT (some "cat")
  have e2 := cog_atom_alloc_create _ h1 (by rw [e1]; decide) { data := 2000 }
    atom_type_t.ATOM_CONCEPT (some "animal") (by rw [e1]; decide)
  unfold atoms_example
  rw [e2, e1]
  rfl

theorem atom_names_unique_witness :
    atoms_example.name_index "animal" = some 2 ∧
    ∀ n₁ n₂ h, atoms_example.name_index n₁ = some h → atoms_example.name_index n₂ = some h →
      n₁ = n₂ :=
  ⟨by rw [atoms_example_eq]; decide,
   (atom_names_unique atoms_example
    (atoms_reach.alloc _ _ _ _ (atoms_reach.alloc _ _ _ _ (atoms_reach.init 1 (by decide))))).2.2.2⟩

theorem find_atom_eq (s : atomspace_t) (h : atoms_inv s) (i : Nat) (hi : i < s.atom_count) :
    find_atom s (i + 1) = some i := by
  obtain ⟨_, hn, _, hact, hh, _, _⟩ := h
  unfold find_atom
  rw [List.find?_range_eq_some]
  refine ⟨?_, List.mem_range.mpr (by omega), ?_⟩
  · simp [(hact i).mpr hi, hh i hi]
  · intro j hj
    have := hh j (by omega)
    simp [this]
    omega

theorem hgfs_edge_of_no_node (g : hgfs_t) (hg : hgfs_inv g) (hnn : g.node_count = 0)
    (src dst : Nat) (w : ℚ) : hgfs_edge g src dst w = (0, g) := by
  rcases hgfs_edge_eq g hg src dst w with ⟨e, _⟩ | ⟨i, j, _, ha, _⟩
  · exact e
  · have := (hg.2.2.2.2.2.1 i).mp ha
    omega

theorem link_members_no_node (g : hgfs_t) (hg : hgfs_inv g) (hnn : g.node_count = 0)
    (link_idx : Nat) (members : List Nat) :
    ∀ s : atomspace_t, (members.foldl (link_member link_idx) (s, g)).2 = g := by
  induction members with
  | nil => intro s; rfl
  | cons m rest ih =>
    intro s
    rw [List.foldl_cons]
    have : ∃ s', link_member link_idx (s, g) m = (s', g) := by
      unfold link_member
      dsimp only
      split
      · rw [hgfs_edge_of_no_node g hg hnn]; exact ⟨_, rfl⟩
      · exact ⟨_, rfl⟩
    obtain ⟨s', e⟩ := this
    rw [e]
    exact ih s'

/-- With a hypergraph store that holds no node, `cog_link_create` creates no edge,
whatever the registry and the members. -/
theorem cog_link_create_no_node (s : atomspace_t) (g : hgfs_t) (hg : hgfs_inv g)
    (hnn : g.node_count = 0) (t : Option ggml_tensor) (type : atom_type_t)
    (members : List Nat) : (cog_link_create s g t type members).2.2 = g := by
  unfold cog_link_create
  by_cases h1 : s.initialized = false
  · rw [if_pos h1]
  · rw [if_neg h1]
    dsimp only
    by_cases h2 : (cog_atom_alloc s t type none).1 = 0
    · rw [if_pos h2]
    · rw [if_neg h2]
      cases find_atom (cog_atom_alloc s t type none).2 (cog_atom_alloc s t type none).1 with
      | none => rfl
      | some link_idx => exact link_members_no_node g hg hnn link_idx members _

/-- C7 (code evaluated at the failing input): with the concepts "cat" (handle 1) and
"animal" (handle 2) in the registry and the hypergraph store freshly initialised,
`cog_link_create(ATOM_LINK, {1, 2}, 2)` succeeds with the link handle 3, both members
designate existing atoms, and the edge count of the store is still 0. -/
theorem cog_link_create_edge_count :
    (cog_link_create atoms_example (hgfs_init hgfs_zero 1).2 (some { data := 3000 })
        atom_type_t.ATOM_LINK [1, 2]).1 = 3
    ∧ find_atom atoms_example 1 = some 0 ∧ find_atom atoms_example 2 = some 1
    ∧ (hgfs_init hgfs_zero 1).2.edge_count = 0
    ∧ (cog_link_create atoms_example (hgfs_init hgfs_zero 1).2 (some { data := 3000 })
        atom_type_t.ATOM_LINK [1, 2]).2.2.edge_count = 0 := by
  have hr : atoms_reach atoms_example :=
    atoms_reach.alloc _ _ _ _ (atoms_reach.alloc _ _ _ _ (atoms_reach.init 1 (by decide)))
  have hinv := atoms_reach_inv _ hr
  have hcount : atoms_example.atom_count = 2 := by rw [atoms_example_eq]
  have hnext : atoms_example.next_handle = 3 := by rw [atoms_example_eq]
  have hg := hgfs_inv_init 1 (by decide)
  refine ⟨?_, find_atom_eq _ hinv 0 (by omega), find_atom_eq _ hinv 1 (by omega), rfl, ?_⟩
  · have e := cog_atom_alloc_create atoms_example hinv (by rw [hcount]; decide)
      { data := 3000 } atom_type_t.ATOM_LINK none rfl
    have hinv' := atoms_inv_alloc atoms_example hinv (some { data := 3000 })
      atom_type_t.ATOM_LINK none
    have hfind : find_atom (cog_atom_alloc atoms_example (some { data := 3000 })
        atom_type_t.ATOM_LINK none).2 3 = some 2 :=
      find_atom_eq _ hinv' 2 (by rw [e]; simp only [hcount]; omega)
    have h1 : (cog_atom_alloc atoms_example (some { data := 3000 })
        atom_type_t.ATOM_LINK none).1 = 3 := by rw [e]; dsimp only; exact hnext
    unfold cog_link_create
    rw [if_neg (by rw [hinv.1]; exact Bool.noConfusion)]
    dsimp only
    rw [h1, if_neg (by decide), hfind]
  · rw [cog_link_create_no_node _ _ hg rfl]
    rfl

/-- C8 (code evaluated at the failing input): on a freshly initialised registry
`cog_atom_alloc(ATOM_CONCEPT, "cat")` creates the atom with handle 1 on the buffer the
tensor service returned; the hypergraph store is neither an argument nor a result of
the call, it still has no node, and `hgfs_edge` rejects the buffer of the atom. -/
theorem cog_atom_alloc_no_node :
    (cog_atom_alloc (atomspace_init atomspace_zero 1).2 (some { data := 1000 })
        atom_type_t.ATOM_CONCEPT (some "cat")).1 = 1
    ∧ ((cog_atom_alloc (atomspace_init atomspace_zero 1).2 (some { data := 1000 })
        atom_type_t.ATOM_CONCEPT (some "cat")).2.atoms 0).tensor.data = 1000
    ∧ (hgfs_init hgfs_zero 1).2.node_count = 0
    ∧ ¬ is_node_buffer (hgfs_init hgfs_zero 1).2 1000
    ∧ (hgfs_edge (hgfs_init hgfs_zero 1).2 1000 1000 1).1 = 0 := by
  have h0 : atoms_inv (atomspace_init atomspace_zero 1).2 := atoms_inv_init 1 (by decide)
  have e := cog_atom_alloc_create _ h0 (by decide) { data := 1000 } atom_type_t.ATOM_CONCEPT
    (some "cat") rfl
  have hg := hgfs_inv_init 1 (by decide)
  refine ⟨by rw [e]; rfl, by rw [e]; rfl, rfl, ?_, ?_⟩
  · rintro ⟨i, _, ha, _⟩
    have := (hg.2.2.2.2.2.1 i).mp ha
    exact absurd this (Nat.not_lt_zero i)
  · rw [hgfs_edge_of_no_node _ hg rfl]

/-! ## Truth engine -/

theorem pln_context_fold {F : Type} [Field F] (s : pln_t F) (context : List Nat) :
    ∀ acc : F × F,
      context.foldl (pln_context_step s) acc
        = (acc.1 + ((cached_values s context).map truth_value_t.strength).sum,
           acc.2 * ((cached_values s context).map truth_value_t.confidence).prod) := by
  induction context with
  | nil => intro acc; simp [cached_values]
  | cons a rest ih =>
    intro acc
    rw [List.foldl_cons, ih]
    unfold pln_context_step cached_values
    cases h : s.truth_map a with
    | none => simp [List.filterMap_cons, h]
    | some tv =>
      simp only [List.filterMap_cons, h, List.map_cons, List.sum_cons, List.prod_cons]
      rw [add_assoc, mul_assoc]

theorem pln_eval_uncached {F : Type} [Field F] (powf : F → F → F) (s : pln_t F)
    (hinit : s.pln_initialized = true) (query : Nat) (hq : s.truth_map query = none)
    (context : List Nat) :
    pln_eval_tensor powf s query context
      = (context_truth powf s context,
         { s with truth_map := Function.update s.truth_map query
                    (some (context_truth powf s context)) }) := by
  unfold pln_eval_tensor context_truth
  rw [if_neg (by rw [hinit]; exact Bool.noConfusion), hq]
  simp only [pln_context_fold, zero_add, one_mul]

/-- C9 fails as stated: with atom 1 cached at `(0.4, 0.8)`, atom 2 and the query 3 uncached,
`pln_eval_tensor(3, {1, 2}, 2)` returns the strength `0.4 / 2` and the confidence
`0.8 ^ (1/2)` in real arithmetic, not the mean `0.4 / 1` and the root `0.8 ^ (1/1)` over
the one resolvable atom. -/
theorem pln_eval_partial_context_counterexample :
    (pln_eval_tensor (fun x y : ℝ => x ^ y) (pln_example ℝ) 3 [1, 2]).1.strength = 0.4 / 2
    ∧ (pln_eval_tensor (fun x y : ℝ => x ^ y) (pln_example ℝ) 3 [1, 2]).1.confidence
        = (0.8 : ℝ) ^ ((1 : ℝ) / 2)
    ∧ (pln_eval_tensor (fun x y : ℝ => x ^ y) (pln_example ℝ) 3 [1, 2]).1.strength ≠ 0.4 / 1 := by
  have e := pln_eval_uncached (fun x y : ℝ => x ^ y) (pln_example ℝ) rfl 3
    (by simp [pln_example, Function.update]) [1, 2]
  have hv : cached_values (pln_example ℝ) [1, 2] = [{ strength := 0.4, confidence := 0.8 }] := by
    simp [cached_values, pln_example, Function.update, List.filterMap_cons]
  rw [e]
  simp only [context_truth, hv]
  refine ⟨?_, ?_, ?_⟩
  · norm_num
  · norm_num
  · norm_num

/-- C9 (amended): if the query has no cached truth value and k >= 1 of the n context atoms
have cached truth values, `pln_eval_tensor` returns strength = (sum of those k
strengths) / n and confidence = (product of those k confidences) ^ (1 / n): the
context length n is the denominator of the mean and the order of the root. -/
theorem pln_eval_partial_context {F : Type} [Field F] (powf : F → F → F) (s : pln_t F)
    (hinit : s.pln_initialized = true) (query : Nat) (hq : s.truth_map query = none)
    (context : List Nat) (hk : 1 ≤ (cached_values s context).length) :
    (pln_eval_tensor powf s query context).1.strength
      = ((cached_values s context).map truth_value_t.strength).sum / (context.length : F)
    ∧ (pln_eval_tensor powf s query context).1.confidence
      = powf ((cached_values s context).map truth_value_t.confidence).prod
          (1 / (context.length : F)) := by
  have hn : context.length > 0 := by
    have := List.length_filterMap_le s.truth_map context
    unfold cached_values at hk
    omega
  rw [pln_eval_uncached powf s hinit query hq context]
  simp only [context_truth, hn, if_true, and_self]

theorem pln_eval_partial_context_witness :
    (pln_eval_tensor (fun x y : ℝ => x ^ y) (pln_example ℝ) 3 [1, 2]).1.strength
      = (([{ strength := 0.4, confidence := 0.8 }] : List (truth_value_t ℝ)).map
          truth_value_t.strength).sum / (2 : ℕ) := by
  have hv : cached_values (pln_example ℝ) [1, 2] = [{ strength := 0.4, confidence := 0.8 }] := by
    simp [cached_values, pln_example, Function.update, List.filterMap_cons]
  have h := (pln_eval_partial_context (fun x y : ℝ => x ^ y) (pln_example ℝ) rfl 3
    (by simp [pln_example, Function.update]) [1, 2] (by rw [hv]; decide)).1
  rw [hv] at h
  exact h
theorem cached_values_eq_nil {F : Type} (s : pln_t F) (context : List Nat)
    (h : ∀ a ∈ context, s.truth_map a = none) : cached_values s context = [] := by
  induction context with
  | nil => rfl
  | cons a rest ih =>
    unfold cached_values
    rw [List.filterMap_cons, h a (List.mem_cons_self _ _)]
    exact ih (fun b hb => h b (List.mem_cons_of_mem _ hb))

/-- C10 fails as stated: on the freshly initialised truth engine (nothing cached),
`pln_eval_tensor(3, {1, 2}, 2)` returns `(0, 1)` in real arithmetic, not `(0.5, 0.1)`;
this is the call of `test_pln`. -/
theorem pln_eval_no_cached_context_counterexample :
    (pln_eval_tensor (fun x y : ℝ => x ^ y) (pln_init (pln_zero ℝ) 1).2 3 [1, 2]).1.strength = 0
    ∧ (pln_eval_tensor (fun x y : ℝ => x ^ y) (pln_init (pln_zero ℝ) 1).2 3 [1, 2]).1.confidence
        = 1
    ∧ (pln_eval_tensor (fun x y : ℝ => x ^ y) (pln_init (pln_zero ℝ) 1).2 3 [1, 2]).1.strength
        ≠ 0.5 := by
  have e := pln_eval_uncached (fun x y : ℝ => x ^ y) (pln_init (pln_zero ℝ) 1).2 rfl 3 rfl [1, 2]
  have hv : cached_values (pln_init (pln_zero ℝ) 1).2 [1, 2] = [] :=
    cached_values_eq_nil _ _ (fun _ _ => rfl)
  rw [e]
  simp only [context_truth, hv]
  refine ⟨?_, ?_, ?_⟩
  · norm_num
  · norm_num
  · norm_num

/-- C10 (amended): if the query has no cached truth value and no context atom has one,
`pln_eval_tensor` returns and caches `(0.5, 0.1)` when the context is empty, and
`(0, 1 ^ (1 / n))` (which is `(0, 1)` in real arithmetic) when the context has n >= 1
atoms. -/
theorem pln_eval_no_cached_context {F : Type} [Field F] (powf : F → F → F) (s : pln_t F)
    (hinit : s.pln_initialized = true) (query : Nat) (hq : s.truth_map query = none)
    (context : List Nat) (hctx : ∀ a ∈ context, s.truth_map a = none) :
    (context = [] →
      (pln_eval_tensor powf s query context).1.strength = 0.5 ∧
      (pln_eval_tensor powf s query context).1.confidence = 0.1)
    ∧ (context ≠ [] →
      (pln_eval_tensor powf s query context).1.strength = 0 ∧
      (pln_eval_tensor powf s query context).1.confidence
        = powf 1 (1 / (context.length : F)))
    ∧ (pln_eval_tensor powf s query context).2.truth_map query
        = some (pln_eval_tensor powf s query context).1 := by
  rw [pln_eval_uncached powf s hinit query hq context]
  have hv := cached_values_eq_nil s context hctx
  refine ⟨?_, ?_, ?_⟩
  · intro hnil
    subst hnil
    simp [context_truth]
  · intro hne
    have hn : context.length > 0 := List.length_pos.mpr hne
    simp [context_truth, hv, hn]
  · simp

theorem pln_eval_no_cached_context_witness :
    ((pln_eval_tensor (fun x y : ℝ => x ^ y) (pln_init (pln_zero ℝ) 1).2 3 []).1.strength = 0.5
      ∧ (pln_eval_tensor (fun x y : ℝ => x ^ y) (pln_init (pln_zero ℝ) 1).2 3 []).1.confidence
        = 0.1)
    ∧ (pln_eval_tensor (fun x y : ℝ => x ^ y) (pln_init (pln_zero ℝ) 1).2 3 [1, 2]).1.strength
        = 0 :=
  ⟨(pln_eval_no_cached_context (fun x y : ℝ => x ^ y) (pln_init (pln_zero ℝ) 1).2 rfl 3 rfl []
      (fun _ _ => rfl)).1 rfl,
   ((pln_eval_no_cached_context (fun x y : ℝ => x ^ y) (pln_init (pln_zero ℝ) 1).2 rfl 3 rfl
      [1, 2] (fun _ _ => rfl)).2.1 (by decide)).1⟩

theorem cached_values_of_all {F : Type} (s : pln_t F) (context : List Nat)
    (hall : ∀ a ∈ context, (s.truth_map a).isSome = true) :
    context.map s.truth_map = (cached_values s context).map some := by
  induction context with
  | nil => rfl
  | cons a rest ih =>
    have ha := hall a (List.mem_cons_self _ _)
    obtain ⟨tv, htv⟩ := Option.isSome_iff_exists.mp ha
    have ih' := ih (fun b hb => hall b (List.mem_cons_of_mem _ hb))
    unfold cached_values at ih' ⊢
    rw [List.map_cons, List.filterMap_cons, htv, List.map_cons, ih']

/-- C11: on an initialised truth engine, if the query has no cached truth value and the
context is non-empty with every context atom having a cached truth value, then the
cached values taken in context order are the truth values of all n context atoms,
and `pln_eval_tensor` returns and caches strength = their sum / n (the arithmetic mean)
and confidence = (product of their confidences) ^ (1 / n), which for non-negative
confidences is the non-negative n-th root of the product (real arithmetic). -/
theorem pln_eval_full_context (s : pln_t ℝ) (hinit : s.pln_initialized = true) (query : Nat)
    (hq : s.truth_map query = none) (context : List Nat) (hne : context ≠ [])
    (hall : ∀ a ∈ context, (s.truth_map a).isSome = true) :
    context.map s.truth_map = (cached_values s context).map some
    ∧ (pln_eval_tensor (fun x y : ℝ => x ^ y) s query context).1.strength
        = ((cached_values s context).map truth_value_t.strength).sum / (context.length : ℝ)
    ∧ (pln_eval_tensor (fun x y : ℝ => x ^ y) s query context).1.confidence
        = ((cached_values s context).map truth_value_t.confidence).prod
            ^ ((1 : ℝ) / (context.length : ℝ))
    ∧ ((∀ tv ∈ cached_values s context, 0 ≤ tv.confidence) →
        0 ≤ (pln_eval_tensor (fun x y : ℝ => x ^ y) s query context).1.confidence ∧
        (pln_eval_tensor (fun x y : ℝ => x ^ y) s query context).1.confidence ^ context.length
          = ((cached_values s context).map truth_value_t.confidence).prod)
    ∧ (pln_eval_tensor (fun x y : ℝ => x ^ y) s query context).2.truth_map query
        = some (pln_eval_tensor (fun x y : ℝ => x ^ y) s query context).1 := by
  have hn : context.length > 0 := List.length_pos.mpr hne
  have hn0 : context.length ≠ 0 := Nat.pos_iff_ne_zero.mp hn
  rw [pln_eval_uncached _ s hinit query hq context]
  refine ⟨cached_values_of_all s context hall, ?_, ?_, ?_, ?_⟩
  · simp only [context_truth, hn, if_true]
  · simp only [context_truth, hn, if_true]
  · intro hpos
    simp only [context_truth, hn, if_true]
    have hprod : 0 ≤ ((cached_values s context).map truth_value_t.confidence).prod := by
      apply List.prod_nonneg
      intro x hx
      obtain ⟨tv, htv, rfl⟩ := List.mem_map.mp hx
      exact hpos tv htv
    refine ⟨Real.rpow_nonneg hprod _, ?_⟩
    rw [one_div]
    exact Real.rpow_inv_natCast_pow hprod hn0
  · simp

theorem pln_eval_full_context_witness :
    (pln_eval_tensor (fun x y : ℝ => x ^ y) (pln_example_pair ℝ) 3 [1, 2]).1.strength = 0.5
    ∧ (pln_eval_tensor (fun x y : ℝ => x ^ y) (pln_example_pair ℝ) 3 [1, 2]).1.confidence
        = Real.sqrt (0.8 * 0.5) := by
  have hv : cached_values (pln_example_pair ℝ) [1, 2]
      = [{ strength := 0.4, confidence := 0.8 }, { strength := 0.6, confidence := 0.5 }] := by
    simp [cached_values, pln_example_pair, Function.update, List.filterMap_cons]
  have h := pln_eval_full_context (pln_example_pair ℝ) rfl 3
    (by simp [pln_example_pair, Function.update]) [1, 2] (by decide)
    (by
      intro a ha
      simp only [List.mem_cons, List.mem_singleton, List.not_mem_nil, or_false] at ha
      rcases ha with rfl | rfl <;> simp [pln_example_pair, Function.update])
  rw [hv] at h
  refine ⟨?_, ?_⟩
  · rw [h.2.1]; norm_num
  · rw [h.2.2.1, Real.sqrt_eq_rpow]; norm_num

theorem round_half_even_bounds (t : ℚ) :
    (⌊t⌋ : ℤ) ≤ round_half_even t ∧ round_half_even t ≤ ⌊t⌋ + 1 := by
  unfold round_half_even
  split_ifs <;> constructor <;> omega

theorem round_half_even_le_even (t : ℚ) (N : ℤ) (hN : N % 2 = 0) :
    round_half_even t ≤ N ↔ t ≤ N + 1 / 2 := by
  have h1 := Int.floor_le t
  have h2 := Int.lt_floor_add_one t
  constructor
  · intro h
    by_contra hgt
    push_neg at hgt
    have hfl : N ≤ ⌊t⌋ := Int.le_floor.mpr (by linarith)
    have hb := (round_half_even_bounds t).1
    have hfN : ⌊t⌋ = N := by omega
    unfold round_half_even at h
    rw [hfN] at h h1 h2
    have c1 : ¬ (t - (N : ℚ) < 1 / 2) := by linarith
    have c2 : (1 : ℚ) / 2 < t - N := by linarith
    rw [if_neg c1, if_pos c2] at h
    omega
  · intro h
    have hfl : ⌊t⌋ ≤ N := by
      by_contra hgt
      push_neg at hgt
      have : (N : ℚ) + 1 ≤ ⌊t⌋ := by exact_mod_cast hgt
      linarith
    rcases lt_or_eq_of_le hfl with hlt | heq
    · have := (round_half_even_bounds t).2
      omega
    · unfold round_half_even
      rw [heq]
      split_ifs with c1 c2
      · exact le_refl _
      · exfalso; linarith
      · exact le_refl _

theorem f32_round_mag_eq (x : ℚ) (e : ℤ) (he : -126 ≤ e) (h1 : (2 : ℚ) ^ e ≤ x)
    (h2 : x < (2 : ℚ) ^ (e + 1)) :
    f32_round_mag x = (round_half_even (x / 2 ^ (e - 23)) : ℚ) * 2 ^ (e - 23) := by
  have hpos : 0 < x := lt_of_lt_of_le (by positivity) h1
  have hlog : Int.log 2 x = e := by
    have a1 : e ≤ Int.log 2 x := (Int.zpow_le_iff_le_log (by norm_num) hpos).mp (by exact_mod_cast h1)
    have a2 : Int.log 2 x < e + 1 :=
      (Int.lt_zpow_iff_log_lt (by norm_num) hpos).mp (by exact_mod_cast h2)
    omega
  unfold f32_round_mag
  rw [if_neg (ne_of_gt hpos), hlog, max_eq_left he]

theorem f32_round_mag_nonneg (x : ℚ) (hx : 0 ≤ x) : 0 ≤ f32_round_mag x := by
  unfold f32_round_mag
  split_ifs with h0
  · exact le_refl _
  · dsimp only
    apply mul_nonneg _ (by positivity)
    have ht : (0 : ℚ) ≤ x / 2 ^ (max (Int.log 2 x) (-126) - 23) := by positivity
    have : (0 : ℤ) ≤ ⌊x / 2 ^ (max (Int.log 2 x) (-126) - 23)⌋ := Int.le_floor.mpr (by exact_mod_cast ht)
    have := (round_half_even_bounds (x / 2 ^ (max (Int.log 2 x) (-126) - 23))).1
    exact_mod_cast (by omega : (0 : ℤ) ≤ round_half_even (x / 2 ^ (max (Int.log 2 x) (-126) - 23)))

theorem f32_round_abs (q : ℚ) : |f32_round q| = f32_round_mag |q| := by
  unfold f32_round
  split_ifs with h
  · rw [abs_neg, abs_of_neg h, abs_of_nonneg (f32_round_mag_nonneg _ (by linarith))]
  · push_neg at h
    rw [abs_of_nonneg h, abs_of_nonneg (f32_round_mag_nonneg _ h)]

theorem f32_0_2_eq : f32_0_2 = 13421773 / 67108864 := by
  unfold f32_0_2 f32_round
  rw [if_neg (by norm_num), f32_round_mag_eq (2 / 10) (-3) (by norm_num) (by norm_num) (by norm_num)]
  have hfl : ⌊((2 : ℚ) / 10) / 2 ^ ((-3 : ℤ) - 23)⌋ = 13421772 := by
    rw [Int.floor_eq_iff]
    constructor <;> norm_num
  have hr : round_half_even (((2 : ℚ) / 10) / 2 ^ ((-3 : ℤ) - 23)) = 13421773 := by
    unfold round_half_even
    rw [hfl]
    rw [if_neg (by norm_num), if_pos (by norm_num)]
    norm_num
  rw [hr]
  norm_num

/-- The test `diff < 0.2f` on the binary32 difference, in terms of the exact difference:
it holds exactly when the magnitude of the exact value is at most
`26843545 * 2^-27`, the midpoint between `0.2f` and the binary32 number below it
(about 0.19999999553), a tie being rounded down to that number, whose significand
is even. -/
theorem f32_round_lt_iff (q : ℚ) : |f32_round q| < f32_0_2 ↔ |q| ≤ 26843545 / 134217728 := by
  rw [f32_round_abs, f32_0_2_eq]
  generalize hx : |q| = x
  have hx0 : 0 ≤ x := by rw [← hx]; exact abs_nonneg q
  by_cases h0 : x = 0
  · rw [h0]
    unfold f32_round_mag
    rw [if_pos rfl]
    norm_num
  have hpos : 0 < x := lt_of_le_of_ne hx0 (Ne.symm h0)
  by_cases hsmall : x < 1 / 8
  · have hlog : Int.log 2 x < -3 :=
      (Int.lt_zpow_iff_log_lt (by norm_num) hpos).mp (by norm_num; linarith)
    have he : max (Int.log 2 x) (-126) - 23 ≤ -27 := by
      have : max (Int.log 2 x) (-126) ≤ -4 := max_le (by omega) (by norm_num)
      omega
    have hu : (2 : ℚ) ^ (max (Int.log 2 x) (-126) - 23) ≤ 2 ^ (-27 : ℤ) :=
      zpow_le_zpow_right₀ (by norm_num) he
    have hup : (0 : ℚ) < 2 ^ (max (Int.log 2 x) (-126) - 23) := by positivity
    have hb := (round_half_even_bounds (x / 2 ^ (max (Int.log 2 x) (-126) - 23))).2
    have hfl := Int.floor_le (x / 2 ^ (max (Int.log 2 x) (-126) - 23))
    have hb' : (round_half_even (x / 2 ^ (max (Int.log 2 x) (-126) - 23)) : ℚ)
        ≤ x / 2 ^ (max (Int.log 2 x) (-126) - 23) + 1 := by
      have : (round_half_even (x / 2 ^ (max (Int.log 2 x) (-126) - 23)) : ℚ)
          ≤ (⌊x / 2 ^ (max (Int.log 2 x) (-126) - 23)⌋ : ℚ) + 1 := by exact_mod_cast hb
      linarith
    have hres : f32_round_mag x ≤ x + 2 ^ (-27 : ℤ) := by
      unfold f32_round_mag
      rw [if_neg h0]
      dsimp only
      calc (round_half_even (x / 2 ^ (max (Int.log 2 x) (-126) - 23)) : ℚ)
              * 2 ^ (max (Int.log 2 x) (-126) - 23)
          ≤ (x / 2 ^ (max (Int.log 2 x) (-126) - 23) + 1)
              * 2 ^ (max (Int.log 2 x) (-126) - 23) :=
            mul_le_mul_of_nonneg_right hb' (le_of_lt hup)
        _ = x + 2 ^ (max (Int.log 2 x) (-126) - 23) := by field_simp
        _ ≤ x + 2 ^ (-27 : ℤ) := by linarith
    constructor
    · intro _; linarith
    · intro _
      have : (2 : ℚ) ^ (-27 : ℤ) = 1 / 134217728 := by norm_num
      rw [this] at hres
      linarith
  push_neg at hsmall
  by_cases hbig : x < 1 / 4
  · rw [f32_round_mag_eq x (-3) (by norm_num) (by norm_num; linarith) (by norm_num; linarith)]
    have hu : (2 : ℚ) ^ ((-3 : ℤ) - 23) = 1 / 67108864 := by norm_num
    rw [hu]
    have hkey := round_half_even_le_even (x / (1 / 67108864)) 13421772 (by norm_num)
    constructor
    · intro h
      have h' : (round_half_even (x / (1 / 67108864)) : ℚ) < 13421773 := by linarith
      have h'' : round_half_even (x / (1 / 67108864)) ≤ 13421772 := by
        have : round_half_even (x / (1 / 67108864)) < 13421773 := by exact_mod_cast h'
        omega
      have := hkey.mp h''
      rw [div_le_iff₀ (by norm_num)] at this
      linarith
    · intro h
      have : x / (1 / 67108864) ≤ ((13421772 : ℤ) : ℚ) + 1 / 2 := by
        rw [div_le_iff₀ (by norm_num)]
        push_cast
        linarith
      have h'' := hkey.mpr this
      have : (round_half_even (x / (1 / 67108864)) : ℚ) ≤ 13421772 := by exact_mod_cast h''
      linarith
  · push_neg at hbig
    have hlog : -2 ≤ Int.log 2 x :=
      (Int.zpow_le_iff_le_log (by norm_num) hpos).mp (by norm_num; linarith)
    have hself := Int.zpow_log_le_self (b := 2) (by norm_num) hpos
    have hres : (1 : ℚ) / 4 ≤ f32_round_mag x := by
      unfold f32_round_mag
      rw [if_neg h0]
      dsimp only
      rw [max_eq_left (by omega)]
      have hup : (0 : ℚ) < 2 ^ (Int.log 2 x - 23) := by positivity
      have ht : ((2 : ℚ) ^ (23 : ℤ)) ≤ x / 2 ^ (Int.log 2 x - 23) := by
        rw [le_div_iff₀ hup, ← zpow_add₀ (by norm_num : (2 : ℚ) ≠ 0)]
        have : (23 : ℤ) + (Int.log 2 x - 23) = Int.log 2 x := by ring
        rw [this]
        exact_mod_cast hself
      have hfl : (8388608 : ℤ) ≤ ⌊x / 2 ^ (Int.log 2 x - 23)⌋ :=
        Int.le_floor.mpr (by norm_num at ht ⊢; exact ht)
      have hb := (round_half_even_bounds (x / 2 ^ (Int.log 2 x - 23))).1
      have hr : (8388608 : ℚ) ≤ (round_half_even (x / 2 ^ (Int.log 2 x - 23)) : ℚ) := by
        exact_mod_cast (by omega : (8388608 : ℤ) ≤ round_half_even (x / 2 ^ (Int.log 2 x - 23)))
      have hq : (2 : ℚ) ^ (-25 : ℤ) ≤ 2 ^ (Int.log 2 x - 23) :=
        zpow_le_zpow_right₀ (by norm_num) (by omega)
      calc (1 : ℚ) / 4 = 8388608 * 2 ^ (-25 : ℤ) := by norm_num
        _ ≤ 8388608 * 2 ^ (Int.log 2 x - 23) := by
            apply mul_le_mul_of_nonneg_left hq (by norm_num)
        _ ≤ (round_half_even (x / 2 ^ (Int.log 2 x - 23)) : ℚ) * 2 ^ (Int.log 2 x - 23) :=
            mul_le_mul_of_nonneg_right hr (le_of_lt hup)
    constructor
    · intro h; exfalso; linarith
    · intro h; exfalso; linarith

theorem f32_sub_lt_iff (x y : ℚ) :
    |f32_sub x y| < f32_0_2 ↔ |x - y| ≤ 26843545 / 134217728 :=
  f32_round_lt_iff (x - y)

theorem pln_unify_graph_eq (s : pln_t ℚ) (hinit : s.pln_initialized = true) (a b : Nat)
    (tv_a tv_b : truth_value_t ℚ) (ha : s.truth_map a = some tv_a)
    (hb : s.truth_map b = some tv_b) :
    pln_unify_graph f32_sub f32_0_2 s a b
      = if |tv_a.strength - tv_b.strength| ≤ 26843545 / 134217728
        then (if tv_b.confidence < tv_a.confidence then a else b, s) else (0, s) := by
  unfold pln_unify_graph
  rw [if_neg (by rw [hinit]; exact Bool.noConfusion), ha, hb]
  dsimp only
  by_cases h : |tv_a.strength - tv_b.strength| ≤ 26843545 / 134217728
  · rw [if_pos ((f32_sub_lt_iff _ _).mpr h), if_pos h]
  · rw [if_neg (fun hx => h ((f32_sub_lt_iff _ _).mp hx)), if_neg h]

/-- C12 fails as stated, in binary32 arithmetic: with the same cached truth value
`(0.5, 0.5)` for the atoms 1 and 2 (equal strengths, equal confidences),
`pln_unify_graph(1, 2)` returns 2, the second argument, not 1; and with the cached
strengths `0.25` and `0.05f`, which differ by less than 0.2, and equal confidences,
it returns 0, because the binary32 difference is `0.2f`, not below it. -/
theorem pln_unify_tie_counterexample :
    ((pln_example_tie ℚ).truth_map 1 = some { strength := 0.5, confidence := 0.5 }
      ∧ (pln_example_tie ℚ).truth_map 2 = some { strength := 0.5, confidence := 0.5 }
      ∧ (pln_unify_graph f32_sub f32_0_2 (pln_example_tie ℚ) 1 2).1 = 2
      ∧ (pln_unify_graph f32_sub f32_0_2 (pln_example_tie ℚ) 1 2).1 ≠ 1)
    ∧ ((pln_example_near (1 / 2) (1 / 2)).truth_map 1
          = some { strength := 1 / 4, confidence := 1 / 2 }
      ∧ (pln_example_near (1 / 2) (1 / 2)).truth_map 2
          = some { strength := 13421773 / 268435456, confidence := 1 / 2 }
      ∧ |(1 / 4 : ℚ) - 13421773 / 268435456| < 0.2
      ∧ f32_sub (1 / 4) (13421773 / 268435456) = f32_0_2
      ∧ (pln_unify_graph f32_sub f32_0_2 (pln_example_near (1 / 2) (1 / 2)) 1 2).1 = 0
      ∧ (pln_unify_graph f32_sub f32_0_2 (pln_example_near (1 / 2) (1 / 2)) 1 2).1 ≠ 1) := by
  have h1 : (pln_example_tie ℚ).truth_map 1 = some { strength := 0.5, confidence := 0.5 } := by
    simp [pln_example_tie, Function.update]
  have h2 : (pln_example_tie ℚ).truth_map 2 = some { strength := 0.5, confidence := 0.5 } := by
    simp [pln_example_tie, Function.update]
  have h3 : (pln_unify_graph f32_sub f32_0_2 (pln_example_tie ℚ) 1 2).1 = 2 := by
    rw [pln_unify_graph_eq _ rfl 1 2 _ _ h1 h2]
    norm_num
  have n1 : (pln_example_near (1 / 2) (1 / 2)).truth_map 1
      = some { strength := 1 / 4, confidence := 1 / 2 } := by
    simp [pln_example_near, Function.update]
  have n2 : (pln_example_near (1 / 2) (1 / 2)).truth_map 2
      = some { strength := 13421773 / 268435456, confidence := 1 / 2 } := by
    simp [pln_example_near, Function.update]
  have hd : |(1 / 4 : ℚ) - 13421773 / 268435456| = 53687091 / 268435456 := by
    rw [abs_of_nonneg (by norm_num)]
    norm_num
  have n3 : (pln_unify_graph f32_sub f32_0_2 (pln_example_near (1 / 2) (1 / 2)) 1 2).1 = 0 := by
    rw [pln_unify_graph_eq _ rfl 1 2 _ _ n1 n2]
    dsimp only
    rw [hd, if_neg (by norm_num)]
  have n4 : f32_sub (1 / 4) (13421773 / 268435456) = f32_0_2 := by
    rw [f32_0_2_eq]
    unfold f32_sub f32_round
    rw [if_neg (by norm_num),
      f32_round_mag_eq _ (-3) (by norm_num) (by norm_num) (by norm_num)]
    have hfl : ⌊((1 : ℚ) / 4 - 13421773 / 268435456) / 2 ^ ((-3 : ℤ) - 23)⌋ = 13421772 := by
      rw [Int.floor_eq_iff]
      constructor <;> norm_num
    have hr : round_half_even (((1 : ℚ) / 4 - 13421773 / 268435456) / 2 ^ ((-3 : ℤ) - 23))
        = 13421773 := by
      unfold round_half_even
      rw [hfl]
      rw [if_neg (by norm_num), if_pos (by norm_num)]
      norm_num
    rw [hr]
    norm_num
  exact ⟨⟨h1, h2, h3, by rw [h3]; decide⟩,
    ⟨n1, n2, by rw [hd]; norm_num, n4, n3, by rw [n3]; decide⟩⟩

/-- C12 (amended): on an initialised truth engine, in binary32 arithmetic, when `a` and `b`
both have cached truth values whose confidences are equal and whose strengths
differ by at most `26843545 * 2^-27` (about 0.19999999553), which is exactly when the
binary32 difference is below `0.2f`, `pln_unify_graph(a, b)` returns `b` (ties resolve
to the second argument). -/
theorem pln_unify_tie (s : pln_t ℚ)
    (hinit : s.pln_initialized = true) (a b : Nat) (tv_a tv_b : truth_value_t ℚ)
    (ha : s.truth_map a = some tv_a) (hb : s.truth_map b = some tv_b)
    (hdiff : |tv_a.strength - tv_b.strength| ≤ 26843545 / 134217728)
    (hconf : tv_a.confidence = tv_b.confidence) :
    |f32_sub tv_a.strength tv_b.strength| < f32_0_2
    ∧ (pln_unify_graph f32_sub f32_0_2 s a b).1 = b := by
  refine ⟨(f32_sub_lt_iff _ _).mpr hdiff, ?_⟩
  rw [pln_unify_graph_eq s hinit a b tv_a tv_b ha hb, if_pos hdiff, hconf,
    if_neg (lt_irrefl _)]

theorem pln_unify_tie_witness :
    (pln_unify_graph f32_sub f32_0_2 (pln_example_tie ℚ) 1 2).1 = 2 :=
  (pln_unify_tie (pln_example_tie ℚ) rfl 1 2 { strength := 0.5, confidence := 0.5 }
    { strength := 0.5, confidence := 0.5 }
    (by simp [pln_example_tie, Function.update])
    (by simp [pln_example_tie, Function.update])
    (by norm_num) rfl).2

/-- C13 fails as stated, in binary32 arithmetic: the atoms 1 and 2 have the cached
strengths `0.25` and `0.05f`, whose absolute difference `53687091 * 2^-28` is less than
0.2, and the confidences 0.5 and 0.25; the binary32 difference is `0.2f`, which is
not below `0.2f`, and `pln_unify_graph(1, 2)` returns 0, neither 1 nor 2. -/
theorem pln_unify_graph_near_counterexample :
    (pln_example_near (1 / 2) (1 / 4)).pln_initialized = true
    ∧ (pln_example_near (1 / 2) (1 / 4)).truth_map 1
        = some { strength := 1 / 4, confidence := 1 / 2 }
    ∧ (pln_example_near (1 / 2) (1 / 4)).truth_map 2
        = some { strength := 13421773 / 268435456, confidence := 1 / 4 }
    ∧ |(1 / 4 : ℚ) - 13421773 / 268435456| < 0.2
    ∧ (pln_unify_graph f32_sub f32_0_2 (pln_example_near (1 / 2) (1 / 4)) 1 2).1 = 0 := by
  have n1 : (pln_example_near (1 / 2) (1 / 4)).truth_map 1
      = some { strength := 1 / 4, confidence := 1 / 2 } := by
    simp [pln_example_near, Function.update]
  have n2 : (pln_example_near (1 / 2) (1 / 4)).truth_map 2
      = some { strength := 13421773 / 268435456, confidence := 1 / 4 } := by
    simp [pln_example_near, Function.update]
  have hd : |(1 / 4 : ℚ) - 13421773 / 268435456| = 53687091 / 268435456 := by
    rw [abs_of_nonneg (by norm_num)]
    norm_num
  refine ⟨rfl, n1, n2, by rw [hd]; norm_num, ?_⟩
  rw [pln_unify_graph_eq _ rfl 1 2 _ _ n1 n2]
  dsimp only
  rw [hd, if_neg (by norm_num)]

/-- C13 (amended): in binary32 arithmetic, `pln_unify_graph(a, b)` returns 0 when `a` or `b` has
no cached truth value, and when the absolute difference of the cached strengths
exceeds `26843545 * 2^-27` (about 0.19999999553), in particular when it is at least
0.2: that is exactly when the binary32 difference is not below `0.2f`. Otherwise, on
an initialised truth engine, it returns `a` or `b`: `a` when the cached confidence of
`a` is strictly higher, `b` when that of `b` is strictly higher. The statics of the
truth engine are never modified. -/
theorem pln_unify_graph_spec (s : pln_t ℚ) (a b : Nat) :
    ((s.truth_map a = none ∨ s.truth_map b = none) →
        (pln_unify_graph f32_sub f32_0_2 s a b).1 = 0)
    ∧ (∀ tv_a tv_b, s.truth_map a = some tv_a → s.truth_map b = some tv_b →
        (26843545 / 134217728 < |tv_a.strength - tv_b.strength|
          ↔ ¬ |f32_sub tv_a.strength tv_b.strength| < f32_0_2)
        ∧ (26843545 / 134217728 < |tv_a.strength - tv_b.strength| →
            (pln_unify_graph f32_sub f32_0_2 s a b).1 = 0)
        ∧ (0.2 ≤ |tv_a.strength - tv_b.strength| →
            (pln_unify_graph f32_sub f32_0_2 s a b).1 = 0))
    ∧ (∀ tv_a tv_b, s.pln_initialized = true → s.truth_map a = some tv_a →
        s.truth_map b = some tv_b →
        |tv_a.strength - tv_b.strength| ≤ 26843545 / 134217728 →
        ((pln_unify_graph f32_sub f32_0_2 s a b).1 = a
          ∨ (pln_unify_graph f32_sub f32_0_2 s a b).1 = b)
        ∧ (tv_b.confidence < tv_a.confidence →
            (pln_unify_graph f32_sub f32_0_2 s a b).1 = a)
        ∧ (tv_a.confidence < tv_b.confidence →
            (pln_unify_graph f32_sub f32_0_2 s a b).1 = b))
    ∧ (pln_unify_graph f32_sub f32_0_2 s a b).2 = s := by
  have hbig : ∀ tv_a tv_b, s.truth_map a = some tv_a → s.truth_map b = some tv_b →
      26843545 / 134217728 < |tv_a.strength - tv_b.strength| →
      (pln_unify_graph f32_sub f32_0_2 s a b).1 = 0 := by
    intro tv_a tv_b ha hb hd
    cases hinit : s.pln_initialized with
    | false =>
      unfold pln_unify_graph
      rw [if_pos hinit]
    | true =>
      rw [pln_unify_graph_eq s hinit a b tv_a tv_b ha hb, if_neg (not_le.mpr hd)]
  refine ⟨?_, ?_, ?_, ?_⟩
  · intro h
    unfold pln_unify_graph
    split_ifs
    · rfl
    · rcases h with h | h
      · rw [h]
      · rw [h]; cases s.truth_map a <;> rfl
  · intro tv_a tv_b ha hb
    refine ⟨?_, hbig tv_a tv_b ha hb, ?_⟩
    · rw [f32_sub_lt_iff, not_le]
    · intro hd
      apply hbig tv_a tv_b ha hb
      have : (26843545 : ℚ) / 134217728 < 0.2 := by norm_num
      exact lt_of_lt_of_le this hd
  · intro tv_a tv_b hinit ha hb hd
    rw [pln_unify_graph_eq s hinit a b tv_a tv_b ha hb, if_pos hd]
    refine ⟨?_, ?_, ?_⟩
    · dsimp only
      split_ifs
      · left; rfl
      · right; rfl
    · intro h; dsimp only; rw [if_pos h]
    · intro h; dsimp only; rw [if_neg (not_lt.mpr (le_of_lt h))]
  · unfold pln_unify_graph
    split_ifs
    · rfl
    · cases s.truth_map a with
      | none => rfl
      | some tv_a =>
        cases s.truth_map b with
        | none => rfl
        | some tv_b =>
          dsimp only
          split_ifs <;> rfl

theorem pln_unify_graph_spec_witness :
    (pln_unify_graph f32_sub f32_0_2 (pln_example_pair ℚ) 1 3).1 = 0
    ∧ (pln_unify_graph f32_sub f32_0_2 (pln_example_pair ℚ) 1 2).1 = 0
    ∧ (pln_unify_graph f32_sub f32_0_2 (pln_example_near (1 / 2) (1 / 4)) 1 2).1 = 0
    ∧ (pln_unify_graph f32_sub f32_0_2 (pln_example ℚ) 1 1).1 = 1 := by
  have h1 : (pln_example_pair ℚ).truth_map 1 = some { strength := 0.4, confidence := 0.8 } := by
    simp [pln_example_pair, Function.update]
  have h2 : (pln_example_pair ℚ).truth_map 2 = some { strength := 0.6, confidence := 0.5 } := by
    simp [pln_example_pair, Function.update]
  have h3 : (pln_example_pair ℚ).truth_map 3 = none := by
    simp [pln_example_pair, Function.update]
  have h4 : (pln_example ℚ).truth_map 1 = some { strength := 0.4, confidence := 0.8 } := by
    simp [pln_example, Function.update]
  have n1 : (pln_example_near (1 / 2) (1 / 4)).truth_map 1
      = some { strength := 1 / 4, confidence := 1 / 2 } := by
    simp [pln_example_near, Function.update]
  have n2 : (pln_example_near (1 / 2) (1 / 4)).truth_map 2
      = some { strength := 13421773 / 268435456, confidence := 1 / 4 } := by
    simp [pln_example_near, Function.update]
  refine ⟨(pln_unify_graph_spec (pln_example_pair ℚ) 1 3).1 (Or.inr h3),
    ((pln_unify_graph_spec (pln_example_pair ℚ) 1 2).2.1 _ _ h1 h2).2.2
      (by norm_num; exact le_abs_self _),
    ((pln_unify_graph_spec (pln_example_near (1 / 2) (1 / 4)) 1 2).2.1 _ _ n1 n2).2.1
      (by rw [abs_of_nonneg (by norm_num)]; norm_num), ?_⟩
  have := ((pln_unify_graph_spec (pln_example ℚ) 1 1).2.2.1 _ _ rfl h4 h4 (by norm_num)).1
  rcases this with h | h <;> exact h

/-! ## Bootstrap sequencer -/

theorem bootstrap_stage0_ok {F : Type} (g : Nat) : stage_fn_ok (bootstrap_stage0 (F := F) g) := by
  intro k
  unfold bootstrap_stage0
  dsimp only
  split_ifs
  · exact ⟨Or.inr rfl, rfl⟩
  · exact ⟨Or.inl rfl, rfl⟩

theorem bootstrap_stage1_ok {F : Type} : stage_fn_ok (bootstrap_stage1 (F := F)) := by
  intro k
  unfold bootstrap_stage1
  dsimp only
  split_ifs
  · exact ⟨Or.inr rfl, rfl⟩
  · exact ⟨Or.inr rfl, rfl⟩
  · exact ⟨Or.inl rfl, rfl⟩

theorem bootstrap_stage2_ok {F : Type} : stage_fn_ok (bootstrap_stage2 (F := F)) := by
  intro k
  unfold bootstrap_stage2
  dsimp only
  split_ifs
  · exact ⟨Or.inr rfl, rfl⟩
  · exact ⟨Or.inl rfl, rfl⟩

theorem bootstrap_stage3_ok {F : Type} : stage_fn_ok (bootstrap_stage3 (F := F)) := by
  intro k
  unfold bootstrap_stage3
  dsimp only
  split_ifs
  · exact ⟨Or.inr rfl, rfl⟩
  · exact ⟨Or.inr rfl, rfl⟩
  · exact ⟨Or.inr rfl, rfl⟩
  · exact ⟨Or.inr rfl, rfl⟩
  · exact ⟨Or.inl rfl, rfl⟩

theorem bootstrap_inv_start {F : Type} (k : kernel_t F) (target : Nat) :
    bootstrap_inv k.g_current_stage target 0 { ret := 0, kernel := k, calls := [] } := by
  refine ⟨rfl, ?_, ?_⟩
  · intro _
    refine ⟨fun c hc => absurd hc (List.not_mem_nil c), ?_, ?_⟩
    · simp
    · simp
  · intro h; exact absurd rfl h

theorem bootstrap_inv_step {F : Type} (run : kernel_t F → Int × kernel_t F)
    (hrun : stage_fn_ok run) (cur target j : Nat) (st : bootstrap_result F)
    (h : bootstrap_inv cur target j st) :
    bootstrap_inv cur target (j + 1) (bootstrap_step run j target st) := by
  obtain ⟨h1, h2, h3⟩ := h
  unfold bootstrap_step
  by_cases hret : st.ret ≠ 0
  · rw [if_pos hret]
    obtain ⟨a1, a2, a3, a4, a5, a6⟩ := h3 hret
    refine ⟨h1, fun e => absurd e hret, fun _ => ⟨a1, a2, ?_, a4, a5, a6⟩⟩
    omega
  · rw [if_neg hret]
    have hret0 : st.ret = 0 := not_not.mp hret
    obtain ⟨b1, b2, b3⟩ := h2 hret0
    by_cases hc : st.kernel.g_current_stage ≤ j ∧ target ≥ j
    · rw [if_pos hc]
      obtain ⟨hw, ht⟩ := hc
      have hj : j = cur + st.calls.length := by
        rw [b3] at hw
        split_ifs at hw with hn <;> omega
      obtain ⟨hr01, hrw⟩ := hrun st.kernel
      have hmap : (st.calls ++ [(j, (run st.kernel).1)]).map Prod.fst
          = List.range' cur (st.calls ++ [(j, (run st.kernel).1)]).length := by
        rw [List.map_append, h1, List.length_append, List.length_singleton,
          List.range'_concat, hj]
        simp
      have hlen : (st.calls ++ [(j, (run st.kernel).1)]).length = st.calls.length + 1 := by
        rw [List.length_append, List.length_singleton]
      dsimp only
      by_cases hfail : (run st.kernel).1 ≠ 0
      · rw [if_pos hfail]
        have hm1 : (run st.kernel).1 = -1 := hr01.resolve_left hfail
        unfold bootstrap_inv
        dsimp only
        rw [hlen]
        refine ⟨by rw [← hlen]; exact hmap, fun e => absurd e hfail,
          fun _ => ⟨hm1, ?_, ?_, ?_, ?_, ?_⟩⟩
        · omega
        · omega
        · rw [List.getLast?_concat, hm1]
          congr 2
        · intro c hcm
          rw [List.dropLast_concat] at hcm
          exact b1 c hcm
        · rw [hrw, b3]
          split_ifs <;> omega
      · rw [if_neg hfail]
        have h0 : (run st.kernel).1 = 0 := not_not.mp hfail
        unfold bootstrap_inv
        dsimp only
        rw [hlen]
        refine ⟨by rw [← hlen]; exact hmap, fun _ => ⟨?_, ?_, ?_⟩, fun e => absurd h0 e⟩
        · intro c hcm
          rcases List.mem_append.mp hcm with hcm | hcm
          · exact b1 c hcm
          · rw [List.mem_singleton.mp hcm]; exact h0
        · omega
        · rw [if_neg (Nat.succ_ne_zero _)]
          omega
    · rw [if_neg hc]
      refine ⟨h1, fun _ => ⟨b1, ?_, b3⟩, fun e => absurd hret0 e⟩
      rw [b3] at hc
      split_ifs at hc with hn <;> omega

/-- The state of a finished `kern_bootstrap_init` call. -/
theorem kern_bootstrap_inv {F : Type} (k : kernel_t F) (g target : Nat) :
    bootstrap_inv k.g_current_stage target 4 (kern_bootstrap_init k g target) := by
  unfold kern_bootstrap_init STAGE0_INIT STAGE1_HYPERGRAPH STAGE2_SCHEDULER STAGE3_COGNITIVE
  exact bootstrap_inv_step _ bootstrap_stage3_ok _ _ 3 _
    (bootstrap_inv_step _ bootstrap_stage2_ok _ _ 2 _
      (bootstrap_inv_step _ bootstrap_stage1_ok _ _ 1 _
        (bootstrap_inv_step _ (bootstrap_stage0_ok g) _ _ 0 _ (bootstrap_inv_start k target))))

/-- C14 fails as stated: after a successful `kern_bootstrap_init(STAGE3_COGNITIVE)` from program
start, a second `kern_bootstrap_init(STAGE3_COGNITIVE)` calls `bootstrap_stage3` again; and
after a successful `kern_bootstrap_init(STAGE0_INIT)` a second one calls `bootstrap_stage0`
again. -/
theorem kern_bootstrap_repeat_counterexample :
    (kern_bootstrap_init (kernel_zero ℚ) 1 STAGE3_COGNITIVE).ret = 0
    ∧ (kern_bootstrap_init (kern_bootstrap_init (kernel_zero ℚ) 1 STAGE3_COGNITIVE).kernel 1
        STAGE3_COGNITIVE).calls = [(STAGE3_COGNITIVE, 0)]
    ∧ (kern_bootstrap_init (kernel_zero ℚ) 1 STAGE0_INIT).ret = 0
    ∧ (kern_bootstrap_init (kern_bootstrap_init (kernel_zero ℚ) 1 STAGE0_INIT).kernel 1
        STAGE0_INIT).calls = [(STAGE0_INIT, 0)] := by
  refine ⟨by decide, by decide, by decide, by decide⟩

/-- C14 (amended): `kern_bootstrap_init(target)` calls the stage functions of consecutive stages
starting with the stage of the current watermark (that stage included, also when its
function completed in an earlier call), in increasing stage order and not beyond
`target`; when it returns 0 it has called exactly the stage functions of the stages
from the watermark to `target`, so a call repeated with the watermark already at
`target` calls the stage function of `target` once more and no other. No stage function
of a stage below the watermark is called. -/
theorem kern_bootstrap_runs {F : Type} (k : kernel_t F) (g target : Nat)
    (htarget : target ≤ STAGE3_COGNITIVE) :
    ((kern_bootstrap_init k g target).calls.map Prod.fst
        = List.range' k.g_current_stage (kern_bootstrap_init k g target).calls.length)
    ∧ (kern_bootstrap_init k g target).calls.length ≤ target + 1 - k.g_current_stage
    ∧ ((kern_bootstrap_init k g target).ret = 0 →
        (kern_bootstrap_init k g target).calls.map Prod.fst
          = List.range' k.g_current_stage (target + 1 - k.g_current_stage))
    ∧ ((kern_bootstrap_init k g target).ret = 0 → k.g_current_stage = target →
        (kern_bootstrap_init k g target).calls.map Prod.fst = [target])
    ∧ (∀ c ∈ (kern_bootstrap_init k g target).calls, k.g_current_stage ≤ c.1 ∧ c.1 ≤ target) := by
  obtain ⟨h1, h2, h3⟩ := kern_bootstrap_inv k g target
  have hmin : min 4 (target + 1) = target + 1 := by
    unfold STAGE3_COGNITIVE at htarget; omega
  rw [hmin] at h2 h3
  have hlen : (kern_bootstrap_init k g target).calls.length ≤ target + 1 - k.g_current_stage := by
    by_cases hret : (kern_bootstrap_init k g target).ret = 0
    · rw [(h2 hret).2.1]
    · have := (h3 hret).2.2.1
      omega
  have hrange : (kern_bootstrap_init k g target).ret = 0 →
      (kern_bootstrap_init k g target).calls.map Prod.fst
        = List.range' k.g_current_stage (target + 1 - k.g_current_stage) := by
    intro hret
    rw [h1, (h2 hret).2.1]
  refine ⟨h1, hlen, hrange, ?_, ?_⟩
  · intro hret hcur
    rw [hrange hret, hcur]
    have : target + 1 - target = 1 := by omega
    rw [this]
    rfl
  · intro c hc
    have hm : c.1 ∈ (kern_bootstrap_init k g target).calls.map Prod.fst :=
      List.mem_map_of_mem _ hc
    rw [h1] at hm
    have := List.mem_range'_1.mp hm
    omega

theorem kern_bootstrap_runs_witness :
    (kern_bootstrap_init (kernel_zero ℚ) 1 STAGE3_COGNITIVE).calls.map Prod.fst = [0, 1, 2, 3] := by
  have h := (kern_bootstrap_runs (kernel_zero ℚ) 1 STAGE3_COGNITIVE (by decide)).2.2.1
    (by decide)
  rw [h]
  decide

/-- C15: if a stage function fails during `kern_bootstrap_init(target)`, the call returns its
negative result (-1); the failing call is the last stage function called, so no later
stage function is run; every earlier call returned 0; and the watermark is the
stage before the failing one, which is the last stage that succeeded, or is
unchanged when the first stage function called is the one that fails. -/
theorem kern_bootstrap_failure {F : Type} (k : kernel_t F) (g target : Nat) :
    ((∃ c ∈ (kern_bootstrap_init k g target).calls, c.2 ≠ 0) →
      (kern_bootstrap_init k g target).ret ≠ 0)
    ∧ ((kern_bootstrap_init k g target).ret ≠ 0 →
        (kern_bootstrap_init k g target).ret = -1
        ∧ (kern_bootstrap_init k g target).calls.map Prod.fst
            = List.range' k.g_current_stage (kern_bootstrap_init k g target).calls.length
        ∧ (kern_bootstrap_init k g target).calls.getLast?
            = some (k.g_current_stage + (kern_bootstrap_init k g target).calls.length - 1,
                (kern_bootstrap_init k g target).ret)
        ∧ (∀ c ∈ (kern_bootstrap_init k g target).calls.dropLast, c.2 = 0)
        ∧ ((kern_bootstrap_init k g target).calls.length = 1 →
            (kern_bootstrap_init k g target).kernel.g_current_stage = k.g_current_stage)
        ∧ (2 ≤ (kern_bootstrap_init k g target).calls.length →
            (kern_bootstrap_init k g target).kernel.g_current_stage
              = (k.g_current_stage + (kern_bootstrap_init k g target).calls.length - 1) - 1)) := by
  obtain ⟨h1, h2, h3⟩ := kern_bootstrap_inv k g target
  refine ⟨?_, ?_⟩
  · rintro ⟨c, hc, hne⟩ hret
    exact hne ((h2 hret).1 c hc)
  · intro hret
    obtain ⟨a1, a2, a3, a4, a5, a6⟩ := h3 hret
    refine ⟨a1, h1, by rw [a4, a1], a5, ?_, ?_⟩
    · intro hl; rw [a6, if_pos hl]
    · intro hl; rw [a6, if_neg (by omega)]; omega

theorem kern_bootstrap_failure_witness :
    (kern_bootstrap_init (kernel_zero ℚ) 0 STAGE3_COGNITIVE).ret = -1
    ∧ (kern_bootstrap_init (kernel_zero ℚ) 0 STAGE3_COGNITIVE).calls = [(STAGE0_INIT, -1)]
    ∧ (kern_bootstrap_init (kernel_zero ℚ) 0 STAGE3_COGNITIVE).kernel.g_current_stage
        = STAGE0_INIT :=
  ⟨((kern_bootstrap_failure (kernel_zero ℚ) 0 STAGE3_COGNITIVE).2 (by decide)).1,
   by decide, by decide⟩

/-- C16: the watermark never decreases across a `kern_bootstrap_init` call; a call in which
every stage function it runs succeeds returns 0 and, for a target up to
`STAGE3_COGNITIVE`, leaves the watermark equal to the maximum of the previous
watermark and the target. -/
theorem kern_bootstrap_watermark {F : Type} (k : kernel_t F) (g target : Nat) :
    k.g_current_stage ≤ (kern_bootstrap_init k g target).kernel.g_current_stage
    ∧ ((∀ c ∈ (kern_bootstrap_init k g target).calls, c.2 = 0) →
        (kern_bootstrap_init k g target).ret = 0)
    ∧ (target ≤ STAGE3_COGNITIVE → (kern_bootstrap_init k g target).ret = 0 →
        (kern_bootstrap_init k g target).kernel.g_current_stage
          = max k.g_current_stage target) := by
  obtain ⟨h1, h2, h3⟩ := kern_bootstrap_inv k g target
  refine ⟨?_, ?_, ?_⟩
  · by_cases hret : (kern_bootstrap_init k g target).ret = 0
    · rw [(h2 hret).2.2]
      split_ifs <;> omega
    · obtain ⟨_, a2, _, _, _, a6⟩ := h3 hret
      rw [a6]
      split_ifs <;> omega
  · intro hall
    by_contra hret
    obtain ⟨_, _, _, a4, _, _⟩ := h3 hret
    have hmem : (k.g_current_stage + (kern_bootstrap_init k g target).calls.length - 1, (-1 : Int))
        ∈ (kern_bootstrap_init k g target).calls := List.mem_of_getLast?_eq_some a4
    have := hall _ hmem
    simp at this
  · intro htarget hret
    obtain ⟨_, b2, b3⟩ := h2 hret
    have hmin : min 4 (target + 1) = target + 1 := by
      unfold STAGE3_COGNITIVE at htarget; omega
    rw [hmin] at b2
    rw [b3]
    split_ifs <;> omega

theorem kern_bootstrap_watermark_witness :
    (kern_bootstrap_init (kernel_zero ℚ) 1 STAGE3_COGNITIVE).ret = 0
    ∧ (kern_bootstrap_init (kernel_zero ℚ) 1 STAGE3_COGNITIVE).kernel.g_current_stage
        = STAGE3_COGNITIVE
    ∧ (kern_bootstrap_init (kernel_zero ℚ) 1 STAGE3_COGNITIVE).kernel.hgfs.initialized = true
    ∧ (kern_bootstrap_init (kernel_zero ℚ) 1 STAGE3_COGNITIVE).kernel.scheduler.initialized = true
    ∧ (kern_bootstrap_init (kernel_zero ℚ) 1 STAGE3_COGNITIVE).kernel.atomspace.initialized = true
    ∧ (kern_bootstrap_init (kernel_zero ℚ) 1 STAGE3_COGNITIVE).kernel.ecan.ecan_initialized = true
    ∧ (kern_bootstrap_init (kernel_zero ℚ) 1 STAGE3_COGNITIVE).kernel.pln.pln_initialized = true := by
  have hret : (kern_bootstrap_init (kernel_zero ℚ) 1 STAGE3_COGNITIVE).ret = 0 := by decide
  have h := (kern_bootstrap_watermark (kernel_zero ℚ) 1 STAGE3_COGNITIVE).2.2 (by decide) hret
  refine ⟨hret, ?_, by decide, by decide, by decide, by decide, by decide⟩
  rw [h]
  decide

/-! ## Memory arena: allocation, release and coalescing -/

theorem coalesce_head (l : List mem_block_t) :
    ∀ c : mem_block_t, ∃ c' tail, (coalesce c l).1 = c' :: tail ∧ c'.addr = c.addr ∧
      c'.allocated = c.allocated ∧ c'.region = c.region := by
  induction l with
  | nil => intro c; exact ⟨c, [], rfl, rfl, rfl, rfl⟩
  | cons next rest ih =>
    intro c
    unfold coalesce
    split_ifs with h
    · obtain ⟨c', tail, e, h1, h2, h3⟩ :=
        ih { c with size := add64 c.size (add64 sizeof_mem_block_t next.size) }
      exact ⟨c', tail, e, h1, h2, h3⟩
    · exact ⟨c, _, rfl, rfl, rfl, rfl⟩

theorem coalesce_no_adjacent_free (l : List mem_block_t) :
    ∀ c : mem_block_t, no_adjacent_free (coalesce c l).1 := by
  induction l with
  | nil => intro c; exact List.chain'_singleton c
  | cons next rest ih =>
    intro c
    unfold coalesce
    split_ifs with h
    · exact ih _
    · obtain ⟨n', tail, e, _, h2, _⟩ := coalesce_head rest next
      have hn := ih next
      dsimp only
      rw [e] at hn ⊢
      refine List.chain'_cons.mpr ⟨?_, hn⟩
      rw [h2]
      intro hx
      apply h
      simp [hx.1, hx.2]

theorem coalesce_all_no_adjacent_free (l : List mem_block_t) :
    no_adjacent_free (coalesce_all l).1 := by
  cases l with
  | nil => exact List.chain'_nil
  | cons b rest => exact coalesce_no_adjacent_free rest b

theorem coalesce_of_no_adjacent_free (l : List mem_block_t) :
    ∀ c : mem_block_t, no_adjacent_free (c :: l) → coalesce c l = (c :: l, []) := by
  induction l with
  | nil => intro c _; rfl
  | cons next rest ih =>
    intro c h
    obtain ⟨h1, h2⟩ := List.chain'_cons.mp h
    unfold coalesce
    have hc : ¬ ((!c.allocated && !next.allocated) = true) := by
      intro hx
      simp only [Bool.and_eq_true, Bool.not_eq_true'] at hx
      exact h1 hx
    rw [if_neg hc, ih next h2]

theorem coalesce_all_of_no_adjacent_free (l : List mem_block_t) (h : no_adjacent_free l) :
    coalesce_all l = (l, []) := by
  cases l with
  | nil => rfl
  | cons c l => exact coalesce_of_no_adjacent_free l c h

theorem coalesce_unlinked_free (l : List mem_block_t) :
    ∀ c : mem_block_t, ∀ b ∈ (coalesce c l).2, b.allocated = false := by
  induction l with
  | nil => intro c b hb; cases hb
  | cons next rest ih =>
    intro c b hb
    unfold coalesce at hb
    split_ifs at hb with h
    · simp only [Bool.and_eq_true, Bool.not_eq_true'] at h
      rcases List.mem_cons.mp hb with rfl | hb
      · exact h.2
      · exact ih _ b hb
    · exact ih next b hb

theorem coalesce_all_unlinked_free (l : List mem_block_t) :
    ∀ b ∈ (coalesce_all l).2, b.allocated = false := by
  cases l with
  | nil => intro b hb; cases hb
  | cons c rest => exact coalesce_unlinked_free rest c

theorem coalesce_chain_origin (l : List mem_block_t) :
    ∀ c : mem_block_t, ∀ b ∈ (coalesce c l).1,
      ∃ b' ∈ c :: l, b'.addr = b.addr ∧ b'.allocated = b.allocated := by
  induction l with
  | nil =>
    intro c b hb
    exact ⟨b, hb, rfl, rfl⟩
  | cons next rest ih =>
    intro c b hb
    unfold coalesce at hb
    split_ifs at hb with h
    · obtain ⟨b', hb', e1, e2⟩ := ih _ b hb
      rcases List.mem_cons.mp hb' with rfl | hb'
      · exact ⟨c, List.mem_cons_self _ _, e1, e2⟩
      · exact ⟨b', List.mem_cons_of_mem _ (List.mem_cons_of_mem _ hb'), e1, e2⟩
    · rcases List.mem_cons.mp hb with rfl | hb
      · exact ⟨b, List.mem_cons_self _ _, rfl, rfl⟩
      · obtain ⟨b', hb', e1, e2⟩ := ih next b hb
        exact ⟨b', List.mem_cons_of_mem _ hb', e1, e2⟩

theorem coalesce_all_chain_origin (l : List mem_block_t) :
    ∀ b ∈ (coalesce_all l).1, ∃ b' ∈ l, b'.addr = b.addr ∧ b'.allocated = b.allocated := by
  cases l with
  | nil => intro b hb; cases hb
  | cons c rest => exact coalesce_chain_origin rest c

theorem alloc_loop_head (size : Nat) (region : mem_region_t) (b : mem_block_t)
    (l : List mem_block_t) :
    ∃ b' tail, (alloc_loop size region (b :: l)).blocks = b' :: tail ∧ b'.addr = b.addr ∧
      (b'.allocated = false → b.allocated = false) := by
  unfold alloc_loop
  split_ifs
  · exact ⟨_, _, rfl, rfl, fun h => by simp at h⟩
  · exact ⟨_, _, rfl, rfl, fun h => by simp at h⟩
  · exact ⟨b, _, rfl, rfl, fun h => h⟩

theorem alloc_loop_no_adjacent_free (size : Nat) (region : mem_region_t)
    (l : List mem_block_t) (h : no_adjacent_free l) :
    no_adjacent_free (alloc_loop size region l).blocks := by
  induction l with
  | nil => exact List.chain'_nil
  | cons b rest ih =>
    have hrest : no_adjacent_free rest := List.Chain'.tail h
    have hb : b.allocated = false → ∀ x ∈ rest.head?, x.allocated = true := by
      intro hf x hx
      cases rest with
      | nil => cases hx
      | cons y t =>
        simp only [List.head?_cons, Option.mem_def, Option.some.injEq] at hx
        subst hx
        have := (List.chain'_cons.mp h).1
        cases hy : y.allocated with
        | true => rfl
        | false => exact absurd ⟨hf, hy⟩ this
    unfold alloc_loop
    split_ifs with hc hs
    · simp only [Bool.and_eq_true, Bool.not_eq_true', decide_eq_true_eq] at hc
      refine List.chain'_cons.mpr ⟨by simp, ?_⟩
      cases rest with
      | nil => exact List.chain'_singleton _
      | cons y t =>
        refine List.chain'_cons.mpr ⟨?_, hrest⟩
        have := hb hc.1 y rfl
        simp [this]
    · simp only [Bool.and_eq_true, Bool.not_eq_true', decide_eq_true_eq] at hc
      cases rest with
      | nil => exact List.chain'_singleton _
      | cons y t => exact List.chain'_cons.mpr ⟨by simp, hrest⟩
    · dsimp only
      cases rest with
      | nil => exact List.chain'_singleton _
      | cons y t =>
        obtain ⟨y', tail, e, _, hy⟩ := alloc_loop_head size region y t
        have ih' := ih hrest
        rw [e] at ih' ⊢
        refine List.chain'_cons.mpr ⟨?_, ih'⟩
        intro hx
        exact (List.chain'_cons.mp h).1 ⟨hx.1, hy hx.2⟩

theorem dtesn_mem_alloc_eq (m : memory_t) (hinit : m.initialized = true) (aa size : Nat)
    (region : mem_region_t) :
    dtesn_mem_alloc m aa size region
      = ((alloc_loop (align_size size) region m.free_list).ptr,
          { m with free_list := (alloc_loop (align_size size) region m.free_list).blocks
                   heap := alloc_stores m.heap (alloc_loop (align_size size) region m.free_list)
                     region }) := by
  simp [dtesn_mem_alloc, hinit]

theorem arena_free_inv_init (base H : Nat) :
    no_adjacent_free (dtesn_mem_init memory_zero base H).2.free_list := by
  unfold dtesn_mem_init memory_zero
  dsimp only
  split_ifs <;> first | exact List.chain'_nil | exact List.chain'_singleton _

theorem arena_free_inv_alloc (m : memory_t) (hinit : m.initialized = true)
    (h : no_adjacent_free m.free_list) (aa size : Nat) (region : mem_region_t) :
    no_adjacent_free (dtesn_mem_alloc m aa size region).2.free_list := by
  rw [dtesn_mem_alloc_eq m hinit]
  exact alloc_loop_no_adjacent_free _ _ _ h

theorem arena_free_inv_free (m : memory_t) (h : no_adjacent_free m.free_list) (p : Nat) :
    no_adjacent_free (dtesn_mem_free m p).free_list := by
  unfold dtesn_mem_free
  split_ifs with h0
  · exact h
  · dsimp only
    split
    · split_ifs
      · exact h
      · exact coalesce_all_no_adjacent_free _
    · split_ifs
      · exact h
      · exact coalesce_all_no_adjacent_free _

theorem arena_reach_free_inv (base H : Nat) (hH : sizeof_mem_block_t ≤ H) (hb : base ≠ 0)
    (hal : base % ALIGNMENT = 0) (hfit : base + H < WORD) (m : memory_t) (ps : List Nat)
    (hr : arena_reach base H m ps) : no_adjacent_free m.free_list := by
  induction hr with
  | init => exact arena_free_inv_init base H
  | alloc m ps aa size region hr' _ ih =>
    exact arena_free_inv_alloc m (arena_reach_inv base H hH hb hal hfit m ps hr').1 ih aa size region
  | free m ps p _ _ ih => exact arena_free_inv_free m ih p
  | write m ps a v _ _ _ ih => exact ih

/-- C19: after `dtesn_mem_free(p)` of an allocated block of the chain, in any initialised arena,
no two consecutive blocks of the chain are both free, whatever runs of free blocks
the release created (a free predecessor of the freed block included); and no arena
state reachable from `dtesn_mem_init` by `dtesn_mem_alloc` and `dtesn_mem_free` has two
adjacent free blocks, the blocks still tiling the heap after the release. -/
theorem arena_free_coalesces (m : memory_t) (p : Nat) :
    (∀ b, p ≠ 0 → m.initialized = true →
        m.free_list.find? (fun x => x.addr = p - sizeof_mem_block_t) = some b →
        b.allocated = true →
        (dtesn_mem_free m p).free_list
            = (coalesce_all (clear_allocated (p - sizeof_mem_block_t) m.free_list)).1
        ∧ no_adjacent_free (dtesn_mem_free m p).free_list)
    ∧ (∀ base H ps, sizeof_mem_block_t ≤ H → base ≠ 0 → base % ALIGNMENT = 0 →
        base + H < WORD → arena_reach base H m ps →
        no_adjacent_free m.free_list
        ∧ no_adjacent_free (dtesn_mem_free m p).free_list
        ∧ tiles base (dtesn_mem_free m p).free_list (base + H)) := by
  refine ⟨?_, ?_⟩
  · intro b hp hinit hfind hb
    have e : (dtesn_mem_free m p).free_list
        = (coalesce_all (clear_allocated (p - sizeof_mem_block_t) m.free_list)).1 := by
      unfold dtesn_mem_free
      rw [if_neg (by simp [hp, hinit])]
      simp [hfind, hb]
    rw [e]
    exact ⟨rfl, coalesce_all_no_adjacent_free _⟩
  · intro base H ps hH hb hal hfit hr
    have h1 := arena_reach_free_inv base H hH hb hal hfit m ps hr
    have h2 := arena_reach_inv base H hH hb hal hfit m ps hr
    exact ⟨h1, arena_free_inv_free m h1 p, (arena_inv_free base H hfit m p h2).2.2.2⟩

theorem dtesn_mem_free_of_header (m : memory_t) (p : Nat)
    (h : header_allocated m (p - sizeof_mem_block_t) = false) :
    dtesn_mem_free m p = m := by
  unfold dtesn_mem_free
  split_ifs with h0
  · rfl
  · dsimp only
    unfold header_allocated at h
    cases hc : m.free_list.find? (fun b => b.addr = p - sizeof_mem_block_t) with
    | some b =>
      rw [hc] at h
      dsimp only at h
      simp [h]
    | none =>
      rw [hc] at h
      dsimp only at h ⊢
      have h0 : m.heap (p - sizeof_mem_block_t + offsetof_allocated) = 0 := by
        simpa using h
      rw [if_pos h0]

theorem clear_allocated_at (block : Nat) (l : List mem_block_t) :
    ∀ b ∈ clear_allocated block l, b.addr = block → b.allocated = false := by
  intro b hb haddr
  unfold clear_allocated at hb
  obtain ⟨x, _, rfl⟩ := List.mem_map.mp hb
  split_ifs at haddr ⊢ with hx
  · rfl
  · exact absurd haddr hx

theorem dtesn_mem_free_cases (m : memory_t) (p : Nat) :
    dtesn_mem_free m p = m
    ∨ (∃ c, p ≠ 0 ∧ m.initialized = true
        ∧ m.free_list.find? (fun b => b.addr = p - sizeof_mem_block_t) = some c
        ∧ c.allocated = true
        ∧ dtesn_mem_free m p
          = { m with
              free_list := (coalesce_all (clear_allocated (p - sizeof_mem_block_t) m.free_list)).1
              heap := store_allocated m.heap (p - sizeof_mem_block_t) false })
    ∨ (p ≠ 0 ∧ m.initialized = true
        ∧ m.free_list.find? (fun b => b.addr = p - sizeof_mem_block_t) = none
        ∧ m.heap (p - sizeof_mem_block_t + offsetof_allocated) ≠ 0
        ∧ dtesn_mem_free m p
          = { m with
              free_list := (coalesce_all (clear_region_at
                (p - sizeof_mem_block_t + offsetof_allocated) m.free_list)).1
              heap := Function.update m.heap (p - sizeof_mem_block_t + offsetof_allocated) 0 }) := by
  unfold dtesn_mem_free
  by_cases h0 : p = 0 ∨ m.initialized = false
  · left; rw [if_pos h0]
  · rw [if_neg h0]
    have hp : p ≠ 0 := fun e => h0 (Or.inl e)
    have hinit : m.initialized = true := by
      cases hi : m.initialized with
      | true => rfl
      | false => exact absurd (Or.inr hi) h0
    dsimp only
    cases hc : m.free_list.find? (fun b => b.addr = p - sizeof_mem_block_t) with
    | some c =>
      dsimp only
      cases hca : c.allocated with
      | false => left; simp
      | true => right; left; exact ⟨c, hp, hinit, rfl, hca, by simp⟩
    | none =>
      dsimp only
      by_cases hz : m.heap (p - sizeof_mem_block_t + offsetof_allocated) = 0
      · left; rw [if_pos hz]
      · right; right; rw [if_neg hz]; exact ⟨hp, hinit, rfl, hz, rfl⟩

theorem clear_region_at_origin (a : Nat) (l : List mem_block_t) :
    ∀ b ∈ clear_region_at a l, ∃ x ∈ l, x.addr = b.addr ∧ x.allocated = b.allocated := by
  intro b hb
  unfold clear_region_at at hb
  obtain ⟨x, hx, rfl⟩ := List.mem_map.mp hb
  refine ⟨x, hx, ?_, ?_⟩ <;> split_ifs <;> rfl

theorem find_header_none (a : Nat) (l : List mem_block_t) :
    l.find? (fun b => b.addr = a) = none ↔ ∀ b ∈ l, b.addr ≠ a := by
  rw [List.find?_eq_none]
  constructor
  · intro h b hb; simpa using h b hb
  · intro h b hb; simpa using h b hb

theorem separated_of_pairwise (l : List mem_block_t)
    (h : List.Pairwise (fun a b => a.addr + sizeof_mem_block_t + a.size ≤ b.addr) l) :
    ∀ f ∈ l, ∀ g ∈ l, g.addr ≤ f.addr ∨ f.addr + sizeof_mem_block_t + f.size ≤ g.addr := by
  induction l with
  | nil => intro f hf; cases hf
  | cons a l ih =>
    obtain ⟨h1, h2⟩ := List.pairwise_cons.mp h
    intro f hf g hg
    rcases List.mem_cons.mp hf with e1 | hf1
    · rcases List.mem_cons.mp hg with e2 | hg1
      · rw [e1, e2]; exact Or.inl (le_refl _)
      · rw [e1]; exact Or.inr (h1 g hg1)
    · rcases List.mem_cons.mp hg with e2 | hg1
      · left
        have := h1 f hf1
        rw [e2]
        omega
      · exact ih h2 f hf1 g hg1

theorem find_header_of_mem (l : List mem_block_t)
    (h : List.Pairwise (fun a b => a.addr + sizeof_mem_block_t + a.size ≤ b.addr) l) :
    ∀ f ∈ l, l.find? (fun b => b.addr = f.addr) = some f := by
  induction l with
  | nil => intro f hf; cases hf
  | cons a l ih =>
    obtain ⟨h1, h2⟩ := List.pairwise_cons.mp h
    intro f hf
    rcases List.mem_cons.mp hf with rfl | hf
    · simp
    · have hne : a.addr ≠ f.addr := by
        have := h1 f hf
        unfold sizeof_mem_block_t at this
        omega
      rw [List.find?_cons_of_neg _ (by simpa using hne)]
      exact ih h2 f hf

theorem clear_region_at_of_no_header (a : Nat) (l : List mem_block_t)
    (h : ∀ b ∈ l, b.addr + offsetof_region ≠ a) : clear_region_at a l = l := by
  unfold clear_region_at
  conv_rhs => rw [← List.map_id l]
  apply List.map_congr_left
  intro b hb
  rw [if_neg (h b hb)]
  rfl

theorem dtesn_mem_free_in_free_block (base H : Nat) (m : memory_t)
    (hinv : arena_inv base H m) (hnaf : no_adjacent_free m.free_list) (p : Nat)
    (f : mem_block_t) (hf : f ∈ m.free_list) (hp : in_free_block f p) :
    (dtesn_mem_free m p).free_list = m.free_list
    ∧ (dtesn_mem_free m p).heap_base = m.heap_base
    ∧ (dtesn_mem_free m p).heap_size = m.heap_size
    ∧ (dtesn_mem_free m p).initialized = m.initialized
    ∧ ∀ a, a ≠ p - sizeof_mem_block_t + offsetof_allocated →
        (dtesn_mem_free m p).heap a = m.heap a := by
  obtain ⟨hfree, h80, hlo, hhi⟩ := hp
  have hpw := tiles_pairwise _ _ _ hinv.2.2.2
  have hsep := separated_of_pairwise _ hpw
  rcases dtesn_mem_free_cases m p with e | ⟨c, _, _, hfind, hc, _⟩ | ⟨_, _, hfind, _, e⟩
  · rw [e]
    exact ⟨rfl, rfl, rfl, rfl, fun _ _ => rfl⟩
  · exfalso
    have hcm := List.mem_of_find?_eq_some hfind
    have hca : c.addr = p - sizeof_mem_block_t := by simpa using List.find?_some hfind
    by_cases hsame : p - sizeof_mem_block_t = f.addr
    · have := find_header_of_mem _ hpw f hf
      rw [← hsame, hfind] at this
      cases this
      rw [hfree] at hc
      exact Bool.noConfusion hc
    · rcases hsep f hf c hcm with h | h
      · omega
      · unfold sizeof_mem_block_t at *
        omega
  · have hne : p - sizeof_mem_block_t ≠ f.addr := by
      intro hsame
      exact (find_header_none _ _).mp hfind f hf hsame.symm
    have hclear : clear_region_at (p - sizeof_mem_block_t + offsetof_allocated) m.free_list
        = m.free_list := by
      apply clear_region_at_of_no_header
      intro b hb hx
      rcases hsep f hf b hb with h | h
      · unfold sizeof_mem_block_t offsetof_region offsetof_allocated at *
        omega
      · unfold sizeof_mem_block_t offsetof_region offsetof_allocated at *
        omega
    rw [e, hclear, coalesce_all_of_no_adjacent_free _ hnaf]
    refine ⟨rfl, rfl, rfl, rfl, ?_⟩
    intro a ha
    exact Function.update_noteq ha _ _

theorem dtesn_mem_free_twice (m : memory_t) (p : Nat) :
    dtesn_mem_free (dtesn_mem_free m p) p = dtesn_mem_free m p := by
  rcases dtesn_mem_free_cases m p with e | ⟨c, _, _, _, _, e⟩ | ⟨_, _, hfind, _, e⟩
  · rw [e, e]
  · apply dtesn_mem_free_of_header
    rw [e]
    unfold header_allocated
    dsimp only
    cases hc : (coalesce_all (clear_allocated (p - sizeof_mem_block_t) m.free_list)).1.find?
        (fun b => b.addr = p - sizeof_mem_block_t) with
    | some b =>
      dsimp only
      have haddr : b.addr = p - sizeof_mem_block_t := by simpa using List.find?_some hc
      obtain ⟨x, hx, e1, e2⟩ := coalesce_all_chain_origin _ b (List.mem_of_find?_eq_some hc)
      rw [← e2]
      exact clear_allocated_at _ _ x hx (by rw [e1]; exact haddr)
    | none =>
      dsimp only
      simp [store_allocated]
  · apply dtesn_mem_free_of_header
    rw [e]
    unfold header_allocated
    dsimp only
    have hnone : (coalesce_all (clear_region_at
        (p - sizeof_mem_block_t + offsetof_allocated) m.free_list)).1.find?
        (fun b => b.addr = p - sizeof_mem_block_t) = none := by
      rw [find_header_none]
      intro b hb
      obtain ⟨x, hx, e1, _⟩ := coalesce_all_chain_origin _ b hb
      obtain ⟨y, hy, e3, _⟩ := clear_region_at_origin _ _ x hx
      rw [← e1, ← e3]
      exact (find_header_none _ _).mp hfind y hy
    rw [hnone]
    simp

/-- C20: `dtesn_mem_free(NULL)` leaves the arena unchanged; `dtesn_mem_free(p)` leaves it unchanged
when the flag it reads at the header before `p` is false (the header of the chain there
is free or, where the chain has no header, the byte of the heap there is 0); in an
arena state reachable from `dtesn_mem_init` by `dtesn_mem_alloc`, `dtesn_mem_free` and stores of
the client, when the header bytes before `p` lie in a free block of the chain (they
are its header, or the header was merged into the block), `dtesn_mem_free(p)` leaves
the chain and the other statics as they are and changes at most the byte of the
free block that it read; and for every state and every pointer, calling
`dtesn_mem_free` twice on the same pointer yields the same state as calling it once. -/
theorem arena_double_free (m : memory_t) (p : Nat) :
    dtesn_mem_free m 0 = m
    ∧ (header_allocated m (p - sizeof_mem_block_t) = false → dtesn_mem_free m p = m)
    ∧ (∀ base H ps, sizeof_mem_block_t ≤ H → base ≠ 0 → base % ALIGNMENT = 0 →
        base + H < WORD → arena_reach base H m ps →
        ∀ f ∈ m.free_list, in_free_block f p →
          (dtesn_mem_free m p).free_list = m.free_list
          ∧ (dtesn_mem_free m p).heap_base = m.heap_base
          ∧ (dtesn_mem_free m p).heap_size = m.heap_size
          ∧ (dtesn_mem_free m p).initialized = m.initialized
          ∧ ∀ a, a ≠ p - sizeof_mem_block_t + offsetof_allocated →
              (dtesn_mem_free m p).heap a = m.heap a)
    ∧ dtesn_mem_free (dtesn_mem_free m p) p = dtesn_mem_free m p := by
  refine ⟨?_, dtesn_mem_free_of_header m p, ?_, dtesn_mem_free_twice m p⟩
  · unfold dtesn_mem_free
    rw [if_pos (Or.inl rfl)]
  · intro base H ps hH hb hal hfit hr f hf hp
    exact dtesn_mem_free_in_free_block base H m
      (arena_reach_inv base H hH hb hal hfit m ps hr)
      (arena_reach_free_inv base H hH hb hal hfit m ps hr) p f hf hp

theorem align_size_round_up (size : Nat) (hround : size + 63 < WORD) :
    align_size size % 64 = 0 ∧ size ≤ align_size size ∧ align_size size < size + 64 := by
  rw [align_size_eq]
  have : (size + 63) % WORD = size + 63 := Nat.mod_eq_of_lt hround
  rw [this]
  omega

theorem alloc_loop_of_no_fit (s : Nat) (region : mem_region_t) (l : List mem_block_t)
    (h : ∀ b ∈ l, ¬ block_fits s b) :
    alloc_loop s region l = { ptr := 0, blocks := l, new_block := none } := by
  induction l with
  | nil => rfl
  | cons b rest ih =>
    have hb : ¬ ((!b.allocated && decide (b.size ≥ s)) = true) := by
      intro hx
      simp only [Bool.and_eq_true, Bool.not_eq_true', decide_eq_true_eq] at hx
      exact h b (List.mem_cons_self _ _) hx
    unfold alloc_loop
    rw [if_neg hb, ih (fun x hx => h x (List.mem_cons_of_mem _ hx))]

theorem alloc_loop_first_fit (s : Nat) (region : mem_region_t) (pre : List mem_block_t)
    (B : mem_block_t) (post : List mem_block_t) (hpre : ∀ b ∈ pre, ¬ block_fits s b)
    (hB : block_fits s B) :
    (alloc_loop s region (pre ++ B :: post)).ptr = B.addr + sizeof_mem_block_t
    ∧ ∃ B' rest, (alloc_loop s region (pre ++ B :: post)).blocks = pre ++ B' :: rest
        ∧ B'.addr = B.addr ∧ B'.allocated = true ∧ B'.region = region
        ∧ (rest = post ∨ ∃ nb, rest = nb :: post ∧ nb.allocated = false) := by
  induction pre with
  | nil =>
    have hc : (!B.allocated && decide (B.size ≥ s)) = true := by
      simp only [Bool.and_eq_true, Bool.not_eq_true', decide_eq_true_eq]
      exact hB
    rw [List.nil_append]
    unfold alloc_loop
    rw [if_pos hc]
    split_ifs
    · exact ⟨rfl, _, _, rfl, rfl, rfl, rfl, Or.inr ⟨_, rfl, rfl⟩⟩
    · exact ⟨rfl, _, _, rfl, rfl, rfl, rfl, Or.inl rfl⟩
  | cons b rest ih =>
    have hb : ¬ ((!b.allocated && decide (b.size ≥ s)) = true) := by
      intro hx
      simp only [Bool.and_eq_true, Bool.not_eq_true', decide_eq_true_eq] at hx
      exact hpre b (List.mem_cons_self _ _) hx
    obtain ⟨h1, B', rest', h2, h3⟩ := ih (fun x hx => hpre x (List.mem_cons_of_mem _ hx))
    rw [List.cons_append]
    unfold alloc_loop
    rw [if_neg hb]
    dsimp only
    exact ⟨h1, B', rest', by rw [h2]; rfl, h3⟩

theorem alloc_loop_ptr_eq_zero_iff (s : Nat) (region : mem_region_t) (l : List mem_block_t) :
    (alloc_loop s region l).ptr = 0 ↔ ∀ b ∈ l, ¬ block_fits s b := by
  constructor
  · intro hz
    induction l with
    | nil => intro b hb; cases hb
    | cons c rest ih =>
      unfold alloc_loop at hz
      split_ifs at hz with hc hs
      · unfold sizeof_mem_block_t at hz; simp at hz
      · unfold sizeof_mem_block_t at hz; simp at hz
      · intro b hb
        rcases List.mem_cons.mp hb with rfl | hb
        · intro hf
          apply hc
          simp only [Bool.and_eq_true, Bool.not_eq_true', decide_eq_true_eq]
          exact hf
        · exact ih hz b hb
  · intro h
    rw [alloc_loop_of_no_fit s region l h]

/-- C18: on an initialised arena, for a request with `size + 63 < 2^64`, `dtesn_mem_alloc(size,
region)` works with `s`, the size rounded up to the next multiple of 64; it returns
`NULL` exactly when no block of the chain is free with size >= `s`, and then the arena
is unchanged; otherwise it returns the address + header size of the first block in
chain order that is free with size >= `s`, the blocks before it are unchanged, and
that block is now allocated and tagged with `region` (followed by the new free block
when it was split). -/
theorem arena_alloc_first_fit (m : memory_t) (hinit : m.initialized = true) (aa size : Nat)
    (region : mem_region_t) (hround : size + 63 < WORD) :
    (align_size size % 64 = 0 ∧ size ≤ align_size size ∧ align_size size < size + 64)
    ∧ ((dtesn_mem_alloc m aa size region).1 = 0 ↔
        ∀ b ∈ m.free_list, ¬ block_fits (align_size size) b)
    ∧ ((dtesn_mem_alloc m aa size region).1 = 0 → (dtesn_mem_alloc m aa size region).2 = m)
    ∧ (∀ pre B post, m.free_list = pre ++ B :: post →
        (∀ b ∈ pre, ¬ block_fits (align_size size) b) → block_fits (align_size size) B →
        (dtesn_mem_alloc m aa size region).1 = B.addr + sizeof_mem_block_t
        ∧ ∃ B' rest, (dtesn_mem_alloc m aa size region).2.free_list = pre ++ B' :: rest
            ∧ B'.addr = B.addr ∧ B'.allocated = true ∧ B'.region = region
            ∧ (rest = post ∨ ∃ nb, rest = nb :: post ∧ nb.allocated = false)) := by
  rw [dtesn_mem_alloc_eq m hinit]
  refine ⟨align_size_round_up size hround, alloc_loop_ptr_eq_zero_iff _ _ _, ?_, ?_⟩
  · intro hz
    have hno := (alloc_loop_ptr_eq_zero_iff _ region _).mp hz
    rw [alloc_loop_of_no_fit _ region _ hno]
    rfl
  · intro pre B post hl hpre hB
    dsimp only
    rw [hl]
    exact alloc_loop_first_fit _ region pre B post hpre hB

theorem exists_first_fit (s : Nat) (l : List mem_block_t)
    (h : ¬ ∀ b ∈ l, ¬ block_fits s b) :
    ∃ pre B post, l = pre ++ B :: post ∧ (∀ b ∈ pre, ¬ block_fits s b) ∧ block_fits s B := by
  induction l with
  | nil => exact absurd (fun b hb => by cases hb) h
  | cons c rest ih =>
    by_cases hc : block_fits s c
    · exact ⟨[], c, rest, rfl, fun b hb => absurd hb (List.not_mem_nil b), hc⟩
    · have hrest : ¬ ∀ b ∈ rest, ¬ block_fits s b := by
        intro hall
        apply h
        intro b hb
        rcases List.mem_cons.mp hb with rfl | hb
        · exact hc
        · exact hall b hb
      obtain ⟨pre, B, post, h1, h2, h3⟩ := ih hrest
      refine ⟨c :: pre, B, post, by rw [h1]; rfl, ?_, h3⟩
      intro b hb
      rcases List.mem_cons.mp hb with rfl | hb
      · exact hc
      · exact h2 b hb

theorem alloc_loop_append (s : Nat) (region : mem_region_t) (pre l : List mem_block_t)
    (hpre : ∀ b ∈ pre, ¬ block_fits s b) :
    alloc_loop s region (pre ++ l)
      = { alloc_loop s region l with blocks := pre ++ (alloc_loop s region l).blocks } := by
  induction pre with
  | nil => rfl
  | cons b rest ih =>
    have hb : ¬ ((!b.allocated && decide (b.size ≥ s)) = true) := by
      intro hx
      simp only [Bool.and_eq_true, Bool.not_eq_true', decide_eq_true_eq] at hx
      exact hpre b (List.mem_cons_self _ _) hx
    rw [List.cons_append, alloc_loop, if_neg hb,
      ih (fun x hx => hpre x (List.mem_cons_of_mem _ hx))]
    rfl

theorem coalesce_append (pre : List mem_block_t) (x : mem_block_t) (rest : List mem_block_t) :
    ∀ c : mem_block_t, no_adjacent_free (c :: (pre ++ [x])) →
      coalesce c (pre ++ x :: rest)
        = (c :: (pre ++ (coalesce x rest).1), (coalesce x rest).2) := by
  induction pre with
  | nil =>
    intro c h
    have hc : ¬ ((!c.allocated && !x.allocated) = true) := by
      intro hx
      simp only [Bool.and_eq_true, Bool.not_eq_true'] at hx
      exact (List.chain'_cons.mp h).1 hx
    rw [List.nil_append, coalesce, if_neg hc]
    rfl
  | cons d pre ih =>
    intro c h
    have h' : no_adjacent_free (c :: d :: (pre ++ [x])) := h
    have hc : ¬ ((!c.allocated && !d.allocated) = true) := by
      intro hx
      simp only [Bool.and_eq_true, Bool.not_eq_true'] at hx
      exact (List.chain'_cons.mp h').1 hx
    rw [List.cons_append, coalesce, if_neg hc]
    dsimp only
    rw [ih d (List.chain'_cons.mp h').2]
    rfl

theorem coalesce_all_append (pre : List mem_block_t) (x : mem_block_t)
    (rest : List mem_block_t) (h : no_adjacent_free (pre ++ [x])) :
    coalesce_all (pre ++ x :: rest)
      = (pre ++ (coalesce x rest).1, (coalesce x rest).2) := by
  cases pre with
  | nil => rfl
  | cons c pre => exact coalesce_append pre x rest c h

theorem clear_allocated_unique (a : Nat) (pre : List mem_block_t) (x : mem_block_t)
    (rest : List mem_block_t) (hpre : ∀ b ∈ pre, b.addr ≠ a) (hx : x.addr = a)
    (hrest : ∀ b ∈ rest, b.addr ≠ a) :
    clear_allocated a (pre ++ x :: rest) = pre ++ { x with allocated := false } :: rest := by
  have hid : ∀ l : List mem_block_t, (∀ b ∈ l, b.addr ≠ a) → clear_allocated a l = l := by
    intro l hl
    induction l with
    | nil => rfl
    | cons b l ih =>
      unfold clear_allocated
      rw [List.map_cons, if_neg (hl b (List.mem_cons_self _ _))]
      congr 1
      exact ih (fun y hy => hl y (List.mem_cons_of_mem _ hy))
  unfold clear_allocated
  rw [List.map_append, List.map_cons, if_pos hx]
  have h1 := hid pre hpre
  have h2 := hid rest hrest
  unfold clear_allocated at h1 h2
  rw [h1, h2]

theorem find_header_unique (a : Nat) (pre : List mem_block_t) (x : mem_block_t)
    (rest : List mem_block_t) (hpre : ∀ b ∈ pre, b.addr ≠ a) (hx : x.addr = a) :
    (pre ++ x :: rest).find? (fun b => b.addr = a) = some x := by
  induction pre with
  | nil => simp [List.find?_cons, hx]
  | cons b pre ih =>
    have hb := hpre b (List.mem_cons_self _ _)
    rw [List.cons_append, List.find?_cons]
    simp only [hb, decide_False]
    exact ih (fun y hy => hpre y (List.mem_cons_of_mem _ hy))

theorem alloc_loop_ptr_shape (s : Nat) (r r' : mem_region_t) (l : List mem_block_t) :
    ∀ l' : List mem_block_t, block_shape l = block_shape l' →
      (alloc_loop s r l).ptr = (alloc_loop s r' l').ptr := by
  induction l with
  | nil =>
    intro l' h
    cases l' with
    | nil => rfl
    | cons c l' => simp [block_shape] at h
  | cons b l ih =>
    intro l' h
    cases l' with
    | nil => simp [block_shape] at h
    | cons c l' =>
      simp only [block_shape, List.map_cons, List.cons.injEq, Prod.mk.injEq] at h
      obtain ⟨⟨ha, hs, hal⟩, hrest⟩ := h
      have ih' := ih l' hrest
      unfold alloc_loop
      rw [ha, hs, hal]
      split_ifs <;> first | rfl | exact ih'

theorem no_adjacent_free_of_flags (l l' : List mem_block_t)
    (h : l.map (fun b => b.allocated) = l'.map (fun b => b.allocated))
    (hl : no_adjacent_free l) : no_adjacent_free l' := by
  have key : ∀ k : List mem_block_t, no_adjacent_free k
      ↔ List.Chain' (fun a b : Bool => ¬ (a = false ∧ b = false))
          (k.map (fun b => b.allocated)) := by
    intro k
    unfold no_adjacent_free
    rw [List.chain'_map]
  rw [key] at hl ⊢
  rw [← h]
  exact hl

theorem dtesn_mem_free_chain (m : memory_t) (p : Nat) (c : mem_block_t) (hp : p ≠ 0)
    (hinit : m.initialized = true)
    (hfind : m.free_list.find? (fun b => b.addr = p - sizeof_mem_block_t) = some c)
    (hc : c.allocated = true) :
    dtesn_mem_free m p
      = { m with
          free_list := (coalesce_all (clear_allocated (p - sizeof_mem_block_t) m.free_list)).1
          heap := store_allocated m.heap (p - sizeof_mem_block_t) false } := by
  unfold dtesn_mem_free
  rw [if_neg (by simp [hp, hinit])]
  dsimp only
  rw [hfind]
  simp [hc]

theorem alloc_free_shape (s : Nat) (r : mem_region_t) (pre : List mem_block_t)
    (B : mem_block_t) (post : List mem_block_t) (start stop : Nat)
    (ht : tiles start (pre ++ B :: post) stop) (hs : 64 ≤ start) (he : stop < WORD)
    (hnaf : no_adjacent_free (pre ++ B :: post))
    (hpre : ∀ b ∈ pre, ¬ block_fits s b) (hB : block_fits s B) :
    (alloc_loop s r (pre ++ B :: post)).ptr = B.addr + sizeof_mem_block_t
    ∧ (∃ c, (alloc_loop s r (pre ++ B :: post)).blocks.find? (fun b => b.addr = B.addr) = some c
        ∧ c.allocated = true)
    ∧ block_shape (coalesce_all
          (clear_allocated B.addr (alloc_loop s r (pre ++ B :: post)).blocks)).1
        = block_shape (pre ++ B :: post) := by
  have hpw := tiles_pairwise _ _ _ ht
  have hbd := tiles_bounds _ _ _ ht B (by simp)
  obtain ⟨_, hpwB, hcross⟩ := List.pairwise_append.mp hpw
  have hpa : ∀ b ∈ pre, b.addr ≠ B.addr := by
    intro b hb
    have := hcross b hb B (List.mem_cons_self _ _)
    unfold sizeof_mem_block_t at this
    omega
  have hpo : ∀ b ∈ post, b.addr ≠ B.addr := by
    intro b hb
    have := (List.pairwise_cons.mp hpwB).1 b hb
    unfold sizeof_mem_block_t at this
    omega
  have hc : (!B.allocated && decide (B.size ≥ s)) = true := by
    simp only [Bool.and_eq_true, Bool.not_eq_true', decide_eq_true_eq]
    exact hB
  have hBfree : B.allocated = false := hB.1
  have hnafL : no_adjacent_free (pre ++ [B]) := by
    have : pre ++ B :: post = (pre ++ [B]) ++ post := by simp
    rw [this] at hnaf
    exact List.Chain'.left_of_append hnaf
  have hnafR : no_adjacent_free (B :: post) := List.Chain'.right_of_append hnaf
  rw [alloc_loop_append s r pre (B :: post) hpre]
  dsimp only
  rw [alloc_loop, if_pos hc]
  by_cases hsplit : B.size > add64 (add64 s sizeof_mem_block_t) ALIGNMENT
  · rw [if_pos hsplit]
    dsimp only
    refine ⟨rfl, ⟨_, find_header_unique B.addr pre _ _ hpa rfl, rfl⟩, ?_⟩
    have hrest : ∀ b ∈ ({ addr := B.addr + sizeof_mem_block_t + s,
                           size := sub64 (sub64 B.size s) sizeof_mem_block_t,
                           region := mem_region_t.MEM_REGION_HEAP,
                           allocated := false } : mem_block_t) :: post, b.addr ≠ B.addr := by
      intro b hb
      rcases List.mem_cons.mp hb with rfl | hb
      · show B.addr + sizeof_mem_block_t + s ≠ B.addr
        unfold sizeof_mem_block_t
        omega
      · exact hpo b hb
    rw [clear_allocated_unique B.addr pre
      { addr := B.addr, size := s, region := r, allocated := true } _ hpa rfl hrest]
    rw [coalesce_all_append pre _ _ (no_adjacent_free_of_flags _ _ (by simp [hBfree]) hnafL)]
    dsimp only
    rw [coalesce, if_pos (by rfl)]
    dsimp only
    rw [coalesce_of_no_adjacent_free post _
      (no_adjacent_free_of_flags _ _ (by simp [hBfree]) hnafR)]
    have hsz : add64 s (add64 sizeof_mem_block_t (sub64 (sub64 B.size s) sizeof_mem_block_t))
        = B.size := by
      have h2 := hB.2
      have h3 := hbd.1
      have h4 := hbd.2
      unfold add64 sub64 WORD sizeof_mem_block_t ALIGNMENT at *
      omega
    simp only [block_shape, List.map_append, List.map_cons, hsz, hBfree]
  · rw [if_neg hsplit]
    dsimp only
    refine ⟨rfl, ⟨_, find_header_unique B.addr pre _ _ hpa rfl, rfl⟩, ?_⟩
    rw [clear_allocated_unique B.addr pre
      { addr := B.addr, size := B.size, region := r, allocated := true } _ hpa rfl hpo]
    have hsh : block_shape (pre ++ { B with allocated := false, region := r } :: post)
        = block_shape (pre ++ B :: post) := by
      simp only [block_shape, List.map_append, List.map_cons, hBfree]
    have hflags : (pre ++ B :: post).map (fun b => b.allocated)
        = (pre ++ { B with allocated := false, region := r } :: post).map
            (fun b => b.allocated) := by
      simp [hBfree]
    rw [coalesce_all_of_no_adjacent_free _ (no_adjacent_free_of_flags _ _ hflags hnaf)]
    exact hsh

/-- C17: in an arena state reachable from a successful `dtesn_mem_init`, if
`dtesn_mem_alloc(size, region)` returns a non-null pointer `p`, then `dtesn_mem_free(p)`
restores the sequence of block addresses, sizes and allocated flags of the chain to
what it was before that allocation, and a following
`dtesn_mem_alloc(size, region2)` returns `p` again (which is non-null). -/
theorem arena_alloc_free_roundtrip (base H : Nat) (hH : sizeof_mem_block_t ≤ H)
    (hb : base ≠ 0) (hal : base % ALIGNMENT = 0) (hfit : base + H < WORD)
    (m : memory_t) (ps : List Nat) (hr : arena_reach base H m ps)
    (aa aa2 size : Nat) (region region2 : mem_region_t)
    (hp : (dtesn_mem_alloc m aa size region).1 ≠ 0) :
    block_shape (dtesn_mem_free (dtesn_mem_alloc m aa size region).2
        (dtesn_mem_alloc m aa size region).1).free_list = block_shape m.free_list
    ∧ (dtesn_mem_alloc (dtesn_mem_free (dtesn_mem_alloc m aa size region).2
          (dtesn_mem_alloc m aa size region).1) aa2 size region2).1
        = (dtesn_mem_alloc m aa size region).1 := by
  obtain ⟨hinit, _, _, ht⟩ := arena_reach_inv base H hH hb hal hfit m ps hr
  have hnaf := arena_reach_free_inv base H hH hb hal hfit m ps hr
  have hb64 : 64 ≤ base := by unfold ALIGNMENT at hal; omega
  rw [dtesn_mem_alloc_eq m hinit] at hp ⊢
  dsimp only at hp ⊢
  obtain ⟨pre, B, post, hl, hpre, hB⟩ := exists_first_fit (align_size size) m.free_list
    (fun h => hp ((alloc_loop_ptr_eq_zero_iff _ region _).mpr h))
  rw [hl] at ht hnaf
  obtain ⟨hptr, ⟨c, hfind, hc⟩, hshape⟩ :=
    alloc_free_shape (align_size size) region pre B post base (base + H) ht hb64 hfit hnaf hpre hB
  rw [← hl] at hptr hfind hshape
  have hsub : (alloc_loop (align_size size) region m.free_list).ptr - sizeof_mem_block_t
      = B.addr := by
    rw [hptr]; exact Nat.add_sub_cancel _ _
  have hfree := dtesn_mem_free_chain
    { m with free_list := (alloc_loop (align_size size) region m.free_list).blocks
             heap := alloc_stores m.heap (alloc_loop (align_size size) region m.free_list)
               region }
    (alloc_loop (align_size size) region m.free_list).ptr c hp hinit
    (by rw [hsub]; exact hfind) hc
  rw [hfree, hsub]
  refine ⟨hshape, ?_⟩
  rw [dtesn_mem_alloc_eq]
  · exact alloc_loop_ptr_shape _ _ _ _ _ hshape
  · exact hinit

theorem arena_alloc_free_roundtrip_witness :
    (dtesn_mem_alloc arena_example_freed 0 100 mem_region_t.MEM_REGION_CODE).1 = 144
    ∧ block_shape (dtesn_mem_free
          (dtesn_mem_alloc arena_example_freed 0 100 mem_region_t.MEM_REGION_CODE).2
          (dtesn_mem_alloc arena_example_freed 0 100 mem_region_t.MEM_REGION_CODE).1).free_list
        = block_shape arena_example_freed.free_list
    ∧ (dtesn_mem_alloc (dtesn_mem_free
          (dtesn_mem_alloc arena_example_freed 0 100 mem_region_t.MEM_REGION_CODE).2
          (dtesn_mem_alloc arena_example_freed 0 100 mem_region_t.MEM_REGION_CODE).1)
        0 100 mem_region_t.MEM_REGION_DATA).1
      = (dtesn_mem_alloc arena_example_freed 0 100 mem_region_t.MEM_REGION_CODE).1 :=
  ⟨by decide,
   arena_alloc_free_roundtrip 64 1024 (by decide) (by decide) (by decide) (by decide)
    arena_example_freed _
    (arena_reach.free _ _ 144
      (arena_reach.alloc _ _ 0 1 mem_region_t.MEM_REGION_DATA
        (arena_reach.alloc _ _ 0 100 mem_region_t.MEM_REGION_TENSOR arena_reach.init
          (by decide))
        (by decide))
      (by decide))
    0 0 100 mem_region_t.MEM_REGION_CODE mem_region_t.MEM_REGION_DATA (by decide)⟩

theorem arena_alloc_first_fit_witness :
    (arena_example_freed.initialized = true ∧ 500 + 63 < WORD)
    ∧ align_size 500 = 512
    ∧ arena_example_freed.free_list
        = [{ addr := 64, size := 128, region := mem_region_t.MEM_REGION_TENSOR,
             allocated := false },
           { addr := 272, size := 64, region := mem_region_t.MEM_REGION_DATA,
             allocated := true }]
          ++ { addr := 416, size := 592, region := mem_region_t.MEM_REGION_HEAP,
               allocated := false } :: []
    ∧ (dtesn_mem_alloc arena_example_freed 0 500 mem_region_t.MEM_REGION_CODE).1
        = 416 + sizeof_mem_block_t :=
  ⟨⟨by decide, by decide⟩, by decide, by decide,
   ((arena_alloc_first_fit arena_example_freed (by decide) 0 500 mem_region_t.MEM_REGION_CODE
      (by decide)).2.2.2
      [{ addr := 64, size := 128, region := mem_region_t.MEM_REGION_TENSOR,
         allocated := false },
       { addr := 272, size := 64, region := mem_region_t.MEM_REGION_DATA,
         allocated := true }]
      { addr := 416, size := 592, region := mem_region_t.MEM_REGION_HEAP, allocated := false }
      [] (by decide) (by decide) (by decide)).1⟩

theorem arena_free_coalesces_witness :
    (dtesn_mem_free arena_example_freed 352).free_list
      = [{ addr := 64, size := 944, region := mem_region_t.MEM_REGION_TENSOR,
           allocated := false }]
    ∧ no_adjacent_free (dtesn_mem_free arena_example_freed 352).free_list :=
  ⟨by decide,
   ((arena_free_coalesces arena_example_freed 352).1
      { addr := 272, size := 64, region := mem_region_t.MEM_REGION_DATA, allocated := true }
      (by decide) (by decide) (by decide) (by decide)).2⟩

theorem arena_double_free_witness :
    (header_allocated arena_example_freed (144 - sizeof_mem_block_t) = false
      ∧ dtesn_mem_free arena_example_freed 144 = arena_example_freed)
    ∧ (in_free_block { addr := 64, size := 944, region := mem_region_t.MEM_REGION_TENSOR,
                       allocated := false } 352
      ∧ (dtesn_mem_free (dtesn_mem_free arena_example_freed 352) 352).free_list
          = (dtesn_mem_free arena_example_freed 352).free_list) :=
  ⟨⟨by decide, (arena_double_free arena_example_freed 144).2.1 (by decide)⟩,
   ⟨by decide,
    ((arena_double_free (dtesn_mem_free arena_example_freed 352) 352).2.2.1 64 1024 _
      (by decide) (by decide) (by decide) (by decide)
      (arena_reach.free _ _ 352
        (arena_reach.free _ _ 144
          (arena_reach.alloc _ _ 0 1 mem_region_t.MEM_REGION_DATA
            (arena_reach.alloc _ _ 0 100 mem_region_t.MEM_REGION_TENSOR arena_reach.init
              (by decide))
            (by decide))
          (by decide))
        (by decide))
      { addr := 64, size := 944, region := mem_region_t.MEM_REGION_TENSOR, allocated := false }
      (by decide) (by decide)).1⟩⟩

theorem foldl_preserves {α β : Type} (f : α → β → α) (P : α → Prop)
    (h : ∀ a b, P a → P (f a b)) : ∀ (l : List β) (a : α), P a → P (l.foldl f a) := by
  intro l
  induction l with
  | nil => intro a ha; exact ha
  | cons b l ih => intro a ha; exact ih _ (h a b ha)

theorem tick_slot_inv (call : Nat → Nat → scheduler_t → scheduler_t)
    (hcall : ∀ fn data s, call fn data s = s) (s : scheduler_t) (p : Nat) (st : tick_state)
    (i : Nat) (h : tick_inv s st) : tick_inv s (tick_slot call p st i) := by
  unfold tick_slot
  dsimp only
  split_ifs with hc
  · exact h
  · obtain ⟨h1, h2, h3, h4, h5⟩ := h
    rw [hcall]
    refine ⟨?_, h2, h3, by dsimp only; omega, ?_⟩
    · intro j
      dsimp only
      by_cases hj : j = i
      · subst hj
        rw [Function.update_same]
        rcases h1 j with e | e
        · right; rw [e]
        · right; rw [e]
      · rw [Function.update_noteq hj]
        exact h1 j
    · intro hs
      obtain ⟨h6, h7⟩ := h5 hs
      dsimp only
      unfold sub64 WORD at *
      refine ⟨Nat.mod_lt _ (by norm_num), ?_⟩
      omega

theorem sched_tick_inv (call : Nat → Nat → scheduler_t → scheduler_t)
    (hcall : ∀ fn data s, call fn data s = s) (s : scheduler_t) (hinit : s.initialized = true) :
    tick_inv s (dtesn_sched_tick call s) := by
  have h0 : tick_inv s { sched := s, executed := 0, calls := [] } :=
    ⟨fun j => Or.inl rfl, rfl, rfl, le_refl _, fun hs => ⟨hs, by
      dsimp only
      rw [add_zero]
      exact Int.emod_eq_of_lt (Int.natCast_nonneg _) (by exact_mod_cast hs)⟩⟩
  unfold dtesn_sched_tick
  rw [if_neg (by rw [hinit]; exact Bool.noConfusion)]
  refine foldl_preserves _ (tick_inv s) ?_ _ _ h0
  intro st p hst
  unfold tick_priority
  exact foldl_preserves _ (tick_inv s) (fun a i ha => tick_slot_inv call hcall s p a i ha) _ _ hst

theorem pending_count (s : scheduler_t) (l : List Nat)
    (hprio : ∀ i ∈ l, (s.tasks i).active = true → (s.tasks i).priority ≤ PRIORITY_LOW) :
    (l.filter (is_pending s PRIORITY_CRITICAL)).length
      + (l.filter (is_pending s PRIORITY_HIGH)).length
      + (l.filter (is_pending s PRIORITY_NORMAL)).length
      + (l.filter (is_pending s PRIORITY_LOW)).length
      = (l.filter (fun i => (s.tasks i).active)).length := by
  induction l with
  | nil => rfl
  | cons x l ih =>
    have ih' := ih (fun i hi => hprio i (List.mem_cons_of_mem _ hi))
    have hx := hprio x (List.mem_cons_self _ _)
    unfold PRIORITY_CRITICAL PRIORITY_HIGH PRIORITY_NORMAL PRIORITY_LOW at *
    cases ha : (s.tasks x).active with
    | false =>
      simp only [List.filter_cons, is_pending, ha, Bool.false_and, Bool.false_eq_true, if_false]
      exact ih'
    | true =>
      have h4 : (s.tasks x).priority = 0 ∨ (s.tasks x).priority = 1
          ∨ (s.tasks x).priority = 2 ∨ (s.tasks x).priority = 3 := by
        have := hx ha; omega
      rcases h4 with h | h | h | h <;>
        simp [List.filter_cons, is_pending, ha, h] <;> omega

theorem sched_tick_clears (call : Nat → Nat → scheduler_t → scheduler_t)
    (hcall : ∀ fn data s, call fn data s = s) (s : scheduler_t) (hinit : s.initialized = true)
    (hprio : ∀ i, i < MAX_TASKS → (s.tasks i).active = true →
      (s.tasks i).priority ≤ PRIORITY_LOW) :
    ∀ j, j < MAX_TASKS → ((dtesn_sched_tick call s).sched.tasks j).active = false := by
  intro j hj
  obtain ⟨_, _, hclear⟩ := sched_tick_calls call hcall s hinit
  obtain ⟨htasks, _⟩ := sched_tick_inv call hcall s hinit
  rcases htasks j with e | e
  · cases ha : (s.tasks j).active with
    | false => rw [e]; exact ha
    | true =>
      have hp := hclear (s.tasks j).priority (hprio j hj ha) j hj
      unfold is_pending at hp
      rw [e] at hp
      simp [ha] at hp
  · rw [e]

theorem sched_tick_executed (call : Nat → Nat → scheduler_t → scheduler_t)
    (hcall : ∀ fn data s, call fn data s = s) (s : scheduler_t) (hinit : s.initialized = true)
    (hprio : ∀ i, i < MAX_TASKS → (s.tasks i).active = true →
      (s.tasks i).priority ≤ PRIORITY_LOW) :
    (dtesn_sched_tick call s).executed = (active_count s : Int) := by
  obtain ⟨_, hexec, _⟩ := sched_tick_calls call hcall s hinit
  rw [hexec]
  have := pending_count s (List.range MAX_TASKS)
    (fun i hi => hprio i (List.mem_range.mp hi))
  unfold active_count
  rw [← this]
  simp only [pending_slots, List.length_append]

theorem filter_lt_range_length (k : Nat) :
    ∀ n, ((List.range n).filter (fun i => decide (i < k))).length = min n k := by
  intro n
  induction n with
  | zero => simp
  | succ n ih =>
    rw [List.range_succ, List.filter_append, List.length_append, ih]
    by_cases h : n < k
    · simp [List.filter_cons, h]; omega
    · simp [List.filter_cons, h]; omega

theorem active_count_of_initial_slots (s : scheduler_t) (h : ∀ i, (s.tasks i).active = true ↔ i < s.task_count)
    (hle : s.task_count ≤ MAX_TASKS) : active_count s = s.task_count := by
  unfold active_count
  have : (fun i => (s.tasks i).active) = (fun i => decide (i < s.task_count)) := by
    funext i
    by_cases hi : i < s.task_count
    · simp [hi, (h i).mpr hi]
    · have : (s.tasks i).active = false := by
        cases ha : (s.tasks i).active with
        | false => rfl
        | true => exact absurd ((h i).mp ha) hi
      simp [hi, this]
  rw [this, filter_lt_range_length]
  omega

theorem dtesn_sched_task_eq (s : scheduler_t) (hs : List Nat) (h : sched_inv s hs)
    (fn data priority depth : Nat) :
    (s.task_count = MAX_TASKS ∧ dtesn_sched_task s fn data priority depth = (0, s))
    ∨ (s.task_count < MAX_TASKS ∧
        dtesn_sched_task s fn data priority depth
          = (s.next_handle,
              { s with tasks := Function.update s.tasks s.task_count
                         { fn := fn, data := data, priority := priority, depth := depth
                           handle := s.next_handle, active := true }
                       next_handle := add64 s.next_handle 1
                       task_count := s.task_count + 1 })) := by
  obtain ⟨hinit, hle, hact, _, _⟩ := h
  unfold dtesn_sched_task
  rw [if_neg (by rw [hinit]; exact Bool.noConfusion)]
  by_cases hfull : s.task_count ≥ MAX_TASKS
  · rw [if_pos hfull]
    exact Or.inl ⟨le_antisymm hle hfull, rfl⟩
  · rw [if_neg hfull]
    have hlt : s.task_count < MAX_TASKS := Nat.lt_of_not_ge hfull
    have hslot : sched_free_slot s = s.task_count :=
      first_free_slot MAX_TASKS s.task_count (fun i => (s.tasks i).active) hact hlt
    have hadd : add64 s.task_count 1 = s.task_count + 1 := by
      unfold add64 WORD
      unfold MAX_TASKS at hlt
      omega
    dsimp only
    rw [hslot, if_neg hfull, hadd]
    exact Or.inr ⟨hlt, rfl⟩

theorem sched_inv_init : sched_inv (dtesn_sched_init scheduler_zero).2 [] := by
  refine ⟨rfl, Nat.zero_le _, ?_, ?_, 0, le_refl _, rfl, ?_⟩
  · intro i
    constructor
    · intro h; exact Bool.noConfusion h
    · intro h; exact absurd h (Nat.not_lt_zero _)
  · intro i h; exact absurd h (Nat.not_lt_zero _)
  · intro h hh; cases hh

theorem sched_inv_task (s : scheduler_t) (hs : List Nat) (h : sched_inv s hs)
    (fn data priority depth : Nat) (hp : priority ≤ PRIORITY_LOW) :
    sched_inv (dtesn_sched_task s fn data priority depth).2
      ((dtesn_sched_task s fn data priority depth).1 :: hs) := by
  rcases dtesn_sched_task_eq s hs h fn data priority depth with ⟨_, e⟩ | ⟨hlt, e⟩
  · rw [e]
    obtain ⟨h1, h2, h3, h4, n, h5, h6, h7⟩ := h
    refine ⟨h1, h2, h3, h4, n, ?_, h6, ?_⟩
    · rw [List.length_cons]; omega
    · intro x hx
      rcases List.mem_cons.mp hx with rfl | hx
      · exact Or.inl rfl
      · exact h7 x hx
  · rw [e]
    obtain ⟨h1, h2, h3, h4, n, h5, h6, h7⟩ := h
    refine ⟨h1, hlt, ?_, ?_, n + 1, ?_, ?_, ?_⟩
    · intro i
      dsimp only
      by_cases hi : i = s.task_count
      · subst hi
        rw [Function.update_same]
        simp
      · rw [Function.update_noteq hi, h3 i]
        omega
    · intro i hi
      dsimp only at hi ⊢
      by_cases hi2 : i = s.task_count
      · subst hi2
        rw [Function.update_same]
        exact hp
      · rw [Function.update_noteq hi2]
        exact h4 i (by omega)
    · rw [List.length_cons]; omega
    · dsimp only
      rw [h6]
      unfold add64 WORD
      omega
    · intro x hx
      dsimp only at hx
      rcases List.mem_cons.mp hx with rfl | hx
      · exact Or.inr ⟨n, Nat.lt_succ_self _, h6⟩
      · rcases h7 x hx with h0 | ⟨i, hi, e⟩
        · exact Or.inl h0
        · exact Or.inr ⟨i, by omega, e⟩

theorem sched_inv_prio (s : scheduler_t) (hs : List Nat) (h : sched_inv s hs) :
    ∀ i, i < MAX_TASKS → (s.tasks i).active = true → (s.tasks i).priority ≤ PRIORITY_LOW :=
  fun i _ ha => h.2.2.2.1 i ((h.2.2.1 i).mp ha)

theorem sched_tick_task_count (call : Nat → Nat → scheduler_t → scheduler_t)
    (hcall : ∀ fn data s, call fn data s = s) (s : scheduler_t) (hs : List Nat)
    (h : sched_inv s hs) : (dtesn_sched_tick call s).sched.task_count = 0 := by
  have hprio := sched_inv_prio s hs h
  obtain ⟨hinit, hle, hact, _, _⟩ := h
  have hexec := sched_tick_executed call hcall s hinit hprio
  rw [active_count_of_initial_slots s hact hle] at hexec
  obtain ⟨_, _, _, _, hcount⟩ := sched_tick_inv call hcall s hinit
  have hW : s.task_count < WORD := by unfold WORD; unfold MAX_TASKS at hle; omega
  obtain ⟨c1, c2⟩ := hcount hW
  rw [hexec] at c2
  unfold WORD at c1 c2
  unfold MAX_TASKS at hle
  omega

theorem sched_inv_tick (call : Nat → Nat → scheduler_t → scheduler_t)
    (hcall : ∀ fn data s, call fn data s = s) (s : scheduler_t) (hs : List Nat)
    (h : sched_inv s hs) : sched_inv (dtesn_sched_tick call s).sched hs := by
  have hcount := sched_tick_task_count call hcall s hs h
  have hclear := sched_tick_clears call hcall s h.1 (sched_inv_prio s hs h)
  obtain ⟨htasks, hnext, hini, _, _⟩ := sched_tick_inv call hcall s h.1
  obtain ⟨h1, h2, h3, h4, h5⟩ := h
  refine ⟨by rw [hini]; exact h1, by rw [hcount]; exact Nat.zero_le _, ?_, ?_, ?_⟩
  · intro i
    rw [hcount]
    constructor
    · intro ha
      exfalso
      by_cases hi : i < MAX_TASKS
      · rw [hclear i hi] at ha; exact Bool.noConfusion ha
      · rcases htasks i with e | e
        · rw [e] at ha
          have := (h3 i).mp ha
          omega
        · rw [e] at ha; exact Bool.noConfusion ha
    · intro hi; exact absurd hi (Nat.not_lt_zero _)
  · intro i hi
    rw [hcount] at hi
    exact absurd hi (Nat.not_lt_zero _)
  · rw [hnext]; exact h5

theorem sched_reach_inv (s : scheduler_t) (hs : List Nat) (hr : sched_reach s hs) :
    sched_inv s hs := by
  induction hr with
  | init => exact sched_inv_init
  | task s hs fn data priority depth _ hp ih => exact sched_inv_task s hs ih fn data priority depth hp
  | tick s hs call _ hcall ih => exact sched_inv_tick call hcall s hs ih

/-- C21: on an initialised scheduler whose pending tasks all have a priority in
{critical, high, normal, low} and whose callbacks do not call the scheduler,
`dtesn_sched_tick()` returns the number of table slots that held a pending task when
it was called and leaves no slot pending; in a state reached from `dtesn_sched_init()`
by submissions and such ticks the counter `task_count` is that number before the
tick and 0 after it; an immediately following `dtesn_sched_tick()` returns 0 and
invokes no callback. -/
theorem sched_tick_runs_all (call : Nat → Nat → scheduler_t → scheduler_t)
    (hcall : ∀ fn data s, call fn data s = s) (s : scheduler_t) (hinit : s.initialized = true)
    (hprio : ∀ i, i < MAX_TASKS → (s.tasks i).active = true →
      (s.tasks i).priority ≤ PRIORITY_LOW) :
    (dtesn_sched_tick call s).executed = (active_count s : Int)
    ∧ (∀ j, j < MAX_TASKS → ((dtesn_sched_tick call s).sched.tasks j).active = false)
    ∧ active_count (dtesn_sched_tick call s).sched = 0
    ∧ (∀ hs, sched_reach s hs →
        s.task_count = active_count s ∧ (dtesn_sched_tick call s).sched.task_count = 0)
    ∧ (dtesn_sched_tick call (dtesn_sched_tick call s).sched).executed = 0
    ∧ (dtesn_sched_tick call (dtesn_sched_tick call s).sched).calls = [] := by
  have hclear := sched_tick_clears call hcall s hinit hprio
  have hzero : active_count (dtesn_sched_tick call s).sched = 0 := by
    unfold active_count
    rw [List.length_eq_zero, List.filter_eq_nil_iff]
    intro i hi
    rw [hclear i (List.mem_range.mp hi)]
    exact Bool.noConfusion
  have hinit2 : (dtesn_sched_tick call s).sched.initialized = true := by
    rw [(sched_tick_inv call hcall s hinit).2.2.1]; exact hinit
  have hprio2 : ∀ i, i < MAX_TASKS → ((dtesn_sched_tick call s).sched.tasks i).active = true →
      ((dtesn_sched_tick call s).sched.tasks i).priority ≤ PRIORITY_LOW := by
    intro i hi ha
    rw [hclear i hi] at ha
    exact Bool.noConfusion ha
  have hexec2 := sched_tick_executed call hcall _ hinit2 hprio2
  rw [hzero] at hexec2
  refine ⟨sched_tick_executed call hcall s hinit hprio, hclear, hzero, ?_, hexec2, ?_⟩
  · intro hs hr
    have hinv := sched_reach_inv s hs hr
    exact ⟨(active_count_of_initial_slots s hinv.2.2.1 hinv.2.1).symm,
      sched_tick_task_count call hcall s hs hinv⟩
  · obtain ⟨hcalls, hlen, _⟩ := sched_tick_calls call hcall _ hinit2
    rw [hexec2] at hlen
    have hl : (pending_slots (dtesn_sched_tick call s).sched PRIORITY_CRITICAL
        ++ pending_slots (dtesn_sched_tick call s).sched PRIORITY_HIGH
        ++ pending_slots (dtesn_sched_tick call s).sched PRIORITY_NORMAL
        ++ pending_slots (dtesn_sched_tick call s).sched PRIORITY_LOW) = [] := by
      apply List.length_eq_zero.mp
      exact_mod_cast hlen.symm
    rw [hcalls, hl]
    rfl

set_option maxRecDepth 8000 in
theorem sched_tick_runs_all_witness :
    (dtesn_sched_tick call_pure sched_example).executed = 3
    ∧ (dtesn_sched_tick call_pure (dtesn_sched_tick call_pure sched_example).sched).executed = 0
    ∧ (dtesn_sched_tick call_pure (dtesn_sched_tick call_pure sched_example).sched).calls = [] := by
  have h := sched_tick_runs_all call_pure (fun _ _ _ => rfl) sched_example
    (by decide) (by decide)
  have hc : active_count sched_example = 3 := by decide
  refine ⟨?_, h.2.2.2.2.1, h.2.2.2.2.2⟩
  rw [h.1, hc]
  rfl

theorem attention_find_insert {F : Type} (m : List (Nat × attention_value_t F)) (h : Nat)
    (v : attention_value_t F) (a : Nat) :
    attention_find (attention_insert m h v) a
      = if a = h then some v else attention_find m a := by
  induction m with
  | nil =>
    unfold attention_insert attention_find
    by_cases ha : a = h
    · simp [List.find?_cons, ha]
    · have : ¬ h = a := fun e => ha e.symm
      simp [List.find?_cons, ha, this]
  | cons p rest ih =>
    unfold attention_insert
    by_cases h1 : h < p.1
    · rw [if_pos h1]
      unfold attention_find
      by_cases ha : a = h
      · simp [List.find?_cons, ha]
      · have : ¬ h = a := fun e => ha e.symm
        simp [List.find?_cons, ha, this]
    · rw [if_neg h1]
      by_cases h2 : h = p.1
      · rw [if_pos h2]
        unfold attention_find
        by_cases ha : a = h
        · simp [List.find?_cons, ha]
        · have h3 : ¬ h = a := fun e => ha e.symm
          have h4 : ¬ p.1 = a := fun e => h3 (h2.trans e)
          simp [List.find?_cons, ha, h3, h4]
      · rw [if_neg h2]
        unfold attention_find at ih ⊢
        by_cases hp : p.1 = a
        · have : ¬ a = h := fun e => h2 (e.symm.trans hp.symm)
          simp [List.find?_cons, hp, this]
        · simp only [List.find?_cons, hp, decide_False]
          exact ih

theorem attention_insert_mem {F : Type} (m : List (Nat × attention_value_t F)) (h : Nat)
    (v : attention_value_t F) :
    ∀ p ∈ attention_insert m h v, p = (h, v) ∨ p ∈ m := by
  induction m with
  | nil =>
    intro p hp
    unfold attention_insert at hp
    exact Or.inl (List.mem_singleton.mp hp)
  | cons q rest ih =>
    intro p hp
    unfold attention_insert at hp
    split_ifs at hp
    · rcases List.mem_cons.mp hp with e | hp
      · exact Or.inl e
      · exact Or.inr hp
    · rcases List.mem_cons.mp hp with e | hp
      · exact Or.inl e
      · exact Or.inr (List.mem_cons_of_mem _ hp)
    · rcases List.mem_cons.mp hp with e | hp
      · exact Or.inr (by rw [e]; exact List.mem_cons_self _ _)
      · rcases ih p hp with e | hm
        · exact Or.inl e
        · exact Or.inr (List.mem_cons_of_mem _ hm)

theorem attention_insert_sorted {F : Type} (m : List (Nat × attention_value_t F)) (h : Nat)
    (v : attention_value_t F) (hs : List.Pairwise (fun a b => a < b) (m.map Prod.fst)) :
    List.Pairwise (fun a b => a < b) ((attention_insert m h v).map Prod.fst) := by
  induction m with
  | nil => unfold attention_insert; simp
  | cons q rest ih =>
    rw [List.map_cons, List.pairwise_cons] at hs
    obtain ⟨hq, hrest⟩ := hs
    unfold attention_insert
    split_ifs with h1 h2
    · rw [List.map_cons, List.map_cons, List.pairwise_cons]
      refine ⟨?_, List.pairwise_cons.mpr ⟨hq, hrest⟩⟩
      intro b hb
      rcases List.mem_cons.mp hb with e | hb
      · rw [e]; exact h1
      · exact lt_trans h1 (hq b hb)
    · rw [List.map_cons, List.pairwise_cons]
      refine ⟨?_, hrest⟩
      intro b hb
      show h < b
      rw [h2]
      exact hq b hb
    · rw [List.map_cons, List.pairwise_cons]
      refine ⟨?_, ih hrest⟩
      intro b hb
      obtain ⟨p, hp, e⟩ := List.mem_map.mp hb
      rcases attention_insert_mem rest h v p hp with e2 | hm
      · rw [← e, e2]
        show q.1 < h
        omega
      · rw [← e]
        exact hq _ (List.mem_map.mpr ⟨p, hm, rfl⟩)

theorem attention_find_mem {F : Type} (m : List (Nat × attention_value_t F)) (a : Nat)
    (v : attention_value_t F) (h : attention_find m a = some v) : (a, v) ∈ m := by
  unfold attention_find at h
  cases hf : m.find? (fun p => p.1 = a) with
  | none => rw [hf] at h; cases h
  | some p =>
    rw [hf] at h
    have hv : p.2 = v := Option.some.inj h
    have hk : p.1 = a := by simpa using List.find?_some hf
    have hm := List.mem_of_find?_eq_some hf
    rw [← hv, ← hk]
    exact hm

theorem attention_find_map {F : Type} (f : attention_value_t F → attention_value_t F)
    (m : List (Nat × attention_value_t F)) (a : Nat) :
    attention_find (m.map (fun p => (p.1, f p.2))) a = (attention_find m a).map f := by
  induction m with
  | nil => rfl
  | cons p rest ih =>
    unfold attention_find at ih ⊢
    rw [List.map_cons, List.find?_cons, List.find?_cons]
    by_cases hp : p.1 = a
    · simp [hp]
    · simp only [hp, decide_False]
      exact ih

theorem ecan_update_fold {F : Type} [Field F] (m : List (Nat × attention_value_t F)) :
    ∀ acc : Int × List (Nat × attention_value_t F),
      m.foldl ecan_update_step acc
        = (acc.1 + (m.length : Int), acc.2 ++ m.map (fun p => (p.1, attention_decayed p.2))) := by
  induction m with
  | nil => intro acc; simp
  | cons p rest ih =>
    intro acc
    rw [List.foldl_cons, ih]
    unfold ecan_update_step attention_decayed
    simp only [List.length_cons, List.map_cons, List.append_assoc, List.singleton_append,
      Nat.cast_add, Nat.cast_one, Prod.mk.injEq]
    refine ⟨by ring, ?_⟩
    congr 3
    rw [attention_value_t.mk.injEq]
    exact ⟨by ring, by ring, rfl⟩

theorem ecan_update_eq {F : Type} [Field F] (s : ecan_t F) (hinit : s.ecan_initialized = true) :
    ecan_update s
      = ((s.attention_map.length : Int),
          { s with attention_map :=
              s.attention_map.map (fun p => (p.1, attention_decayed p.2)) }) := by
  unfold ecan_update
  rw [if_neg (by rw [hinit]; exact Bool.noConfusion), ecan_update_fold]
  simp

/-- Keys of the reachable allocator states are strictly increasing along the entry list,
and the allocator is initialised. -/
theorem ecan_reach_sorted {F : Type} [Field F] (s : ecan_t F) (hr : ecan_reach s) :
    s.ecan_initialized = true
    ∧ List.Pairwise (fun a b => a < b) (s.attention_map.map Prod.fst) := by
  induction hr with
  | init ctx hctx =>
    unfold ecan_init ecan_zero
    simp [hctx]
  | get s atom _ ih =>
    unfold ecan_get_attention
    rw [if_neg (by rw [ih.1]; exact Bool.noConfusion)]
    cases hf : attention_find s.attention_map atom with
    | some av => exact ih
    | none => exact ⟨ih.1, attention_insert_sorted _ _ _ ih.2⟩
  | update s _ ih =>
    rw [ecan_update_eq s ih.1]
    refine ⟨ih.1, ?_⟩
    dsimp only
    rw [List.map_map]
    exact ih.2

/-- C27: on an initialised allocator, one `ecan_update()` maps the attention value
`(sti, lti, vlti)` of every cached atom to
`(0.99 * sti, 0.99 * lti + 0.01 * (0.99 * sti), vlti)`: `sti` is decayed first and the
decayed `sti` enters the moving average. The keys of the cache are unchanged, and
the return value is the number of entries of the cache, which in a reachable state
has one entry per cached atom (exact arithmetic in a field). -/
theorem ecan_update_spec {F : Type} [Field F] (s : ecan_t F)
    (hinit : s.ecan_initialized = true) :
    (ecan_update s).1 = (s.attention_map.length : Int)
    ∧ (ecan_update s).2.attention_map
        = s.attention_map.map (fun p => (p.1, attention_decayed p.2))
    ∧ (ecan_update s).2.attention_map.map Prod.fst = s.attention_map.map Prod.fst
    ∧ (∀ atom, attention_find (ecan_update s).2.attention_map atom
        = (attention_find s.attention_map atom).map attention_decayed)
    ∧ (ecan_reach s → (s.attention_map.map Prod.fst).Nodup) := by
  rw [ecan_update_eq s hinit]
  refine ⟨rfl, rfl, ?_, ?_, ?_⟩
  · dsimp only
    rw [List.map_map]
    rfl
  · intro atom
    exact attention_find_map attention_decayed s.attention_map atom
  · intro hr
    exact List.Pairwise.imp (fun h => Nat.ne_of_lt h) (ecan_reach_sorted s hr).2

theorem ecan_update_spec_witness :
    (ecan_update (ecan_example ℚ)).1 = 1
    ∧ attention_find (ecan_update (ecan_example ℚ)).2.attention_map 7
        = some { sti := 0.495, lti := 0.49995, vlti := 0.5 } := by
  have h := ecan_update_spec (ecan_example ℚ) rfl
  have hf : attention_find (ecan_example ℚ).attention_map 7
      = some { sti := 0.5, lti := 0.5, vlti := 0.5 } := rfl
  refine ⟨h.1, ?_⟩
  rw [h.2.2.2.1 7, hf]
  unfold attention_decayed
  norm_num

theorem ecan_get_attention_fresh {F : Type} [Field F] (s : ecan_t F)
    (hinit : s.ecan_initialized = true) (h : Nat) (hf : attention_find s.attention_map h = none) :
    ecan_get_attention s h
      = ({ sti := 0.5, lti := 0.5, vlti := 0.5 },
          { s with attention_map :=
              attention_insert s.attention_map h { sti := 0.5, lti := 0.5, vlti := 0.5 } }) := by
  unfold ecan_get_attention
  rw [if_neg (by rw [hinit]; exact Bool.noConfusion), hf]

theorem ecan_get_attention_cached {F : Type} [Field F] (s : ecan_t F)
    (hinit : s.ecan_initialized = true) (h : Nat) (v : attention_value_t F)
    (hf : attention_find s.attention_map h = some v) : ecan_get_attention s h = (v, s) := by
  unfold ecan_get_attention
  rw [if_neg (by rw [hinit]; exact Bool.noConfusion), hf]

theorem ecan_get_attention_other {F : Type} [Field F] (s : ecan_t F)
    (hinit : s.ecan_initialized = true) (h a : Nat) (ha : a ≠ h) :
    attention_find (ecan_get_attention s h).2.attention_map a
      = attention_find s.attention_map a := by
  cases hf : attention_find s.attention_map h with
  | some v => rw [ecan_get_attention_cached s hinit h v hf]
  | none =>
    rw [ecan_get_attention_fresh s hinit h hf]
    dsimp only
    rw [attention_find_insert, if_neg ha]

/-- C28: on an initialised allocator, `ecan_get_attention(h)` for a handle `h` with no cached
value returns `(0.5, 0.5, 0.5)` and caches it; for a handle with a cached value it
returns that value and leaves the statics as they are; in both cases the cached values of all
other handles are unchanged. -/
theorem ecan_get_attention_spec {F : Type} [Field F] (s : ecan_t F)
    (hinit : s.ecan_initialized = true) (h : Nat) :
    (attention_find s.attention_map h = none →
        (ecan_get_attention s h).1 = { sti := 0.5, lti := 0.5, vlti := 0.5 }
        ∧ attention_find (ecan_get_attention s h).2.attention_map h
            = some { sti := 0.5, lti := 0.5, vlti := 0.5 })
    ∧ (∀ v, attention_find s.attention_map h = some v → ecan_get_attention s h = (v, s))
    ∧ (∀ a, a ≠ h → attention_find (ecan_get_attention s h).2.attention_map a
        = attention_find s.attention_map a) := by
  refine ⟨?_, ?_, ?_⟩
  · intro hf
    rw [ecan_get_attention_fresh s hinit h hf]
    refine ⟨rfl, ?_⟩
    dsimp only
    rw [attention_find_insert, if_pos rfl]
  · intro v hf
    exact ecan_get_attention_cached s hinit h v hf
  · intro a ha
    exact ecan_get_attention_other s hinit h a ha

theorem ecan_get_attention_spec_witness :
    (ecan_get_attention (ecan_example ℚ) 9).1 = { sti := 0.5, lti := 0.5, vlti := 0.5 }
    ∧ ecan_get_attention (ecan_example ℚ) 7
        = ({ sti := 0.5, lti := 0.5, vlti := 0.5 }, ecan_example ℚ) :=
  ⟨((ecan_get_attention_spec (ecan_example ℚ) rfl 9).1 rfl).1,
   (ecan_get_attention_spec (ecan_example ℚ) rfl 7).2.1 _ rfl⟩

theorem attention_decayed_in_unit {F : Type} [LinearOrderedField F] (v : attention_value_t F)
    (h : attention_in_unit v) :
    attention_in_unit (attention_decayed v) ∧ (attention_decayed v).sti ≤ v.sti := by
  obtain ⟨⟨h1, h2⟩, ⟨h3, h4⟩, h5⟩ := h
  unfold attention_in_unit attention_decayed
  dsimp only
  have e1 : (0.99 : F) = 99 / 100 := by norm_num
  have e2 : (0.01 : F) = 1 / 100 := by norm_num
  rw [e1, e2]
  refine ⟨⟨⟨?_, ?_⟩, ⟨?_, ?_⟩, h5⟩, ?_⟩ <;> linarith

theorem ecan_reach_in_unit {F : Type} [LinearOrderedField F] (s : ecan_t F)
    (hr : ecan_reach s) : ∀ p ∈ s.attention_map, attention_in_unit p.2 := by
  induction hr with
  | init ctx hctx =>
    intro p hp
    unfold ecan_init ecan_zero at hp
    simp [hctx] at hp
  | get s atom hr ih =>
    have hinit := (ecan_reach_sorted s hr).1
    cases hf : attention_find s.attention_map atom with
    | some v => rw [ecan_get_attention_cached s hinit atom v hf]; exact ih
    | none =>
      rw [ecan_get_attention_fresh s hinit atom hf]
      intro p hp
      rcases attention_insert_mem _ _ _ p hp with e | hm
      · rw [e]
        unfold attention_in_unit
        norm_num
      · exact ih p hm
  | update s hr ih =>
    rw [ecan_update_eq s (ecan_reach_sorted s hr).1]
    intro p hp
    obtain ⟨q, hq, e⟩ := List.mem_map.mp hp
    rw [← e]
    exact (attention_decayed_in_unit q.2 (ih q hq)).1

/-- C29: in every allocator state reachable from `ecan_init` by `ecan_get_attention` and
`ecan_update` calls, every cached attention value and every value returned by
`ecan_get_attention` has `sti`, `lti` and `vlti` in `[0, 1]` (exact arithmetic in an ordered
field), and the `sti` of a cached atom never increases: `ecan_get_attention` (of any
handle) leaves it as it is and `ecan_update` replaces it by `0.99 * sti`, which is at
most `sti`. -/
theorem ecan_values_in_unit {F : Type} [LinearOrderedField F] (s : ecan_t F)
    (hr : ecan_reach s) :
    (∀ a v, attention_find s.attention_map a = some v → attention_in_unit v)
    ∧ (∀ a, attention_in_unit (ecan_get_attention s a).1)
    ∧ (∀ a v, attention_find s.attention_map a = some v →
        (∀ b, attention_find (ecan_get_attention s b).2.attention_map a = some v)
        ∧ ∃ w, attention_find (ecan_update s).2.attention_map a = some w
            ∧ w.sti = 0.99 * v.sti ∧ w.sti ≤ v.sti) := by
  have hinit := (ecan_reach_sorted s hr).1
  have hunit := ecan_reach_in_unit s hr
  have hcached : ∀ a v, attention_find s.attention_map a = some v → attention_in_unit v :=
    fun a v h => hunit (a, v) (attention_find_mem _ a v h)
  refine ⟨hcached, ?_, ?_⟩
  · intro a
    cases hf : attention_find s.attention_map a with
    | some v => rw [ecan_get_attention_cached s hinit a v hf]; exact hcached a v hf
    | none =>
      rw [ecan_get_attention_fresh s hinit a hf]
      unfold attention_in_unit
      norm_num
  · intro a v hf
    refine ⟨?_, ?_⟩
    · intro b
      by_cases hab : a = b
      · subst hab
        rw [ecan_get_attention_cached s hinit a v hf]
        exact hf
      · rw [ecan_get_attention_other s hinit b a hab]
        exact hf
    · refine ⟨attention_decayed v, ?_, rfl, (attention_decayed_in_unit v (hcached a v hf)).2⟩
      rw [ecan_update_eq s hinit]
      dsimp only
      rw [attention_find_map, hf]
      rfl

theorem ecan_values_in_unit_witness :
    attention_in_unit (ecan_get_attention (ecan_update (ecan_example ℚ)).2 7).1 :=
  (ecan_values_in_unit (ecan_update (ecan_example ℚ)).2
    (ecan_reach.update _ (ecan_reach.get _ 7 (ecan_reach.init 1 (by decide))))).2.1 7

/-- C23: in every store state reachable from `hgfs_init` by `hgfs_alloc` and `hgfs_edge`, the
active nodes are the first `node_count` slots and the node of slot `i` carries the
handle `i + 1`, so the handles are `1, 2, 3, ...` in the order of the successful
`hgfs_alloc` calls; the handles of active nodes are non-zero, pairwise distinct and
smaller than `next_node_handle`. A successful `hgfs_alloc` gives its node the handle
`next_node_handle = node_count + 1` and increases both counters by one; an `hgfs_alloc`
that finds 4096 nodes or gets no tensor from the tensor service returns `NULL` and
leaves the store as it is. -/
theorem hgfs_node_handles (s : hgfs_t) (hr : hgfs_reach s) (svc : Nat → Option ggml_tensor)
    (size depth : Nat) :
    (∀ i, (s.nodes i).active = true ↔ i < s.node_count)
    ∧ (∀ i, i < s.node_count → (s.nodes i).handle = i + 1)
    ∧ (∀ i, (s.nodes i).active = true →
        (s.nodes i).handle ≠ 0 ∧ (s.nodes i).handle < s.next_node_handle)
    ∧ (∀ i j, (s.nodes i).active = true → (s.nodes j).active = true →
        (s.nodes i).handle = (s.nodes j).handle → i = j)
    ∧ ((s.node_count ≥ MAX_NODES ∨ svc (sub64 (add64 size 4) 1 / 4) = none) →
        hgfs_alloc s svc size depth = (0, s))
    ∧ (∀ t, s.node_count < MAX_NODES → svc (sub64 (add64 size 4) 1 / 4) = some t →
        s.next_node_handle = s.node_count + 1
        ∧ hgfs_alloc s svc size depth
          = (t.data,
              { s with nodes := Function.update s.nodes s.node_count
                         { tensor := t, depth := depth, handle := s.next_node_handle
                           active := true }
                       next_node_handle := s.next_node_handle + 1
                       node_count := s.node_count + 1 })) := by
  have hinv := hgfs_reach_inv s hr
  obtain ⟨h1, h2, h3, h4, h5, h6, h7, h8⟩ := hinv
  refine ⟨h6, h8, ?_, ?_, ?_, ?_⟩
  · intro i ha
    have hi := (h6 i).mp ha
    rw [h8 i hi, h4]
    exact ⟨Nat.succ_ne_zero _, by omega⟩
  · intro i j hi hj e
    rw [h8 i ((h6 i).mp hi), h8 j ((h6 j).mp hj)] at e
    omega
  · intro hfail
    rcases hgfs_alloc_eq s ⟨h1, h2, h3, h4, h5, h6, h7, h8⟩ svc size depth with e | ⟨t, hlt, e⟩
    · exact e
    · rcases hfail with hfull | hnone
      · omega
      · exfalso
        unfold hgfs_alloc at e
        rw [if_neg (by rw [h1]; exact Bool.noConfusion), if_neg (by omega)] at e
        dsimp only at e
        rw [hgfs_free_node_slot_eq s ⟨h1, h2, h3, h4, h5, h6, h7, h8⟩ hlt,
          if_neg (by omega), hnone] at e
        have e2 := congrArg (fun r => r.2.node_count) e
        dsimp only at e2
        omega
  · intro t hlt hsvc
    exact ⟨h4, hgfs_alloc_create s ⟨h1, h2, h3, h4, h5, h6, h7, h8⟩ hlt svc size depth t hsvc⟩

theorem hgfs_node_handles_witness :
    (hgfs_alloc hgfs_example (fun _ => some { data := 3000 }) 16 0).2.next_node_handle = 4
    ∧ ((hgfs_alloc hgfs_example (fun _ => some { data := 3000 }) 16 0).2.nodes 2).handle = 3
    ∧ hgfs_alloc hgfs_example (fun _ => none) 16 0 = (0, hgfs_example) := by
  have hr : hgfs_reach hgfs_example :=
    hgfs_reach.alloc _ (fun _ => some { data := 2000 }) 128 0
      (hgfs_reach.alloc _ (fun _ => some { data := 1000 }) 128 0
        (hgfs_reach.init 1 (by decide)))
  have h := hgfs_node_handles hgfs_example hr (fun _ => some { data := 3000 }) 16 0
  have h2 := (hgfs_node_handles hgfs_example hr (fun _ => none) 16 0).2.2.2.2.1 (Or.inr rfl)
  have hc : hgfs_example.node_count = 2 := by rw [hgfs_example_eq]
  have hn : hgfs_example.next_node_handle = 3 := by rw [hgfs_example_eq]
  obtain ⟨_, e⟩ := h.2.2.2.2.2 { data := 3000 } (by rw [hc]; decide) rfl
  rw [e, hc, hn]
  refine ⟨rfl, ?_, h2⟩
  dsimp only
  rw [Function.update_same]

/-- C24: before their initialisation, the operations of the hypergraph store, the
scheduler, the atom registry, the attention allocator and the truth engine return
their failure value and leave the statics of their subsystem unchanged: `hgfs_alloc`
`NULL`, `hgfs_edge` 0, `dtesn_sched_task` 0, `dtesn_sched_tick` -1 (no callback is invoked),
`cog_atom_alloc` 0, `cog_link_create` 0, `ecan_get_attention` `(0, 0, 0)`, `ecan_update` -1,
`pln_eval_tensor` `(0, 0)`, `pln_unify_graph` 0. -/
theorem uninitialised_calls_fail {F : Type} [LinearOrderedField F] (powf : F → F → F)
    (g : hgfs_t) (hg : g.initialized = false)
    (sc : scheduler_t) (hsc : sc.initialized = false)
    (a : atomspace_t) (ha : a.initialized = false)
    (e : ecan_t F) (he : e.ecan_initialized = false)
    (p : pln_t F) (hp : p.pln_initialized = false) :
    (∀ svc size depth, hgfs_alloc g svc size depth = (0, g))
    ∧ (∀ src dst weight, hgfs_edge g src dst weight = (0, g))
    ∧ (∀ fn data priority depth, dtesn_sched_task sc fn data priority depth = (0, sc))
    ∧ (∀ call, (dtesn_sched_tick call sc).executed = -1 ∧ (dtesn_sched_tick call sc).sched = sc
        ∧ (dtesn_sched_tick call sc).calls = [])
    ∧ (∀ t type name, cog_atom_alloc a t type name = (0, a))
    ∧ (∀ g2 t type members, cog_link_create a g2 t type members = (0, a, g2))
    ∧ (∀ atom, ecan_get_attention e atom = ({ sti := 0, lti := 0, vlti := 0 }, e))
    ∧ ecan_update e = (-1, e)
    ∧ (∀ query context,
        pln_eval_tensor powf p query context = ({ strength := 0, confidence := 0 }, p))
    ∧ (∀ fsub c02 x y, pln_unify_graph fsub c02 p x y = (0, p)) := by
  refine ⟨?_, ?_, ?_, ?_, ?_, ?_, ?_, ?_, ?_, ?_⟩
  · intro svc size depth
    unfold hgfs_alloc
    rw [if_pos hg]
  · intro src dst weight
    unfold hgfs_edge
    rw [if_pos hg]
  · intro fn data priority depth
    unfold dtesn_sched_task
    rw [if_pos hsc]
  · intro call
    unfold dtesn_sched_tick
    rw [if_pos hsc]
    exact ⟨rfl, rfl, rfl⟩
  · intro t type name
    unfold cog_atom_alloc
    rw [if_pos ha]
  · intro g2 t type members
    unfold cog_link_create
    rw [if_pos ha]
  · intro atom
    unfold ecan_get_attention
    rw [if_pos he]
  · unfold ecan_update
    rw [if_pos he]
  · intro query context
    unfold pln_eval_tensor
    rw [if_pos hp]
  · intro fsub c02 x y
    unfold pln_unify_graph
    rw [if_pos hp]

theorem uninitialised_calls_fail_witness :
    hgfs_alloc hgfs_zero (fun _ => some { data := 1000 }) 128 0 = (0, hgfs_zero)
    ∧ (dtesn_sched_tick call_pure scheduler_zero).executed = -1
    ∧ ecan_update (ecan_zero ℚ) = (-1, ecan_zero ℚ)
    ∧ pln_unify_graph f32_sub f32_0_2 (pln_zero ℚ) 1 2 = (0, pln_zero ℚ) :=
  ⟨(uninitialised_calls_fail (fun x _ => x) hgfs_zero rfl scheduler_zero rfl atomspace_zero rfl
      (ecan_zero ℚ) rfl (pln_zero ℚ) rfl).1 _ 128 0,
   ((uninitialised_calls_fail (fun x _ => x) hgfs_zero rfl scheduler_zero rfl atomspace_zero rfl
      (ecan_zero ℚ) rfl (pln_zero ℚ) rfl).2.2.2.1 call_pure).1,
   (uninitialised_calls_fail (fun x _ => x) hgfs_zero rfl scheduler_zero rfl atomspace_zero rfl
      (ecan_zero ℚ) rfl (pln_zero ℚ) rfl).2.2.2.2.2.2.2.1,
   (uninitialised_calls_fail (fun x _ => x) hgfs_zero rfl scheduler_zero rfl atomspace_zero rfl
      (ecan_zero ℚ) rfl (pln_zero ℚ) rfl).2.2.2.2.2.2.2.2.2 f32_sub f32_0_2 1 2⟩

theorem link_member_fst (link_idx : Nat) (st : atomspace_t × hgfs_t) (m : Nat) :
    (link_member link_idx st m).1
      = { st.1 with
          atoms := Function.update st.1.atoms link_idx
            { (st.1.atoms link_idx) with
              outgoing := (st.1.atoms link_idx).outgoing ++ [m] } } := by
  unfold link_member
  dsimp only
  split <;> rfl

theorem link_members_atoms (link_idx : Nat) (members : List Nat) :
    ∀ st : atomspace_t × hgfs_t,
      (members.foldl (link_member link_idx) st).1
        = { st.1 with
            atoms := Function.update st.1.atoms link_idx
              { (st.1.atoms link_idx) with
                outgoing := (st.1.atoms link_idx).outgoing ++ members } } := by
  induction members with
  | nil =>
    intro st
    rw [List.foldl_nil]
    simp only [List.append_nil]
    rw [Function.update_eq_self]
  | cons m rest ih =>
    intro st
    rw [List.foldl_cons, ih, link_member_fst]
    simp only [Function.update_same, Function.update_idem, List.append_assoc,
      List.singleton_append]

theorem cog_link_create_eq (s : atomspace_t) (h : atoms_inv s) (g : hgfs_t) (t : ggml_tensor)
    (hlt : s.atom_count < MAX_ATOMS) (type : atom_type_t) (members : List Nat) :
    (cog_link_create s g (some t) type members).1 = s.next_handle
    ∧ (cog_link_create s g (some t) type members).2.1
        = { s with atoms := Function.update s.atoms s.atom_count
                     { type := type, name := none, outgoing := members, tensor := t
                       handle := s.next_handle, active := true }
                   next_handle := s.next_handle + 1
                   atom_count := s.atom_count + 1 } := by
  have e := cog_atom_alloc_create s h hlt t type none rfl
  have hinv' := atoms_inv_alloc s h (some t) type none
  have hnext : s.next_handle = s.atom_count + 1 := h.2.2.1
  have hfind : find_atom (cog_atom_alloc s (some t) type none).2 (s.atom_count + 1)
      = some s.atom_count :=
    find_atom_eq _ hinv' s.atom_count (by rw [e]; exact Nat.lt_succ_self _)
  unfold cog_link_create
  rw [if_neg (by rw [h.1]; exact Bool.noConfusion)]
  dsimp only
  have h1 : (cog_atom_alloc s (some t) type none).1 = s.atom_count + 1 := by
    rw [e]; exact hnext
  rw [h1, if_neg (Nat.succ_ne_zero _), hfind]
  dsimp only
  rw [link_members_atoms, e]
  refine ⟨hnext.symm, ?_⟩
  simp only [Function.update_same, Function.update_idem, List.nil_append, name_index_add]

theorem cog_link_create_fail (s : atomspace_t) (g : hgfs_t) (t : Option ggml_tensor)
    (type : atom_type_t) (members : List Nat)
    (h : cog_atom_alloc s t type none = (0, s)) :
    cog_link_create s g t type members = (0, s, g) := by
  unfold cog_link_create
  by_cases h1 : s.initialized = false
  · rw [if_pos h1]
  · rw [if_neg h1]
    dsimp only
    rw [h, if_pos rfl]

/-- C26 fails as stated: the registry holding the concepts "cat" and "animal" is initialised
and its slot 2 is free, but when the tensor service returns no tensor
`cog_link_create(ATOM_LINK, {1, 2}, 2)` returns 0 and creates no atom. -/
theorem cog_link_create_no_tensor_counterexample :
    atoms_example.initialized = true
    ∧ 2 < MAX_ATOMS ∧ (atoms_example.atoms 2).active = false
    ∧ cog_link_create atoms_example hgfs_example none atom_type_t.ATOM_LINK [1, 2]
        = (0, atoms_example, hgfs_example) := by
  have hr : atoms_reach atoms_example :=
    atoms_reach.alloc _ _ _ _ (atoms_reach.alloc _ _ _ _ (atoms_reach.init 1 (by decide)))
  have hinv := atoms_reach_inv _ hr
  refine ⟨hinv.1, by decide, by rw [atoms_example_eq]; rfl, ?_⟩
  apply cog_link_create_fail
  rcases cog_atom_alloc_eq atoms_example hinv none atom_type_t.ATOM_LINK none
    with e | ⟨n, _, hn, _⟩ | ⟨t, ht, _⟩
  · exact e
  · cases hn
  · cases ht

/-- C26 (amended): in a registry state reachable from `atomspace_init`, when a slot of the atom
table is free and the tensor service returns a tensor, `cog_link_create(type, members)`
returns the handle `next_handle`, which is non-zero and carried by no atom of the table;
it writes one new atom into a slot that was free: unnamed, of the given type,
active, with the outgoing sequence equal to `members` in the given order (the empty
list included); all other slots and the name index are unchanged and the atom
count goes up by one. When all 8192 slots hold atoms, or when the tensor service
returns no tensor, it returns 0 and leaves registry and hypergraph store
unchanged. -/
theorem cog_link_create_spec (s : atomspace_t) (hr : atoms_reach s) (g : hgfs_t)
    (type : atom_type_t) (members : List Nat) :
    (∀ t, (∃ i, i < MAX_ATOMS ∧ (s.atoms i).active = false) →
        (cog_link_create s g (some t) type members).1 = s.next_handle
        ∧ s.next_handle ≠ 0
        ∧ (∀ i, (s.atoms i).active = true → (s.atoms i).handle ≠ s.next_handle)
        ∧ (∃ idx, idx < MAX_ATOMS ∧ (s.atoms idx).active = false
            ∧ (cog_link_create s g (some t) type members).2.1.atoms idx
              = { type := type, name := none, outgoing := members, tensor := t
                  handle := s.next_handle, active := true }
            ∧ ∀ i, i ≠ idx →
                (cog_link_create s g (some t) type members).2.1.atoms i = s.atoms i)
        ∧ (cog_link_create s g (some t) type members).2.1.name_index = s.name_index
        ∧ (cog_link_create s g (some t) type members).2.1.atom_count = s.atom_count + 1)
    ∧ (∀ new_tensor, (∀ i, i < MAX_ATOMS → (s.atoms i).active = true) →
        cog_link_create s g new_tensor type members = (0, s, g))
    ∧ cog_link_create s g none type members = (0, s, g) := by
  have hinv := atoms_reach_inv s hr
  have hnone : cog_link_create s g none type members = (0, s, g) := by
    apply cog_link_create_fail
    rcases cog_atom_alloc_eq s hinv none type none with e | ⟨n, _, hn, _⟩ | ⟨t, ht, _⟩
    · exact e
    · cases hn
    · cases ht
  obtain ⟨h1, h2, h3, h4, h5, h6, h7⟩ := hinv
  refine ⟨?_, ?_, hnone⟩
  · rintro t ⟨i, hi, ha⟩
    have hlt : s.atom_count < MAX_ATOMS := by
      by_contra hge
      have := (h4 i).mpr (by omega)
      rw [ha] at this
      exact Bool.noConfusion this
    obtain ⟨e1, e2⟩ := cog_link_create_eq s ⟨h1, h2, h3, h4, h5, h6, h7⟩ g t hlt type members
    have hfree : (s.atoms s.atom_count).active = false := by
      cases hb : (s.atoms s.atom_count).active with
      | false => rfl
      | true => exact absurd ((h4 _).mp hb) (lt_irrefl _)
    rw [e1, e2]
    refine ⟨rfl, by rw [h3]; exact Nat.succ_ne_zero _, ?_, ⟨s.atom_count, hlt, hfree, ?_, ?_⟩,
      rfl, rfl⟩
    · intro j hj
      have hjlt := (h4 j).mp hj
      rw [h5 j hjlt, h3]
      omega
    · dsimp only
      rw [Function.update_same]
    · intro j hj
      dsimp only
      rw [Function.update_noteq hj]
  · intro new_tensor hall
    apply cog_link_create_fail
    have hge : s.atom_count ≥ MAX_ATOMS := by
      by_contra hlt
      have := (h4 s.atom_count).mp (hall _ (by omega))
      omega
    unfold cog_atom_alloc
    rw [if_neg (by rw [h1]; exact Bool.noConfusion), if_pos hge]

theorem cog_link_create_spec_witness :
    (cog_link_create atoms_example hgfs_example (some { data := 3000 })
        atom_type_t.ATOM_LINK [1, 2]).1 = 3
    ∧ (cog_link_create atoms_example hgfs_example (some { data := 3000 })
        atom_type_t.ATOM_LINK [1, 2]).2.1.atom_count = 3 := by
  have hr : atoms_reach atoms_example :=
    atoms_reach.alloc _ _ _ _ (atoms_reach.alloc _ _ _ _ (atoms_reach.init 1 (by decide)))
  have hfree : ∃ i, i < MAX_ATOMS ∧ (atoms_example.atoms i).active = false :=
    ⟨2, by decide, by rw [atoms_example_eq]; rfl⟩
  have h := (cog_link_create_spec atoms_example hr hgfs_example atom_type_t.ATOM_LINK
    [1, 2]).1 { data := 3000 } hfree
  have hcount : atoms_example.atom_count = 2 := by rw [atoms_example_eq]
  have hnext : atoms_example.next_handle = 3 := by rw [atoms_example_eq]
  exact ⟨h.1.trans hnext, by rw [h.2.2.2.2.2, hcount]⟩

theorem atoms_created_reach (s : atomspace_t) (hs : List Nat) (hc : atoms_created s hs) :
    atoms_reach s := by
  induction hc with
  | init ctx hctx => exact atoms_reach.init ctx hctx
  | alloc s hs t type name _ ih => exact atoms_reach.alloc s t type name ih
  | link s hs g t type members _ ih => exact atoms_reach.link s g t type members ih

theorem cog_link_create_cases (s : atomspace_t) (h : atoms_inv s) (g : hgfs_t)
    (new_tensor : Option ggml_tensor) (type : atom_type_t) (members : List Nat) :
    ((cog_link_create s g new_tensor type members).1 = 0
      ∧ (cog_link_create s g new_tensor type members).2.1 = s)
    ∨ ((cog_link_create s g new_tensor type members).1 = s.next_handle
      ∧ (cog_link_create s g new_tensor type members).2.1.next_handle = s.next_handle + 1
      ∧ (cog_link_create s g new_tensor type members).2.1.atom_count = s.atom_count + 1) := by
  rcases cog_atom_alloc_eq s h new_tensor type none with e | ⟨n, _, hn, _⟩ | ⟨t, ht, hlt, _, _⟩
  · rw [cog_link_create_fail s g new_tensor type members e]
    exact Or.inl ⟨rfl, rfl⟩
  · cases hn
  · subst ht
    obtain ⟨e1, e2⟩ := cog_link_create_eq s h g t hlt type members
    rw [e1, e2]
    exact Or.inr ⟨rfl, rfl, rfl⟩

theorem atoms_created_handles (s : atomspace_t) (hs : List Nat) (hc : atoms_created s hs) :
    ∀ h ∈ hs, h ≠ 0 ∧ h < s.next_handle := by
  induction hc with
  | init ctx hctx => intro h hh; cases hh
  | alloc s hs t type name hc ih =>
    have hinv := atoms_reach_inv s (atoms_created_reach s hs hc)
    have hnext : s.next_handle = s.atom_count + 1 := hinv.2.2.1
    rcases cog_atom_alloc_eq s hinv t type name with e | ⟨n, hd, _, _, _, e⟩ | ⟨t2, _, _, _, e⟩
    · rw [e, if_pos rfl]; exact ih
    · rw [e, if_pos rfl]; exact ih
    · rw [e]
      dsimp only
      rw [if_neg (Nat.succ_ne_self _)]
      intro h hh
      rcases List.mem_cons.mp hh with rfl | hh
      · exact ⟨by rw [hnext]; exact Nat.succ_ne_zero _, Nat.lt_succ_self _⟩
      · exact ⟨(ih h hh).1, Nat.lt_succ_of_lt (ih h hh).2⟩
  | link s hs g t type members hc ih =>
    have hinv := atoms_reach_inv s (atoms_created_reach s hs hc)
    have hnext : s.next_handle = s.atom_count + 1 := hinv.2.2.1
    rcases cog_link_create_cases s hinv g t type members with ⟨_, e⟩ | ⟨e1, e2, e3⟩
    · rw [e, if_pos rfl]; exact ih
    · rw [e3, if_neg (Nat.succ_ne_self _), e1, e2]
      intro h hh
      rcases List.mem_cons.mp hh with rfl | hh
      · exact ⟨by rw [hnext]; exact Nat.succ_ne_zero _, Nat.lt_succ_self _⟩
      · exact ⟨(ih h hh).1, Nat.lt_succ_of_lt (ih h hh).2⟩

/-- C25: in a registry state reached from `atomspace_init` by `cog_atom_alloc` and
`cog_link_create` calls, a `cog_atom_alloc` call that adds an atom to the table returns a
non-zero handle that is strictly greater than, hence different from, every handle
returned by an earlier call that added an atom, and different from the handle of
every atom in the table; in particular two successive `cog_atom_alloc(ATOM_CONCEPT, NULL)`
calls that both return a non-zero handle return two distinct handles. -/
theorem cog_atom_alloc_fresh_handle (s : atomspace_t) (hs : List Nat)
    (hc : atoms_created s hs) (t : Option ggml_tensor) (type : atom_type_t)
    (name : Option String) :
    ((cog_atom_alloc s t type name).2.atom_count ≠ s.atom_count →
        (cog_atom_alloc s t type name).1 ≠ 0
        ∧ (∀ h ∈ hs, h < (cog_atom_alloc s t type name).1)
        ∧ (cog_atom_alloc s t type name).1 ∉ hs
        ∧ ∀ i, (s.atoms i).active = true →
            (s.atoms i).handle ≠ (cog_atom_alloc s t type name).1)
    ∧ (∀ t2, (cog_atom_alloc s t atom_type_t.ATOM_CONCEPT none).1 ≠ 0 →
        (cog_atom_alloc (cog_atom_alloc s t atom_type_t.ATOM_CONCEPT none).2 t2
          atom_type_t.ATOM_CONCEPT none).1 ≠ 0 →
        (cog_atom_alloc s t atom_type_t.ATOM_CONCEPT none).1
          ≠ (cog_atom_alloc (cog_atom_alloc s t atom_type_t.ATOM_CONCEPT none).2 t2
              atom_type_t.ATOM_CONCEPT none).1) := by
  have hinv := atoms_reach_inv s (atoms_created_reach s hs hc)
  have hnext : s.next_handle = s.atom_count + 1 := hinv.2.2.1
  have hold := atoms_created_handles s hs hc
  refine ⟨?_, ?_⟩
  · intro hne
    rcases cog_atom_alloc_eq s hinv t type name with e | ⟨n, hd, _, _, _, e⟩ | ⟨t2, _, _, _, e⟩
    · rw [e] at hne; exact absurd rfl hne
    · rw [e] at hne; exact absurd rfl hne
    · rw [e]
      dsimp only
      refine ⟨by rw [hnext]; exact Nat.succ_ne_zero _, fun h hh => (hold h hh).2, ?_, ?_⟩
      · intro hmem
        exact lt_irrefl _ (hold _ hmem).2
      · intro i hi
        have hilt := (hinv.2.2.2.1 i).mp hi
        rw [hinv.2.2.2.2.1 i hilt, hnext]
        omega
  · intro t2 hz1 hz2
    have hinv1 := atoms_inv_alloc s hinv t atom_type_t.ATOM_CONCEPT none
    rcases cog_atom_alloc_eq s hinv t atom_type_t.ATOM_CONCEPT none
      with e | ⟨n, _, hn, _⟩ | ⟨t3, _, _, _, e⟩
    · rw [e] at hz1; exact absurd rfl hz1
    · cases hn
    · rcases cog_atom_alloc_eq _ hinv1 t2 atom_type_t.ATOM_CONCEPT none
        with e' | ⟨n, _, hn, _⟩ | ⟨t4, _, _, _, e'⟩
      · rw [e'] at hz2; exact absurd rfl hz2
      · cases hn
      · rw [e', e]
        dsimp only
        exact Nat.ne_of_lt (Nat.lt_succ_self _)

theorem cog_atom_alloc_fresh_handle_witness :
    (cog_atom_alloc atoms_example (some { data := 3000 }) atom_type_t.ATOM_CONCEPT none).1 ≠ 0
    ∧ (cog_atom_alloc atoms_example (some { data := 3000 })
        atom_type_t.ATOM_CONCEPT none).1 = 3 := by
  have hc := atoms_created.alloc _ _ (some { data := 2000 }) atom_type_t.ATOM_CONCEPT
    (some "animal")
    (atoms_created.alloc _ _ (some { data := 1000 }) atom_type_t.ATOM_CONCEPT (some "cat")
      (atoms_created.init 1 (by decide)))
  have hinv := atoms_reach_inv _ (atoms_created_reach _ _ hc)
  have hcount : atoms_example.atom_count = 2 := by rw [atoms_example_eq]
  have hnext : atoms_example.next_handle = 3 := by rw [atoms_example_eq]
  have e := cog_atom_alloc_create atoms_example hinv (by rw [hcount]; decide)
    { data := 3000 } atom_type_t.ATOM_CONCEPT none rfl
  have h := (cog_atom_alloc_fresh_handle atoms_example _ hc (some { data := 3000 })
    atom_type_t.ATOM_CONCEPT none).1 (by rw [e]; dsimp only; omega)
  exact ⟨h.1, by rw [e]; dsimp only; exact hnext⟩

theorem truth_values_bounds (l : List (truth_value_t ℝ)) (h : ∀ tv ∈ l, truth_in_unit tv) :
    0 ≤ (l.map truth_value_t.strength).sum
    ∧ (l.map truth_value_t.strength).sum ≤ (l.length : ℝ)
    ∧ 0 ≤ (l.map truth_value_t.confidence).prod
    ∧ (l.map truth_value_t.confidence).prod ≤ 1 := by
  induction l with
  | nil => simp
  | cons tv rest ih =>
    obtain ⟨i1, i2, i3, i4⟩ := ih (fun x hx => h x (List.mem_cons_of_mem _ hx))
    obtain ⟨⟨s1, s2⟩, c1, c2⟩ := h tv (List.mem_cons_self _ _)
    simp only [List.map_cons, List.sum_cons, List.prod_cons, List.length_cons, Nat.cast_add,
      Nat.cast_one]
    refine ⟨by linarith, by linarith, mul_nonneg c1 i3, ?_⟩
    calc tv.confidence * (rest.map truth_value_t.confidence).prod
        ≤ 1 * 1 := mul_le_mul c2 i4 i3 (by norm_num)
      _ = 1 := by norm_num

theorem context_truth_in_unit (s : pln_t ℝ)
    (h : ∀ a tv, s.truth_map a = some tv → truth_in_unit tv) (context : List Nat) :
    truth_in_unit (context_truth (fun x y : ℝ => x ^ y) s context) := by
  have hcv : ∀ tv ∈ cached_values s context, truth_in_unit tv := by
    intro tv htv
    unfold cached_values at htv
    obtain ⟨a, _, ha⟩ := List.mem_filterMap.mp htv
    exact h a tv ha
  obtain ⟨b1, b2, b3, b4⟩ := truth_values_bounds _ hcv
  have hlen : ((cached_values s context).length : ℝ) ≤ (context.length : ℝ) := by
    unfold cached_values
    exact_mod_cast List.length_filterMap_le _ _
  unfold truth_in_unit context_truth
  dsimp only
  by_cases hn : context.length > 0
  · simp only [hn, if_true]
    have hpos : (0 : ℝ) < (context.length : ℝ) := by exact_mod_cast hn
    refine ⟨⟨div_nonneg b1 (le_of_lt hpos), ?_⟩, Real.rpow_nonneg b3 _, ?_⟩
    · rw [div_le_one hpos]
      linarith
    · exact Real.rpow_le_one b3 b4 (div_nonneg (by norm_num) (le_of_lt hpos))
  · simp only [hn, if_false]
    norm_num

theorem pln_reach_in_unit (s : pln_t ℝ) (hr : pln_reach (fun x y : ℝ => x ^ y) s) :
    s.pln_initialized = true ∧ ∀ a tv, s.truth_map a = some tv → truth_in_unit tv := by
  induction hr with
  | init ctx hctx =>
    unfold pln_init pln_zero
    simp [hctx]
  | eval s query context _ ih =>
    cases hq : s.truth_map query with
    | some tv =>
      have e : pln_eval_tensor (fun x y : ℝ => x ^ y) s query context = (tv, s) := by
        unfold pln_eval_tensor
        rw [if_neg (by rw [ih.1]; exact Bool.noConfusion), hq]
      rw [e]
      exact ih
    | none =>
      rw [pln_eval_uncached _ s ih.1 query hq context]
      refine ⟨ih.1, ?_⟩
      intro a tv ha
      dsimp only at ha
      by_cases haq : a = query
      · subst haq
        rw [Function.update_same] at ha
        rw [← Option.some.inj ha]
        exact context_truth_in_unit s ih.2 context
      · rw [Function.update_noteq haq] at ha
        exact ih.2 a tv ha

/-- C30: in every truth-store state reachable from `pln_init` by `pln_eval_tensor` calls (any
queries, any contexts), every cached truth value has strength and confidence in
`[0, 1]`, and so has the truth value returned by a further `pln_eval_tensor` call (real
arithmetic, `std::pow` as the real power function). -/
theorem pln_values_in_unit (s : pln_t ℝ) (hr : pln_reach (fun x y : ℝ => x ^ y) s) :
    (∀ a tv, s.truth_map a = some tv → truth_in_unit tv)
    ∧ (∀ query context,
        truth_in_unit (pln_eval_tensor (fun x y : ℝ => x ^ y) s query context).1) := by
  obtain ⟨hinit, hunit⟩ := pln_reach_in_unit s hr
  refine ⟨hunit, ?_⟩
  intro query context
  cases hq : s.truth_map query with
  | some tv =>
    have e : pln_eval_tensor (fun x y : ℝ => x ^ y) s query context = (tv, s) := by
      unfold pln_eval_tensor
      rw [if_neg (by rw [hinit]; exact Bool.noConfusion), hq]
    rw [e]
    exact hunit query tv hq
  | none =>
    rw [pln_eval_uncached _ s hinit query hq context]
    exact context_truth_in_unit s hunit context

theorem pln_values_in_unit_witness :
    truth_in_unit (pln_eval_tensor (fun x y : ℝ => x ^ y)
      (pln_eval_tensor (fun x y : ℝ => x ^ y) (pln_init (pln_zero ℝ) 1).2 1 []).2 2 [1, 3]).1 :=
  (pln_values_in_unit _
    (pln_reach.eval _ 1 [] (pln_reach.init 1 (by decide)))).2 2 [1, 3]

/-- C33: in an arena state reachable from a successful `dtesn_mem_init` (heap of `H >= sizeof(mem_block_t)`
bytes inside the address space), when `dtesn_mem_alloc` selects the free block `B` of
size `z` for the rounded request `s`, it splits the block if and only if
`z > s + sizeof(mem_block_t) + 64`: after a split the chosen block has size exactly `s` and is
directly followed in the chain by a new free block at `B.addr + sizeof(mem_block_t) + s` of size
`z - s - sizeof(mem_block_t)` tagged `MEM_REGION_HEAP`; without a split the chosen block keeps
the size `z` and no block is added. -/
theorem arena_alloc_split (base H : Nat) (hH : sizeof_mem_block_t ≤ H) (hb : base ≠ 0)
    (hal : base % ALIGNMENT = 0) (hfit : base + H < WORD) (m : memory_t) (ps : List Nat)
    (hr : arena_reach base H m ps) (aa size : Nat) (region : mem_region_t)
    (pre : List mem_block_t) (B : mem_block_t) (post : List mem_block_t)
    (hl : m.free_list = pre ++ B :: post)
    (hpre : ∀ b ∈ pre, ¬ block_fits (align_size size) b)
    (hB : block_fits (align_size size) B) :
    (B.size > align_size size + sizeof_mem_block_t + ALIGNMENT →
        (dtesn_mem_alloc m aa size region).2.free_list
          = pre ++ { addr := B.addr, size := align_size size, region := region,
                     allocated := true }
              :: { addr := B.addr + sizeof_mem_block_t + align_size size,
                   size := B.size - align_size size - sizeof_mem_block_t,
                   region := mem_region_t.MEM_REGION_HEAP, allocated := false } :: post)
    ∧ (¬ B.size > align_size size + sizeof_mem_block_t + ALIGNMENT →
        (dtesn_mem_alloc m aa size region).2.free_list
          = pre ++ { addr := B.addr, size := B.size, region := region, allocated := true }
              :: post) := by
  obtain ⟨hinit, _, _, ht⟩ := arena_reach_inv base H hH hb hal hfit m ps hr
  have hb64 : 64 ≤ base := by unfold ALIGNMENT at hal; omega
  rw [hl] at ht
  have hbd := tiles_bounds _ _ _ ht B (by simp)
  have hc : (!B.allocated && decide (B.size ≥ align_size size)) = true := by
    simp only [Bool.and_eq_true, Bool.not_eq_true', decide_eq_true_eq]
    exact hB
  have hsum : add64 (add64 (align_size size) sizeof_mem_block_t) ALIGNMENT
      = align_size size + sizeof_mem_block_t + ALIGNMENT := by
    have h2 := hB.2
    have h3 := hbd.1
    have h4 := hbd.2
    unfold add64 WORD sizeof_mem_block_t ALIGNMENT at *
    omega
  rw [dtesn_mem_alloc_eq m hinit]
  dsimp only
  rw [hl, alloc_loop_append (align_size size) region pre (B :: post) hpre]
  dsimp only
  rw [alloc_loop, if_pos hc, hsum]
  refine ⟨?_, ?_⟩
  · intro hsplit
    rw [if_pos hsplit]
    dsimp only
    have hsz : sub64 (sub64 B.size (align_size size)) sizeof_mem_block_t
        = B.size - align_size size - sizeof_mem_block_t := by
      have h2 := hB.2
      have h3 := hbd.1
      have h4 := hbd.2
      unfold sub64 WORD sizeof_mem_block_t ALIGNMENT at *
      omega
    rw [hsz]
  · intro hsplit
    rw [if_neg hsplit]

theorem arena_alloc_split_witness :
    (dtesn_mem_alloc (dtesn_mem_init memory_zero 64 1024).2 0 100
        mem_region_t.MEM_REGION_TENSOR).2.free_list
      = [] ++ { addr := 64, size := align_size 100, region := mem_region_t.MEM_REGION_TENSOR,
                allocated := true }
          :: { addr := 64 + sizeof_mem_block_t + align_size 100,
               size := 944 - align_size 100 - sizeof_mem_block_t,
               region := mem_region_t.MEM_REGION_HEAP, allocated := false } :: [] :=
  (arena_alloc_split 64 1024 (by decide) (by decide) (by decide) (by decide)
    (dtesn_mem_init memory_zero 64 1024).2 [] arena_reach.init 0 100
    mem_region_t.MEM_REGION_TENSOR []
    { addr := 64, size := 944, region := mem_region_t.MEM_REGION_HEAP, allocated := false } []
    (by decide) (by decide) (by decide)).1 (by decide)

/-- C34 fails as stated: after `dtesn_mem_init(1024)` the single block has size
`1024 - sizeof(mem_block_t) = 944`, and after `dtesn_mem_init(1000)` it has size 920; neither is a
multiple of 64. -/
theorem arena_block_size_counterexample :
    arena_reach 4096 1024 (dtesn_mem_init memory_zero 4096 1024).2 []
    ∧ (dtesn_mem_init memory_zero 4096 1024).2.free_list
        = [{ addr := 4096, size := 944, region := mem_region_t.MEM_REGION_HEAP,
             allocated := false }]
    ∧ ¬ (∀ b ∈ (dtesn_mem_init memory_zero 4096 1024).2.free_list, b.size % 64 = 0)
    ∧ arena_reach 4096 1000 (dtesn_mem_init memory_zero 4096 1000).2 []
    ∧ (dtesn_mem_init memory_zero 4096 1000).2.free_list
        = [{ addr := 4096, size := 920, region := mem_region_t.MEM_REGION_HEAP,
             allocated := false }]
    ∧ ¬ (∀ b ∈ (dtesn_mem_init memory_zero 4096 1000).2.free_list, b.size % 64 = 0) :=
  ⟨arena_reach.init, by decide, by decide, arena_reach.init, by decide, by decide⟩

theorem alloc_loop_sizes16 (s : Nat) (hs : s % 16 = 0) (region : mem_region_t)
    (l : List mem_block_t) (h : ∀ b ∈ l, b.size % 16 = 0) :
    ∀ b ∈ (alloc_loop s region l).blocks, b.size % 16 = 0 := by
  induction l with
  | nil => intro b hb; cases hb
  | cons c rest ih =>
    have hc := h c (List.mem_cons_self _ _)
    have hrest : ∀ b ∈ rest, b.size % 16 = 0 := fun b hb => h b (List.mem_cons_of_mem _ hb)
    unfold alloc_loop
    split_ifs with h1 h2
    · simp only [Bool.and_eq_true, Bool.not_eq_true', decide_eq_true_eq] at h1
      intro b hb
      dsimp only at hb
      rcases List.mem_cons.mp hb with rfl | hb
      · exact hs
      · rcases List.mem_cons.mp hb with rfl | hb
        · have h3 := h1.2
          show sub64 (sub64 c.size s) sizeof_mem_block_t % 16 = 0
          unfold sub64 WORD sizeof_mem_block_t
          omega
        · exact hrest b hb
    · intro b hb
      dsimp only at hb
      rcases List.mem_cons.mp hb with rfl | hb
      · exact hc
      · exact hrest b hb
    · intro b hb
      dsimp only at hb
      rcases List.mem_cons.mp hb with rfl | hb
      · exact hc
      · exact ih hrest b hb

theorem coalesce_sizes16 (l : List mem_block_t) :
    ∀ c : mem_block_t, (∀ b ∈ c :: l, b.size % 16 = 0) →
      ∀ b ∈ (coalesce c l).1, b.size % 16 = 0 := by
  induction l with
  | nil =>
    intro c h b hb
    unfold coalesce at hb
    exact h b hb
  | cons n rest ih =>
    intro c h b hb
    have hc := h c (List.mem_cons_self _ _)
    have hn := h n (List.mem_cons_of_mem _ (List.mem_cons_self _ _))
    have hrest : ∀ x ∈ rest, x.size % 16 = 0 :=
      fun x hx => h x (List.mem_cons_of_mem _ (List.mem_cons_of_mem _ hx))
    unfold coalesce at hb
    split_ifs at hb
    · dsimp only at hb
      refine ih _ ?_ b hb
      intro x hx
      rcases List.mem_cons.mp hx with rfl | hx
      · show add64 c.size (add64 sizeof_mem_block_t n.size) % 16 = 0
        unfold add64 WORD sizeof_mem_block_t
        omega
      · exact hrest x hx
    · dsimp only at hb
      rcases List.mem_cons.mp hb with rfl | hb
      · exact hc
      · refine ih n ?_ b hb
        intro x hx
        rcases List.mem_cons.mp hx with rfl | hx
        · exact hn
        · exact hrest x hx

theorem coalesce_all_sizes16 (l : List mem_block_t) (h : ∀ b ∈ l, b.size % 16 = 0) :
    ∀ b ∈ (coalesce_all l).1, b.size % 16 = 0 := by
  cases l with
  | nil => intro b hb; cases hb
  | cons c l => exact coalesce_sizes16 l c h

theorem align_size_mod (size : Nat) : align_size size % 64 = 0 := by
  rw [align_size_eq]
  omega

theorem dtesn_mem_init_sizes16 (m : memory_t) (aa H : Nat) (hH : H % 16 = 0)
    (h : ∀ b ∈ m.free_list, b.size % 16 = 0) :
    ∀ b ∈ (dtesn_mem_init m aa H).2.free_list, b.size % 16 = 0 := by
  unfold dtesn_mem_init
  split_ifs with h1 h2 h3 h3
  · exact h
  · exact h
  · intro b hb
    rw [List.mem_singleton.mp hb]
    show sub64 HEAP_SIZE_DEFAULT sizeof_mem_block_t % 16 = 0
    decide
  · exact h
  · intro b hb
    rw [List.mem_singleton.mp hb]
    show sub64 H sizeof_mem_block_t % 16 = 0
    unfold sub64 WORD sizeof_mem_block_t
    omega

theorem dtesn_mem_alloc_sizes16 (m : memory_t) (aa size : Nat) (region : mem_region_t)
    (h : ∀ b ∈ m.free_list, b.size % 16 = 0) :
    ∀ b ∈ (dtesn_mem_alloc m aa size region).2.free_list, b.size % 16 = 0 := by
  have hs : align_size size % 16 = 0 := by
    have := align_size_mod size
    omega
  have h0 := dtesn_mem_init_sizes16 m aa 0 rfl h
  unfold dtesn_mem_alloc
  dsimp only
  split_ifs with h1 h2 h3
  · exact h
  · exact alloc_loop_sizes16 _ hs region _ h
  · exact h0
  · exact alloc_loop_sizes16 _ hs region _ h0

theorem dtesn_mem_free_sizes16 (m : memory_t) (p : Nat)
    (h : ∀ b ∈ m.free_list, b.size % 16 = 0) :
    ∀ b ∈ (dtesn_mem_free m p).free_list, b.size % 16 = 0 := by
  rcases dtesn_mem_free_cases m p with e | ⟨c, _, _, _, _, e⟩ | ⟨_, _, _, _, e⟩
  · rw [e]; exact h
  · rw [e]
    dsimp only
    apply coalesce_all_sizes16
    intro b hb
    unfold clear_allocated at hb
    obtain ⟨x, hx, rfl⟩ := List.mem_map.mp hb
    split_ifs
    · exact h x hx
    · exact h x hx
  · rw [e]
    dsimp only
    apply coalesce_all_sizes16
    intro b hb
    unfold clear_region_at at hb
    obtain ⟨x, hx, rfl⟩ := List.mem_map.mp hb
    split_ifs
    · exact h x hx
    · exact h x hx

/-- C34 (amended): in every arena state reachable from `dtesn_mem_init(H)` by `dtesn_mem_alloc` and
`dtesn_mem_free`, for a heap size `H` that is a multiple of 16, every block's size is a
multiple of 16 bytes; the rounded request size of `dtesn_mem_alloc` is a multiple of 64. -/
theorem arena_block_size_multiple (base H : Nat) (hH : H % 16 = 0) (m : memory_t)
    (ps : List Nat) (hr : arena_reach base H m ps) :
    (∀ b ∈ m.free_list, b.size % 16 = 0) ∧ (∀ size, align_size size % 64 = 0) := by
  refine ⟨?_, align_size_mod⟩
  induction hr with
  | init =>
    exact dtesn_mem_init_sizes16 memory_zero base H hH (fun b hb => by cases hb)
  | alloc m ps aa size region _ _ ih => exact dtesn_mem_alloc_sizes16 m aa size region ih
  | free m ps p _ _ ih => exact dtesn_mem_free_sizes16 m p ih
  | write m ps a v _ _ _ ih => exact ih

theorem arena_block_size_multiple_witness :
    ({ addr := 416, size := 592, region := mem_region_t.MEM_REGION_HEAP, allocated := false }
        : mem_block_t) ∈ arena_example_freed.free_list
    ∧ 592 % 16 = 0 :=
  ⟨by decide,
   (arena_block_size_multiple 64 1024 (by decide) arena_example_freed _
    (arena_reach.free _ _ 144
      (arena_reach.alloc _ _ 0 1 mem_region_t.MEM_REGION_DATA
        (arena_reach.alloc _ _ 0 100 mem_region_t.MEM_REGION_TENSOR arena_reach.init
          (by decide))
        (by decide))
      (by decide))).1
    { addr := 416, size := 592, region := mem_region_t.MEM_REGION_HEAP, allocated := false }
    (by decide)⟩

/-- C35 (code evaluated at the failing input): with the heap of `test_memory`
(`dtesn_mem_init(1024 * 1024)`, `aligned_alloc` returning the 64-byte aligned address 4096),
`dtesn_mem_alloc(256, MEM_REGION_HEAP)` returns `4096 + sizeof(mem_block_t) = 4176`, whose offset 80
from the heap base is not a multiple of 64; the next `dtesn_mem_alloc(256, MEM_REGION_HEAP)`
returns 4512, at offset 416. -/
theorem arena_alloc_pointer_offset :
    4096 % ALIGNMENT = 0
    ∧ (dtesn_mem_alloc (dtesn_mem_init memory_zero 4096 (1024 * 1024)).2 0 256
        mem_region_t.MEM_REGION_HEAP).1 = 4176
    ∧ (4176 - 4096) % ALIGNMENT = 16
    ∧ 4176 % ALIGNMENT = 16
    ∧ (dtesn_mem_alloc (dtesn_mem_alloc (dtesn_mem_init memory_zero 4096 (1024 * 1024)).2 0 256
        mem_region_t.MEM_REGION_HEAP).2 0 256 mem_region_t.MEM_REGION_HEAP).1 = 4512
    ∧ (4512 - 4096) % ALIGNMENT = 32 := by
  refine ⟨by decide, by decide, by decide, by decide, by decide, by decide⟩

/-- C38 (code evaluated at the failing input): on a heap of 1024 bytes at address 4096, whose
single free block has size 944, the request `dtesn_mem_alloc(2^64 - 1, MEM_REGION_HEAP)` is
rounded to 0 (`size + 63` wraps around); the call returns the non-null pointer 4176 and
the block it designates has size 0. -/
theorem arena_alloc_rounding_wraps :
    2 ^ 64 - 1 < WORD
    ∧ align_size (2 ^ 64 - 1) = 0
    ∧ (dtesn_mem_init memory_zero 4096 1024).2.free_list
        = [{ addr := 4096, size := 944, region := mem_region_t.MEM_REGION_HEAP,
             allocated := false }]
    ∧ (dtesn_mem_alloc (dtesn_mem_init memory_zero 4096 1024).2 0 (2 ^ 64 - 1)
        mem_region_t.MEM_REGION_HEAP).1 = 4176
    ∧ (dtesn_mem_alloc (dtesn_mem_init memory_zero 4096 1024).2 0 (2 ^ 64 - 1)
        mem_region_t.MEM_REGION_HEAP).2.free_list
        = [{ addr := 4096, size := 0, region := mem_region_t.MEM_REGION_HEAP,
             allocated := true },
           { addr := 4176, size := 864, region := mem_region_t.MEM_REGION_HEAP,
             allocated := false }] := by
  refine ⟨by decide, by decide, by decide, by decide, by decide⟩

/-- C39 (code evaluated at the failing input): `dtesn_mem_init(64)` on the uninitialised arena,
with `aligned_alloc` returning 4096, succeeds and gives the single free block the size
`64 - sizeof(mem_block_t)` in `size_t`, which is `2^64 - 16`; a following
`dtesn_mem_alloc(1000, MEM_REGION_HEAP)` returns 4176 for a block of 1024 bytes, beyond the
end `4096 + 64` of the heap. -/
theorem arena_init_small_heap :
    (dtesn_mem_init memory_zero 4096 64).1 = 0
    ∧ (dtesn_mem_init memory_zero 4096 64).2.free_list
        = [{ addr := 4096, size := 2 ^ 64 - 16, region := mem_region_t.MEM_REGION_HEAP,
             allocated := false }]
    ∧ ¬ (2 ^ 64 - 16 < 64)
    ∧ (dtesn_mem_alloc (dtesn_mem_init memory_zero 4096 64).2 0 1000
        mem_region_t.MEM_REGION_HEAP).1 = 4176
    ∧ (dtesn_mem_alloc (dtesn_mem_init memory_zero 4096 64).2 0 1000
        mem_region_t.MEM_REGION_HEAP).2.free_list
        = [{ addr := 4096, size := 1024, region := mem_region_t.MEM_REGION_HEAP,
             allocated := true },
           { addr := 5200, size := 2 ^ 64 - 16 - 1024 - 80,
             region := mem_region_t.MEM_REGION_HEAP, allocated := false }]
    ∧ 4096 + 64 < 4176 + 1024 := by
  refine ⟨by decide, by decide, by decide, by decide, by decide, by decide⟩

theorem pln_eval_cached {F : Type} [Field F] (powf : F → F → F) (s : pln_t F)
    (hinit : s.pln_initialized = true) (query : Nat) (tv : truth_value_t F)
    (hq : s.truth_map query = some tv) (context : List Nat) :
    pln_eval_tensor powf s query context = (tv, s) := by
  unfold pln_eval_tensor
  rw [if_neg (by rw [hinit]; exact Bool.noConfusion), hq]

theorem pln_eval_keeps {F : Type} [Field F] (powf : F → F → F) (s : pln_t F)
    (hinit : s.pln_initialized = true) (query : Nat) (context : List Nat) :
    (pln_eval_tensor powf s query context).2.pln_initialized = true
    ∧ (pln_eval_tensor powf s query context).2.truth_map query
        = some (pln_eval_tensor powf s query context).1
    ∧ (∀ a, a ≠ query →
        (pln_eval_tensor powf s query context).2.truth_map a = s.truth_map a)
    ∧ (∀ a v, s.truth_map a = some v →
        (pln_eval_tensor powf s query context).2.truth_map a = some v) := by
  cases hq : s.truth_map query with
  | some tv =>
    rw [pln_eval_cached powf s hinit query tv hq context]
    exact ⟨hinit, hq, fun _ _ => rfl, fun _ _ h => h⟩
  | none =>
    rw [pln_eval_uncached powf s hinit query hq context]
    refine ⟨hinit, ?_, ?_, ?_⟩
    · dsimp only
      rw [Function.update_same]
    · intro a ha
      dsimp only
      rw [Function.update_noteq ha]
    · intro a v hv
      dsimp only
      have ha : a ≠ query := by
        intro e
        rw [e, hq] at hv
        cases hv
      rw [Function.update_noteq ha]
      exact hv

theorem pln_run_keeps {F : Type} [Field F] (powf : F → F → F) (calls : List (Nat × List Nat)) :
    ∀ (s : pln_t F), s.pln_initialized = true → ∀ a v, s.truth_map a = some v →
      (pln_run powf s calls).pln_initialized = true
      ∧ (pln_run powf s calls).truth_map a = some v := by
  induction calls with
  | nil => intro s hinit a v hv; exact ⟨hinit, hv⟩
  | cons c rest ih =>
    intro s hinit a v hv
    obtain ⟨h1, _, _, h4⟩ := pln_eval_keeps powf s hinit c.1 c.2
    exact ih _ h1 a v (h4 a v hv)

/-- C31: on an initialised truth engine, after `pln_eval_tensor(q, ctx)` has returned the value
`v`, that value is cached for `q`; after any further `pln_eval_tensor` calls (any queries, any
contexts) every `pln_eval_tensor(q, ctx2)` returns `v` and leaves the statics unchanged; and a
`pln_eval_tensor(q, ctx)` call does not change the cached truth value, or its absence, of
any atom other than `q`. -/
theorem pln_eval_permanent {F : Type} [Field F] (powf : F → F → F) (s : pln_t F)
    (hinit : s.pln_initialized = true) (q : Nat) (ctx : List Nat) :
    (pln_eval_tensor powf s q ctx).2.truth_map q = some (pln_eval_tensor powf s q ctx).1
    ∧ (∀ calls ctx2,
        pln_eval_tensor powf (pln_run powf (pln_eval_tensor powf s q ctx).2 calls) q ctx2
          = ((pln_eval_tensor powf s q ctx).1,
             pln_run powf (pln_eval_tensor powf s q ctx).2 calls))
    ∧ (∀ a, a ≠ q → (pln_eval_tensor powf s q ctx).2.truth_map a = s.truth_map a) := by
  obtain ⟨h1, h2, h3, _⟩ := pln_eval_keeps powf s hinit q ctx
  refine ⟨h2, ?_, h3⟩
  intro calls ctx2
  obtain ⟨k1, k2⟩ := pln_run_keeps powf calls _ h1 q _ h2
  exact pln_eval_cached powf _ k1 q _ k2 ctx2

theorem pln_eval_permanent_witness :
    pln_eval_tensor (fun x _ => x)
        (pln_run (fun x _ => x) (pln_eval_tensor (fun x _ => x) (pln_example ℚ) 3 [1]).2
          [(4, [3]), (5, [])]) 3 [4, 5]
      = ((pln_eval_tensor (fun x _ => x) (pln_example ℚ) 3 [1]).1,
         pln_run (fun x _ => x) (pln_eval_tensor (fun x _ => x) (pln_example ℚ) 3 [1]).2
          [(4, [3]), (5, [])]) :=
  (pln_eval_permanent (fun x _ => x) (pln_example ℚ) rfl 3 [1]).2.1 [(4, [3]), (5, [])] [4, 5]

theorem sched_reach_order (s : scheduler_t) (hs : List Nat) (hr : sched_reach s hs) :
    ∃ n, n ≤ hs.length ∧ s.next_handle = (n + 1) % WORD ∧ s.task_count ≤ n ∧
      ∀ i, i < s.task_count → (s.tasks i).handle = (n - s.task_count + i + 1) % WORD := by
  induction hr with
  | init =>
    refine ⟨0, le_refl _, rfl, le_refl _, ?_⟩
    intro i hi
    exact absurd hi (Nat.not_lt_zero _)
  | task s hs fn data priority depth hr hp ih =>
    obtain ⟨n, h1, h2, h3, h4⟩ := ih
    have hinv := sched_reach_inv s hs hr
    rcases dtesn_sched_task_eq s hs hinv fn data priority depth with ⟨_, e⟩ | ⟨hlt, e⟩
    · rw [e]
      exact ⟨n, by rw [List.length_cons]; omega, h2, h3, h4⟩
    · rw [e]
      refine ⟨n + 1, by rw [List.length_cons]; omega, ?_, by dsimp only; omega, ?_⟩
      · dsimp only
        rw [h2]
        unfold add64 WORD
        omega
      · intro i hi
        dsimp only at hi ⊢
        by_cases hi2 : i = s.task_count
        · subst hi2
          rw [Function.update_same]
          dsimp only
          rw [h2]
          congr 1
          omega
        · rw [Function.update_noteq hi2, h4 i (by omega)]
          congr 1
          omega
  | tick s hs call hr hcall ih =>
    obtain ⟨n, h1, h2, _, _⟩ := ih
    have hinv := sched_reach_inv s hs hr
    have hcount := sched_tick_task_count call hcall s hs hinv
    have hnext := (sched_tick_inv call hcall s hinv.1).2.1
    refine ⟨n, h1, by rw [hnext]; exact h2, by rw [hcount]; exact Nat.zero_le _, ?_⟩
    intro i hi
    rw [hcount] at hi
    exact absurd hi (Nat.not_lt_zero _)

theorem tick_slot_skip (call : Nat → Nat → scheduler_t → scheduler_t) (p : Nat)
    (st : tick_state) (i : Nat)
    (h : (st.sched.tasks i).active = false ∨ (st.sched.tasks i).priority ≠ p) :
    tick_slot call p st i = st := by
  unfold tick_slot
  dsimp only
  rw [if_pos h]

theorem tick_slot_run (call : Nat → Nat → scheduler_t → scheduler_t) (p : Nat)
    (st : tick_state) (i : Nat)
    (h : ¬ ((st.sched.tasks i).active = false ∨ (st.sched.tasks i).priority ≠ p))
    (s1 : scheduler_t)
    (hs1 : call (st.sched.tasks i).fn (st.sched.tasks i).data st.sched = s1) :
    tick_slot call p st i
      = { sched := { s1 with
            tasks := Function.update s1.tasks i { (s1.tasks i) with active := false }
            task_count := sub64 s1.task_count 1 }
          executed := st.executed + 1
          calls := st.calls ++ [{ slot := i, fn := (st.sched.tasks i).fn,
                                  data := (st.sched.tasks i).data }] } := by
  unfold tick_slot
  dsimp only
  rw [if_neg h, hs1]

theorem sched_tick_unfold (call : Nat → Nat → scheduler_t → scheduler_t) (s : scheduler_t)
    (hinit : s.initialized = true) :
    dtesn_sched_tick call s
      = tick_priority call (tick_priority call (tick_priority call (tick_priority call
          { sched := s, executed := 0, calls := [] } 0) 1) 2) 3 := by
  have hr : List.range' PRIORITY_CRITICAL (PRIORITY_LOW + 1 - PRIORITY_CRITICAL) = [0, 1, 2, 3] := by
    decide
  unfold dtesn_sched_tick
  rw [if_neg (by rw [hinit]; exact Bool.noConfusion), hr]
  rw [List.foldl_cons, List.foldl_cons, List.foldl_cons, List.foldl_cons, List.foldl_nil]

theorem ggml_mul_mat_vec {F : Type} [Field F] (tanhf : F → F) (rows cols : Nat)
    (a b : tensor_f32 F) (h0 : a.ne0 = cols) (h1 : a.ne1 = rows) (i : Fin rows) :
    ((ggml_exact tanhf).ggml_mul_mat a b).data i.val
      = Matrix.mulVec (tensor_matrix rows cols a) (tensor_vector cols b) i := by
  have hi : i.val % rows = i.val := Nat.mod_eq_of_lt i.isLt
  have hd : i.val / rows = 0 := Nat.div_eq_of_lt i.isLt
  unfold ggml_exact Matrix.mulVec Matrix.dotProduct tensor_matrix tensor_vector
  dsimp only
  rw [h0, h1, hi, hd, Finset.sum_range]
  simp

/-- C32: with the tensor operations of the library in exact real arithmetic, and a
reservoir whose tensors have the extents `esn_create` gives them (`W_in`: `R` rows of length
`I`, `W_res`: `R` rows of length `R`, `W_out`: `O` rows of length `R`), `esn_process` with non-null
arguments returns 0, leaves `W_in`, `W_res` and `W_out` as they are, sets the first `R`
elements of the state to `tanh(W_in * input + W_res * oldState)` (componentwise `tanh`) and
writes `W_out * newState` to the first `O` elements of the output; on a zero state the
output is `W_out * tanh(W_in * input)`. -/
theorem esn_process_spec (r : esn_reservoir ℝ) (x o : tensor_f32 ℝ) (I R O : Nat)
    (hin : r.W_in.ne0 = I ∧ r.W_in.ne1 = R) (hres : r.W_res.ne0 = R ∧ r.W_res.ne1 = R)
    (hout : r.W_out.ne0 = R ∧ r.W_out.ne1 = O)
    (hsize : r.reservoir_size = R ∧ r.output_size = O) :
    ∃ r2 o2, esn_process (ggml_exact Real.tanh) (some r) (some x) (some o)
        = (0, some r2, some o2)
      ∧ r2.W_in = r.W_in ∧ r2.W_res = r.W_res ∧ r2.W_out = r.W_out
      ∧ (∀ i : Fin R, r2.state.data i.val
          = Real.tanh ((Matrix.mulVec (tensor_matrix R I r.W_in) (tensor_vector I x)
              + Matrix.mulVec (tensor_matrix R R r.W_res) (tensor_vector R r.state)) i))
      ∧ (∀ j : Fin O, o2.data j.val
          = Matrix.mulVec (tensor_matrix O R r.W_out) (tensor_vector R r2.state) j)
      ∧ ((∀ i, i < R → r.state.data i = 0) →
          ∀ j : Fin O, o2.data j.val
            = Matrix.mulVec (tensor_matrix O R r.W_out)
                (fun i => Real.tanh
                  (Matrix.mulVec (tensor_matrix R I r.W_in) (tensor_vector I x) i)) j) := by
  have hstate : ∀ i : Fin R,
      memcpy_floats r.state.data
        ((ggml_exact Real.tanh).ggml_tanh ((ggml_exact Real.tanh).ggml_add
          ((ggml_exact Real.tanh).ggml_mul_mat r.W_in x)
          ((ggml_exact Real.tanh).ggml_mul_mat r.W_res r.state))).data r.reservoir_size i.val
      = Real.tanh ((Matrix.mulVec (tensor_matrix R I r.W_in) (tensor_vector I x)
          + Matrix.mulVec (tensor_matrix R R r.W_res) (tensor_vector R r.state)) i) := by
    intro i
    unfold memcpy_floats
    rw [hsize.1, if_pos i.isLt]
    rw [Pi.add_apply, ← ggml_mul_mat_vec Real.tanh R I r.W_in x hin.1 hin.2 i,
      ← ggml_mul_mat_vec Real.tanh R R r.W_res r.state hres.1 hres.2 i]
    rfl
  have hvec : ∀ i : Fin R,
      ((ggml_exact Real.tanh).ggml_tanh ((ggml_exact Real.tanh).ggml_add
          ((ggml_exact Real.tanh).ggml_mul_mat r.W_in x)
          ((ggml_exact Real.tanh).ggml_mul_mat r.W_res r.state))).data i.val
      = memcpy_floats r.state.data
        ((ggml_exact Real.tanh).ggml_tanh ((ggml_exact Real.tanh).ggml_add
          ((ggml_exact Real.tanh).ggml_mul_mat r.W_in x)
          ((ggml_exact Real.tanh).ggml_mul_mat r.W_res r.state))).data r.reservoir_size
          i.val := by
    intro i
    unfold memcpy_floats
    rw [hsize.1, if_pos i.isLt]
  have hout2 : ∀ j : Fin O,
      memcpy_floats o.data ((ggml_exact Real.tanh).ggml_mul_mat r.W_out
        ((ggml_exact Real.tanh).ggml_tanh ((ggml_exact Real.tanh).ggml_add
          ((ggml_exact Real.tanh).ggml_mul_mat r.W_in x)
          ((ggml_exact Real.tanh).ggml_mul_mat r.W_res r.state)))).data r.output_size j.val
      = Matrix.mulVec (tensor_matrix O R r.W_out)
          (fun i : Fin R => memcpy_floats r.state.data
            ((ggml_exact Real.tanh).ggml_tanh ((ggml_exact Real.tanh).ggml_add
              ((ggml_exact Real.tanh).ggml_mul_mat r.W_in x)
              ((ggml_exact Real.tanh).ggml_mul_mat r.W_res r.state))).data r.reservoir_size
              i.val) j := by
    intro j
    have e : (fun i : Fin R => memcpy_floats r.state.data
            ((ggml_exact Real.tanh).ggml_tanh ((ggml_exact Real.tanh).ggml_add
              ((ggml_exact Real.tanh).ggml_mul_mat r.W_in x)
              ((ggml_exact Real.tanh).ggml_mul_mat r.W_res r.state))).data r.reservoir_size
              i.val)
        = tensor_vector R ((ggml_exact Real.tanh).ggml_tanh ((ggml_exact Real.tanh).ggml_add
              ((ggml_exact Real.tanh).ggml_mul_mat r.W_in x)
              ((ggml_exact Real.tanh).ggml_mul_mat r.W_res r.state))) := by
      funext i
      rw [← hvec i]
      rfl
    rw [e, ← ggml_mul_mat_vec Real.tanh O R r.W_out _ hout.1 hout.2 j]
    unfold memcpy_floats
    rw [hsize.2, if_pos j.isLt]
  refine ⟨_, _, rfl, rfl, rfl, rfl, hstate, hout2, ?_⟩
  intro hzero j
  refine (hout2 j).trans ?_
  congr 1
  funext i
  rw [hstate i, Pi.add_apply]
  have hz : Matrix.mulVec (tensor_matrix R R r.W_res) (tensor_vector R r.state) i = 0 := by
    unfold Matrix.mulVec Matrix.dotProduct tensor_vector
    apply Finset.sum_eq_zero
    intro k _
    rw [hzero k.val k.isLt, mul_zero]
  rw [hz, add_zero]

theorem esn_process_spec_witness :
    (esn_process (ggml_exact Real.tanh) (some (esn_example ℝ)) (some (esn_example_input ℝ))
      (some (esn_example_input ℝ))).1 = 0 := by
  obtain ⟨r2, o2, e, _⟩ := esn_process_spec (esn_example ℝ) (esn_example_input ℝ)
    (esn_example_input ℝ) 1 2 1 ⟨rfl, rfl⟩ ⟨rfl, rfl⟩ ⟨rfl, rfl⟩ ⟨rfl, rfl⟩
  rw [e]

theorem coalesce_origin_region (l : List mem_block_t) :
    ∀ c : mem_block_t, ∀ b ∈ (coalesce c l).1,
      ∃ x ∈ c :: l, x.addr = b.addr ∧ x.allocated = b.allocated ∧ x.region = b.region := by
  induction l with
  | nil =>
    intro c b hb
    exact ⟨b, hb, rfl, rfl, rfl⟩
  | cons next rest ih =>
    intro c b hb
    unfold coalesce at hb
    split_ifs at hb with h
    · obtain ⟨x, hx, e1, e2, e3⟩ := ih _ b hb
      rcases List.mem_cons.mp hx with rfl | hx
      · exact ⟨c, List.mem_cons_self _ _, e1, e2, e3⟩
      · exact ⟨x, List.mem_cons_of_mem _ (List.mem_cons_of_mem _ hx), e1, e2, e3⟩
    · rcases List.mem_cons.mp hb with rfl | hb
      · exact ⟨b, List.mem_cons_self _ _, rfl, rfl, rfl⟩
      · obtain ⟨x, hx, e1, e2, e3⟩ := ih next b hb
        exact ⟨x, List.mem_cons_of_mem _ hx, e1, e2, e3⟩

theorem coalesce_all_origin_region (l : List mem_block_t) :
    ∀ b ∈ (coalesce_all l).1,
      ∃ x ∈ l, x.addr = b.addr ∧ x.allocated = b.allocated ∧ x.region = b.region := by
  cases l with
  | nil => intro b hb; cases hb
  | cons c rest => exact coalesce_origin_region rest c

theorem heap_coherent_init (base H : Nat) :
    heap_coherent (dtesn_mem_init memory_zero base H).2 := by
  unfold heap_coherent dtesn_mem_init memory_zero
  dsimp only
  split_ifs <;> intro b hb <;> dsimp only at hb ⊢ <;>
    first
      | exact absurd hb (List.not_mem_nil b)
      | (rw [List.mem_singleton] at hb
         subst hb
         simp [store_allocated, store_region, offsetof_allocated, offsetof_region,
           region_value])

theorem addr_apart (l : List mem_block_t)
    (h : List.Pairwise (fun a b => a.addr + sizeof_mem_block_t + a.size ≤ b.addr) l) :
    ∀ f ∈ l, ∀ g ∈ l, f = g ∨ f.addr + 80 ≤ g.addr ∨ g.addr + 80 ≤ f.addr := by
  intro f hf g hg
  by_cases e : f.addr = g.addr
  · left
    have h1 := find_header_of_mem l h f hf
    have h2 := find_header_of_mem l h g hg
    rw [e, h2] at h1
    cases h1
    rfl
  · right
    rcases separated_of_pairwise l h f hf g hg with h1 | h1
    · rcases separated_of_pairwise l h g hg f hf with h2 | h2
      · omega
      · right; unfold sizeof_mem_block_t at h2; omega
    · left; unfold sizeof_mem_block_t at h1; omega

theorem heap_coherent_free (base H : Nat) (m : memory_t)
    (hinv : arena_inv base H m) (hc : heap_coherent m) (p : Nat) :
    heap_coherent (dtesn_mem_free m p) := by
  have hpw := tiles_pairwise _ _ _ hinv.2.2.2
  rcases dtesn_mem_free_cases m p with e | ⟨c, _, _, hfind, _, e⟩ | ⟨_, _, hfind, _, e⟩
  · rw [e]; exact hc
  · rw [e]
    intro b hb
    dsimp only at hb ⊢
    obtain ⟨x, hx, e1, e2, e3⟩ := coalesce_all_origin_region _ b hb
    unfold clear_allocated at hx
    obtain ⟨y, hy, rfl⟩ := List.mem_map.mp hx
    have hcm := List.mem_of_find?_eq_some hfind
    have hca : c.addr = p - sizeof_mem_block_t := by simpa using List.find?_some hfind
    obtain ⟨hy1, hy2⟩ := hc y hy
    rw [← e1, ← e2, ← e3]
    unfold store_allocated
    by_cases hyb : y.addr = p - sizeof_mem_block_t
    · rw [if_pos hyb]
      dsimp only
      rw [hyb, Function.update_same, Function.update_noteq, ← hyb]
      · exact ⟨by simp, hy2⟩
      · unfold offsetof_region offsetof_allocated; omega
    · rw [if_neg hyb]
      have hap := addr_apart _ hpw y hy c hcm
      rw [Function.update_noteq, Function.update_noteq]
      · exact ⟨hy1, hy2⟩
      · rcases hap with h | h | h
        · rw [h] at hyb; exact absurd hca hyb
        · unfold offsetof_region offsetof_allocated; omega
        · unfold offsetof_region offsetof_allocated; omega
      · unfold offsetof_allocated; omega
  · rw [e]
    intro b hb
    dsimp only at hb ⊢
    obtain ⟨x, hx, e1, e2, e3⟩ := coalesce_all_origin_region _ b hb
    unfold clear_region_at at hx
    obtain ⟨y, hy, rfl⟩ := List.mem_map.mp hx
    obtain ⟨hy1, hy2⟩ := hc y hy
    have hne : y.addr ≠ p - sizeof_mem_block_t := (find_header_none _ _).mp hfind y hy
    rw [← e1, ← e2, ← e3]
    by_cases hyb : y.addr + offsetof_region = p - sizeof_mem_block_t + offsetof_allocated
    · rw [if_pos hyb]
      dsimp only
      rw [hyb, Function.update_same, Function.update_noteq, ]
      · exact ⟨hy1, rfl⟩
      · unfold offsetof_allocated; omega
    · rw [if_neg hyb]
      rw [Function.update_noteq, Function.update_noteq hyb]
      · exact ⟨hy1, hy2⟩
      · unfold offsetof_allocated; omega

theorem heap_coherent_write (base H : Nat) (m : memory_t)
    (hinv : arena_inv base H m) (hc : heap_coherent m) (a v : Nat)
    (ha : in_allocated m.free_list a) : heap_coherent (mem_write m a v) := by
  have hpw := tiles_pairwise _ _ _ hinv.2.2.2
  obtain ⟨B, hB, _, hlo, hhi⟩ := ha
  intro b hb
  unfold mem_write at hb ⊢
  dsimp only at hb ⊢
  have hsep := separated_of_pairwise _ hpw B hB b hb
  rw [Function.update_noteq, Function.update_noteq]
  · exact hc b hb
  · unfold offsetof_region sizeof_mem_block_t at *; omega
  · unfold offsetof_allocated sizeof_mem_block_t at *; omega
theorem store_curr_read (heap : Nat → Nat) (c : Nat) (r : mem_region_t) :
    store_region (store_allocated heap c true) c r (c + offsetof_allocated) = 1
    ∧ store_region (store_allocated heap c true) c r (c + offsetof_region) = region_value r
    ∧ ∀ x, x ≠ c + offsetof_region → x ≠ c + offsetof_allocated →
        store_region (store_allocated heap c true) c r x = heap x := by
  unfold store_region store_allocated offsetof_region offsetof_allocated
  refine ⟨?_, ?_, ?_⟩
  · rw [Function.update_noteq (by omega), Function.update_same]; rfl
  · rw [Function.update_same]
  · intro x h1 h2
    rw [Function.update_noteq h1, Function.update_noteq h2]

theorem store_new_read (heap : Nat → Nat) (a : Nat) :
    store_allocated (store_region heap a mem_region_t.MEM_REGION_HEAP) a false
        (a + offsetof_allocated) = 0
    ∧ store_allocated (store_region heap a mem_region_t.MEM_REGION_HEAP) a false
        (a + offsetof_region) = region_value mem_region_t.MEM_REGION_HEAP
    ∧ ∀ x, x ≠ a + offsetof_region → x ≠ a + offsetof_allocated →
        store_allocated (store_region heap a mem_region_t.MEM_REGION_HEAP) a false x = heap x := by
  unfold store_region store_allocated offsetof_region offsetof_allocated
  refine ⟨?_, ?_, ?_⟩
  · rw [Function.update_same]; rfl
  · rw [Function.update_noteq (by omega), Function.update_same]
  · intro x h1 h2
    rw [Function.update_noteq h2, Function.update_noteq h1]

theorem coherent_store (R : List mem_block_t)
    (hpw : List.Pairwise (fun a b => a.addr + sizeof_mem_block_t + a.size ≤ b.addr) R)
    (B : mem_block_t) (hB : B ∈ R) (heap heap2 : Nat → Nat)
    (hx : ∀ x, x ≠ B.addr + offsetof_region → x ≠ B.addr + offsetof_allocated →
      heap2 x = heap x)
    (b : mem_block_t) (hb : b ∈ R) :
    b = B ∨ (heap2 (b.addr + offsetof_allocated) = heap (b.addr + offsetof_allocated)
      ∧ heap2 (b.addr + offsetof_region) = heap (b.addr + offsetof_region)) := by
  rcases addr_apart R hpw b hb B hB with h | h | h
  · exact Or.inl h
  · right
    constructor <;> apply hx <;> simp only [offsetof_region, offsetof_allocated] <;> omega
  · right
    constructor <;> apply hx <;> simp only [offsetof_region, offsetof_allocated] <;> omega

theorem heap_coherent_alloc (base H : Nat) (hb64 : 64 ≤ base) (hfit : base + H < WORD)
    (m : memory_t) (hinv : arena_inv base H m) (hc : heap_coherent m) (aa size : Nat)
    (region : mem_region_t) : heap_coherent (dtesn_mem_alloc m aa size region).2 := by
  obtain ⟨hinit, _, _, ht⟩ := hinv
  have htR := tiles_alloc_loop (align_size size) region m.free_list _ _ ht hb64 hfit
  have hpwR := tiles_pairwise _ _ _ htR
  rw [dtesn_mem_alloc_eq m hinit]
  unfold heap_coherent at hc ⊢
  dsimp only
  generalize align_size size = s at *
  by_cases hno : ∀ b ∈ m.free_list, ¬ block_fits s b
  · rw [alloc_loop_of_no_fit s region _ hno]
    unfold alloc_stores
    rw [if_pos rfl]
    exact hc
  · obtain ⟨pre, B, post, hl, hpre, hB⟩ := exists_first_fit s m.free_list hno
    have hcond : (!B.allocated && decide (B.size ≥ s)) = true := by
      simp only [Bool.and_eq_true, Bool.not_eq_true', decide_eq_true_eq]
      exact hB
    rw [hl] at hc htR hpwR ⊢
    rw [alloc_loop_append s region pre (B :: post) hpre] at htR hpwR ⊢
    rw [alloc_loop, if_pos hcond] at htR hpwR ⊢
    have hptr : B.addr + sizeof_mem_block_t ≠ 0 := by unfold sizeof_mem_block_t; omega
    by_cases hsplit : B.size > add64 (add64 s sizeof_mem_block_t) ALIGNMENT
    · rw [if_pos hsplit] at hpwR htR ⊢
      dsimp only at hpwR htR ⊢
      unfold alloc_stores
      dsimp only
      rw [if_neg hptr, Nat.add_sub_cancel]
      obtain ⟨c1, c2, c3⟩ := store_curr_read m.heap B.addr region
      obtain ⟨n1, n2, n3⟩ := store_new_read
        (store_region (store_allocated m.heap B.addr true) B.addr region)
        (B.addr + sizeof_mem_block_t + s)
      intro b hb
      have hBR : ({ B with allocated := true, region := region, size := s } : mem_block_t)
          ∈ pre ++ { B with allocated := true, region := region, size := s }
            :: ({ addr := B.addr + sizeof_mem_block_t + s,
                  size := sub64 (sub64 B.size s) sizeof_mem_block_t,
                  region := mem_region_t.MEM_REGION_HEAP,
                  allocated := false } : mem_block_t) :: post := by simp
      have hnR : ({ addr := B.addr + sizeof_mem_block_t + s,
                    size := sub64 (sub64 B.size s) sizeof_mem_block_t,
                    region := mem_region_t.MEM_REGION_HEAP,
                    allocated := false } : mem_block_t)
          ∈ pre ++ { B with allocated := true, region := region, size := s }
            :: ({ addr := B.addr + sizeof_mem_block_t + s,
                  size := sub64 (sub64 B.size s) sizeof_mem_block_t,
                  region := mem_region_t.MEM_REGION_HEAP,
                  allocated := false } : mem_block_t) :: post := by simp
      by_cases hbn : b = { addr := B.addr + sizeof_mem_block_t + s,
                           size := sub64 (sub64 B.size s) sizeof_mem_block_t,
                           region := mem_region_t.MEM_REGION_HEAP,
                           allocated := false }
      · rw [hbn]; exact ⟨n1, n2⟩
      · obtain ⟨e1, e2⟩ := (coherent_store _ hpwR _ hnR _ _ n3 b hb).resolve_left hbn
        rw [e1, e2]
        by_cases hbB : b = { B with allocated := true, region := region, size := s }
        · rw [hbB]; exact ⟨c1, c2⟩
        · obtain ⟨e3, e4⟩ := (coherent_store _ hpwR _ hBR m.heap _ c3 b hb).resolve_left hbB
          rw [e3, e4]
          apply hc
          simp only [List.mem_append, List.mem_cons] at hb ⊢
          rcases hb with h | h | h | h
          · exact Or.inl h
          · exact absurd h hbB
          · exact absurd h hbn
          · exact Or.inr (Or.inr h)
    · rw [if_neg hsplit] at hpwR htR ⊢
      dsimp only at hpwR htR ⊢
      unfold alloc_stores
      dsimp only
      rw [if_neg hptr, Nat.add_sub_cancel]
      obtain ⟨c1, c2, c3⟩ := store_curr_read m.heap B.addr region
      intro b hb
      have hBR : ({ B with allocated := true, region := region } : mem_block_t)
          ∈ pre ++ { B with allocated := true, region := region } :: post := by simp
      by_cases hbB : b = { B with allocated := true, region := region }
      · rw [hbB]; exact ⟨c1, c2⟩
      · obtain ⟨e3, e4⟩ := (coherent_store _ hpwR _ hBR m.heap _ c3 b hb).resolve_left hbB
        rw [e3, e4]
        apply hc
        simp only [List.mem_append, List.mem_cons] at hb ⊢
        rcases hb with h | h | h
        · exact Or.inl h
        · exact absurd h hbB
        · exact Or.inr (Or.inr h)

theorem arena_reach_heap_coherent (base H : Nat) (hH : sizeof_mem_block_t ≤ H) (hb : base ≠ 0)
    (hal : base % ALIGNMENT = 0) (hfit : base + H < WORD) (m : memory_t) (ps : List Nat)
    (hr : arena_reach base H m ps) : heap_coherent m := by
  have hb64 : 64 ≤ base := by unfold ALIGNMENT at hal; omega
  induction hr with
  | init => exact heap_coherent_init base H
  | alloc m ps aa size region hr' _ ih =>
    exact heap_coherent_alloc base H hb64 hfit m
      (arena_reach_inv base H hH hb hal hfit m ps hr') ih aa size region
  | free m ps p hr' _ ih =>
    exact heap_coherent_free base H m (arena_reach_inv base H hH hb hal hfit m ps hr') ih p
  | write m ps a v hr' ha _ ih =>
    exact heap_coherent_write base H m (arena_reach_inv base H hH hb hal hfit m ps hr') ih a v ha
theorem alloc_loop_addr16 (s : Nat) (hs : s % 16 = 0) (region : mem_region_t) (r : Nat)
    (l : List mem_block_t) (h : ∀ b ∈ l, b.addr % 16 = r) :
    (∀ b ∈ (alloc_loop s region l).blocks, b.addr % 16 = r)
    ∧ ((alloc_loop s region l).ptr = 0
      ∨ (sizeof_mem_block_t ≤ (alloc_loop s region l).ptr
        ∧ ((alloc_loop s region l).ptr - sizeof_mem_block_t) % 16 = r)) := by
  induction l with
  | nil => exact ⟨fun b hb => absurd hb (List.not_mem_nil b), Or.inl rfl⟩
  | cons c rest ih =>
    have hc := h c (List.mem_cons_self _ _)
    have hrest : ∀ b ∈ rest, b.addr % 16 = r := fun b hb => h b (List.mem_cons_of_mem _ hb)
    unfold alloc_loop
    split_ifs with h1 h2
    · dsimp only
      refine ⟨?_, Or.inr ⟨Nat.le_add_left _ _, by rw [Nat.add_sub_cancel]; exact hc⟩⟩
      intro b hb
      rcases List.mem_cons.mp hb with rfl | hb
      · exact hc
      · rcases List.mem_cons.mp hb with rfl | hb
        · show (c.addr + sizeof_mem_block_t + s) % 16 = r
          unfold sizeof_mem_block_t
          omega
        · exact hrest b hb
    · dsimp only
      refine ⟨?_, Or.inr ⟨Nat.le_add_left _ _, by rw [Nat.add_sub_cancel]; exact hc⟩⟩
      intro b hb
      rcases List.mem_cons.mp hb with rfl | hb
      · exact hc
      · exact hrest b hb
    · dsimp only
      obtain ⟨i1, i2⟩ := ih hrest
      refine ⟨?_, i2⟩
      intro b hb
      rcases List.mem_cons.mp hb with rfl | hb
      · exact hc
      · exact i1 b hb

theorem dtesn_mem_free_addr16 (m : memory_t) (p r : Nat)
    (h : ∀ b ∈ m.free_list, b.addr % 16 = r) :
    ∀ b ∈ (dtesn_mem_free m p).free_list, b.addr % 16 = r := by
  rcases dtesn_mem_free_cases m p with e | ⟨c, _, _, _, _, e⟩ | ⟨_, _, _, _, e⟩
  · rw [e]; exact h
  · rw [e]
    intro b hb
    obtain ⟨x, hx, e1, _⟩ := coalesce_all_chain_origin _ b hb
    unfold clear_allocated at hx
    obtain ⟨y, hy, rfl⟩ := List.mem_map.mp hx
    rw [← e1]
    split_ifs
    · exact h y hy
    · exact h y hy
  · rw [e]
    intro b hb
    obtain ⟨x, hx, e1, _⟩ := coalesce_all_chain_origin _ b hb
    obtain ⟨y, hy, e3, _⟩ := clear_region_at_origin _ _ x hx
    rw [← e1, ← e3]
    exact h y hy

/-- In an arena state reachable from a successful `dtesn_mem_init`, every header of the chain
and the header position of every pointer `dtesn_mem_alloc` has returned is congruent to
the heap base modulo 16; so the byte `dtesn_mem_free` reads for such a pointer, when it
falls into the header of a block of the chain, is the low byte of its `region`
(offset 8), its `allocated` flag (offset 24) or a byte of its padding, never a byte
of its `size` or `next` field. -/
theorem arena_reach_ptr_aligned (base H : Nat) (hH : sizeof_mem_block_t ≤ H) (hb : base ≠ 0)
    (hal : base % ALIGNMENT = 0) (hfit : base + H < WORD) (m : memory_t) (ps : List Nat)
    (hr : arena_reach base H m ps) :
    (∀ b ∈ m.free_list, b.addr % 16 = 0)
    ∧ (∀ p ∈ ps, p = 0 ∨ (sizeof_mem_block_t ≤ p ∧ (p - sizeof_mem_block_t) % 16 = 0))
    ∧ (∀ p ∈ ps, p ≠ 0 → ∀ g ∈ m.free_list, ∀ k, k < sizeof_mem_block_t →
        p - sizeof_mem_block_t + offsetof_allocated = g.addr + k →
        k = offsetof_region ∨ k = offsetof_allocated ∨ (25 ≤ k ∧ k < 73)) := by
  have key : (∀ b ∈ m.free_list, b.addr % 16 = 0)
      ∧ (∀ p ∈ ps, p = 0 ∨ (sizeof_mem_block_t ≤ p ∧ (p - sizeof_mem_block_t) % 16 = 0)) := by
    induction hr with
    | init =>
      refine ⟨?_, fun p hp => absurd hp (List.not_mem_nil p)⟩
      intro b hmem
      have h0 : H ≠ 0 := by unfold sizeof_mem_block_t at hH; omega
      simp only [dtesn_mem_init, memory_zero, hb, h0, if_false, Bool.false_eq_true,
        List.mem_singleton] at hmem
      rw [hmem]
      show base % 16 = 0
      unfold ALIGNMENT at hal
      omega
    | alloc m ps aa size region hr' _ ih =>
      have hinit := (arena_reach_inv base H hH hb hal hfit m ps hr').1
      rw [dtesn_mem_alloc_eq m hinit]
      dsimp only
      have hs : align_size size % 16 = 0 := by
        have := align_size_mod size
        omega
      obtain ⟨a1, a2⟩ := alloc_loop_addr16 (align_size size) hs region 0 m.free_list ih.1
      refine ⟨a1, ?_⟩
      intro p hp
      rcases List.mem_cons.mp hp with rfl | hp
      · exact a2
      · exact ih.2 p hp
    | free m ps p _ _ ih => exact ⟨dtesn_mem_free_addr16 m p 0 ih.1, ih.2⟩
    | write m ps a v _ _ _ ih => exact ih
  refine ⟨key.1, key.2, ?_⟩
  intro p hp hp0 g hg k hk hx
  have h1 := key.1 g hg
  rcases key.2 p hp with h2 | ⟨h2, h3⟩
  · exact absurd h2 hp0
  · unfold sizeof_mem_block_t offsetof_allocated offsetof_region at *
    omega

/-- A pointer released long ago, whose header has been merged away and whose bytes have
been handed out again: after `dtesn_mem_init(1024)` with the heap at 64,
`a = dtesn_mem_alloc(64)`, `b = dtesn_mem_alloc(64)` (288), `dtesn_mem_free(b)`,
`dtesn_mem_free(a)`, two `dtesn_mem_alloc(0)` and `dtesn_mem_alloc(64, MEM_REGION_DATA)`, the
chain has a header at 224 of region `MEM_REGION_DATA`, whose `region` field is the
byte at 232 where the header of `b` (at 208) had its `allocated` flag. A further
`dtesn_mem_free(b)` reads that byte as the flag, finds it set and clears it: the
region of the block at 224 becomes `MEM_REGION_CODE`. -/
theorem arena_free_reused_header :
    arena_example_reused.free_list
      = [{ addr := 64, size := 0, region := mem_region_t.MEM_REGION_HEAP, allocated := true },
         { addr := 144, size := 0, region := mem_region_t.MEM_REGION_HEAP, allocated := true },
         { addr := 224, size := 64, region := mem_region_t.MEM_REGION_DATA, allocated := true },
         { addr := 368, size := 640, region := mem_region_t.MEM_REGION_HEAP,
           allocated := false }]
    ∧ (dtesn_mem_free arena_example_reused 288).free_list
      = [{ addr := 64, size := 0, region := mem_region_t.MEM_REGION_HEAP, allocated := true },
         { addr := 144, size := 0, region := mem_region_t.MEM_REGION_HEAP, allocated := true },
         { addr := 224, size := 64, region := mem_region_t.MEM_REGION_CODE, allocated := true },
         { addr := 368, size := 640, region := mem_region_t.MEM_REGION_HEAP,
           allocated := false }] := by
  constructor <;> decide

theorem tick_fold_idle (call : Nat → Nat → scheduler_t → scheduler_t) (p : Nat)
    (l : List Nat) (st : tick_state)
    (h : ∀ i ∈ l, (st.sched.tasks i).active = false ∨ (st.sched.tasks i).priority ≠ p) :
    l.foldl (tick_slot call p) st = st := by
  induction l with
  | nil => rfl
  | cons i l ih =>
    rw [List.foldl_cons, tick_slot_skip call p st i (h i (List.mem_cons_self _ _))]
    exact ih (fun j hj => h j (List.mem_cons_of_mem _ hj))

theorem tick_priority_idle (call : Nat → Nat → scheduler_t → scheduler_t) (p : Nat)
    (st : tick_state)
    (h : ∀ i, (st.sched.tasks i).active = false ∨ (st.sched.tasks i).priority ≠ p) :
    tick_priority call st p = st := by
  unfold tick_priority
  exact tick_fold_idle call p _ st (fun i _ => h i)

theorem tick_priority_cons (call : Nat → Nat → scheduler_t → scheduler_t) (p : Nat)
    (st : tick_state) :
    tick_priority call st p
      = (List.range' 1 (MAX_TASKS - 1)).foldl (tick_slot call p) (tick_slot call p st 0) := by
  have hrange : List.range MAX_TASKS = 0 :: List.range' 1 (MAX_TASKS - 1) := by
    rw [List.range_eq_range']
    exact List.range'_succ 0 1023 1
  unfold tick_priority
  rw [hrange, List.foldl_cons]

theorem call_reenter_eq (fn data : Nat) (s : scheduler_t) :
    call_reenter fn data s = (dtesn_sched_tick call_pure s).sched := rfl

theorem sched_one_task :
    (dtesn_sched_task (dtesn_sched_init scheduler_zero).2 101 7 PRIORITY_LOW 0).2
      = { tasks := Function.update (fun _ => task_zero) 0
                     (submitted_task 101 7 PRIORITY_LOW 0 1),
          task_count := 1, next_handle := 2, initialized := true } := by
  rcases dtesn_sched_task_eq _ _ sched_inv_init 101 7 PRIORITY_LOW 0 with ⟨h, _⟩ | ⟨_, e⟩
  · exact absurd h (by decide)
  · rw [e]
    rfl

theorem sched_after_tick_eq (call : Nat → Nat → scheduler_t → scheduler_t) (s : scheduler_t) :
    sched_after_tick call s = (dtesn_sched_tick call s).sched := rfl

theorem tick_reenter_single (s1 : scheduler_t) (hs1i : s1.initialized = true)
    (hs1t : ∀ j, s1.tasks j
      = if j = 0 then submitted_task 101 7 PRIORITY_LOW 0 1 else task_zero)
    (hcount : (dtesn_sched_tick call_pure s1).sched.task_count = 0)
    (hini : (dtesn_sched_tick call_pure s1).sched.initialized = s1.initialized)
    (hall : ∀ j, ((dtesn_sched_tick call_pure s1).sched.tasks j).active = false) :
    (dtesn_sched_tick call_reenter s1).sched.initialized = true
    ∧ (∀ j, ((dtesn_sched_tick call_reenter s1).sched.tasks j).active = false)
    ∧ (dtesn_sched_tick call_reenter s1).sched.task_count = WORD - 1 := by
  have hidle : ∀ p, p ≠ 3 → ∀ i, (s1.tasks i).active = false ∨ (s1.tasks i).priority ≠ p := by
    intro p hp i
    rw [hs1t i]
    by_cases hi : i = 0
    · right; rw [if_pos hi]; exact fun e => hp e.symm
    · left; rw [if_neg hi]; rfl
  rw [sched_tick_unfold call_reenter s1 hs1i]
  rw [tick_priority_idle call_reenter 0 _ (hidle 0 (by decide)),
    tick_priority_idle call_reenter 1 _ (hidle 1 (by decide)),
    tick_priority_idle call_reenter 2 _ (hidle 2 (by decide))]
  rw [tick_priority_cons]
  have hrun : ¬ ((s1.tasks 0).active = false ∨ (s1.tasks 0).priority ≠ 3) := by
    rw [hs1t 0, if_pos rfl]
    decide
  rw [tick_slot_run call_reenter 3 { sched := s1, executed := 0, calls := [] } 0 hrun
    (dtesn_sched_tick call_pure s1).sched (call_reenter_eq _ _ _)]
  rw [tick_fold_idle]
  · refine ⟨?_, ?_, ?_⟩
    · exact hini.trans hs1i
    · intro j
      dsimp only
      by_cases hj : j = 0
      · rw [hj, Function.update_same]
      · rw [Function.update_noteq hj]; exact hall j
    · dsimp only
      rw [hcount]
      decide
  · intro i _
    left
    dsimp only
    by_cases hi : i = 0
    · rw [hi, Function.update_same]
    · rw [Function.update_noteq hi]; exact hall i

theorem sched_reentered_spec :
    sched_reentered.initialized = true
    ∧ (∀ j, (sched_reentered.tasks j).active = false)
    ∧ sched_reentered.task_count = WORD - 1 := by
  have hr : sched_reach
      (dtesn_sched_task (dtesn_sched_init scheduler_zero).2 101 7 PRIORITY_LOW 0).2
      [(dtesn_sched_task (dtesn_sched_init scheduler_zero).2 101 7 PRIORITY_LOW 0).1] :=
    sched_reach.task _ _ 101 7 PRIORITY_LOW 0 sched_reach.init (le_refl _)
  have hinv := sched_reach_inv _ _ hr
  have hpure : ∀ fn data (t : scheduler_t), call_pure fn data t = t := fun _ _ _ => rfl
  have hcount := sched_tick_task_count call_pure hpure _ _ hinv
  have hclear := sched_tick_clears call_pure hpure _ hinv.1 (sched_inv_prio _ _ hinv)
  obtain ⟨htasks, _, hini, _, _⟩ := sched_tick_inv call_pure hpure _ hinv.1
  have hs1i := hinv.1
  have hs1t : ∀ j, (dtesn_sched_task (dtesn_sched_init scheduler_zero).2 101 7
      PRIORITY_LOW 0).2.tasks j
      = if j = 0 then submitted_task 101 7 PRIORITY_LOW 0 1 else task_zero := by
    intro j
    rw [sched_one_task]
    dsimp only
    by_cases hj : j = 0
    · rw [hj, Function.update_same, if_pos rfl]
    · rw [Function.update_noteq hj, if_neg hj]
  have hall : ∀ j, ((dtesn_sched_tick call_pure (dtesn_sched_task
      (dtesn_sched_init scheduler_zero).2 101 7 PRIORITY_LOW 0).2).sched.tasks j).active
      = false := by
    intro j
    rcases htasks j with e | e
    · by_cases hj : j < MAX_TASKS
      · exact hclear j hj
      · rw [e, hs1t j, if_neg (by unfold MAX_TASKS at hj; omega)]; rfl
    · rw [e]
  rw [show sched_reentered = sched_after_tick call_reenter
    (dtesn_sched_task (dtesn_sched_init scheduler_zero).2 101 7 PRIORITY_LOW 0).2 from rfl]
  rw [sched_after_tick_eq]
  exact tick_reenter_single _ hs1i hs1t hcount hini hall

/-- C22 fails as stated: after `dtesn_sched_init()`, one `dtesn_sched_task` and a
`dtesn_sched_tick()` during which the callback of the task calls `dtesn_sched_tick()`, the
scheduler is initialised and slot 0 of the table is free (no slot holds a pending
task), but `task_count` has been decremented twice and is `2^64 - 1`: the next
`dtesn_sched_task` returns 0 and stores nothing. -/
theorem sched_task_reentrant_counterexample :
    sched_reentered.initialized = true
    ∧ (sched_reentered.tasks 0).active = false
    ∧ sched_reentered.task_count = WORD - 1
    ∧ dtesn_sched_task sched_reentered 102 8 PRIORITY_LOW 0 = (0, sched_reentered) := by
  obtain ⟨h1, h2, h3⟩ := sched_reentered_spec
  refine ⟨h1, h2 0, h3, ?_⟩
  unfold dtesn_sched_task
  rw [if_neg (by rw [h1]; exact Bool.noConfusion), if_pos (by rw [h3]; decide)]

theorem filter_update_length (p q : Nat → Bool) (i : Nat) (hq : ∀ j, j ≠ i → q j = p j) :
    ∀ n, ((List.range n).filter q).length + (if i < n ∧ p i = true then 1 else 0)
      = ((List.range n).filter p).length + (if i < n ∧ q i = true then 1 else 0) := by
  intro n
  induction n with
  | zero => simp
  | succ n ih =>
    rw [List.range_succ, List.filter_append, List.filter_append, List.length_append,
      List.length_append]
    by_cases hn : n = i
    · subst hn
      have h1 : ¬ (n < n ∧ p n = true) := fun h => Nat.lt_irrefl n h.1
      have h2 : ¬ (n < n ∧ q n = true) := fun h => Nat.lt_irrefl n h.1
      rw [if_neg h1, if_neg h2] at ih
      cases hp : p n <;> cases hq' : q n <;> simp [List.filter_cons, hp, hq'] <;> omega
    · have e := hq n hn
      have c1 : (i < n + 1 ∧ p i = true) ↔ (i < n ∧ p i = true) := by
        constructor
        · rintro ⟨h, h'⟩; exact ⟨by omega, h'⟩
        · rintro ⟨h, h'⟩; exact ⟨by omega, h'⟩
      have c2 : (i < n + 1 ∧ q i = true) ↔ (i < n ∧ q i = true) := by
        constructor
        · rintro ⟨h, h'⟩; exact ⟨by omega, h'⟩
        · rintro ⟨h, h'⟩; exact ⟨by omega, h'⟩
      simp only [c1, c2]
      simp only [List.filter_cons, List.filter_nil, e]
      omega

theorem active_count_update (s t : scheduler_t) (i : Nat) (hi : i < MAX_TASKS) (x : task_t)
    (ht : t.tasks = Function.update s.tasks i x) :
    active_count t + (if (s.tasks i).active = true then 1 else 0)
      = active_count s + (if x.active = true then 1 else 0) := by
  have h := filter_update_length (fun j => (s.tasks j).active) (fun j => (t.tasks j).active) i
    (fun j hj => by
      show (t.tasks j).active = (s.tasks j).active
      rw [ht, Function.update_noteq hj]) MAX_TASKS
  have hx : (t.tasks i).active = x.active := by rw [ht, Function.update_same]
  simp only [hi, true_and, hx] at h
  unfold active_count
  exact h

theorem active_count_le (s : scheduler_t) : active_count s ≤ MAX_TASKS := by
  unfold active_count
  have := List.length_filter_le (fun i => (s.tasks i).active) (List.range MAX_TASKS)
  rw [List.length_range] at this
  exact this

theorem active_count_full (s : scheduler_t) :
    active_count s = MAX_TASKS ↔ ∀ i, i < MAX_TASKS → (s.tasks i).active = true := by
  unfold active_count
  have h := List.filter_length_eq_length (p := fun i => (s.tasks i).active)
    (l := List.range MAX_TASKS)
  rw [List.length_range] at h
  rw [h]
  constructor
  · intro hall i hi; exact hall i (List.mem_range.mpr hi)
  · intro hall i hi; exact hall i (List.mem_range.mp hi)

theorem sched_free_slot_spec (s : scheduler_t)
    (h : ∃ i, i < MAX_TASKS ∧ (s.tasks i).active = false) :
    sched_free_slot s < MAX_TASKS ∧ (s.tasks (sched_free_slot s)).active = false := by
  unfold sched_free_slot
  cases hf : (List.range MAX_TASKS).find? (fun idx => !(s.tasks idx).active) with
  | none =>
    exfalso
    obtain ⟨i, hi, ha⟩ := h
    have := List.find?_eq_none.mp hf i (List.mem_range.mpr hi)
    simp [ha] at this
  | some k =>
    have h1 := List.mem_range.mp (List.mem_of_find?_eq_some hf)
    have h2 := List.find?_some hf
    simp only [Option.getD_some]
    exact ⟨h1, by simpa using h2⟩

theorem dtesn_sched_task_hist (s : scheduler_t) (hinit : s.initialized = true)
    (hcount : s.task_count = active_count s) (fn data priority depth : Nat) :
    ((∀ i, i < MAX_TASKS → (s.tasks i).active = true)
      ∧ dtesn_sched_task s fn data priority depth = (0, s))
    ∨ ((∃ i, i < MAX_TASKS ∧ (s.tasks i).active = false)
      ∧ sched_free_slot s < MAX_TASKS ∧ (s.tasks (sched_free_slot s)).active = false
      ∧ dtesn_sched_task s fn data priority depth
          = (s.next_handle,
              { s with tasks := Function.update s.tasks (sched_free_slot s)
                         { fn := fn, data := data, priority := priority, depth := depth
                           handle := s.next_handle, active := true }
                       next_handle := add64 s.next_handle 1
                       task_count := s.task_count + 1 })) := by
  unfold dtesn_sched_task
  rw [if_neg (by rw [hinit]; exact Bool.noConfusion)]
  by_cases hall : ∀ i, i < MAX_TASKS → (s.tasks i).active = true
  · left
    have := (active_count_full s).mpr hall
    rw [if_pos (by rw [hcount, this])]
    exact ⟨hall, rfl⟩
  · right
    have hex : ∃ i, i < MAX_TASKS ∧ (s.tasks i).active = false := by
      by_contra hno
      apply hall
      intro i hi
      cases ha : (s.tasks i).active with
      | true => rfl
      | false => exact absurd ⟨i, hi, ha⟩ hno
    have hlt : s.task_count < MAX_TASKS := by
      rw [hcount]
      have h1 := active_count_le s
      have h2 : active_count s ≠ MAX_TASKS := fun e => hall ((active_count_full s).mp e)
      omega
    obtain ⟨h1, h2⟩ := sched_free_slot_spec s hex
    have hadd : add64 s.task_count 1 = s.task_count + 1 := by
      unfold add64 WORD
      unfold MAX_TASKS at hlt
      omega
    rw [if_neg (by omega)]
    dsimp only
    rw [if_neg (by omega), hadd]
    exact ⟨hex, h1, h2, rfl⟩

theorem hist_inv_init : hist_inv (dtesn_sched_init scheduler_zero).2 [] := by
  refine ⟨rfl, ?_, 0, le_refl _, rfl, fun h hh => absurd hh (List.not_mem_nil h)⟩
  have h0 : (dtesn_sched_init scheduler_zero).2.task_count = 0 := rfl
  rw [h0]
  symm
  unfold active_count
  rw [List.length_eq_zero, List.filter_eq_nil_iff]
  intro i _
  exact Bool.noConfusion

theorem hist_inv_task (s : scheduler_t) (hs : List Nat) (h : hist_inv s hs)
    (fn data priority depth : Nat) :
    hist_inv (dtesn_sched_task s fn data priority depth).2
      ((dtesn_sched_task s fn data priority depth).1 :: hs) := by
  obtain ⟨h1, h2, n, h5, h6, h7⟩ := h
  rcases dtesn_sched_task_hist s h1 h2 fn data priority depth with ⟨_, e⟩ | ⟨_, hlt, hfree, e⟩
  · rw [e]
    refine ⟨h1, h2, n, ?_, h6, ?_⟩
    · rw [List.length_cons]; omega
    · intro x hx
      rcases List.mem_cons.mp hx with rfl | hx
      · exact Or.inl rfl
      · exact h7 x hx
  · rw [e]
    refine ⟨h1, ?_, n + 1, ?_, ?_, ?_⟩
    · dsimp only
      have := active_count_update s
        { s with tasks := Function.update s.tasks (sched_free_slot s)
                   { fn := fn, data := data, priority := priority, depth := depth
                     handle := s.next_handle, active := true }
                 next_handle := add64 s.next_handle 1
                 task_count := s.task_count + 1 }
        (sched_free_slot s) hlt
        { fn := fn, data := data, priority := priority, depth := depth
          handle := s.next_handle, active := true } rfl
      rw [hfree] at this
      simp only [Bool.false_eq_true, if_false, if_true, add_zero] at this
      rw [this, h2]
    · rw [List.length_cons]; omega
    · dsimp only
      rw [h6]
      unfold add64 WORD
      omega
    · intro x hx
      dsimp only at hx
      rcases List.mem_cons.mp hx with rfl | hx
      · exact Or.inr ⟨n, Nat.lt_succ_self _, h6⟩
      · rcases h7 x hx with h0 | ⟨i, hi, e'⟩
        · exact Or.inl h0
        · exact Or.inr ⟨i, by omega, e'⟩

theorem hist_inv_remove (s : scheduler_t) (hs : List Nat) (h : hist_inv s hs) (i : Nat)
    (hi : i < MAX_TASKS) (ha : (s.tasks i).active = true) : hist_inv (sched_remove s i) hs := by
  obtain ⟨h1, h2, h3⟩ := h
  refine ⟨h1, ?_, h3⟩
  have := active_count_update s (sched_remove s i) i hi { s.tasks i with active := false } rfl
  rw [ha] at this
  simp only [Bool.false_eq_true, if_false, if_true, add_zero] at this
  have hle := active_count_le s
  show sub64 s.task_count 1 = active_count (sched_remove s i)
  rw [h2]
  unfold sub64 WORD
  unfold MAX_TASKS at hle
  omega

theorem sched_hist_inv (s : scheduler_t) (hs : List Nat) (hr : sched_hist s hs) :
    hist_inv s hs := by
  induction hr with
  | init => exact hist_inv_init
  | task s hs fn data priority depth _ ih => exact hist_inv_task s hs ih fn data priority depth
  | remove s hs i _ hi ha ih => exact hist_inv_remove s hs ih i hi ha

theorem dtesn_sched_task_keeps (s : scheduler_t) (hs : List Nat) (hr : sched_hist s hs)
    (fn data priority depth : Nat) (i : Nat) (ha : (s.tasks i).active = true) :
    (dtesn_sched_task s fn data priority depth).2.tasks i = s.tasks i := by
  obtain ⟨h1, h2, _⟩ := sched_hist_inv s hs hr
  rcases dtesn_sched_task_hist s h1 h2 fn data priority depth with ⟨_, e⟩ | ⟨_, _, hfree, e⟩
  · rw [e]
  · rw [e]
    dsimp only
    rw [Function.update_noteq]
    intro hi
    rw [hi, hfree] at ha
    exact Bool.noConfusion ha

theorem sched_hist_run_tasks (l : List (Nat × Nat × Nat × Nat)) :
    ∀ (s : scheduler_t) (hs : List Nat), sched_hist s hs →
      (∃ hs', sched_hist (run_tasks s l) (hs' ++ hs))
      ∧ ∀ i, (s.tasks i).active = true → (run_tasks s l).tasks i = s.tasks i := by
  induction l with
  | nil => intro s hs hr; exact ⟨⟨[], hr⟩, fun _ _ => rfl⟩
  | cons a l ih =>
    intro s hs hr
    have hr1 := sched_hist.task s hs a.1 a.2.1 a.2.2.1 a.2.2.2 hr
    obtain ⟨⟨hs', h1⟩, h2⟩ := ih _ _ hr1
    have hk := dtesn_sched_task_keeps s hs hr a.1 a.2.1 a.2.2.1 a.2.2.2
    refine ⟨⟨hs' ++ [(dtesn_sched_task s a.1 a.2.1 a.2.2.1 a.2.2.2).1], ?_⟩, ?_⟩
    · rw [List.append_assoc]
      exact h1
    · intro i ha
      have e := hk i ha
      show (run_tasks (dtesn_sched_task s a.1 a.2.1 a.2.2.1 a.2.2.2).2 l).tasks i = s.tasks i
      rw [h2 i (by rw [e]; exact ha), e]

theorem sched_hist_tick_slot (call : Nat → Nat → scheduler_t → scheduler_t)
    (hcall : call_submits call) (hs : List Nat) (p : Nat) (st : tick_state) (i : Nat)
    (hi : i < MAX_TASKS) (h : ∃ hs', sched_hist st.sched (hs' ++ hs)) :
    ∃ hs', sched_hist (tick_slot call p st i).sched (hs' ++ hs) := by
  by_cases hc : (st.sched.tasks i).active = false ∨ (st.sched.tasks i).priority ≠ p
  · rw [tick_slot_skip call p st i hc]
    exact h
  · obtain ⟨l, hl⟩ := hcall (st.sched.tasks i).fn (st.sched.tasks i).data st.sched
    rw [tick_slot_run call p st i hc _ hl]
    obtain ⟨hs1, hr1⟩ := h
    obtain ⟨⟨hs2, hr2⟩, hkeep⟩ := sched_hist_run_tasks l _ _ hr1
    have hact : (st.sched.tasks i).active = true := by
      cases ha : (st.sched.tasks i).active with
      | true => rfl
      | false => exact absurd (Or.inl ha) hc
    have hrem := sched_hist.remove _ _ i hr2 hi (by rw [hkeep i hact]; exact hact)
    refine ⟨hs2 ++ hs1, ?_⟩
    rw [List.append_assoc]
    exact hrem

theorem sched_hist_tick (call : Nat → Nat → scheduler_t → scheduler_t)
    (hcall : call_submits call) (s : scheduler_t) (hs : List Nat) (hr : sched_hist s hs) :
    ∃ hs', sched_hist (dtesn_sched_tick call s).sched (hs' ++ hs) := by
  have hinit := (sched_hist_inv s hs hr).1
  rw [sched_tick_unfold call s hinit]
  have hprio : ∀ (p : Nat) (st : tick_state), (∃ hs', sched_hist st.sched (hs' ++ hs)) →
      ∃ hs', sched_hist (tick_priority call st p).sched (hs' ++ hs) := by
    intro p st h
    unfold tick_priority
    have key : ∀ (l : List Nat), (∀ i ∈ l, i < MAX_TASKS) → ∀ st : tick_state,
        (∃ hs', sched_hist st.sched (hs' ++ hs)) →
        ∃ hs', sched_hist (l.foldl (tick_slot call p) st).sched (hs' ++ hs) := by
      intro l
      induction l with
      | nil => intro _ st h; exact h
      | cons i l ih =>
        intro hl st h
        rw [List.foldl_cons]
        exact ih (fun j hj => hl j (List.mem_cons_of_mem _ hj)) _
          (sched_hist_tick_slot call hcall hs p st i (hl i (List.mem_cons_self _ _)) h)
    exact key _ (fun i hi => List.mem_range.mp hi) st h
  exact hprio 3 _ (hprio 2 _ (hprio 1 _ (hprio 0 _ ⟨[], hr⟩)))

/-- C22 (amended): in a scheduler state reached from `dtesn_sched_init()` while no callback has
called `dtesn_sched_tick` (by `dtesn_sched_task` calls with any arguments, made by the client
or by callbacks during a tick, and by ticks), `dtesn_sched_task` returns 0 and leaves
the whole scheduler record unchanged when all 1024 slots hold pending tasks;
otherwise it writes the task (callback, context, priority, depth, the handle
`next_handle`, active) into a slot that was free, leaves the other slots as they
were, increases `task_count` and the number of pending slots by one and returns that
handle; as long as fewer than `2^64 - 1` submissions have been made, the handle is
non-zero and strictly greater than every value returned by an earlier submission;
and a `dtesn_sched_tick()` whose callbacks call `dtesn_sched_task` only leads to a state of
the same kind. -/
theorem sched_task_spec (s : scheduler_t) (hs : List Nat) (hr : sched_hist s hs)
    (fn data priority depth : Nat) :
    ((∀ i, i < MAX_TASKS → (s.tasks i).active = true) →
        dtesn_sched_task s fn data priority depth = (0, s))
    ∧ ((∃ i, i < MAX_TASKS ∧ (s.tasks i).active = false) →
        (dtesn_sched_task s fn data priority depth).1 = s.next_handle
        ∧ (∃ idx, idx < MAX_TASKS ∧ (s.tasks idx).active = false
            ∧ (dtesn_sched_task s fn data priority depth).2.tasks
              = Function.update s.tasks idx
                  { fn := fn, data := data, priority := priority, depth := depth
                    handle := s.next_handle, active := true })
        ∧ (dtesn_sched_task s fn data priority depth).2.task_count = s.task_count + 1
        ∧ active_count (dtesn_sched_task s fn data priority depth).2 = active_count s + 1)
    ∧ (hs.length + 1 < WORD → (∃ i, i < MAX_TASKS ∧ (s.tasks i).active = false) →
        (dtesn_sched_task s fn data priority depth).1 ≠ 0
        ∧ ∀ h ∈ hs, h < (dtesn_sched_task s fn data priority depth).1)
    ∧ (∀ call, call_submits call →
        ∃ hs', sched_hist (dtesn_sched_tick call s).sched (hs' ++ hs)) := by
  have hinv := sched_hist_inv s hs hr
  have hinv2 := hist_inv_task s hs hinv fn data priority depth
  obtain ⟨h1, h2, n, h5, h6, h7⟩ := hinv
  have hcase := dtesn_sched_task_hist s h1 h2 fn data priority depth
  have hsucc : (∃ i, i < MAX_TASKS ∧ (s.tasks i).active = false) →
      sched_free_slot s < MAX_TASKS ∧ (s.tasks (sched_free_slot s)).active = false
      ∧ dtesn_sched_task s fn data priority depth
          = (s.next_handle,
              { s with tasks := Function.update s.tasks (sched_free_slot s)
                         { fn := fn, data := data, priority := priority, depth := depth
                           handle := s.next_handle, active := true }
                       next_handle := add64 s.next_handle 1
                       task_count := s.task_count + 1 }) := by
    rintro ⟨i, hi, ha⟩
    rcases hcase with ⟨hall, _⟩ | ⟨_, h⟩
    · rw [hall i hi] at ha; exact Bool.noConfusion ha
    · exact h
  refine ⟨?_, ?_, ?_, fun call hcall => sched_hist_tick call hcall s hs hr⟩
  · intro hall
    rcases hcase with ⟨_, e⟩ | ⟨⟨i, hi, ha⟩, _⟩
    · exact e
    · rw [hall i hi] at ha; exact Bool.noConfusion ha
  · intro hex
    obtain ⟨hlt, hfree, e⟩ := hsucc hex
    have hc2 := hinv2.2.1
    rw [e] at hc2 ⊢
    dsimp only at hc2 ⊢
    exact ⟨rfl, ⟨_, hlt, hfree, rfl⟩, rfl, by rw [← hc2, h2]⟩
  · intro hlen hex
    obtain ⟨_, _, e⟩ := hsucc hex
    rw [e]
    dsimp only
    rw [h6]
    have hn : (n + 1) % WORD = n + 1 := Nat.mod_eq_of_lt (by omega)
    rw [hn]
    refine ⟨Nat.succ_ne_zero n, ?_⟩
    intro h hh
    rcases h7 h hh with h0 | ⟨i, hi, e'⟩
    · omega
    · rw [e', Nat.mod_eq_of_lt (by omega)]
      omega

set_option maxRecDepth 8000 in
theorem sched_task_spec_witness :
    (dtesn_sched_task sched_example 104 10 PRIORITY_HIGH 1).1 ≠ 0
    ∧ (dtesn_sched_task sched_example 104 10 PRIORITY_HIGH 1).2.task_count
        = sched_example.task_count + 1 :=
  ⟨((sched_task_spec sched_example _
      (sched_hist.task _ _ 103 9 PRIORITY_NORMAL 0
        (sched_hist.task _ _ 102 8 PRIORITY_CRITICAL 0
          (sched_hist.task _ _ 101 7 PRIORITY_LOW 0 sched_hist.init)))
      104 10 PRIORITY_HIGH 1).2.2.1 (by decide) ⟨3, by decide, by decide⟩).1,
   ((sched_task_spec sched_example _
      (sched_hist.task _ _ 103 9 PRIORITY_NORMAL 0
        (sched_hist.task _ _ 102 8 PRIORITY_CRITICAL 0
          (sched_hist.task _ _ 101 7 PRIORITY_LOW 0 sched_hist.init)))
      104 10 PRIORITY_HIGH 1).2.1 ⟨3, by decide, by decide⟩).2.2.1⟩

theorem sched_subs_reach (s : scheduler_t) (hs : List Nat) (l : List submission)
    (hr : sched_subs s hs l) : sched_reach s hs := by
  induction hr with
  | init => exact sched_reach.init
  | task s hs l a _ hp ih => exact sched_reach.task s hs a.fn a.data a.priority a.depth ih hp
  | tick s hs l call _ hcall ih => exact sched_reach.tick s hs call ih hcall

theorem sched_subs_slots (s : scheduler_t) (hs : List Nat) (l : List submission)
    (hr : sched_subs s hs l) :
    s.task_count = l.length
    ∧ ∀ i a, l[i]? = some a →
        (s.tasks i).fn = a.fn ∧ (s.tasks i).data = a.data
        ∧ (s.tasks i).priority = a.priority ∧ (s.tasks i).depth = a.depth := by
  induction hr with
  | init =>
    refine ⟨rfl, ?_⟩
    intro i a h
    simp at h
  | task s hs l a hr' hp ih =>
    have hinv := sched_reach_inv s hs (sched_subs_reach s hs l hr')
    obtain ⟨ih1, ih2⟩ := ih
    rcases dtesn_sched_task_eq s hs hinv a.fn a.data a.priority a.depth with ⟨_, e⟩ | ⟨hlt, e⟩
    · rw [e]
      dsimp only
      rw [if_pos rfl]
      exact ⟨ih1, ih2⟩
    · rw [e]
      dsimp only
      rw [if_neg (by omega)]
      refine ⟨by rw [List.length_append, ih1]; rfl, ?_⟩
      intro i b hb
      by_cases hi : i < l.length
      · rw [List.getElem?_append_left hi] at hb
        rw [Function.update_noteq (by omega)]
        exact ih2 i b hb
      · rw [List.getElem?_append_right (by omega)] at hb
        have hi0 : i - l.length = 0 := by
          by_contra hne
          rw [List.getElem?_eq_none (by simp; omega)] at hb
          cases hb
        rw [hi0] at hb
        simp only [List.getElem?_cons_zero, Option.some.injEq] at hb
        have hidx : i = s.task_count := by omega
        rw [hidx, Function.update_same, ← hb]
        exact ⟨rfl, rfl, rfl, rfl⟩
  | tick s hs l call hr' hcall _ =>
    have hinv := sched_reach_inv s hs (sched_subs_reach s hs l hr')
    refine ⟨sched_tick_task_count call hcall s hs hinv, ?_⟩
    intro i a h
    simp at h

theorem tier_calls_spec (s : scheduler_t) (p : Nat) :
    ∀ (l : List submission) (i : Nat),
      (∀ j a, l[j]? = some a → (s.tasks (i + j)).active = true
        ∧ (s.tasks (i + j)).fn = a.fn ∧ (s.tasks (i + j)).data = a.data
        ∧ (s.tasks (i + j)).priority = a.priority) →
      ((List.range' i l.length).filter (is_pending s p)).map (call_of s) = tier_calls p i l := by
  intro l
  induction l with
  | nil => intro i _; rfl
  | cons a l ih =>
    intro i h
    obtain ⟨h1, h2, h3, h4⟩ := h 0 a (by simp)
    rw [Nat.add_zero] at h1 h2 h3 h4
    have hrest := ih (i + 1) (fun j b hb => by
      have := h (j + 1) b (by simpa using hb)
      rw [show i + (j + 1) = i + 1 + j by omega] at this
      exact this)
    rw [List.length_cons, List.range'_succ, tier_calls]
    by_cases hp : a.priority = p
    · have hpend : is_pending s p i = true := by
        unfold is_pending
        rw [h1, h4]
        simp [hp]
      rw [List.filter_cons_of_pos hpend, List.map_cons, if_pos hp, hrest]
      unfold call_of
      rw [h2, h3]
    · have hpend : ¬ (is_pending s p i = true) := by
        unfold is_pending
        rw [h1, h4]
        simp [hp]
      rw [List.filter_cons_of_neg hpend, if_neg hp, hrest]

theorem pending_slots_tier (s : scheduler_t) (l : List submission) (p : Nat)
    (hlen : l.length ≤ MAX_TASKS)
    (hact : ∀ i, (s.tasks i).active = true ↔ i < l.length)
    (hslot : ∀ i a, l[i]? = some a →
        (s.tasks i).fn = a.fn ∧ (s.tasks i).data = a.data
        ∧ (s.tasks i).priority = a.priority ∧ (s.tasks i).depth = a.depth) :
    (pending_slots s p).map (call_of s) = tier_calls p 0 l := by
  unfold pending_slots
  have hsplit : List.range MAX_TASKS
      = List.range' 0 l.length ++ List.range' (0 + l.length) (MAX_TASKS - l.length) := by
    rw [List.range_eq_range', List.range'_append_1]
    congr 1
    omega
  rw [hsplit, List.filter_append, List.map_append]
  have htail : (List.range' (0 + l.length) (MAX_TASKS - l.length)).filter (is_pending s p)
      = [] := by
    rw [List.filter_eq_nil_iff]
    intro i hi
    have hge : l.length ≤ i := by
      have := (List.mem_range'_1.mp hi).1
      omega
    have : (s.tasks i).active = false := by
      cases ha : (s.tasks i).active with
      | false => rfl
      | true => have := (hact i).mp ha; omega
    unfold is_pending
    rw [this]
    simp
  rw [htail, List.map_nil, List.append_nil]
  apply tier_calls_spec
  intro j a hj
  rw [Nat.zero_add]
  have hjl : j < l.length := by
    by_contra hge
    rw [List.getElem?_eq_none (by omega)] at hj
    cases hj
  obtain ⟨h1, h2, h3, _⟩ := hslot j a hj
  exact ⟨(hact j).mpr hjl, h1, h2, h3⟩

theorem tier_calls_length (l : List submission) (hp : ∀ a ∈ l, a.priority ≤ 3) :
    ∀ i, (tier_calls 0 i l).length + (tier_calls 1 i l).length + (tier_calls 2 i l).length
      + (tier_calls 3 i l).length = l.length := by
  induction l with
  | nil => intro i; rfl
  | cons a l ih =>
    intro i
    have h := ih (fun b hb => hp b (List.mem_cons_of_mem _ hb)) (i + 1)
    have ha := hp a (List.mem_cons_self _ _)
    have h4 : a.priority = 0 ∨ a.priority = 1 ∨ a.priority = 2 ∨ a.priority = 3 := by omega
    rcases h4 with e | e | e | e <;> simp [tier_calls, e] <;> omega

/-- C37: in a scheduler state reached from `dtesn_sched_init()` by submissions with priorities of
`task_priority_t` and by ticks whose callbacks do not call the scheduler, with `l` the
submissions stored since the last tick in the order in which they were made: the
pending tasks occupy the table slots `0 .. k - 1` (`k` the length of `l`, which is
`task_count`) and slot `i` holds the `i`-th of them, the submission number
`n - k + i + 1` of all, whose handle is that number modulo `2^64`, so that (before the
handle counter wraps) the handles increase with the slot; and one `dtesn_sched_tick()`
invokes exactly the callbacks of `l`, tier by tier from critical to low and within
each tier in the order of `l`, that is in the order of submission, and returns
their number. -/
theorem sched_submission_order (s : scheduler_t) (hs : List Nat) (l : List submission)
    (hr : sched_subs s hs l)
    (call : Nat → Nat → scheduler_t → scheduler_t) (hcall : ∀ fn data t, call fn data t = t) :
    s.task_count = l.length
    ∧ (∀ i, (s.tasks i).active = true ↔ i < l.length)
    ∧ (∀ i a, l[i]? = some a →
        (s.tasks i).fn = a.fn ∧ (s.tasks i).data = a.data
        ∧ (s.tasks i).priority = a.priority ∧ (s.tasks i).depth = a.depth)
    ∧ (∃ n, n ≤ hs.length ∧ l.length ≤ n ∧
        ∀ i, i < l.length → (s.tasks i).handle = (n - l.length + i + 1) % WORD)
    ∧ (hs.length + 1 < WORD → ∀ i j, i < j → j < l.length →
        (s.tasks i).handle < (s.tasks j).handle)
    ∧ (dtesn_sched_tick call s).calls
        = tier_calls PRIORITY_CRITICAL 0 l ++ tier_calls PRIORITY_HIGH 0 l
          ++ tier_calls PRIORITY_NORMAL 0 l ++ tier_calls PRIORITY_LOW 0 l
    ∧ (dtesn_sched_tick call s).executed = (l.length : Int) := by
  have hreach := sched_subs_reach s hs l hr
  have hinv := sched_reach_inv s hs hreach
  obtain ⟨hcount, hslot⟩ := sched_subs_slots s hs l hr
  obtain ⟨n, h1, h2, h3, h4⟩ := sched_reach_order s hs hreach
  rw [hcount] at h3 h4
  have hact : ∀ i, (s.tasks i).active = true ↔ i < l.length := by
    intro i
    rw [← hcount]
    exact hinv.2.2.1 i
  have hlen : l.length ≤ MAX_TASKS := by rw [← hcount]; exact hinv.2.1
  have hincr : hs.length + 1 < WORD → ∀ i j, i < j → j < l.length →
      (s.tasks i).handle < (s.tasks j).handle := by
    intro hl i j hij hj
    rw [h4 i (by omega), h4 j hj, Nat.mod_eq_of_lt (by omega), Nat.mod_eq_of_lt (by omega)]
    omega
  obtain ⟨hcalls, hexec, _⟩ := sched_tick_calls call hcall s hinv.1
  have hcalls2 : (dtesn_sched_tick call s).calls
      = tier_calls PRIORITY_CRITICAL 0 l ++ tier_calls PRIORITY_HIGH 0 l
        ++ tier_calls PRIORITY_NORMAL 0 l ++ tier_calls PRIORITY_LOW 0 l := by
    rw [hcalls, List.map_append, List.map_append, List.map_append,
      pending_slots_tier s l _ hlen hact hslot, pending_slots_tier s l _ hlen hact hslot,
      pending_slots_tier s l _ hlen hact hslot, pending_slots_tier s l _ hlen hact hslot]
  refine ⟨hcount, hact, hslot, ⟨n, h1, h3, h4⟩, hincr, hcalls2, ?_⟩
  have hprio : ∀ a ∈ l, a.priority ≤ 3 := by
    intro a ha
    obtain ⟨i, hi, e⟩ := List.getElem_of_mem ha
    have hget : l[i]? = some a := by rw [List.getElem?_eq_getElem hi, e]
    have := (hslot i a hget).2.2.1
    rw [← this]
    exact hinv.2.2.2.1 i (by rw [hcount]; exact hi)
  have hlen4 := tier_calls_length l hprio 0
  have hexec2 : (dtesn_sched_tick call s).executed
      = (((dtesn_sched_tick call s).calls.length : Nat) : Int) := by
    rw [hexec, hcalls, List.length_map]
  rw [hexec2, hcalls2]
  simp only [List.length_append, PRIORITY_CRITICAL, PRIORITY_HIGH, PRIORITY_NORMAL, PRIORITY_LOW]
  exact_mod_cast hlen4

set_option maxRecDepth 8000 in
theorem sched_submission_order_witness :
    (dtesn_sched_tick call_pure sched_example_tiers).calls
      = [{ slot := 1, fn := 202, data := 2 }, { slot := 3, fn := 204, data := 4 },
         { slot := 0, fn := 201, data := 1 }, { slot := 2, fn := 203, data := 3 }]
    ∧ (dtesn_sched_tick call_pure sched_example_tiers).executed = 4 := by
  have hr : sched_subs sched_example_tiers _
      [{ fn := 201, data := 1, priority := PRIORITY_NORMAL, depth := 0 },
       { fn := 202, data := 2, priority := PRIORITY_CRITICAL, depth := 0 },
       { fn := 203, data := 3, priority := PRIORITY_NORMAL, depth := 0 },
       { fn := 204, data := 4, priority := PRIORITY_CRITICAL, depth := 0 }] :=
    sched_subs.task _ _ _ { fn := 204, data := 4, priority := PRIORITY_CRITICAL, depth := 0 }
      (sched_subs.task _ _ _ { fn := 203, data := 3, priority := PRIORITY_NORMAL, depth := 0 }
        (sched_subs.task _ _ _ { fn := 202, data := 2, priority := PRIORITY_CRITICAL, depth := 0 }
          (sched_subs.task _ _ _ { fn := 201, data := 1, priority := PRIORITY_NORMAL, depth := 0 }
            sched_subs.init (by decide))
          (by decide))
        (by decide))
      (by decide)
  have h := sched_submission_order sched_example_tiers _ _ hr call_pure (fun _ _ _ => rfl)
  exact ⟨h.2.2.2.2.2.1.trans (by decide), h.2.2.2.2.2.2⟩

theorem round_half_even_int (k : ℤ) : round_half_even (k : ℚ) = k := by
  unfold round_half_even
  rw [Int.floor_intCast, sub_self, if_pos (by norm_num)]

theorem f32_round_pos_eq (x : ℚ) (e n : ℤ) (he : -126 ≤ e) (h1 : (2 : ℚ) ^ e ≤ x)
    (h2 : x < (2 : ℚ) ^ (e + 1)) (hn : round_half_even (x / 2 ^ (e - 23)) = n) :
    f32_round x = (n : ℚ) * 2 ^ (e - 23) := by
  have hpos : 0 < x := lt_of_lt_of_le (by positivity) h1
  unfold f32_round
  rw [if_neg (not_lt.mpr hpos.le), f32_round_mag_eq x e he h1 h2, hn]

theorem f32_round_half : f32_round (5 / 10) = 1 / 2 := by
  rw [f32_round_pos_eq (5 / 10) (-1) 8388608 (by norm_num) (by norm_num) (by norm_num)
    (by rw [show ((5 : ℚ) / 10) / 2 ^ ((-1 : ℤ) - 23) = ((8388608 : ℤ) : ℚ) by norm_num]
        exact round_half_even_int _)]
  norm_num

theorem f32_round_one : f32_round 1 = 1 := by
  rw [f32_round_pos_eq 1 0 8388608 (by norm_num) (by norm_num) (by norm_num)
    (by rw [show (1 : ℚ) / 2 ^ ((0 : ℤ) - 23) = ((8388608 : ℤ) : ℚ) by norm_num]
        exact round_half_even_int _)]
  norm_num

theorem f32_round_three_halves : f32_round (3 / 2) = 3 / 2 := by
  rw [f32_round_pos_eq (3 / 2) 0 12582912 (by norm_num) (by norm_num) (by norm_num)
    (by rw [show ((3 : ℚ) / 2) / 2 ^ ((0 : ℤ) - 23) = ((12582912 : ℤ) : ℚ) by norm_num]
        exact round_half_even_int _)]
  norm_num

theorem f32_round_five : f32_round 5 = 5 := by
  rw [f32_round_pos_eq 5 2 10485760 (by norm_num) (by norm_num) (by norm_num)
    (by rw [show (5 : ℚ) / 2 ^ ((2 : ℤ) - 23) = ((10485760 : ℤ) : ℚ) by norm_num]
        exact round_half_even_int _)]
  norm_num

theorem f32_round_three_tenths : f32_round (3 / 10) = 5033165 / 16777216 := by
  have hfl : ⌊((3 : ℚ) / 10) / 2 ^ ((-2 : ℤ) - 23)⌋ = 10066329 := by
    rw [Int.floor_eq_iff]
    constructor <;> norm_num
  rw [f32_round_pos_eq (3 / 10) (-2) 10066330 (by norm_num) (by norm_num) (by norm_num)
    (by unfold round_half_even
        rw [hfl, if_neg (by norm_num), if_pos (by norm_num)]
        norm_num)]
  norm_num

theorem pln_eval_tensor_f32_fresh (powf : ℚ → ℚ → ℚ) (s : pln_t ℚ) (query : Nat)
    (context : List Nat) (hi : s.pln_initialized = true) (hq : s.truth_map query = none) :
    (pln_eval_tensor_f32 powf s query context).2 =
      { s with truth_map := Function.update s.truth_map query (some
        { strength := if context.length > 0 then
            f32_round ((context.foldl (pln_context_step_f32 s) (0, 1)).1 / f32_round context.length)
            else f32_round (5 / 10)
          confidence := if context.length > 0 then
            powf (context.foldl (pln_context_step_f32 s) (0, 1)).2
              (f32_round (1 / f32_round context.length))
            else f32_round (1 / 10) }) } := by
  unfold pln_eval_tensor_f32
  rw [if_neg (by rw [hi]; decide)]
  simp only [hq]

theorem pln_example_calls_spec (powf : ℚ → ℚ → ℚ) :
    (pln_example_calls powf).pln_initialized = true
    ∧ (pln_example_calls powf).truth_map 1 = some ⟨1 / 2, f32_round (1 / 10)⟩
    ∧ ((pln_example_calls powf).truth_map 4).map truth_value_t.strength
        = some (5033165 / 16777216) := by
  have h0 : (pln_init (pln_zero ℚ) 1).2 =
      { truth_map := fun _ => none, pln_ctx := 1, pln_initialized := true } := rfl
  unfold pln_example_calls
  rw [h0]
  simp only []
  rw [pln_eval_tensor_f32_fresh powf _ 1 [] rfl rfl]
  rw [pln_eval_tensor_f32_fresh powf _ 2 [] rfl (by simp [Function.update])]
  rw [pln_eval_tensor_f32_fresh powf _ 3 [] rfl (by simp [Function.update])]
  rw [pln_eval_tensor_f32_fresh powf _ 4 [1, 2, 3, 5, 6] rfl (by simp [Function.update])]
  refine ⟨rfl, ?_, ?_⟩
  · simp [Function.update, f32_round_half]
  · simp only [Function.update_same, Option.map_some']
    simp [Function.update, pln_context_step_f32, f32_round_half]
    have e1 : f32_round (2⁻¹ : ℚ) = 2⁻¹ := by
      have h := f32_round_half
      rwa [show (5 : ℚ) / 10 = 2⁻¹ by norm_num, show (1 : ℚ) / 2 = 2⁻¹ by norm_num] at h
    rw [e1, show (2⁻¹ : ℚ) + 2⁻¹ = 1 by norm_num, f32_round_one,
      show (1 : ℚ) + 2⁻¹ = 3 / 2 by norm_num, f32_round_three_halves, f32_round_five,
      show (3 : ℚ) / 2 / 5 = 3 / 10 by norm_num, f32_round_three_tenths]

theorem pln_eval_tensor_fresh (powf : ℚ → ℚ → ℚ) (s : pln_t ℚ) (query : Nat)
    (context : List Nat) (hi : s.pln_initialized = true) (hq : s.truth_map query = none) :
    (pln_eval_tensor powf s query context).2 =
      { s with truth_map := Function.update s.truth_map query (some
        { strength := if context.length > 0 then
            (context.foldl (pln_context_step s) (0, 1)).1 / (context.length : ℚ)
            else 0.5
          confidence := if context.length > 0 then
            powf (context.foldl (pln_context_step s) (0, 1)).2 (1 / (context.length : ℚ))
            else 0.1 }) } := by
  unfold pln_eval_tensor
  rw [if_neg (by rw [hi]; decide)]
  simp only [hq]

theorem pln_example_calls_exact_spec (powf : ℚ → ℚ → ℚ) :
    (pln_example_calls_exact powf).pln_initialized = true
    ∧ ((pln_example_calls_exact powf).truth_map 1).map truth_value_t.strength = some (1 / 2)
    ∧ ((pln_example_calls_exact powf).truth_map 4).map truth_value_t.strength
        = some (3 / 10) := by
  have h0 : (pln_init (pln_zero ℚ) 1).2 =
      { truth_map := fun _ => none, pln_ctx := 1, pln_initialized := true } := rfl
  unfold pln_example_calls_exact
  rw [h0]
  simp only []
  rw [pln_eval_tensor_fresh powf _ 1 [] rfl rfl]
  rw [pln_eval_tensor_fresh powf _ 2 [] rfl (by simp [Function.update])]
  rw [pln_eval_tensor_fresh powf _ 3 [] rfl (by simp [Function.update])]
  rw [pln_eval_tensor_fresh powf _ 4 [1, 2, 3, 5, 6] rfl (by simp [Function.update])]
  refine ⟨rfl, ?_, ?_⟩
  · simp [Function.update]
    norm_num
  · simp only [Function.update_same, Option.map_some']
    simp [Function.update, pln_context_step]
    norm_num

/-- The calls `pln_init`, `pln_eval_tensor(1, {}, 0)`, `pln_eval_tensor(2, {}, 0)`,
`pln_eval_tensor(3, {}, 0)`, `pln_eval_tensor(4, {1, 2, 3, 5, 6}, 5)` cache the strength
`0.5` for atom 1 and, in binary32, `1.5f / 5.0f = 0.3f = 5033165 * 2^-24` for atom 4.
The binary32 difference `0.5f - 0.3f` is `3355443 * 2^-24`, below `0.2f`, and
`pln_unify_graph(1, 4)` returns one of the two atoms, whatever `std::pow` returns.
In exact arithmetic the cached strength of atom 4 is `3/10`, the difference is
`2/10`, and the same call on the exact values returns 0. -/
theorem pln_unify_graph_calls (powf : ℚ → ℚ → ℚ) :
    ((pln_example_calls powf).truth_map 1).map truth_value_t.strength = some (1 / 2)
    ∧ ((pln_example_calls powf).truth_map 4).map truth_value_t.strength
        = some (5033165 / 16777216)
    ∧ ((pln_unify_graph f32_sub f32_0_2 (pln_example_calls powf) 1 4).1 = 1
        ∨ (pln_unify_graph f32_sub f32_0_2 (pln_example_calls powf) 1 4).1 = 4)
    ∧ (pln_unify_graph (fun x y => x - y) (2 / 10) (pln_example_calls_exact powf) 1 4).1 = 0 := by
  obtain ⟨hi, h1, h4⟩ := pln_example_calls_spec powf
  obtain ⟨hie, h1e, h4e⟩ := pln_example_calls_exact_spec powf
  refine ⟨by rw [h1]; rfl, h4, ?_, ?_⟩
  · cases h : (pln_example_calls powf).truth_map 4 with
    | none => rw [h] at h4; exact absurd h4 (by simp)
    | some tv =>
      rw [h] at h4
      have hs : tv.strength = 5033165 / 16777216 := by simpa using h4
      rw [pln_unify_graph_eq _ hi 1 4 _ tv h1 h, hs,
        if_pos (by rw [abs_of_nonneg (by norm_num)]; norm_num)]
      dsimp only
      split_ifs
      · exact Or.inl rfl
      · exact Or.inr rfl
  · cases h : (pln_example_calls_exact powf).truth_map 4 with
    | none => rw [h] at h4e; exact absurd h4e (by simp)
    | some tv =>
      cases g : (pln_example_calls_exact powf).truth_map 1 with
      | none => rw [g] at h1e; exact absurd h1e (by simp)
      | some tu =>
        rw [h] at h4e
        rw [g] at h1e
        have hs : tv.strength = 3 / 10 := by simpa using h4e
        have hu : tu.strength = 1 / 2 := by simpa using h1e
        unfold pln_unify_graph
        rw [if_neg (by rw [hie]; decide), g, h]
        dsimp only
        rw [hs, hu, if_neg (by rw [abs_of_nonneg (by norm_num)]; norm_num)]

theorem f32_round_two : f32_round 2 = 2 := by
  rw [f32_round_pos_eq 2 1 8388608 (by norm_num) (by norm_num) (by norm_num)
    (by rw [show (2 : ℚ) / 2 ^ ((1 : ℤ) - 23) = ((8388608 : ℤ) : ℚ) by norm_num]
        exact round_half_even_int _)]
  norm_num

theorem f32_round_ten : f32_round 10 = 10 := by
  rw [f32_round_pos_eq 10 3 10485760 (by norm_num) (by norm_num) (by norm_num)
    (by rw [show (10 : ℚ) / 2 ^ ((3 : ℤ) - 23) = ((10485760 : ℤ) : ℚ) by norm_num]
        exact round_half_even_int _)]
  norm_num

theorem f32_round_quarter : f32_round (1 / 4) = 1 / 4 := by
  rw [f32_round_pos_eq (1 / 4) (-2) 8388608 (by norm_num) (by norm_num) (by norm_num)
    (by rw [show ((1 : ℚ) / 4) / 2 ^ ((-2 : ℤ) - 23) = ((8388608 : ℤ) : ℚ) by norm_num]
        exact round_half_even_int _)]
  norm_num

theorem f32_round_twentieth : f32_round (1 / 20) = 13421773 / 268435456 := by
  have hfl : ⌊((1 : ℚ) / 20) / 2 ^ ((-5 : ℤ) - 23)⌋ = 13421772 := by
    rw [Int.floor_eq_iff]
    constructor <;> norm_num
  rw [f32_round_pos_eq (1 / 20) (-5) 13421773 (by norm_num) (by norm_num) (by norm_num)
    (by unfold round_half_even
        rw [hfl, if_neg (by norm_num), if_pos (by norm_num)]
        norm_num)]
  norm_num

theorem pln_example_near_calls_spec (powf : ℚ → ℚ → ℚ) :
    (pln_example_near_calls powf).pln_initialized = true
    ∧ ((pln_example_near_calls powf).truth_map 1).map truth_value_t.strength = some (1 / 4)
    ∧ ((pln_example_near_calls powf).truth_map 2).map truth_value_t.strength
        = some (13421773 / 268435456) := by
  have h0 : (pln_init (pln_zero ℚ) 1).2 =
      { truth_map := fun _ => none, pln_ctx := 1, pln_initialized := true } := rfl
  have e1 : f32_round (2⁻¹ : ℚ) = 2⁻¹ := by
    have h := f32_round_half
    rwa [show (5 : ℚ) / 10 = 2⁻¹ by norm_num, show (1 : ℚ) / 2 = 2⁻¹ by norm_num] at h
  unfold pln_example_near_calls
  rw [h0]
  simp only []
  rw [pln_eval_tensor_f32_fresh powf _ 7 [] rfl rfl]
  rw [pln_eval_tensor_f32_fresh powf _ 1 [7, 9] rfl (by simp [Function.update])]
  rw [pln_eval_tensor_f32_fresh powf _ 2 [7, 9, 9, 9, 9, 9, 9, 9, 9, 9] rfl
    (by simp [Function.update])]
  refine ⟨rfl, ?_, ?_⟩
  · simp [Function.update, pln_context_step_f32, f32_round_half]
    rw [e1, f32_round_two, show (2⁻¹ : ℚ) / 2 = 1 / 4 by norm_num, f32_round_quarter]
    norm_num
  · simp only [Function.update_same, Option.map_some']
    simp [Function.update, pln_context_step_f32, f32_round_half]
    rw [e1, f32_round_ten, show (2⁻¹ : ℚ) / 10 = 1 / 20 by norm_num, f32_round_twentieth]

/-- The cached strengths `0.25` and `0.05f` arise from calls of the interface: after
`pln_init`, `pln_eval_tensor(7, {}, 0)`, `pln_eval_tensor(1, {7, 9}, 2)` and
`pln_eval_tensor(2, {7, 9, 9, 9, 9, 9, 9, 9, 9, 9}, 10)` in binary32, atom 1 has the
strength `0.5f / 2.0f = 0.25` and atom 2 the strength `0.5f / 10.0f = 0.05f`; they differ
by less than 0.2, and `pln_unify_graph(1, 2)` returns 0, whatever `std::pow` returns. -/
theorem pln_unify_graph_near_calls (powf : ℚ → ℚ → ℚ) :
    ((pln_example_near_calls powf).truth_map 1).map truth_value_t.strength = some (1 / 4)
    ∧ ((pln_example_near_calls powf).truth_map 2).map truth_value_t.strength
        = some (13421773 / 268435456)
    ∧ |(1 / 4 : ℚ) - 13421773 / 268435456| < 0.2
    ∧ (pln_unify_graph f32_sub f32_0_2 (pln_example_near_calls powf) 1 2).1 = 0 := by
  obtain ⟨hi, h1, h2⟩ := pln_example_near_calls_spec powf
  have hd : |(1 / 4 : ℚ) - 13421773 / 268435456| = 53687091 / 268435456 := by
    rw [abs_of_nonneg (by norm_num)]
    norm_num
  refine ⟨h1, h2, by rw [hd]; norm_num, ?_⟩
  cases h : (pln_example_near_calls powf).truth_map 2 with
  | none => rw [h] at h2; exact absurd h2 (by simp)
  | some tv =>
    cases g : (pln_example_near_calls powf).truth_map 1 with
    | none => rw [g] at h1; exact absurd h1 (by simp)
    | some tu =>
      rw [h] at h2
      rw [g] at h1
      have hs : tv.strength = 13421773 / 268435456 := by simpa using h2
      have hu : tu.strength = 1 / 4 := by simpa using h1
      rw [pln_unify_graph_eq _ hi 1 2 tu tv g h, hu, hs, hd, if_neg (by norm_num)]

end AiChat
